import Mathlib

/-!
# ExpressionEval: lexer, postfix converter and evaluator

A shallow embedding of the Go packages `tokenizer`, `datatype` and `evaluator`
of the expression evaluator, followed by theorems about them.

Conventions of the embedding:

* a Go `string` is its sequence of bytes (`GoString`);
* a Go function returning `(T, error)` returns `Res T`, whose third outcome
  `Res.panic` records a run-time abort (an explicit `panic(...)` or an
  out-of-range index or slice expression);
* `float64` is modelled exactly (`Float64`: sign, significand, binary exponent,
  with round-to-nearest-even);
* the loop of `Tokenize` and the recursion of `evaluatePostfix` are driven by a
  fuel argument that the entry points set from the length of their input.
-/

namespace ExpressionEval

/-! ## Strings -/

/-- One byte of a Go string. -/
abbrev Byte := Fin 256

/-- Go `string`: an immutable sequence of bytes. -/
abbrev GoString := List Byte

/-- UTF-8 encoding of a code point, as Go writes a rune into a string. Values that
are not valid code points (surrogates, beyond U+10FFFF) become U+FFFD. -/
def encodeRune (c : Nat) : GoString :=
  if c < 0x80 then [Fin.ofNat c]
  else if c < 0x800 then [Fin.ofNat (0xC0 + c / 64), Fin.ofNat (0x80 + c % 64)]
  else if 0xD800 ≤ c ∧ c < 0xE000 then [0xEF, 0xBF, 0xBD]
  else if c < 0x10000 then
    [Fin.ofNat (0xE0 + c / 4096), Fin.ofNat (0x80 + c / 64 % 64), Fin.ofNat (0x80 + c % 64)]
  else if c < 0x110000 then
    [Fin.ofNat (0xF0 + c / 262144), Fin.ofNat (0x80 + c / 4096 % 64),
      Fin.ofNat (0x80 + c / 64 % 64), Fin.ofNat (0x80 + c % 64)]
  else [0xEF, 0xBF, 0xBD]

/-- The Go string written by a source literal. -/
def str (s : String) : GoString := s.toList.flatMap (fun c => encodeRune c.toNat)

/-! ## float64 -/

/-- IEEE-754 binary64 value. A finite value is `(-1)^neg * m * 2^e`; the values
built by the operations below are canonical (`m < 2^53`, `-1074 ≤ e ≤ 971`, and
`e = -1074` whenever `m < 2^52`), so equality of terms is equality of bit patterns
(with a single NaN). -/
inductive Float64 where
  | finite (neg : Bool) (m : Nat) (e : Int)
  | inf (neg : Bool)
  | nan
  deriving DecidableEq, Repr

namespace Float64

/-- Number of binary digits of `m`, counted by repeated halving (`fuel` bounds the
number of halvings). -/
def bitLenAux : Nat → Nat → Nat
  | 0, _ => 0
  | fuel + 1, m => if m = 0 then 0 else bitLenAux fuel (m / 2) + 1

/-- Number of binary digits of `m` (0 for 0). -/
def bitLen (m : Nat) : Nat := bitLenAux m m

/-- Round the exact value `(-1)^neg * m * 2^e` to the nearest binary64, ties to even. -/
def round (neg : Bool) (m : Nat) (e : Int) : Float64 :=
  if m = 0 then .finite neg 0 (-1074)
  else
    let bl : Int := (bitLen m : Nat)
    let et : Int := max (e + bl - 53) (-1074)
    if et ≤ e then
      if et > 971 then .inf neg else .finite neg (m * 2 ^ (e - et).toNat) et
    else
      let s := (et - e).toNat
      let q := m / 2 ^ s
      let r := m % 2 ^ s
      let half := 2 ^ (s - 1)
      let q1 := if r > half ∨ (r = half ∧ q % 2 = 1) then q + 1 else q
      let q2 := if q1 = 2 ^ 53 then 2 ^ 52 else q1
      let e2 := if q1 = 2 ^ 53 then et + 1 else et
      if e2 > 971 then .inf neg else .finite neg q2 e2

/-- Round the exact value `(-1)^neg * (num / den) * 2^e`, for `den > 0`. The quotient is
computed with at least 57 significant bits and a sticky bit. -/
def roundRat (neg : Bool) (num den : Nat) (e : Int) : Float64 :=
  let k := bitLen den + 56
  let q := num * 2 ^ k / den
  let sticky := if num * 2 ^ k % den = 0 then 0 else 1
  round neg (2 * q + sticky) (e - k - 1)

/-- Signed significand at exponent `e`, for `e` not above the exponent of the value. -/
def scaled (neg : Bool) (m : Nat) (em e : Int) : Int :=
  (if neg then -1 else 1) * (m : Int) * 2 ^ (em - e).toNat

/-- Conversion `float64(n)` of an integer. -/
def ofInt (n : Int) : Float64 := round (decide (n < 0)) n.natAbs 0

/-- Unary minus. -/
def neg : Float64 → Float64
  | .finite s m e => .finite (!s) m e
  | .inf s => .inf (!s)
  | .nan => .nan

/-- Native `+`. -/
def add : Float64 → Float64 → Float64
  | .nan, _ => .nan
  | _, .nan => .nan
  | .inf a, .inf b => if a = b then .inf a else .nan
  | .inf a, .finite _ _ _ => .inf a
  | .finite _ _ _, .inf b => .inf b
  | .finite n1 m1 e1, .finite n2 m2 e2 =>
    let e := min e1 e2
    let v : Int := scaled n1 m1 e1 e + scaled n2 m2 e2 e
    if v = 0 then .finite (n1 && n2) 0 (-1074)
    else round (decide (v < 0)) v.natAbs e

/-- Native `-`. -/
def sub (x y : Float64) : Float64 := add x (neg y)

/-- Native `*`. -/
def mul : Float64 → Float64 → Float64
  | .nan, _ => .nan
  | _, .nan => .nan
  | .inf a, .inf b => .inf (xor a b)
  | .inf a, .finite b m _ => if m = 0 then .nan else .inf (xor a b)
  | .finite a m _, .inf b => if m = 0 then .nan else .inf (xor a b)
  | .finite n1 m1 e1, .finite n2 m2 e2 => round (xor n1 n2) (m1 * m2) (e1 + e2)

/-- Native `/`. -/
def div : Float64 → Float64 → Float64
  | .nan, _ => .nan
  | _, .nan => .nan
  | .inf _, .inf _ => .nan
  | .inf a, .finite b _ _ => .inf (xor a b)
  | .finite a _ _, .inf b => .finite (xor a b) 0 (-1074)
  | .finite n1 m1 e1, .finite n2 m2 e2 =>
    if m2 = 0 then (if m1 = 0 then .nan else .inf (xor n1 n2))
    else roundRat (xor n1 n2) m1 m2 (e1 - e2)

/-- Native `<`. -/
def lt : Float64 → Float64 → Bool
  | .nan, _ => false
  | _, .nan => false
  | .inf a, .inf b => a && !b
  | .inf a, .finite _ _ _ => a
  | .finite _ _ _, .inf b => !b
  | .finite n1 m1 e1, .finite n2 m2 e2 =>
    decide (scaled n1 m1 e1 (min e1 e2) < scaled n2 m2 e2 (min e1 e2))

/-- Native `==` (so `+0 == -0`, and NaN differs from everything). -/
def eq : Float64 → Float64 → Bool
  | .nan, _ => false
  | _, .nan => false
  | .inf a, .inf b => a == b
  | .inf _, .finite _ _ _ => false
  | .finite _ _ _, .inf _ => false
  | .finite n1 m1 e1, .finite n2 m2 e2 =>
    decide (scaled n1 m1 e1 (min e1 e2) = scaled n2 m2 e2 (min e1 e2))

/-- Native `<=`. -/
def le (x y : Float64) : Bool := lt x y || eq x y

/-- Native `!=`. -/
def ne (x y : Float64) : Bool := !eq x y

/-- Native `>`. -/
def gt (x y : Float64) : Bool := lt y x

/-- Native `>=`. -/
def ge (x y : Float64) : Bool := le y x

/-- The rational number denoted by a finite value (0 for infinities and NaN). -/
def toRat : Float64 → ℚ
  | .finite s m e => (if s then -1 else 1) * (m : ℚ) * (2 : ℚ) ^ e
  | _ => 0

/-- Conversion `int(x)` to a 64-bit integer: truncation toward zero. Where the truncated
value is not a 64-bit integer (also for infinities and NaN) the Go specification leaves
the result to the implementation; amd64 gives the minimum integer, which is used here. -/
def toInt : Float64 → Int
  | .finite s m e =>
    let mag : Nat := if 0 ≤ e then m * 2 ^ e.toNat else m / 2 ^ (-e).toNat
    let v : Int := if s then -(mag : Int) else mag
    if -(2 : Int) ^ 63 ≤ v ∧ v < (2 : Int) ^ 63 then v else -(2 : Int) ^ 63
  | _ => -(2 : Int) ^ 63

end Float64

/-! ## Decimal integers (`strconv.Itoa`, `strconv.Atoi`) -/

/-- The ASCII digit for `d % 10`. -/
def digitByte (d : Nat) : Byte := ⟨48 + d % 10, by omega⟩

/-- Membership in `[0-9]`. -/
def isDigit (b : Byte) : Bool := decide (48 ≤ b.val) && decide (b.val ≤ 57)

/-- Decimal digits of `n`, most significant first, in front of `acc`. -/
def natDigitsAux : Nat → Nat → GoString → GoString
  | 0, _, acc => acc
  | fuel + 1, n, acc =>
    if n / 10 = 0 then digitByte n :: acc
    else natDigitsAux fuel (n / 10) (digitByte n :: acc)

/-- Decimal representation of a natural number (`"0"` for 0, no leading zeros). -/
def natToDecimal (n : Nat) : GoString := natDigitsAux (n + 1) n []

/-- Go `strconv.Itoa`. -/
def Itoa (n : Int) : GoString :=
  if n < 0 then (45 : Byte) :: natToDecimal n.natAbs else natToDecimal n.natAbs

/-- The two failures of `strconv.Atoi`. -/
inductive NumError where
  /-- The error `strconv.ErrSyntax`. -/
  | invalidSyntax
  /-- The error `strconv.ErrRange`. -/
  | outOfRange
  deriving DecidableEq, Repr

/-- Digit loop of `strconv.ParseUint(s, 10, 64)`: the first offending byte decides between
a syntax error and a range error. -/
def parseUintLoop : GoString → Nat → Except NumError Nat
  | [], n => .ok n
  | c :: cs, n =>
    if !isDigit c then .error .invalidSyntax
    else if n ≥ (2 ^ 64 - 1) / 10 + 1 then .error .outOfRange
    else if n * 10 + (c.val - 48) > 2 ^ 64 - 1 then .error .outOfRange
    else parseUintLoop cs (n * 10 + (c.val - 48))

/-- Go `strconv.Atoi` for a 64-bit `int`: an optional sign, then one or more decimal
digits, the value within `[-2^63, 2^63)`. -/
def Atoi (s : GoString) : Except NumError Int :=
  match s with
  | [] => .error .invalidSyntax
  | c :: cs =>
    let neg := decide (c = 45)
    let ds := if c = 45 ∨ c = 43 then cs else s
    if ds = [] then .error .invalidSyntax
    else
      match parseUintLoop ds 0 with
      | .error e => .error e
      | .ok un =>
        if !neg && decide (un ≥ 2 ^ 63) then .error .outOfRange
        else if neg && decide (un > 2 ^ 63) then .error .outOfRange
        else .ok (if neg then -(un : Int) else un)

/-- Wrap an integer into the range of a signed 64-bit integer. -/
def wrap64 (n : Int) : Int := (n + 2 ^ 63) % 2 ^ 64 - 2 ^ 63

/-! ## Fixed-point printing and literal parsing of float64 -/

namespace Float64

/-- Nearest integer to `num / den`, ties to even (`den > 0`). -/
def divRoundHalfEven (num den : Nat) : Nat :=
  let q := num / den
  let r := num % den
  if 2 * r > den ∨ (2 * r = den ∧ q % 2 = 1) then q + 1 else q

/-- Six decimals of a count of millionths, zero padded. -/
def pad6 (n : Nat) : GoString :=
  [digitByte (n / 100000), digitByte (n / 10000), digitByte (n / 1000),
   digitByte (n / 100), digitByte (n / 10), digitByte n]

/-- Go `fmt.Sprintf("%f", x)`: the exact value rounded to six decimals, ties to even. -/
def formatF : Float64 → GoString
  | .nan => str "NaN"
  | .inf false => str "+Inf"
  | .inf true => str "-Inf"
  | .finite s m e =>
    let n : Nat :=
      if 0 ≤ e then m * 2 ^ e.toNat * 10 ^ 6 else divRoundHalfEven (m * 10 ^ 6) (2 ^ (-e).toNat)
    (if s then str "-" else []) ++ natToDecimal (n / 10 ^ 6) ++ str "." ++ pad6 (n % 10 ^ 6)

/-- Value of a run of decimal digits read left to right. -/
def digitsValue : GoString → Nat → Nat
  | [], n => n
  | c :: cs, n => digitsValue cs (n * 10 + (c.val - 48))

/-- Split a text of the form `[+-]?[0-9]+\.[0-9]+` into sign, integer digits and fraction
digits; `none` for any other text. -/
def splitDecimal (s : GoString) : Option (Bool × GoString × GoString) :=
  let neg := s.head? = some 45
  let body := if s.head? = some 45 ∨ s.head? = some 43 then s.tail else s
  let ip := body.takeWhile isDigit
  match body.dropWhile isDigit with
  | c :: fp => if c = 46 ∧ ip ≠ [] ∧ fp ≠ [] ∧ fp.all isDigit then some (neg, ip, fp) else none
  | [] => none

end Float64

/-! ## Values (package `datatype`) -/

/-- Go `time.Time`, reduced to its instant in nanoseconds since the Unix epoch (the
location and the monotonic clock reading are left out). -/
structure Time where
  unixNano : Int
  deriving DecidableEq, Repr

/-- The dynamically typed values: every Go type that implements `datatype.DataType`.
`Int` is a 64-bit `int`, `Char` a rune. A `List` is a Go slice, which is either nil
(`isNil`, of length 0) or not; `reflect.DeepEqual` tells the two apart. -/
inductive Value where
  | bool (b : Bool)
  | int (n : Int)
  | double (d : Float64)
  | char (c : Int)
  | string (s : GoString)
  | dateTime (t : Time)
  | intRange (From To : Int)
  | list (isNil : Bool) (l : List Value)
  | commaList (l : List Value)
  | conditionalValues (Cond : Bool) (True False : Value)
  deriving Repr

/-! ## Tokens (package `tokenizer`) -/

/-- The concrete token struct types of `concrete.go`. -/
inductive TokenType where
  | typeCast | logicalOperator | arithmeticOperator | relationalOperator
  | openBracket | closeBracket | bool | intrinsicMethod | symbol | whitespace
  | comma | colon | question | double | integer | string | char
  deriving DecidableEq, Repr

/-- A token: its concrete type and the text that was matched for it. -/
structure Token where
  tokenType : TokenType
  text : GoString
  deriving DecidableEq, Repr

/-- The string constant that `tokenPats` stores in the `tokenType` field of a token. -/
def TokenType.name : TokenType → GoString
  | .intrinsicMethod => str "intrinsic_method"
  | .symbol => str "symbol"
  | .whitespace => str "whitespace"
  | .comma => str "comma"
  | .colon => str "colon"
  | .question => str "?"
  | .double => str "double"
  | .integer => str "integer"
  | .string => str "string"
  | .char => str "char"
  | .bool => str "bool"
  | .logicalOperator => str "logical_op"
  | .arithmeticOperator => str "arithmetic_op"
  | .relationalOperator => str "relational_op"
  | .typeCast => str "type_cast"
  | .openBracket => str "open_bracket"
  | .closeBracket => str "close_bracket"

/-! ## Errors -/

/-- An argument of `fmt.Errorf`, kept unformatted. -/
inductive FmtArg where
  /-- A string (verb `%s`, `%q` or `%v`). -/
  | str (s : GoString)
  /-- An integer (verb `%d`). -/
  | int (n : Int)
  /-- A value of package `datatype` (verb `%v`). -/
  | value (v : Value)
  /-- A token, or the nil interface (verb `%v`). -/
  | token (t : Option Token)
  /-- The message of another error. -/
  | err (format : GoString) (args : List FmtArg)
  deriving Repr

/-- A Go `error` built by `fmt.Errorf(format, args...)` or `errors.New(format)`: the
format string and its arguments (the message is their formatting). -/
structure GoError where
  format : GoString
  args : List FmtArg
  deriving Repr

/-- Use of an error as an argument of another one. -/
def GoError.toArg (e : GoError) : FmtArg := .err e.format e.args

/-- Result of a Go call that returns `(value, error)`, or aborts. -/
inductive Res (α : Type) where
  /-- Normal return with a nil error. -/
  | ok (a : α)
  /-- Return with a non-nil error. -/
  | error (e : GoError)
  /-- Run-time abort: an explicit panic call (with its message) or a failed bounds check. -/
  | panic (msg : GoString)
  /-- The fuel of the model ran out (never the case at the entry points). -/
  | outOfFuel
  deriving Repr

/-- Sequencing of results: the first outcome that is not `ok` is the outcome. -/
def Res.bind {α β : Type} (r : Res α) (f : α → Res β) : Res β :=
  match r with
  | .ok a => f a
  | .error m => .error m
  | .panic m => .panic m
  | .outOfFuel => .outOfFuel

/-- The result is a normal return. -/
def Res.isOk {α : Type} : Res α → Bool
  | .ok _ => true
  | _ => false

/-- The result is a returned error. -/
def Res.isError {α : Type} : Res α → Bool
  | .error _ => true
  | _ => false

/-- The result is a run-time abort. -/
def Res.isPanic {α : Type} : Res α → Bool
  | .panic _ => true
  | _ => false

/-- Shorthand for `fmt.Errorf`. -/
def errorf {α : Type} (format : String) (args : List FmtArg) : Res α :=
  .error ⟨str format, args⟩

/-- The message of the run-time panic of an index or slice expression out of range. -/
def boundsPanic {α : Type} : Res α := .panic (str "runtime error: index out of range")

/-! ## Library functions that are taken as given -/

/-- Functions of the Go standard library whose results are not computed here. -/
structure GoLib where
  /-- The scan `fmt.Sscanf(s, "%f", &n)`: the float read, or the error. -/
  sscanFloat : GoString → Except GoError Float64
  /-- The call `strconv.ParseFloat(s, 64)` on a text that is not of the form
  `[+-]?[0-9]+\.[0-9]+`; `none` when it returns an error. -/
  parseFloatOther : GoString → Option Float64
  /-- Formatting of a float64 with the verb `%v`. -/
  formatFloatV : Float64 → GoString
  /-- The call `t.Format("01/02/2006")`. -/
  formatDate : Time → GoString
  /-- The call `time.Parse("01/02/2006", s)`. -/
  parseDate : GoString → Except GoError Time
  /-- Formatting of a `DateTime` (a struct) with the verb `%v`. -/
  formatTimeV : Time → GoString
  /-- The call `strings.ToLower(s)`. -/
  toLower : GoString → GoString
  /-- The call `sort.Float64s(x)`: the slice after sorting. For elements that compare
  equal and differ (`+0` and `-0`) the order depends on the algorithm of the library. -/
  sortFloat64s : List Float64 → List Float64

/-! ## Package `datatype`: type names and conversions -/

/-- Join strings with a separator (`strings.Join`). -/
def joinWith (sep : GoString) : List GoString → GoString
  | [] => []
  | [x] => x
  | x :: y :: rest => x ++ sep ++ joinWith sep (y :: rest)

/-- ASCII lower-casing of one byte. -/
def asciiLower (b : Byte) : Byte :=
  if 65 ≤ b.val ∧ b.val ≤ 90 then Fin.ofNat (b.val + 32) else b

/-- The test `strings.ToLower(s) == w` for a lower-case ASCII word `w`, on bytes. A rune
lower-cases to an ASCII letter only if it is that letter in either case, or U+0130 (to
`i`), or U+212A (to `k`). -/
def lowerMatches : GoString → GoString → Bool
  | [], [] => true
  | [], _ :: _ => false
  | _ :: _, [] => false
  | b :: s, c :: w =>
    if asciiLower b = c then lowerMatches s w
    else if c = 105 then
      match b :: s with
      | 0xC4 :: 0xB0 :: s1 => lowerMatches s1 w
      | _ => false
    else if c = 107 then
      match b :: s with
      | 0xE2 :: 0x84 :: 0xAA :: s1 => lowerMatches s1 w
      | _ => false
    else false

/-- The test `strings.ToLower(s) == w`, the word written as in the source. -/
def lowerEq (s : GoString) (w : String) : Bool := lowerMatches s (str w)

/-- The method `DataType()`: name of the dynamic type of a value. -/
def Value.DataType : Value → GoString
  | .bool _ => str "Bool"
  | .string _ => str "String"
  | .double _ => str "Double"
  | .int _ => str "Int32"
  | .char _ => str "Char"
  | .dateTime _ => str "DateTime"
  | .intRange _ _ => str "IntRange"
  | .conditionalValues _ _ _ => str "ConditionalValues"
  | .list _ [] => str "Unknown[]"
  | .list _ (x :: _) => x.DataType ++ str "[]"
  | .commaList _ => str "comma_list"

/-- Whether a `List` value is the nil slice. -/
def isNilSlice (isNil : Bool) (l : List Value) : Bool := isNil && l.isEmpty

mutual
/-- Formatting with the verb `%v` (by reflection: no value type has a `String` method). -/
def sprintV (lib : GoLib) : Value → GoString
  | .bool b => if b then str "true" else str "false"
  | .int n => Itoa n
  | .double d => lib.formatFloatV d
  | .char c => Itoa c
  | .string s => s
  | .dateTime t => lib.formatTimeV t
  | .intRange f t => str "\x7b" ++ Itoa f ++ str " " ++ Itoa t ++ str "\x7d"
  | .list _ l => str "[" ++ joinWith (str " ") (sprintVList lib l) ++ str "]"
  | .commaList l => str "[" ++ joinWith (str " ") (sprintVList lib l) ++ str "]"
  | .conditionalValues c t f =>
    str "\x7b" ++ (if c then str "true" else str "false") ++ str " " ++ sprintV lib t ++ str " "
      ++ sprintV lib f ++ str "\x7d"
/-- The `%v` formatting of each element. -/
def sprintVList (lib : GoLib) : List Value → List GoString
  | [] => []
  | x :: xs => sprintV lib x :: sprintVList lib xs
end

/-- The rune as a string, `string(c)`: its UTF-8 encoding (U+FFFD if it is no code point). -/
def runeToString (c : Int) : GoString := if c < 0 then encodeRune 0xFFFD else encodeRune c.toNat

mutual
/-- Helper `ToPrint`: the method `ToPrint()` of the `Printable` types `DateTime`, `Char` and
`List`, and `%v` for the others. -/
def ToPrint (lib : GoLib) : Value → GoString
  | .dateTime t => lib.formatDate t
  | .char c => runeToString c
  | .list _ l => str "[" ++ joinWith (str ", ") (ToPrintList lib l) ++ str "]"
  | .bool b => sprintV lib (.bool b)
  | .int n => sprintV lib (.int n)
  | .double d => sprintV lib (.double d)
  | .string x => sprintV lib (.string x)
  | .intRange f t => sprintV lib (.intRange f t)
  | .commaList l => sprintV lib (.commaList l)
  | .conditionalValues c t f => sprintV lib (.conditionalValues c t f)
/-- The text of `ToPrint` for each element. -/
def ToPrintList (lib : GoLib) : List Value → List GoString
  | [] => []
  | x :: xs => ToPrint lib x :: ToPrintList lib xs
end

/-- Conversion `ToBool`: defined for `Bool`, `Int`, `Double` and `String`. -/
def ToBool : Value → Res Bool
  | .bool b => .ok b
  | .int n => .ok (decide (n ≠ 0))
  | .double d => .ok (Float64.ne d (Float64.ofInt 0))
  | .string s =>
    if lowerEq s "true" then .ok true
    else if lowerEq s "false" then .ok false
    else errorf "Cannot convert '%s' to Bool" [.str s]
  | d => errorf "Cannot convert '%v' to Bool" [.value d]

/-- Conversion `ToDateTime`: defined for `DateTime` and `String`. -/
def ToDateTime (lib : GoLib) : Value → Res Time
  | .dateTime t => .ok t
  | .string s =>
    match lib.parseDate s with
    | .ok t => .ok t
    | .error e => .error e
  | d => errorf "Cannot convert '%v' to DateTime" [.value d]

/-- Conversion `ToInt`: defined for `Int`, `Bool`, `Double`, `Char` and `String`. -/
def ToInt : Value → Res Int
  | .int n => .ok n
  | .bool b => .ok (if b then 1 else 0)
  | .double d => .ok d.toInt
  | .char c => .ok c
  | .string s =>
    match Atoi s with
    | .ok n => .ok n
    | .error .invalidSyntax =>
      errorf "Cannot convert '%s' to Int: %v"
        [.str s, .err (str "strconv.Atoi: parsing %q: invalid syntax") [.str s]]
    | .error .outOfRange =>
      errorf "Cannot convert '%s' to Int: %v"
        [.str s, .err (str "strconv.Atoi: parsing %q: value out of range") [.str s]]
  | d => errorf "Cannot convert '%v' to Int" [.value d]

/-- Conversion `ToDouble`: defined for `Double`, `Bool`, `Int` and `String`. -/
def ToDouble (lib : GoLib) : Value → Res Float64
  | .double d => .ok d
  | .bool b => .ok (Float64.ofInt (if b then 1 else 0))
  | .int n => .ok (Float64.ofInt n)
  | .string s =>
    match lib.sscanFloat s with
    | .ok d => .ok d
    | .error e => errorf "Cannot convert '%s' to Double: %v" [.str s, e.toArg]
  | d => errorf "Cannot convert '%v' to Double" [.value d]

/-- Conversion `ToString`: defined for every type but `CommaList`. -/
def ToString (lib : GoLib) : Value → Res GoString
  | .bool b => .ok (if b then str "True" else str "False")
  | .dateTime t => .ok (lib.formatDate t)
  | .int n => .ok (Itoa n)
  | .double d => .ok d.formatF
  | .char c => .ok (runeToString c)
  | .string s => .ok s
  | .intRange f t => .ok (Itoa f ++ str "-" ++ Itoa t)
  | .conditionalValues _ t f =>
    match ToString lib t with
    | .ok ts =>
      match ToString lib f with
      | .ok fs => .ok (ts ++ str " || " ++ fs)
      | r => r
    | r => r
  | .list _ l => .ok (joinWith (str ", ") (ToPrintList lib l))
  | .commaList l => errorf "Cannot convert '%v' to String" [.value (.commaList l)]

/-- Conversion `ToChar`: defined for `Char` and `String`. A `String` gives its first byte,
`Char(s[0])`, and the index expression aborts on the empty string. -/
def ToChar : Value → Res Int
  | .char c => .ok c
  | .string s =>
    match s with
    | [] => boundsPanic
    | b :: _ => .ok b.val
  | d => errorf "Cannot convert '%v' to Char" [.value d]

/-- Method `convertDataType`: convert every element, stopping at the first error. The
result is a fresh non-nil slice. -/
def convertDataType (convert : Value → Res Value) : List Value → Res (List Value)
  | [] => .ok []
  | item :: rest =>
    match convert item with
    | .ok v =>
      match convertDataType convert rest with
      | .ok vs => .ok (v :: vs)
      | r => r
    | .error e => .error e
    | .panic m => .panic m
    | .outOfFuel => .outOfFuel

/-- Method `AllToBool`. -/
def AllToBool (l : List Value) : Res Value :=
  (convertDataType (fun v => (ToBool v).bind (fun b => .ok (.bool b))) l).bind
    (fun nl => .ok (.list false nl))

/-- Method `AllToInt`. -/
def AllToInt (l : List Value) : Res Value :=
  (convertDataType (fun v => (ToInt v).bind (fun n => .ok (.int n))) l).bind
    (fun nl => .ok (.list false nl))

/-- Method `AllToDouble`. -/
def AllToDouble (lib : GoLib) (l : List Value) : Res Value :=
  (convertDataType (fun v => (ToDouble lib v).bind (fun d => .ok (.double d))) l).bind
    (fun nl => .ok (.list false nl))

/-- Method `AllToString`. -/
def AllToString (lib : GoLib) (l : List Value) : Res Value :=
  (convertDataType (fun v => (ToString lib v).bind (fun x => .ok (.string x))) l).bind
    (fun nl => .ok (.list false nl))

/-- Method `AllToChar`. -/
def AllToChar (l : List Value) : Res Value :=
  (convertDataType (fun v => (ToChar v).bind (fun c => .ok (.char c))) l).bind
    (fun nl => .ok (.list false nl))

mutual
/-- Method `CommaList.Flatten`, on the elements of the comma list. -/
def Flatten : List Value → List Value
  | [] => []
  | item :: rest => flattenItem item ++ Flatten rest
/-- One step of `Flatten`: a nested comma list is flattened, any other item is kept. -/
def flattenItem : Value → List Value
  | .commaList l => Flatten l
  | .bool b => [.bool b]
  | .int n => [.int n]
  | .double d => [.double d]
  | .char c => [.char c]
  | .string s => [.string s]
  | .dateTime t => [.dateTime t]
  | .intRange f t => [.intRange f t]
  | .list n l => [.list n l]
  | .conditionalValues c t f => [.conditionalValues c t f]
end

/-! ## Package `datatype`: type tests and upgrades (`util.go`) -/

/-- Function `IsDateTime`. -/
def IsDateTime (vs : List Value) : Bool := vs.all (fun v => v.DataType == str "DateTime")

/-- Function `IsInt`. -/
def IsInt (vs : List Value) : Bool := vs.all (fun v => v.DataType == str "Int32")

/-- Function `IsNumber`. -/
def IsNumber (vs : List Value) : Bool :=
  vs.all (fun v => !(v.DataType != str "Int32" && v.DataType != str "Double"))

/-- Function `IsString`. -/
def IsString (vs : List Value) : Bool := vs.all (fun v => v.DataType == str "String")

/-- Function `IsBool`. -/
def IsBool (vs : List Value) : Bool := vs.all (fun v => v.DataType == str "Bool")

/-- The type assertion `v.(List)`. -/
def Value.isList : Value → Bool
  | .list _ _ => true
  | _ => false

/-- Function `IsListAny`. -/
def IsListAny (vs : List Value) : Bool := vs.any Value.isList

/-- Function `IsListAll`. -/
def IsListAll (vs : List Value) : Bool := vs.all Value.isList

/-- Function `UpgradeBinaryOperandsToStrings`; the caller drops the error, so a failure
is the pair of zero values. -/
def UpgradeBinaryOperandsToStrings (lib : GoLib) (op1 op2 : Value) : GoString × GoString :=
  if !IsString [op1, op2] then ([], [])
  else
    match ToString lib op1, ToString lib op2 with
    | .ok s1, .ok s2 => (s1, s2)
    | .ok s1, _ => (s1, [])
    | _, _ => ([], [])

/-- Function `UpgradeBinaryOperandsToDoubles`; the caller drops the error, so a failure
is the pair of zero values. -/
def UpgradeBinaryOperandsToDoubles (lib : GoLib) (op1 op2 : Value) : Float64 × Float64 :=
  if !IsNumber [op1, op2] then (Float64.ofInt 0, Float64.ofInt 0)
  else
    match ToDouble lib op1, ToDouble lib op2 with
    | .ok d1, .ok d2 => (d1, d2)
    | .ok d1, _ => (d1, Float64.ofInt 0)
    | _, _ => (Float64.ofInt 0, Float64.ofInt 0)

/-- A Go slice of values: whether it is nil, and its elements. -/
abbrev Slice := Bool × List Value

/-- One operand of `UpgradeBinaryOperandsToLists`: a `List` is kept, any other value is
wrapped as a one-element list. -/
def toListOperand : Value → Slice
  | .list n l => (n, l)
  | v => (false, [v])

/-- Function `UpgradeBinaryOperandsToLists`; the caller drops the error, so a failure is
the pair of nil lists. -/
def UpgradeBinaryOperandsToLists (op1 op2 : Value) : Slice × Slice :=
  if !IsListAny [op1, op2] then ((true, []), (true, []))
  else (toListOperand op1, toListOperand op2)

/-! ## Regular expressions of the token patterns

The patterns of `tokenPats` are written as terms of `Regex` and matched with the
leftmost-first (backtracking priority) semantics of Go's `regexp`: of all matches at
the start of the input, the one found first when alternatives are tried left to right and
repetition is greedy. -/

/-- Regular expressions, as far as `tokenPats` uses them. -/
inductive Regex where
  /-- The empty expression. -/
  | empty
  /-- One ASCII character (one byte) in the class `p`. -/
  | cls (p : Byte → Bool)
  /-- The class `[^b]` for an ASCII character `b`: any one rune other than `b`. -/
  | notByte (b : Byte)
  /-- A literal sequence of bytes. -/
  | lit (w : GoString)
  /-- Concatenation. -/
  | seq (a b : Regex)
  /-- Alternation `a|b`, preferring `a`. -/
  | alt (a b : Regex)
  /-- Greedy repetition `a*`. -/
  | star (a : Regex)

/-- Width in bytes of the rune at the start of a non-empty string, as computed by
`utf8.DecodeRuneInString`: an ill-formed or truncated sequence counts as one byte. -/
def runeLen (s : GoString) : Nat :=
  let cont (b : Byte) : Bool := decide (0x80 ≤ b.val) && decide (b.val ≤ 0xBF)
  match s with
  | [] => 0
  | b0 :: rest =>
    if b0.val < 0x80 then 1
    else if b0.val < 0xC2 then 1
    else if b0.val < 0xE0 then
      match rest with
      | b1 :: _ => if cont b1 then 2 else 1
      | _ => 1
    else if b0.val < 0xF0 then
      match rest with
      | b1 :: b2 :: _ =>
        let lo : Nat := if b0.val = 0xE0 then 0xA0 else 0x80
        let hi : Nat := if b0.val = 0xED then 0x9F else 0xBF
        if decide (lo ≤ b1.val) && decide (b1.val ≤ hi) && cont b2 then 3 else 1
      | _ => 1
    else if b0.val < 0xF5 then
      match rest with
      | b1 :: b2 :: b3 :: _ =>
        let lo : Nat := if b0.val = 0xF0 then 0x90 else 0x80
        let hi : Nat := if b0.val = 0xF4 then 0x8F else 0xBF
        if decide (lo ≤ b1.val) && decide (b1.val ≤ hi) && cont b2 && cont b3 then 4 else 1
      | _ => 1
    else 1

/-- Remove the literal `w` from the front of `s`, if `s` starts with it. -/
def dropLit : GoString → GoString → Option GoString
  | [], s => some s
  | _ :: _, [] => none
  | c :: w, d :: s => if c = d then dropLit w s else none

/-- Greedy repetition of `step`: try one more iteration first, then the continuation.
At most `fuel` iterations are tried (every iteration of a pattern of `tokenPats` consumes
at least one byte, and `fuel` is the length of the input). -/
def starLoop (step : GoString → (GoString → Option GoString) → Option GoString) :
    Nat → GoString → (GoString → Option GoString) → Option GoString
  | 0, s, k => k s
  | fuel + 1, s, k =>
    match step s (fun s1 => starLoop step fuel s1 k) with
    | some r => some r
    | none => k s

/-- Backtracking matcher in continuation-passing style: `r.run s k` matches `r` at the
start of `s` and hands the rest of the input to `k`; the first success in priority order
is the result. -/
def Regex.run : Regex → GoString → (GoString → Option GoString) → Option GoString
  | .empty, s, k => k s
  | .cls _, [], _ => none
  | .cls p, c :: s, k => if p c then k s else none
  | .notByte _, [], _ => none
  | .notByte b, c :: s, k => if c = b then none else k ((c :: s).drop (runeLen (c :: s)))
  | .lit w, s, k =>
    match dropLit w s with
    | some s1 => k s1
    | none => none
  | .seq a b, s, k => a.run s (fun s1 => b.run s1 k)
  | .alt a b, s, k =>
    match a.run s k with
    | some r => some r
    | none => b.run s k
  | .star a, s, k => starLoop a.run s.length s k

/-- A necessary condition for `r` to match at the start of a string whose first byte is
`c`: `r` can start with `c`, or `r` may match the empty string. -/
def Regex.canStartWith : Regex → Byte → Bool
  | .empty, _ => true
  | .cls p, c => p c
  | .notByte b, c => decide (c ≠ b)
  | .lit [], _ => true
  | .lit (x :: _), c => decide (x = c)
  | .seq a _, c => a.canStartWith c
  | .alt a b, c => a.canStartWith c || b.canStartWith c
  | .star _, _ => true

/-- The call `re.FindString(s)` for the expression `^(r)`: the text of the leftmost-first
match at the start of `s`, and `""` when there is none. -/
def Regex.FindString (r : Regex) (s : GoString) : GoString :=
  match r.run s some with
  | some rest => s.take (s.length - rest.length)
  | none => []

namespace Regex

/-- Literal text, written as in the source. -/
def text (w : String) : Regex := .lit (str w)

/-- Repetition `a+`. -/
def plus (a : Regex) : Regex := .seq a (.star a)

/-- Option `a?`. -/
def opt (a : Regex) : Regex := .alt a .empty

/-- Alternation of a list of expressions, in order. -/
def alts : List Regex → Regex
  | [] => .cls (fun _ => false)
  | [a] => a
  | a :: rest => .alt a (alts rest)

/-- One ASCII letter under the flag `(?i)`: the letter in either case and the characters
outside ASCII that Unicode simple case folding identifies with it (U+017F with `s`,
U+212A with `k`). -/
def foldLetter (b : Byte) : Regex :=
  let lo := asciiLower b
  let both : Regex := .cls (fun c => asciiLower c = lo)
  if lo = 115 then .alt both (.lit [0xC5, 0xBF])
  else if lo = 107 then .alt both (.lit [0xE2, 0x84, 0xAA])
  else both

/-- A word under the flag `(?i)`. -/
def foldWord : GoString → Regex
  | [] => .empty
  | [b] => foldLetter b
  | b :: rest => .seq (foldLetter b) (foldWord rest)

/-- A word under the flag `(?i)`, written as in the source. -/
def textCI (w : String) : Regex := foldWord (str w)

end Regex

/-- Class `[a-zA-Z]`. -/
def isAlpha (b : Byte) : Bool :=
  (decide (97 ≤ b.val) && decide (b.val ≤ 122)) || (decide (65 ≤ b.val) && decide (b.val ≤ 90))

/-- Class `[a-zA-Z0-9]`. -/
def isAlnum (b : Byte) : Bool := isAlpha b || isDigit b

/-- Class `\s`, which is `[\t\n\f\r ]`. -/
def isSpace (b : Byte) : Bool := b = 9 || b = 10 || b = 12 || b = 13 || b = 32

/-- Class `[+-]`. -/
def isSign (b : Byte) : Bool := b = 43 || b = 45

/-! ## The tokenizer (`tokenizer.go`) -/

/-- Token pattern: a regular expression and the type of token it builds. -/
structure tokenPat where
  pat : Regex
  tokenType : TokenType

/-- Method `Match`: the token that the string starts with, if the pattern matches a
non-empty text at its start. -/
def tokenPat.Match (tp : tokenPat) (s : GoString) : Option Token :=
  let text := tp.pat.FindString s
  if text ≠ [] then some ⟨tp.tokenType, text⟩ else none

/-- The identifier expression `[a-zA-Z]+[a-zA-Z0-9]*`. -/
def identRe : Regex := .seq (Regex.plus (.cls isAlpha)) (.star (.cls isAlnum))

/-- The token patterns, in the order of the source. -/
def tokenPats : List tokenPat :=
  [ ⟨.seq (Regex.text "<") (.seq (Regex.alts [Regex.textCI "B", Regex.textCI "Bool",
        Regex.textCI "S", Regex.textCI "String", Regex.textCI "D", Regex.textCI "Double",
        Regex.textCI "I", Regex.textCI "Int", Regex.textCI "Int32", Regex.textCI "C",
        Regex.textCI "Char", Regex.textCI "H", Regex.textCI "DateTime"]) (Regex.text ">")),
      .typeCast⟩,
    ⟨Regex.text "!", .logicalOperator⟩,
    ⟨.alt (Regex.text "&&") (Regex.text "&"), .logicalOperator⟩,
    ⟨.alt (Regex.text "||") (Regex.text "|"), .logicalOperator⟩,
    ⟨Regex.text "+", .arithmeticOperator⟩,
    ⟨Regex.text "-", .arithmeticOperator⟩,
    ⟨Regex.text "*", .arithmeticOperator⟩,
    ⟨Regex.text "/", .arithmeticOperator⟩,
    ⟨Regex.text "#", .arithmeticOperator⟩,
    ⟨Regex.text "^", .arithmeticOperator⟩,
    ⟨Regex.text "=", .relationalOperator⟩,
    ⟨Regex.text "<>", .relationalOperator⟩,
    ⟨Regex.text ">=", .relationalOperator⟩,
    ⟨Regex.text "<=", .relationalOperator⟩,
    ⟨Regex.text ">", .relationalOperator⟩,
    ⟨Regex.text "<", .relationalOperator⟩,
    ⟨Regex.text "(", .openBracket⟩,
    ⟨Regex.text ")", .closeBracket⟩,
    ⟨Regex.text "[", .openBracket⟩,
    ⟨Regex.text "]", .closeBracket⟩,
    ⟨Regex.text "\x7b", .openBracket⟩,
    ⟨Regex.text "\x7d", .closeBracket⟩,
    ⟨.alt (Regex.textCI "true") (Regex.textCI "false"), .bool⟩,
    ⟨identRe, .intrinsicMethod⟩,
    ⟨.seq identRe (.star (.seq (Regex.text ".") identRe)), .symbol⟩,
    ⟨Regex.plus (.cls isSpace), .whitespace⟩,
    ⟨Regex.text ",", .comma⟩,
    ⟨Regex.text ":", .colon⟩,
    ⟨Regex.text "?", .question⟩,
    ⟨.seq (Regex.opt (.cls isSign)) (.seq (Regex.plus (.cls isDigit))
        (.seq (Regex.text ".") (Regex.plus (.cls isDigit)))), .double⟩,
    ⟨.seq (Regex.opt (.cls isSign)) (Regex.plus (.cls isDigit)), .integer⟩,
    ⟨.seq (Regex.text "\"") (.seq (.star (.alt (Regex.text "\\\"") (.notByte 34)))
        (Regex.text "\"")), .string⟩,
    ⟨.seq (Regex.text "'") (.seq (.alt (Regex.text "\\'") (.notByte 39))
        (Regex.text "'")), .char⟩ ]

/-- The tokens of the interface `Operator`. -/
def Token.isOperator (t : Token) : Bool :=
  t.tokenType = .arithmeticOperator || t.tokenType = .relationalOperator
    || t.tokenType = .logicalOperator

/-- The type switch `case Operator, OpenBracket, Comma, Colon` on the last token. -/
def precedesUnaryMinus (t : Token) : Bool :=
  t.isOperator || t.tokenType = .openBracket || t.tokenType = .comma || t.tokenType = .colon

/-- The choice among the tokens matched at one position: the first one, except for the
special unary `-`. -/
def chooseToken (tokens : List Token) (matchedTokens : List Token) (first : Token) : Token :=
  if first.text = str "-" ∧ matchedTokens.length = 2 then
    match matchedTokens with
    | [_, second] =>
      if second.tokenType = .integer ∨ second.tokenType = .double then
        let isUnaryMinus :=
          match tokens.getLast? with
          | none => true
          | some last => precedesUnaryMinus last
        if isUnaryMinus then second else first
      else first
    | _ => first
  else first

/-- The loop of `Tokenize`, started with the tokens emitted so far and the remaining
string. The result is the pair that `Tokenize` returns: the tokens and the error, if any.
One unit of fuel is used per token. -/
def tokenizeLoop : Nat → List Token → GoString → Option (List Token × Option GoError)
  | _, tokens, [] => some (tokens, none)
  | 0, _, _ :: _ => none
  | fuel + 1, tokens, c :: cs =>
    let rem := c :: cs
    let matchedTokens := tokenPats.filterMap (fun tp => tp.Match rem)
    match matchedTokens with
    | [] => some (tokens, some ⟨str "Could not find a token starting at: %s", [.str rem]⟩)
    | first :: _ =>
      let matchedToken := chooseToken tokens matchedTokens first
      tokenizeLoop fuel (tokens ++ [matchedToken]) (rem.drop matchedToken.text.length)

/-- Function `Tokenize`. Every token has a non-empty text, so the length of the string
is fuel enough; `none` stands for running out of fuel. -/
def Tokenize (s : GoString) : Option (List Token × Option GoError) :=
  tokenizeLoop s.length [] s

/-- Method `WithoutWhitespace`. -/
def WithoutWhitespace (ts : List Token) : List Token :=
  ts.filter (fun t => t.tokenType ≠ .whitespace)

/-! ## Methods of the tokens (`concrete.go`, `precedence.go`) -/

/-- Tokens of the interface `Literal`. -/
def Token.isLiteral (t : Token) : Bool :=
  match t.tokenType with
  | .bool | .double | .integer | .string | .char => true
  | _ => false

/-- Tokens of the interface `OperationWithPrecedence` (those with a method `Precedence`). -/
def Token.hasPrecedence (t : Token) : Bool :=
  match t.tokenType with
  | .bool | .double | .integer | .string | .char | .whitespace => false
  | _ => true

/-- Table `arithmeticOperatorPrecedence`; a text that is not a key gives 0. -/
def arithmeticOperatorPrecedence (text : GoString) : Int :=
  if text = str "+" then 7
  else if text = str "-" then 7
  else if text = str "*" then 10
  else if text = str "/" then 10
  else if text = str "#" then 20
  else 0

/-- Table `relationalOperatorPrecedence`; a text that is not a key gives 0. -/
def relationalOperatorPrecedence (text : GoString) : Int :=
  if text = str "=" then 5
  else if text = str "<>" then 5
  else if text = str ">" then 5
  else if text = str "<" then 5
  else 0

/-- Table `logicalOperatorPrecedence`; a text that is not a key gives 0. -/
def logicalOperatorPrecedence (text : GoString) : Int :=
  if text = str "&&" then 30
  else if text = str "||" then 25
  else if text = str "!" then 40
  else 0

/-- Constant `PrecedenceBracket`. -/
def PrecedenceBracket : Int := 1
/-- Constant `PrecedenceColon`. -/
def PrecedenceColon : Int := 2
/-- Constant `PrecedenceComma`. -/
def PrecedenceComma : Int := 3
/-- Constant `PrecedenceMethod`. -/
def PrecedenceMethod : Int := 50
/-- Constant `PrecedenceSymbol`. -/
def PrecedenceSymbol : Int := 70
/-- Constant `PrecedenceTypeCast`. -/
def PrecedenceTypeCast : Int := 100

/-- Method `Precedence` of each token type that has one. -/
def Token.Precedence (t : Token) : Int :=
  match t.tokenType with
  | .intrinsicMethod => PrecedenceMethod
  | .symbol => PrecedenceSymbol
  | .comma => PrecedenceComma
  | .colon => PrecedenceColon
  | .question => PrecedenceMethod
  | .arithmeticOperator => arithmeticOperatorPrecedence t.text
  | .relationalOperator => relationalOperatorPrecedence t.text
  | .logicalOperator => logicalOperatorPrecedence t.text
  | .openBracket => PrecedenceBracket
  | .closeBracket => PrecedenceBracket
  | .typeCast => PrecedenceTypeCast
  | _ => 0

/-- Helper `precedence` of `postfix.go`. Everything on the operator stack is an
`OperationWithPrecedence`, so the first case of its type switch always applies. -/
def precedence (obj : Token) : Int := obj.Precedence

/-- Method `boolToken.Bool`. -/
def Token.Bool (t : Token) : Res Bool :=
  if lowerEq t.text "true" then .ok true
  else if lowerEq t.text "false" then .ok false
  else .panic (str "Invalid boolean value")

/-- The call `strconv.ParseFloat(text, 64)`: a decimal text is rounded to the nearest
float64, and a value that overflows is an error; `none` is a returned error. -/
def ParseFloat (lib : GoLib) (text : GoString) : Option Float64 :=
  match Float64.splitDecimal text with
  | some (neg, ip, fp) =>
    match Float64.roundRat neg (Float64.digitsValue (ip ++ fp) 0) (10 ^ fp.length) 0 with
    | .finite s m e => some (.finite s m e)
    | _ => none
  | none => lib.parseFloatOther text

/-- Method `doubleToken.Double`. -/
def Token.Double (lib : GoLib) (t : Token) : Res Float64 :=
  match ParseFloat lib t.text with
  | some d => .ok d
  | none => .panic (str "Unexpected Double token: " ++ t.text)

/-- Method `integerToken.Integer`. -/
def Token.Integer (t : Token) : Res Int :=
  match Atoi t.text with
  | .ok n => .ok n
  | .error _ => .panic (str "Unexpected Integer token: " ++ t.text)

/-- Method `charToken.Char`: the byte at index 1 of the text. -/
def Token.Char (t : Token) : Res Int :=
  if t.text = str "'\\''" then .ok 39
  else
    match t.text with
    | _ :: b :: _ => .ok b.val
    | _ => boundsPanic

/-- The replacer of `stringToken.String`: every `\'`, `\"` and `\\` becomes its second
character, left to right. -/
def unescape : GoString → GoString
  | [] => []
  | [b] => [b]
  | b :: c :: rest =>
    if b = 92 ∧ (c = 39 ∨ c = 34 ∨ c = 92) then c :: unescape rest
    else b :: unescape (c :: rest)

/-- Method `stringToken.String`: the text without its first and last byte, unescaped.
The two slice expressions abort on a text of fewer than two bytes. -/
def Token.String (t : Token) : Res GoString :=
  match t.text with
  | [] => boundsPanic
  | [_] => boundsPanic
  | _ :: rest => .ok (unescape rest.dropLast)

/-- Method `typeCastToken.CastDataType`: the type name for the code between `<` and `>`. -/
def Token.CastDataType (t : Token) : Res GoString :=
  match t.text with
  | [] => boundsPanic
  | [_] => boundsPanic
  | _ :: rest =>
    let dt := rest.dropLast
    if lowerEq dt "b" || lowerEq dt "bool" then .ok (str "Bool")
    else if lowerEq dt "s" || lowerEq dt "string" then .ok (str "String")
    else if lowerEq dt "i" || lowerEq dt "int" || lowerEq dt "int32" then .ok (str "Int32")
    else if lowerEq dt "d" || lowerEq dt "double" then .ok (str "Double")
    else if lowerEq dt "c" || lowerEq dt "char" then .ok (str "Char")
    else if lowerEq dt "h" || lowerEq dt "datetime" then .ok (str "DateTime")
    else .panic (str "Unknown data type: " ++ dt)

/-- Method `closeBracketToken.CloseBracket`: the open bracket that matches. -/
def Token.CloseBracket (t : Token) : Res GoString :=
  if t.text = str ")" then .ok (str "(")
  else if t.text = str "]" then .ok (str "[")
  else if t.text = str "\x7d" then .ok (str "\x7b")
  else .panic (str "Unknown bracket: " ++ t.text)

/-! ## Conversion to postfix (`postfix.go`) -/

/-- An element of a postfix expression: a value (from a literal), a token taken from the
operator stack, or one of the two markers. A token of a literal type never occurs here:
the operator stack only holds tokens with a method `Precedence`. -/
inductive PostfixElem where
  | value (v : Value)
  | token (t : Token)
  /-- Modelled from the spec: the `Indexify` marker, whose type declaration is not among
  the sources; appended for a matched pair of curly brackets. -/
  | Indexify
  /-- Modelled from the spec: the `Listify` marker, whose type declaration is not among
  the sources; appended for a matched pair of square brackets. -/
  | Listify
  deriving Repr

/-- A postfix expression, in the order of the Go slice (the evaluator reads it from its
last element). -/
abbrev PostfixExpression := List PostfixElem

/-- Closure `rewindStack`: pop the operator stack (a list whose head is the top) into the
output until an open bracket is popped or the stack is empty. The result is the output,
the stack, and the error that the closure returns. -/
def rewindStack (bracket : Option Token) :
    List Token → PostfixExpression → Res (PostfixExpression × List Token × Option GoError)
  | [], postFix =>
    match bracket with
    | some b =>
      .ok (postFix, [], some ⟨str "Empty stack during rewind of %v", [.token (some b)]⟩)
    | none => .ok (postFix, [], none)
  | v :: stack, postFix =>
    if v.tokenType = .openBracket then
      let mismatch : GoError :=
        ⟨str "Mismatch bracket when rewinding %v: %v", [.token bracket, .str v.text]⟩
      match bracket with
      | none => .ok (postFix, stack, some mismatch)
      | some b =>
        match b.CloseBracket with
        | .ok ob => if v.text ≠ ob then .ok (postFix, stack, some mismatch)
                    else .ok (postFix, stack, none)
        | .error e => .error e
        | .panic m => .panic m
        | .outOfFuel => .outOfFuel
    else rewindStack bracket stack (postFix ++ [.token v])

/-- The literal value that a token of a literal type denotes. -/
def literalValue (lib : GoLib) (t : Token) : Res Value :=
  match t.tokenType with
  | .string => t.String.bind (fun x => .ok (.string x))
  | .integer => t.Integer.bind (fun n => .ok (.int n))
  | .double => (t.Double lib).bind (fun d => .ok (.double d))
  | .bool => t.Bool.bind (fun b => .ok (.bool b))
  | .char => t.Char.bind (fun c => .ok (.char c))
  | _ => .panic (str "Unhandled literal")

/-- One iteration of the loop of `convertToPostfix`, on the output and the operator stack
(head = top). The error returned by `rewindStack` is dropped, as in the source. -/
def convertStep (lib : GoLib) (postFix : PostfixExpression) (stack : List Token) (v : Token) :
    Res (PostfixExpression × List Token) :=
  if v.isLiteral then
    (literalValue lib v).bind (fun d => .ok (postFix ++ [.value d], stack))
  else if v.tokenType = .openBracket then .ok (postFix, v :: stack)
  else if v.tokenType = .closeBracket then
    (rewindStack (some v) stack postFix).bind (fun r =>
      v.CloseBracket.bind (fun ob =>
        if ob = str "\x7b" then .ok (r.1 ++ [.Indexify], r.2.1)
        else if ob = str "[" then .ok (r.1 ++ [.Listify], r.2.1)
        else .ok (r.1, r.2.1)))
  else if v.hasPrecedence then
    match stack with
    | top :: rest =>
      if precedence v ≤ precedence top then .ok (postFix ++ [.token top], v :: rest)
      else .ok (postFix, v :: stack)
    | [] => .ok (postFix, [v])
  else errorf "Can't evaluate token: %v" [.token (some v)]

/-- The loop of `convertToPostfix` over the tokens, followed by the final rewind, whose
error is dropped as well. -/
def convertLoop (lib : GoLib) :
    List Token → PostfixExpression → List Token → Res PostfixExpression
  | [], postFix, stack => (rewindStack none stack postFix).bind (fun r => .ok r.1)
  | v :: tokens, postFix, stack =>
    match convertStep lib postFix stack v with
    | .ok (postFix1, stack1) => convertLoop lib tokens postFix1 stack1
    | .error e => .error e
    | .panic m => .panic m
    | .outOfFuel => .outOfFuel

/-- Function `convertToPostfix`. -/
def convertToPostfix (lib : GoLib) (tokens : List Token) : Res PostfixExpression :=
  convertLoop lib tokens [] []

/-! ## Equality of values -/

mutual
/-- Function `reflect.DeepEqual` on two values: the same dynamic type and equal contents,
floats compared with `==`, slices by nil-ness, length and elements. -/
def deepEqual : Value → Value → Bool
  | .bool a, .bool b => a == b
  | .int a, .int b => a == b
  | .double a, .double b => Float64.eq a b
  | .char a, .char b => a == b
  | .string a, .string b => a == b
  | .dateTime a, .dateTime b => a == b
  | .intRange f1 t1, .intRange f2 t2 => f1 == f2 && t1 == t2
  | .list n1 l1, .list n2 l2 => isNilSlice n1 l1 == isNilSlice n2 l2 && deepEqualList l1 l2
  | .commaList l1, .commaList l2 => deepEqualList l1 l2
  | .conditionalValues c1 t1 f1, .conditionalValues c2 t2 f2 =>
    c1 == c2 && deepEqual t1 t2 && deepEqual f1 f2
  | _, _ => false
/-- Element-wise `reflect.DeepEqual` of two slices of the same length. -/
def deepEqualList : List Value → List Value → Bool
  | [], [] => true
  | x :: xs, y :: ys => deepEqual x y && deepEqualList xs ys
  | _, _ => false
end

/-- Whether a value can be a key of a Go map: slices cannot, and a struct can if its
fields can. Hashing any other key aborts. -/
def hashable : Value → Bool
  | .list _ _ => false
  | .commaList _ => false
  | .conditionalValues _ t f => hashable t && hashable f
  | _ => true

/-- Equality `==` of two hashable interface values, as a map compares its keys. -/
def keyEqual : Value → Value → Bool
  | .bool a, .bool b => a == b
  | .int a, .int b => a == b
  | .double a, .double b => Float64.eq a b
  | .char a, .char b => a == b
  | .string a, .string b => a == b
  | .dateTime a, .dateTime b => a == b
  | .intRange f1 t1, .intRange f2 t2 => f1 == f2 && t1 == t2
  | .conditionalValues c1 t1 f1, .conditionalValues c2 t2 f2 =>
    c1 == c2 && keyEqual t1 t2 && keyEqual f1 f2
  | _, _ => false

/-- Lexicographic comparison of two strings by bytes (`strings.Compare`): -1, 0 or 1. -/
def stringsCompare : GoString → GoString → Int
  | [], [] => 0
  | [], _ :: _ => -1
  | _ :: _, [] => 1
  | a :: s, b :: t => if a.val < b.val then -1 else if b.val < a.val then 1 else stringsCompare s t

/-! ## The evaluator (`evaluate.go`, `operations.go`, `intrinsicutil.go`) -/

/-- What `evaluatePostfix` gives back: the value and the rest of the stream. The stream is
held as a list whose head is the LAST element of the Go slice, the one `Pop` removes. -/
abbrev EvalFn := List PostfixElem → Res (Value × List PostfixElem)

/-- Interface `intrinsicMethod`. The method `ExecuteMethod` receives the postfix stream;
it calls back into the evaluator, which is its first argument here. -/
structure intrinsicMethod where
  ExecuteMethod : EvalFn → EvalFn

/-- An entry of the symbol table, a `map[string]interface{}`: a value, or something that
is not a `datatype.DataType`. -/
inductive SymbolEntry where
  | value (v : Value)
  | other
  deriving Repr

/-- The package-level tables that the evaluator reads, and the library. The two maps are
association lists with distinct keys. -/
structure Env where
  lib : GoLib
  SymbolTable : List (GoString × SymbolEntry)
  intrinsicMethods : List (GoString × intrinsicMethod)

/-- Function `GetUnaryOperand`. -/
def GetUnaryOperand (eval : EvalFn) : EvalFn := eval

/-- Function `GetBinaryOperands`: the second operand is evaluated first. The result is
`(op1, op2)` and the rest of the stream. -/
def GetBinaryOperands (eval : EvalFn) (pfe : List PostfixElem) :
    Res ((Value × Value) × List PostfixElem) :=
  (eval pfe).bind (fun r2 => (eval r2.2).bind (fun r1 => .ok ((r1.1, r2.1), r1.2)))

/-- Function `CommaOperator`. -/
def CommaOperator (eval : EvalFn) : EvalFn := fun pfe =>
  (GetBinaryOperands eval pfe).bind (fun r => .ok (.commaList [r.1.1, r.1.2], r.2))

/-- Function `ColonOperator`. -/
def ColonOperator (eval : EvalFn) : EvalFn := fun pfe =>
  (GetBinaryOperands eval pfe).bind (fun r =>
    match r.1.1, r.1.2 with
    | .int f, .int t => .ok (.intRange f t, r.2)
    | .bool cond, .commaList cl =>
      match Flatten cl with
      | [t, f] => .ok (.conditionalValues cond t f, r.2)
      | _ => errorf
        "Conditional Colon operator requires one item for true and one for false condtions" []
    | _, _ => errorf "Colon operator works only on Int OR Bool + CommaList" [])

/-- Function `QuestionOperator`. -/
def QuestionOperator (eval : EvalFn) : EvalFn := fun pfe =>
  (GetUnaryOperand eval pfe).bind (fun r =>
    match r.1 with
    | .conditionalValues cond t f => if cond then .ok (t, r.2) else .ok (f, r.2)
    | _ => errorf "?(...) expects conditional values instead of %s"
        [.str (str "ConditionalValues")])

/-- Function `SymbolOperator`: the entry of the symbol table under exactly the text of the token. -/
def SymbolOperator (env : Env) (sym : Token) : EvalFn := fun pfe =>
  match env.SymbolTable.lookup sym.text with
  | none => errorf "Could not find symbol %s (name does not exist)" [.str sym.text]
  | some .other => errorf "Could not find symbol %s (value unexpected)" [.str sym.text]
  | some (.value v) => .ok (v, pfe)

/-- The conversion of all elements of a list to the type named `d`, as the two type
switches of `ListifyOperator` and of the cast of a list have it; any other name aborts. -/
def convertAll (lib : GoLib) (d : GoString) (l : List Value) : Res Value :=
  if d = str "String" then AllToString lib l
  else if d = str "Bool" then AllToBool l
  else if d = str "Double" then AllToDouble lib l
  else if d = str "Char" then AllToChar l
  else if d = str "Int32" then AllToInt l
  else .panic (str "Can't convert to " ++ d)

/-- Function `ListifyOperator`. -/
def ListifyOperator (env : Env) (eval : EvalFn) : EvalFn := fun pfe =>
  (GetUnaryOperand eval pfe).bind (fun r =>
    let l : List Value :=
      match r.1 with
      | .commaList c => Flatten c
      | op => [op]
    match l with
    | [] => .ok (.list false [], r.2)
    | x :: _ => (convertAll env.lib x.DataType l).bind (fun cl => .ok (cl, r.2)))

/-- Closure `normalizeIndex` of `IndexifyOperator`. -/
def normalizeIndex (idx : Int) (length : Nat) : Res Nat :=
  if idx ≥ length then
    errorf "Index %d is greater than lengthgth %d" [.int idx, .int length]
  else
    let nidx := if idx < 0 then (length : Int) + idx else idx
    if nidx < 0 then errorf "Computed index %d is lesser than 0" [.int nidx]
    else .ok nidx.toNat

/-- The slice expression `l[from : to+1]` for indices below the length: it aborts when
`from` exceeds `to+1`. -/
def sliceRange {α : Type} (l : List α) (from_ to_ : Nat) : Res (List α) :=
  if from_ > to_ + 1 then .panic (str "runtime error: slice bounds out of range")
  else .ok ((l.take (to_ + 1)).drop from_)

/-- Function `IndexifyOperator`. -/
def IndexifyOperator (eval : EvalFn) : EvalFn := fun pfe =>
  (GetBinaryOperands eval pfe).bind (fun r =>
    let opl := r.1.1
    let opi := r.1.2
    match opi with
    | .int idx =>
      match opl with
      | .list _ l =>
        (normalizeIndex idx l.length).bind (fun i =>
          match l.get? i with
          | some v => .ok (v, r.2)
          | none => boundsPanic)
      | .string l =>
        (normalizeIndex idx l.length).bind (fun i =>
          match l.get? i with
          | some b => .ok (.char b.val, r.2)
          | none => boundsPanic)
      | _ => errorf "Index expects a list instead of %s" [.str opl.DataType]
    | .intRange f t =>
      match opl with
      | .list _ l =>
        (normalizeIndex f l.length).bind (fun from_ =>
          (normalizeIndex t l.length).bind (fun to_ =>
            (sliceRange l from_ to_).bind (fun sub => .ok (.list false sub, r.2))))
      | .string l =>
        (normalizeIndex f l.length).bind (fun from_ =>
          (normalizeIndex t l.length).bind (fun to_ =>
            (sliceRange l from_ to_).bind (fun sub => .ok (.string sub, r.2))))
      | _ => errorf "Index expects a list instead of %s" [.str opl.DataType]
    | _ =>
      errorf "Index expects an integer index or integer range instead of %s" [.str opi.DataType])

/-- Method `DataType` of a list given as a slice. -/
def Slice.DataType (l : Slice) : GoString := (Value.list l.1 l.2).DataType

/-- The statement `lop2Items[item] = true` for every item: the keys of the map, or an
abort at the first item that cannot be hashed. -/
def buildItems : List Value → Res (List Value)
  | [] => .ok []
  | item :: rest =>
    if hashable item then (buildItems rest).bind (fun keys => .ok (item :: keys))
    else .panic (str "runtime error: hash of unhashable type")

/-- The loop over `lop1` of list difference (`keep = false`) and intersection
(`keep = true`): the items whose membership in the map equals `keep`, or an abort at the
first item that cannot be hashed. -/
def filterItems (keys : List Value) (keep : Bool) : List Value → Res (List Value)
  | [] => .ok []
  | item :: rest =>
    if hashable item then
      (filterItems keys keep rest).bind (fun res =>
        .ok (if keys.any (keyEqual item) == keep then item :: res else res))
    else .panic (str "runtime error: hash of unhashable type")

/-- The expression `time.Duration(d) * time.Hour * 24`, in 64-bit arithmetic. -/
def daysDuration (d : Int) : Int := wrap64 (wrap64 (d * 3600000000000) * 24)

/-- Method `Time.Add`. -/
def Time.Add (t : Time) (d : Int) : Time := ⟨t.unixNano + d⟩

/-- Method `Time.Sub`: the difference as a duration, which saturates at the ends of the
64-bit range. -/
def Time.Sub (t u : Time) : Int :=
  let d := t.unixNano - u.unixNano
  if d < -(2 : Int) ^ 63 then -(2 : Int) ^ 63 else if d ≥ (2 : Int) ^ 63 then (2 : Int) ^ 63 - 1 else d

/-- Function `math.Mod`: the remainder of `x / y` with the sign of `x`, which is exact. -/
def Float64.mod : Float64 → Float64 → Float64
  | .nan, _ => .nan
  | _, .nan => .nan
  | .inf _, _ => .nan
  | .finite s m e, .inf _ => .finite s m e
  | .finite n1 m1 e1, .finite _ m2 e2 =>
    if m2 = 0 then .nan
    else
      let e := min e1 e2
      Float64.round n1 ((m1 * 2 ^ (e1 - e).toNat) % (m2 * 2 ^ (e2 - e).toNat)) e

/-- Function `ArithmeticAndRelationalOperator`. -/
def ArithmeticAndRelationalOperator (env : Env) (eval : EvalFn) (op : Token) : EvalFn := fun pfe =>
  match GetBinaryOperands eval pfe with
  | .error _ => errorf "Could not get operands for %v" [.token (some op)]
  | .panic m => .panic m
  | .outOfFuel => .outOfFuel
  | .ok ((op1, op2), rest) =>
    let isString := IsString [op1, op2]
    let isNumber := IsNumber [op1, op2]
    let isDateTime := IsDateTime [op1, op2]
    let isDateTimeInt := IsDateTime [op1] && IsInt [op2]
    let isListAny := IsListAny [op1, op2]
    let isListAll := IsListAll [op1, op2]
    let isListFirst := IsListAny [op1]
    let sop := UpgradeBinaryOperandsToStrings env.lib op1 op2
    let dop := UpgradeBinaryOperandsToDoubles env.lib op1 op2
    let lop := UpgradeBinaryOperandsToLists op1 op2
    let lop1 := lop.1
    let lop2 := lop.2
    (if isListFirst then buildItems lop2.2 else .ok []).bind (fun lop2Items =>
      let badDataErr : Res (Value × List PostfixElem) :=
        errorf "Cannot perform operation '%s' on %v and %v"
          [.str op.text, .str op1.DataType, .str op2.DataType]
      let ret (v : Value) : Res (Value × List PostfixElem) := .ok (v, rest)
      let opv := op.text
      if opv = str "+" then
        if isNumber then ret (.double (Float64.add dop.1 dop.2))
        else if isString then ret (.string (sop.1 ++ sop.2))
        else if isListAny && lop1.DataType == lop2.DataType then
          ret (.list (isNilSlice lop1.1 lop1.2 && lop2.2.isEmpty) (lop1.2 ++ lop2.2))
        else if isDateTimeInt then
          match op1, op2 with
          | .dateTime dt, .int d => ret (.dateTime (dt.Add (daysDuration d)))
          | _, _ => badDataErr
        else badDataErr
      else if opv = str "-" then
        if isNumber then ret (.double (Float64.sub dop.1 dop.2))
        else if isListFirst && lop1.DataType == lop2.DataType then
          (filterItems lop2Items false lop1.2).bind (fun res => ret (.list res.isEmpty res))
        else if isDateTime then
          match op1, op2 with
          | .dateTime dt1, .dateTime dt2 =>
            ret (.int (Int.tdiv (dt1.Sub dt2) (24 * 3600000000000)))
          | _, _ => badDataErr
        else if isDateTimeInt then
          match op1, op2 with
          | .dateTime dt, .int d =>
            ret (.dateTime (dt.Add (wrap64 (wrap64 (wrap64 (-d) * 3600000000000) * 24))))
          | _, _ => badDataErr
        else badDataErr
      else if opv = str "*" then
        if isNumber then ret (.double (Float64.mul dop.1 dop.2)) else badDataErr
      else if opv = str "/" then
        if isNumber then ret (.double (Float64.div dop.1 dop.2)) else badDataErr
      else if opv = str "#" then
        if isNumber then ret (.double (Float64.mod dop.1 dop.2)) else badDataErr
      else if opv = str "^" then
        if isListAll && lop1.DataType == lop2.DataType then
          (filterItems lop2Items true lop1.2).bind (fun res => ret (.list res.isEmpty res))
        else badDataErr
      else if opv = str "=" then
        if isNumber then ret (.bool (Float64.eq dop.1 dop.2))
        else if isString then ret (.bool (sop.1 == sop.2))
        else if isListAll && lop1.DataType == lop2.DataType then
          ret (.bool (deepEqual (.list lop1.1 lop1.2) (.list lop2.1 lop2.2)))
        else badDataErr
      else if opv = str "<>" then
        if isNumber then ret (.bool (Float64.ne dop.1 dop.2))
        else if isString then ret (.bool (sop.1 != sop.2))
        else if isListAll && lop1.DataType == lop2.DataType then
          ret (.bool (!deepEqual (.list lop1.1 lop1.2) (.list lop2.1 lop2.2)))
        else badDataErr
      else if opv = str ">" then
        if isNumber then ret (.bool (Float64.gt dop.1 dop.2))
        else if isString then ret (.bool (decide (stringsCompare sop.1 sop.2 > 0)))
        else badDataErr
      else if opv = str "<" then
        if isNumber then ret (.bool (Float64.lt dop.1 dop.2))
        else if isString then ret (.bool (decide (stringsCompare sop.1 sop.2 < 0)))
        else badDataErr
      else if opv = str ">=" then
        if isNumber then ret (.bool (Float64.ge dop.1 dop.2))
        else if isString then ret (.bool (decide (stringsCompare sop.1 sop.2 ≥ 0)))
        else badDataErr
      else if opv = str "<=" then
        if isNumber then ret (.bool (Float64.le dop.1 dop.2))
        else if isString then ret (.bool (decide (stringsCompare sop.1 sop.2 ≤ 0)))
        else badDataErr
      else errorf "Unsupported arithmetic or relational operator '%s'" [.str opv])

/-- Function `LogicalOperator`. -/
def LogicalOperator (eval : EvalFn) (op : Token) : EvalFn := fun pfe =>
  match op.text with
  | [] => boundsPanic
  | c :: _ =>
    if c = 33 then
      match GetUnaryOperand eval pfe with
      | .error _ => errorf "Could not get operands for %v" [.token (some op)]
      | .panic m => .panic m
      | .outOfFuel => .outOfFuel
      | .ok (op1, rest) =>
        match op1 with
        | .bool bop1 => .ok (.bool (!bop1), rest)
        | _ => errorf "Cannot perform operation '%s' on %v" [.str op.text, .str op1.DataType]
    else
      match GetBinaryOperands eval pfe with
      | .error _ => errorf "Could not get operands for %v" [.token (some op)]
      | .panic m => .panic m
      | .outOfFuel => .outOfFuel
      | .ok ((op1, op2), rest) =>
        match op1, op2 with
        | .bool bop1, .bool bop2 =>
          if c = 38 then .ok (.bool (bop1 && bop2), rest)
          else if c = 124 then .ok (.bool (bop1 || bop2), rest)
          else errorf "Unsupported logical operator '%s'" [.str op.text]
        | _, _ =>
          errorf "Cannot perform operation '%s' on %v and %v"
            [.str op.text, .str op1.DataType, .str op2.DataType]

/-- Function `GetIntrinsicMethod`. -/
def GetIntrinsicMethod (env : Env) (name : GoString) : Res intrinsicMethod :=
  match env.intrinsicMethods.lookup name with
  | some meth => .ok meth
  | none => errorf "Method %s does not exist" [.str name]

/-- Function `IntrinsicMethodOperator`; the method name of the token is its text. -/
def IntrinsicMethodOperator (env : Env) (eval : EvalFn) (meth : Token) : EvalFn := fun pfe =>
  (GetIntrinsicMethod env meth.text).bind (fun im => im.ExecuteMethod eval pfe)

/-- The case `tokenizer.TypeCast` of `evaluatePostfix`. -/
def TypeCastOperator (env : Env) (eval : EvalFn) (v : Token) : EvalFn := fun pfe =>
  match eval pfe with
  | .error e => errorf "Failed to type cast: %v" [e.toArg]
  | .panic m => .panic m
  | .outOfFuel => .outOfFuel
  | .ok (valToCast, rest) =>
    v.CastDataType.bind (fun dt =>
      match valToCast with
      | .list _ l => (convertAll env.lib dt l).bind (fun c => .ok (c, rest))
      | _ =>
        if dt = str "String" then
          (ToString env.lib valToCast).bind (fun c => .ok (.string c, rest))
        else if dt = str "Bool" then (ToBool valToCast).bind (fun c => .ok (.bool c, rest))
        else if dt = str "Double" then
          (ToDouble env.lib valToCast).bind (fun c => .ok (.double c, rest))
        else if dt = str "Char" then (ToChar valToCast).bind (fun c => .ok (.char c, rest))
        else if dt = str "Int32" then (ToInt valToCast).bind (fun c => .ok (.int c, rest))
        else if dt = str "DateTime" then
          (ToDateTime env.lib valToCast).bind (fun c => .ok (.dateTime c, rest))
        else .panic (str "Can't convert to " ++ dt))

/-- Function `strings.Split(s, ",")`. -/
def splitOnComma : GoString → List GoString
  | [] => [[]]
  | c :: s =>
    if c = 44 then [] :: splitOnComma s
    else
      match splitOnComma s with
      | [] => [[c]]
      | w :: ws => (c :: w) :: ws

/-- The check of one argument against one type code in `polyTypeCheckedMethod`; `none` for
a code that is not supported (the source aborts). -/
def typeCodeMatches (code : GoString) (arg : Value) : Option Bool :=
  if code = str "S" then some (match arg with | .string _ => true | _ => false)
  else if code = str "N" then some (IsNumber [arg])
  else if code = str "I" ∨ code = str "I0" ∨ code = str "I1" then
    some (match arg with | .int _ => true | _ => false)
  else if code = str "D" then some (match arg with | .double _ => true | _ => false)
  else if code = str "C" then some (match arg with | .char _ => true | _ => false)
  else if code = str "B" ∨ code = str "BT" ∨ code = str "BF" then
    some (match arg with | .bool _ => true | _ => false)
  else if code = str "L" then some arg.isList
  else if code = str "LS" then some (match arg with | .list _ l => IsString l | _ => false)
  else if code = str "LN" then some (match arg with | .list _ l => IsNumber l | _ => false)
  else none

/-- The loop `for i, arg := range args` of `polyTypeCheckedMethod`, which checks each
argument against `types[i]`: whether all of them match. The index expression aborts when
there are more arguments than types. -/
def checkArgs : List GoString → List Value → Res Bool
  | _, [] => .ok true
  | [], _ :: _ => boundsPanic
  | t :: types, arg :: args =>
    match typeCodeMatches t arg with
    | none => .panic (str "Unknown type signature")
    | some false => .ok false
    | some true => checkArgs types args

/-- The default value that a type code carries, if any. -/
def defaultArg (code : GoString) : Option Value :=
  if code = str "I0" then some (.int 0)
  else if code = str "I1" then some (.int 1)
  else if code = str "BT" then some (.bool true)
  else if code = str "BF" then some (.bool false)
  else none

/-- The loop over the signatures in `polyTypeCheckedMethod`. The argument list is shared by
the iterations: defaults appended for one signature stay for the next. -/
def polyLoop : List (GoString × (List Value → Res Value)) → List Value → GoString → Res Value
  | [], _, unmatchedTypes =>
    .error ⟨str "Intrinsic method only accepts arguments of signatures: %s",
      [.str unmatchedTypes]⟩
  | (typeString, f) :: tf, args, unmatchedTypes =>
    let unmatched1 := unmatchedTypes ++ str " " ++ typeString
    let types := splitOnComma typeString
    match checkArgs types args with
    | .ok true =>
      let args1 := args ++ (types.drop args.length).filterMap defaultArg
      if args1.length ≠ types.length then polyLoop tf args1 unmatched1
      else f args1
    | .ok false => polyLoop tf args unmatched1
    | .error e => .error e
    | .panic m => .panic m
    | .outOfFuel => .outOfFuel

/-- Function `polyTypeCheckedMethod`: an intrinsic method that dispatches on the types of
its arguments. The arguments are the single operand, or the items of a comma list. -/
def polyTypeCheckedMethod (typesAndFuncs : List (GoString × (List Value → Res Value))) :
    intrinsicMethod :=
  ⟨fun eval pfe =>
    (GetUnaryOperand eval pfe).bind (fun r =>
      let args : List Value :=
        match r.1 with
        | .commaList v => Flatten v
        | v => [v]
      (polyLoop typesAndFuncs args []).bind (fun d => .ok (d, r.2)))⟩

/-- Function `evaluatePostfix`, on the stream with its last element first. Each call pops
one element and evaluates its operands with one unit of fuel less; a stream of `n` elements
needs no more than `n + 1` units. -/
def evaluatePostfix (env : Env) : Nat → EvalFn
  | 0, _ => .outOfFuel
  | _ + 1, [] => errorf "Invalid expression" []
  | fuel + 1, el :: pfe =>
    let eval := evaluatePostfix env fuel
    match el with
    | .value v => .ok (v, pfe)
    | .Indexify => IndexifyOperator eval pfe
    | .Listify => ListifyOperator env eval pfe
    | .token t =>
      match t.tokenType with
      | .symbol => SymbolOperator env t pfe
      | .comma => CommaOperator eval pfe
      | .colon => ColonOperator eval pfe
      | .question => QuestionOperator eval pfe
      | .arithmeticOperator => ArithmeticAndRelationalOperator env eval t pfe
      | .relationalOperator => ArithmeticAndRelationalOperator env eval t pfe
      | .logicalOperator => LogicalOperator eval t pfe
      | .intrinsicMethod => IntrinsicMethodOperator env eval t pfe
      | .typeCast => TypeCastOperator env eval t pfe
      | _ => errorf "Failed to evaluate postfix expression" []

/-- Function `Evaluate`: convert the tokens to postfix and evaluate the postfix expression. -/
def Evaluate (env : Env) (tokens : List Token) : Res Value :=
  (convertToPostfix env.lib tokens).bind (fun pf =>
    (evaluatePostfix env (pf.length + 1) pf.reverse).bind (fun r => .ok r.1))

/-- Function `expressionEval` of the command-line driver, without the printing: tokenize,
drop the whitespace and evaluate. `none` when `Tokenize` returns an error. -/
def expressionEval (env : Env) (text : GoString) : Option (Res Value) :=
  match Tokenize text with
  | some (tokens, none) => some (Evaluate env (WithoutWhitespace tokens))
  | _ => none

/-! ## The symbol table of `symbols.go` -/

/-- The variable `SymbolTable`. The entry `DateTime.Today` holds the time at which the
program started, a parameter here; `Math.PI` is the float64 nearest to pi. -/
def SymbolTable (today : Time) : List (GoString × SymbolEntry) :=
  [ (str "DateTime.Today", .value (.dateTime today)),
    (str "Math.PI", .value (.double (.finite false 7074237752028440 (-51)))),
    (str "MyInt", .value (.int 100)),
    (str "MyDouble", .value (.double (Float64.ofInt 400))),
    (str "MyString", .value (.string
      (str "ABCDEFGHIJKLMNOPQRSTUVWXYZabcdefghijklmnopqrstuvwxyz1234567890"))),
    (str "JSONString", .value (.string (str (
      "\x7b \"store\": \x7b\"book\": [\x7b \"category\": \"reference\", \"author\": \"N" ++
      "igel Rees\", \"title\": \"Sayings of the Century\",  \"price\": 8.95\x7d,\x7b \"" ++
      "category\": \"fiction\", \"author\": \"Evelyn Waugh\", \"title\": \"Sword of Hon" ++
      "our\", \"price\": 12.99\x7d,\x7b \"category\": \"fiction\",\"author\": \"Herman " ++
      "Melville\", \"title\": \"Moby Dick\" , \"isbn\": \"0-553-21311-3\", \"price\": 8" ++
      ".99\x7d, \x7b \"category\": \"fiction\", \"author\": \"J. R. R. Tolkien\", \"tit" ++
      "le\": \"The Lord of the Rings\" , \"isbn\": \"0-395-19395-8\" , \"price\": 22.99" ++
      " \x7d ] , \"bicycle\": \x7b \"color\": \"red\", \"price\": 19.95 \x7d \x7d \x7d")))),
    (str "TestArray", .value (.list false [.double (Float64.ofInt 1),
      .double (Float64.ofInt 10), .double (Float64.ofInt 100), .double (Float64.ofInt 1000),
      .double (Float64.ofInt 10000)])) ]

/-- A library whose calls all fail or print nothing, whose lower-casing is that of the
ASCII letters and whose sort of floats is an insertion sort, for evaluating expressions
that do not reach the library. -/
def stubLib : GoLib :=
  { sscanFloat := fun _ => .error ⟨[], []⟩
    parseFloatOther := fun _ => none
    formatFloatV := fun _ => []
    formatDate := fun _ => []
    parseDate := fun _ => .error ⟨[], []⟩
    formatTimeV := fun _ => []
    toLower := fun s => s.map asciiLower
    sortFloat64s := List.insertionSort (fun a b => !(Float64.lt b a)) }

/-- The symbol table of `symbols.go` (started at the epoch) together with an empty table
of intrinsic methods. -/
def symbolsOnlyEnv : Env := ⟨stubLib, SymbolTable ⟨0⟩, []⟩

/-! ## Intrinsic methods (`intrinsic.go`) -/

/-- Function `math.Abs`. -/
def Float64.abs : Float64 → Float64
  | .finite _ m e => .finite false m e
  | .inf _ => .inf false
  | .nan => .nan

/-- Function `toFloat`: the conversion `ToDouble` with its error dropped; the value that
comes with an error is 0. -/
def toFloat (lib : GoLib) (d : Value) : Float64 :=
  match ToDouble lib d with
  | .ok x => x
  | _ => Float64.ofInt 0

/-- Function `toBool`: the conversion `ToBool` with its error dropped; the value that
comes with an error is `false`. -/
def toBool (d : Value) : Bool :=
  match ToBool d with
  | .ok b => b
  | _ => false

/-- Function `toString`: the conversion `ToString` with its error dropped; the value that
comes with an error is the empty string. -/
def toString (lib : GoLib) (d : Value) : GoString :=
  match ToString lib d with
  | .ok s => s
  | _ => []

/-- Function `toSlice`: the items of a `List`, and the nil slice for any other value. -/
def toSlice (d : Value) : List Value :=
  match d with
  | .list _ l => l
  | _ => []

/-- The index expression `args[i]` of an implementation function. -/
def argAt (args : List Value) (i : Nat) : Res Value :=
  match args.get? i with
  | some v => .ok v
  | none => boundsPanic

/-- The implementation of `Abs` for the signature `N`. -/
def AbsN (lib : GoLib) (args : List Value) : Res Value :=
  (argAt args 0).bind (fun a0 => .ok (.double (Float64.abs (toFloat lib a0))))

/-- The implementation of `Interval` for the signature of the empty type string. -/
def IntervalNone (_args : List Value) : Res Value := errorf "Not implemented" []

/-- The implementation of `StartsWith` for the signature `S,S,BF`; `strings.HasPrefix` is
the test whether one byte string starts with another. -/
def StartsWithSSB (lib : GoLib) (args : List Value) : Res Value :=
  (argAt args 0).bind (fun a0 => (argAt args 1).bind (fun a1 => (argAt args 2).bind (fun a2 =>
    let s := toString lib a0
    let part := toString lib a1
    let ignoreCase := toBool a2
    let s1 := if ignoreCase then lib.toLower s else s
    let part1 := if ignoreCase then lib.toLower part else part
    .ok (.bool (part1.isPrefixOf s1)))))

/-- The implementation of `StartsWith` for the signature `S,L,BF`. -/
def StartsWithSLB (lib : GoLib) (args : List Value) : Res Value :=
  (argAt args 0).bind (fun a0 => (argAt args 1).bind (fun a1 => (argAt args 2).bind (fun a2 =>
    let s := toString lib a0
    let parts := toSlice a1
    let ignoreCase := toBool a2
    let s1 := if ignoreCase then lib.toLower s else s
    .ok (.bool (parts.any (fun partVal =>
      let part := toString lib partVal
      let part1 := if ignoreCase then lib.toLower part else part
      part1.isPrefixOf s1))))))

/-- Function `toInt`: the conversion `ToInt` with its error dropped; the value that comes
with an error is 0. -/
def toInt (d : Value) : Int :=
  match ToInt d with
  | .ok n => n
  | _ => 0

/-- Function `toIntSlice`. -/
def toIntSlice (l : List Value) : List Int := l.map toInt

/-- Function `toFloatSlice`. -/
def toFloatSlice (lib : GoLib) (l : List Value) : List Float64 := l.map (toFloat lib)

/-- Function `toStringSlice`. -/
def toStringSlice (lib : GoLib) (l : List Value) : List GoString := l.map (toString lib)

/-- Function `strings.Contains`: whether `substr` occurs in `s`. -/
def stringsContains (s substr : GoString) : Bool := s.tails.any (fun t => substr.isPrefixOf t)

/-- The implementation of `Contains` for the signature `S,S,B`. -/
def ContainsSSB (lib : GoLib) (args : List Value) : Res Value :=
  (argAt args 0).bind (fun a0 => (argAt args 1).bind (fun a1 => (argAt args 2).bind (fun a2 =>
    let haystack := toString lib a0
    let needle := toString lib a1
    let ignoreCase := toBool a2
    let haystack1 := if ignoreCase then lib.toLower haystack else haystack
    let needle1 := if ignoreCase then lib.toLower needle else needle
    .ok (.bool (stringsContains haystack1 needle1)))))

/-- The implementation of `Contains` for the signature `S,LS,BF,BF`. -/
def ContainsSLBB (lib : GoLib) (args : List Value) : Res Value :=
  (argAt args 0).bind (fun a0 => (argAt args 1).bind (fun a1 => (argAt args 2).bind (fun a2 =>
    (argAt args 3).bind (fun a3 =>
      let haystack := toString lib a0
      let needles := toSlice a1
      let ignoreCase := toBool a2
      let isAll := toBool a3
      let haystack1 := if ignoreCase then lib.toLower haystack else haystack
      let contained := needles.countP (fun needleVal =>
        let needle := toString lib needleVal
        let needle1 := if ignoreCase then lib.toLower needle else needle
        stringsContains haystack1 needle1)
      if isAll then .ok (.bool (contained == needles.length))
      else .ok (.bool (decide (contained > 0)))))))

/-- The lower-casing of an item in the implementation of `Contains` for lists: a `String`
is lowered when the case is ignored, any other item is kept. -/
def lowerItem (lib : GoLib) (ignoreCase : Bool) (item : Value) : Value :=
  match item with
  | .string x => if ignoreCase then .string (lib.toLower (toString lib (.string x))) else item
  | _ => item

/-- The implementation of `Contains` for the signature `L,L,BF,BF`: the number of items of
the first list that are deeply equal to some item of the second is compared with the
length of the second list. -/
def ContainsLLBB (lib : GoLib) (args : List Value) : Res Value :=
  (argAt args 0).bind (fun a0 => (argAt args 1).bind (fun a1 => (argAt args 2).bind (fun a2 =>
    (argAt args 3).bind (fun a3 =>
      let haystacks := toSlice a0
      let needles := toSlice a1
      let ignoreCase := toBool a2
      let isAll := toBool a3
      let contained := haystacks.countP (fun haystack =>
        needles.any (fun needle =>
          deepEqual (lowerItem lib ignoreCase haystack) (lowerItem lib ignoreCase needle)))
      if isAll then .ok (.bool (contained == needles.length))
      else .ok (.bool (decide (contained > 0)))))))

/-- The loop of `Distinct`: `seen` holds the items kept so far, in their order; an item is
kept when it is deeply equal (`reflect.DeepEqual`) to none of them. -/
def distinctLoop : List Value → List Value → List Value
  | seen, [] => seen
  | seen, item :: rest =>
    if seen.any (fun x => deepEqual item x) then distinctLoop seen rest
    else distinctLoop (seen ++ [item]) rest

/-- The implementation of `Distinct` for the signature `L`; the result is the nil slice
when nothing was kept. -/
def DistinctL (args : List Value) : Res Value :=
  (argAt args 0).bind (fun a0 =>
    let seen := distinctLoop [] (toSlice a0)
    .ok (.list seen.isEmpty seen))

/-- The implementation of `EndsWith` for the signature `S,S,BF`; `strings.HasSuffix` is
the test whether one byte string ends with another. -/
def EndsWithSSB (lib : GoLib) (args : List Value) : Res Value :=
  (argAt args 0).bind (fun a0 => (argAt args 1).bind (fun a1 => (argAt args 2).bind (fun a2 =>
    let s := toString lib a0
    let part := toString lib a1
    let ignoreCase := toBool a2
    let s1 := if ignoreCase then lib.toLower s else s
    let part1 := if ignoreCase then lib.toLower part else part
    .ok (.bool (part1.isSuffixOf s1)))))

/-- The implementation of `EndsWith` for the signature `S,L,BF`. -/
def EndsWithSLB (lib : GoLib) (args : List Value) : Res Value :=
  (argAt args 0).bind (fun a0 => (argAt args 1).bind (fun a1 => (argAt args 2).bind (fun a2 =>
    let s := toString lib a0
    let parts := toSlice a1
    let ignoreCase := toBool a2
    let s1 := if ignoreCase then lib.toLower s else s
    .ok (.bool (parts.any (fun partVal =>
      let part := toString lib partVal
      let part1 := if ignoreCase then lib.toLower part else part
      part1.isSuffixOf s1))))))

/-- The call `sort.Ints(x)`: the slice in increasing order. -/
def sortInts (x : List Int) : List Int := x.insertionSort (fun a b => a ≤ b)

/-- The call `sort.Strings(x)`: the slice in increasing order of the strings as byte
sequences. -/
def sortStrings (x : List GoString) : List GoString :=
  x.insertionSort (fun a b => stringsCompare a b ≤ 0)

/-- The loop `res = append(res, datatype.Char(item[0]))` of `Sort` over the sorted strings:
the first byte of each, and an abort at an empty string. -/
def firstBytes : List GoString → Res (List Value)
  | [] => .ok []
  | [] :: _ => boundsPanic
  | (b :: _) :: rest => (firstBytes rest).bind (fun res => .ok (.char b.val :: res))

/-- The implementation of `Sort` for the signature `L`: the type of the first item decides
how all items are converted and sorted. -/
def SortL (lib : GoLib) (args : List Value) : Res Value :=
  (argAt args 0).bind (fun a0 =>
    let l := toSlice a0
    match l with
    | [] => boundsPanic
    | first :: _ =>
      let t := first.DataType
      if t = str "String" then
        .ok (.list false ((sortStrings (toStringSlice lib l)).map Value.string))
      else if t = str "Char" then
        (firstBytes (sortStrings (toStringSlice lib l))).bind (fun res => .ok (.list false res))
      else if t = str "Int32" then
        .ok (.list false ((sortInts (toIntSlice l)).map Value.int))
      else if t = str "Double" then
        .ok (.list false ((lib.sortFloat64s (toFloatSlice lib l)).map Value.double))
      else errorf "Cannot sort  data type %s" [.str t])

/-- The entry `ToString` of `intrinsicMethods`: the method `ToString()` of the operand, and
an error for an operand without one (a `CommaList`). -/
def ToStringMethod (lib : GoLib) : intrinsicMethod :=
  ⟨fun eval pfe =>
    (GetUnaryOperand eval pfe).bind (fun r =>
      match r.1 with
      | .commaList _ => errorf "Could not convert %v to string" [.str r.1.DataType]
      | funcArg => (ToString lib funcArg).bind (fun x => .ok (.string x, r.2)))⟩

/-- The entries `Abs`, `Contains`, `Distinct`, `EndsWith`, `Interval`, `Sort`, `StartsWith`
and `ToString` of the variable `intrinsicMethods`, in the order of the source. The table of
the source has further entries. -/
def intrinsicMethods (lib : GoLib) : List (GoString × intrinsicMethod) :=
  [ (str "Abs", polyTypeCheckedMethod [(str "N", AbsN lib)]),
    (str "Contains", polyTypeCheckedMethod
      [(str "S,S,B", ContainsSSB lib), (str "S,LS,BF,BF", ContainsSLBB lib),
        (str "L,L,BF,BF", ContainsLLBB lib)]),
    (str "Distinct", polyTypeCheckedMethod [(str "L", DistinctL)]),
    (str "EndsWith", polyTypeCheckedMethod
      [(str "S,S,BF", EndsWithSSB lib), (str "S,L,BF", EndsWithSLB lib)]),
    (str "Interval", polyTypeCheckedMethod [(str "", IntervalNone)]),
    (str "Sort", polyTypeCheckedMethod [(str "L", SortL lib)]),
    (str "StartsWith", polyTypeCheckedMethod
      [(str "S,S,BF", StartsWithSSB lib), (str "S,L,BF", StartsWithSLB lib)]),
    (str "ToString", ToStringMethod lib) ]

/-- The tables of the program: the symbol table of `symbols.go` and the intrinsic methods
of `intrinsic.go`, for a library and a time at which the program started. -/
def programEnv (lib : GoLib) (today : Time) : Env :=
  ⟨lib, SymbolTable today, intrinsicMethods lib⟩

/-- The call of the intrinsic method `name` on one operand value: the evaluator pops the
method token, and the method reads the operand from the stream. -/
def callIntrinsic (env : Env) (name : GoString) (operand : Value) : Res Value :=
  (IntrinsicMethodOperator env (evaluatePostfix env 1) ⟨.intrinsicMethod, name⟩
    [.value operand]).bind (fun r => .ok r.1)

/-- The conversion of a value that is no `List` to the type named `dt`, as the second type
switch of the case `tokenizer.TypeCast` of `evaluatePostfix` has it; any other name
aborts. -/
def castValue (lib : GoLib) (dt : GoString) (v : Value) : Res Value :=
  if dt = str "String" then (ToString lib v).bind (fun c => .ok (.string c))
  else if dt = str "Bool" then (ToBool v).bind (fun c => .ok (.bool c))
  else if dt = str "Double" then (ToDouble lib v).bind (fun c => .ok (.double c))
  else if dt = str "Char" then (ToChar v).bind (fun c => .ok (.char c))
  else if dt = str "Int32" then (ToInt v).bind (fun c => .ok (.int c))
  else if dt = str "DateTime" then (ToDateTime lib v).bind (fun c => .ok (.dateTime c))
  else .panic (str "Can't convert to " ++ dt)

/-! ## Dispatch on signatures, in the words of the specification -/

/-- The type codes that `polyTypeCheckedMethod` supports. -/
def supportedCodes : List GoString :=
  [str "S", str "N", str "I", str "I0", str "I1", str "D", str "C", str "B", str "BT",
    str "BF", str "L", str "LS", str "LN"]

/-- Every supplied argument matches its positional type code. -/
def argsMatch : List GoString → List Value → Bool
  | _, [] => true
  | [], _ :: _ => false
  | t :: types, arg :: args => (typeCodeMatches t arg == some true) && argsMatch types args

/-- The defaults (0, 1, true, false) of the parameters beyond the supplied arguments that
carry one (`I0`, `I1`, `BT`, `BF`). -/
def trailingDefaults (types : List GoString) (args : List Value) : List Value :=
  (types.drop args.length).filterMap defaultArg

/-- A signature qualifies for the supplied arguments: every supplied argument matches its
positional type code and every parameter beyond the supplied ones carries a default. -/
def signatureQualifies (types : List GoString) (args : List Value) : Bool :=
  argsMatch types args && (types.drop args.length).all (fun code => (defaultArg code).isSome)

/-! ## The conditional expression of the specification -/

/-- The text `?(a>b:("yes","no"))` for two integers, negative ones written with a minus
sign. -/
def conditionalText (a b : Int) : GoString :=
  str "?(" ++ Itoa a ++ str ">" ++ Itoa b ++ str ":(\"yes\",\"no\"))"

/-! ## The textbook conversion, for comparison -/

/-- The textbook rule for an incoming token with a precedence, in the words of the
specification: while the stack is non-empty and the precedence of its top is greater than
or equal to the precedence of the incoming token, pop the top to the output. The result is
the output and the stack, before the incoming token is pushed. -/
def textbookPop (v : Token) : List Token → PostfixExpression → PostfixExpression × List Token
  | [], postFix => (postFix, [])
  | top :: rest, postFix =>
    if precedence top ≥ precedence v then textbookPop v rest (postFix ++ [.token top])
    else (postFix, top :: rest)

/-- One iteration of the textbook conversion: as `convertStep`, except that a token with a
precedence pops by the textbook rule. -/
def textbookStep (lib : GoLib) (postFix : PostfixExpression) (stack : List Token) (v : Token) :
    Res (PostfixExpression × List Token) :=
  if v.isLiteral ∨ v.tokenType = .openBracket ∨ v.tokenType = .closeBracket
      ∨ ¬ v.hasPrecedence then
    convertStep lib postFix stack v
  else
    let r := textbookPop v stack postFix
    .ok (r.1, v :: r.2)

/-- The textbook conversion of a token sequence. -/
def textbookLoop (lib : GoLib) :
    List Token → PostfixExpression → List Token → Res PostfixExpression
  | [], postFix, stack => (rewindStack none stack postFix).bind (fun r => .ok r.1)
  | v :: tokens, postFix, stack =>
    match textbookStep lib postFix stack v with
    | .ok (postFix1, stack1) => textbookLoop lib tokens postFix1 stack1
    | .error e => .error e
    | .panic m => .panic m
    | .outOfFuel => .outOfFuel

/-- The textbook shunting-yard conversion. -/
def textbookToPostfix (lib : GoLib) (tokens : List Token) : Res PostfixExpression :=
  textbookLoop lib tokens [] []

/-! ## The first occurrences of the values of a list, for comparison -/

/-- The items of a list that are deeply equal to no item before them, in the words of the
specification of `Distinct`: each value once, in the order of first occurrence. The first
argument holds the items already passed. -/
def firstOccurrencesFrom : List Value → List Value → List Value
  | _, [] => []
  | earlier, x :: rest =>
    if earlier.any (fun e => deepEqual x e) then firstOccurrencesFrom (earlier ++ [x]) rest
    else x :: firstOccurrencesFrom (earlier ++ [x]) rest

/-- The first occurrences of the values of a list. -/
def firstOccurrences (l : List Value) : List Value := firstOccurrencesFrom [] l

/-! ## The signatures of the registry (`intrinsic.go`) -/

/-- The methods that `init` registers through `polyTypeCheckedMethod`, in the order of the
source: the name of each method with the type strings of its overloads. (`ToString` is
registered as an `intrinsicMethodFunc` and has no type string.) -/
def registrySignatures : List (GoString × List GoString) :=
  [ (str "Abs", [str "N"]),
    (str "AddQuotes", [str "S,BF"]),
    (str "Apy", [str "N,N"]),
    (str "Avg", [str "LN"]),
    (str "Contains", [str "S,S,B", str "S,LS,BF,BF", str "L,L,BF,BF"]),
    (str "Distinct", [str "L"]),
    (str "Dpr", [str "N,I0"]),
    (str "EndsWith", [str "S,S,BF", str "S,L,BF"]),
    (str "In", [str "S,LS,BF", str "L,L,BF,BF"]),
    (str "IndexOf", [str "S,S,I0,BF", str "S,LS,I0,BF"]),
    (str "Interval", [str ""]),
    (str "JsonSelect", [str "S,S"]),
    (str "GetWebPage", [str "S,S"]),
    (str "Length", [str "S", str "L"]),
    (str "Matches", [str "S,S"]),
    (str "Max", [str "LN"]),
    (str "Med", [str "LN"]),
    (str "Min", [str "LN"]),
    (str "Piece", [str "S,S,I0,I0"]),
    (str "Pow", [str "N,N"]),
    (str "Pv", [str "N,N,I1"]),
    (str "Pva", [str "N,N,I1"]),
    (str "Replace", [str "S,S,S"]),
    (str "ShowTokens", [str "S"]),
    (str "Split", [str "S,C"]),
    (str "Sort", [str "L"]),
    (str "StartsWith", [str "S,S,BF", str "S,L,BF"]),
    (str "StripQuotes", [str "S"]),
    (str "ToUpper", [str "S"]),
    (str "Translate", [str "S,S,S"]) ]

/-- Dispatch in the words of the specification: the first signature that qualifies for
the arguments as they were supplied is invoked, with those arguments followed by the
defaults of its remaining parameters; when none qualifies, the error lists the
signatures. No signature sees what an earlier one appended. -/
def dispatchOriginal :
    List (GoString × (List Value → Res Value)) → List Value → GoString → Res Value
  | [], _, unmatchedTypes =>
    .error ⟨str "Intrinsic method only accepts arguments of signatures: %s",
      [.str unmatchedTypes]⟩
  | (typeString, f) :: tf, args, unmatchedTypes =>
    if signatureQualifies (splitOnComma typeString) args then
      f (args ++ trailingDefaults (splitOnComma typeString) args)
    else dispatchOriginal tf args (unmatchedTypes ++ str " " ++ typeString)

/-! ## Operators applied from left to right, for comparison -/

/-- The operator of the token `op` on the left operand `a` and the right operand `b`: the
evaluation of the stream `a b op`. -/
def applyBinary (env : Env) (op : Token) (a b : Value) : Res Value :=
  (evaluatePostfix env 2 [.token op, .value b, .value a]).bind (fun r => .ok r.1)

/-- The value of `v op1 w1 op2 w2 ...` when the operators are applied left-associatively
in the order of the source. -/
def leftAssoc (env : Env) : Value → List (Token × Value) → Res Value
  | v, [] => .ok v
  | v, (op, w) :: rest => (applyBinary env op v w).bind (fun r => leftAssoc env r rest)

/-! ## The shape of the operators of the evaluator -/

/-- What an operator returns once its operands are read from the stream: the value
computed from the operands together with the rest of the stream that reading them left;
when reading the operands returned an error, the error that the operator makes of it. -/
def finishOperator {α : Type} (operands : Res (α × List PostfixElem))
    (compute : α → Res Value) (wrap : GoError → GoError) : Res (Value × List PostfixElem) :=
  match operands with
  | .ok (a, rest) => (compute a).bind (fun d => .ok (d, rest))
  | .error e => .error (wrap e)
  | .panic m => .panic m
  | .outOfFuel => .outOfFuel

/-! # Theorems -/

/-! ## Aborts, precedence and brackets -/

/-- C1 (failing input). The cast of the empty string to `Char`, `<C>""`, is neither a value
nor a returned error: `String.ToChar` indexes byte 0 of the empty string and the evaluation
aborts, whatever the symbol table, the registry and the library are. -/
theorem C1_cast_of_empty_string_aborts (env : Env) :
    Tokenize (str "<C>\"\"") = some ([⟨.typeCast, str "<C>"⟩, ⟨.string, str "\"\""⟩], none)
    ∧ Evaluate env [⟨.typeCast, str "<C>"⟩, ⟨.string, str "\"\""⟩]
        = .panic (str "runtime error: index out of range")
    ∧ expressionEval env (str "<C>\"\"") = some (.panic (str "runtime error: index out of range")) := by
  refine ⟨?_, ?_, ?_⟩ <;> rfl

set_option maxRecDepth 4000 in
/-- C2 (failing input). On `1-2*3+4` the conversion of the source pops a single operator
at `+` and yields `1 2 3 * 4 + -`, while the textbook conversion yields `1 2 3 * - 4 +`; the
expression evaluates to -9, whereas the textbook stream (read from its last element)
evaluates to -1. -/
theorem C2_single_pop_differs_from_textbook (env : Env) :
    convertToPostfix env.lib [⟨.integer, str "1"⟩, ⟨.arithmeticOperator, str "-"⟩,
        ⟨.integer, str "2"⟩, ⟨.arithmeticOperator, str "*"⟩, ⟨.integer, str "3"⟩,
        ⟨.arithmeticOperator, str "+"⟩, ⟨.integer, str "4"⟩]
      = .ok [.value (.int 1), .value (.int 2), .value (.int 3),
          .token ⟨.arithmeticOperator, str "*"⟩, .value (.int 4),
          .token ⟨.arithmeticOperator, str "+"⟩, .token ⟨.arithmeticOperator, str "-"⟩]
    ∧ textbookToPostfix env.lib [⟨.integer, str "1"⟩, ⟨.arithmeticOperator, str "-"⟩,
        ⟨.integer, str "2"⟩, ⟨.arithmeticOperator, str "*"⟩, ⟨.integer, str "3"⟩,
        ⟨.arithmeticOperator, str "+"⟩, ⟨.integer, str "4"⟩]
      = .ok [.value (.int 1), .value (.int 2), .value (.int 3),
          .token ⟨.arithmeticOperator, str "*"⟩, .token ⟨.arithmeticOperator, str "-"⟩,
          .value (.int 4), .token ⟨.arithmeticOperator, str "+"⟩]
    ∧ expressionEval env (str "1-2*3+4") = some (.ok (.double (Float64.ofInt (-9))))
    ∧ evaluatePostfix env 8 [.token ⟨.arithmeticOperator, str "+"⟩, .value (.int 4),
        .token ⟨.arithmeticOperator, str "-"⟩, .token ⟨.arithmeticOperator, str "*"⟩,
        .value (.int 3), .value (.int 2), .value (.int 1)]
      = .ok (.double (Float64.ofInt (-1)), []) := by
  refine ⟨?_, ?_, ?_, ?_⟩ <;> rfl

set_option maxRecDepth 4000 in
/-- C3 (failing inputs). Unbalanced brackets are no error of `convertToPostfix`: for `(1]`
it returns the stream `1 Listify`, for `(1+2` the stream `1 2 +`, for `1)` the stream `1`;
the three texts evaluate to the list `[1]`, to 3 and to 1. -/
theorem C3_unbalanced_brackets_are_accepted (env : Env) :
    convertToPostfix env.lib [⟨.openBracket, str "("⟩, ⟨.integer, str "1"⟩,
        ⟨.closeBracket, str "]"⟩] = .ok [.value (.int 1), .Listify]
    ∧ convertToPostfix env.lib [⟨.openBracket, str "("⟩, ⟨.integer, str "1"⟩,
        ⟨.arithmeticOperator, str "+"⟩, ⟨.integer, str "2"⟩]
      = .ok [.value (.int 1), .value (.int 2), .token ⟨.arithmeticOperator, str "+"⟩]
    ∧ convertToPostfix env.lib [⟨.integer, str "1"⟩, ⟨.closeBracket, str ")"⟩]
      = .ok [.value (.int 1)]
    ∧ expressionEval env (str "(1]") = some (.ok (.list false [.int 1]))
    ∧ expressionEval env (str "(1+2") = some (.ok (.double (Float64.ofInt 3)))
    ∧ expressionEval env (str "1)") = some (.ok (.int 1)) := by
  refine ⟨?_, ?_, ?_, ?_, ?_, ?_⟩ <;> rfl

/-- C4 (counterexample). The precedence of the modulo operator `#` is 20, not 10, and the
list-intersect operator `^`, which is no key of the table, has precedence 0, not 20. -/
theorem C4_modulo_precedence_is_not_ten :
    precedence ⟨.arithmeticOperator, str "#"⟩ ≠ 10
    ∧ precedence ⟨.arithmeticOperator, str "^"⟩ ≠ 20 := by
  decide!

/-- C4 (amended). The precedence function assigns: open bracket 1, colon 2, comma 3, `+` and
`-` 7, `*` and `/` 10, `#` 20, intrinsic-method call and question 50, symbol 70, type-cast
100 (whatever the text of a bracket, colon, comma, method, question, symbol or cast). -/
theorem C4_precedence_table (text : GoString) :
    precedence ⟨.openBracket, text⟩ = 1
    ∧ precedence ⟨.colon, text⟩ = 2
    ∧ precedence ⟨.comma, text⟩ = 3
    ∧ precedence ⟨.arithmeticOperator, str "+"⟩ = 7
    ∧ precedence ⟨.arithmeticOperator, str "-"⟩ = 7
    ∧ precedence ⟨.arithmeticOperator, str "*"⟩ = 10
    ∧ precedence ⟨.arithmeticOperator, str "/"⟩ = 10
    ∧ precedence ⟨.arithmeticOperator, str "#"⟩ = 20
    ∧ precedence ⟨.intrinsicMethod, text⟩ = 50
    ∧ precedence ⟨.question, text⟩ = 50
    ∧ precedence ⟨.symbol, text⟩ = 70
    ∧ precedence ⟨.typeCast, text⟩ = 100 := by
  refine ⟨?_, ?_, ?_, ?_, ?_, ?_, ?_, ?_, ?_, ?_, ?_, ?_⟩ <;> rfl

/-! ## Sign disambiguation and symbols -/

/-- C6 (failing input). At the start of `-5.5` the patterns `-`, double and integer all
match, three tokens and not two, so the unary-minus rule does not apply: `Tokenize` emits
the operator `-` followed by the literal `5.5`, and the text does not evaluate. With an
integer the rule applies: `-5` is one token. -/
theorem C6_signed_double_is_split (env : Env) :
    Tokenize (str "-5.5")
      = some ([⟨.arithmeticOperator, str "-"⟩, ⟨.double, str "5.5"⟩], none)
    ∧ tokenPats.filterMap (fun tp => tp.Match (str "-5.5"))
      = [⟨.arithmeticOperator, str "-"⟩, ⟨.double, str "-5.5"⟩, ⟨.integer, str "-5"⟩]
    ∧ expressionEval env (str "-5.5")
      = some (errorf "Could not get operands for %v"
          [.token (some ⟨.arithmeticOperator, str "-"⟩)])
    ∧ Tokenize (str "-5") = some ([⟨.integer, str "-5"⟩], none) := by
  refine ⟨?_, ?_, ?_, ?_⟩ <;> rfl

/-- C9 (failing input). The pattern of intrinsic methods comes before the pattern of symbols
and matches every identifier: `MyInt` is lexed as an intrinsic-method token, not as a symbol,
and evaluates to the error that no such method exists although the symbol table has the
name; `Math.PI` is not lexed at all, `Tokenize` fails at `.PI`. -/
theorem C9_symbols_are_lexed_as_methods (env : Env)
    (_hsym : env.SymbolTable.lookup (str "MyInt") = some (.value (.int 100)))
    (hmeth : env.intrinsicMethods.lookup (str "MyInt") = none) :
    Tokenize (str "MyInt") = some ([⟨.intrinsicMethod, str "MyInt"⟩], none)
    ∧ expressionEval env (str "MyInt")
      = some (errorf "Method %s does not exist" [.str (str "MyInt")])
    ∧ Tokenize (str "Math.PI")
      = some ([⟨.intrinsicMethod, str "Math"⟩],
          some ⟨str "Could not find a token starting at: %s", [.str (str ".PI")]⟩)
    ∧ expressionEval env (str "Math.PI") = none := by
  have h : expressionEval env (str "MyInt")
      = some (((GetIntrinsicMethod env (str "MyInt")).bind
          (fun im => im.ExecuteMethod (evaluatePostfix env 1) [])).bind
            (fun r => .ok r.1)) := rfl
  refine ⟨rfl, ?_, rfl, rfl⟩
  rw [h]
  unfold GetIntrinsicMethod
  rw [hmeth]
  rfl

/-- Witness of C9 for the symbol table of `symbols.go` and an empty registry. -/
theorem C9_symbols_are_lexed_as_methods_witness :
    symbolsOnlyEnv.SymbolTable.lookup (str "MyInt") = some (.value (.int 100))
    ∧ expressionEval symbolsOnlyEnv (str "MyInt")
      = some (errorf "Method %s does not exist" [.str (str "MyInt")]) :=
  ⟨rfl, (C9_symbols_are_lexed_as_methods symbolsOnlyEnv rfl rfl).2.1⟩

theorem dropLit_suffix : ∀ (w s s1 : GoString), dropLit w s = some s1 → s1 <:+ s
  | [], s, s1, h => by
    simp only [dropLit, Option.some.injEq] at h
    subst h
    exact List.suffix_refl _
  | _ :: _, [], s1, h => by simp [dropLit] at h
  | c :: w, d :: s, s1, h => by
    simp only [dropLit] at h
    split at h
    · exact (dropLit_suffix w s s1 h).trans (List.suffix_cons d s)
    · cases h

theorem starLoop_eq_none (step : GoString → (GoString → Option GoString) → Option GoString)
    (hstep : ∀ s k, (∀ t, t <:+ s → k t = none) → step s k = none) :
    ∀ (fuel : Nat) (s : GoString) (k : GoString → Option GoString),
      (∀ t, t <:+ s → k t = none) → starLoop step fuel s k = none
  | 0, s, k, h => by simpa [starLoop] using h s (List.suffix_refl _)
  | fuel + 1, s, k, h => by
    have h1 : step s (fun s1 => starLoop step fuel s1 k) = none :=
      hstep s _ (fun t ht =>
        starLoop_eq_none step hstep fuel t k (fun u hu => h u (hu.trans ht)))
    simp [starLoop, h1, h s (List.suffix_refl _)]

/-- A match hands only suffixes of the input to its continuation: if the continuation
fails on all of them, there is no match. -/
theorem Regex.run_eq_none : ∀ (r : Regex) (s : GoString) (k : GoString → Option GoString),
    (∀ t, t <:+ s → k t = none) → r.run s k = none
  | .empty, s, k, h => by simpa [Regex.run] using h s (List.suffix_refl _)
  | .cls p, [], k, _ => by simp [Regex.run]
  | .cls p, c :: s, k, h => by
    simp only [Regex.run]
    split
    · exact h s (List.suffix_cons c s)
    · rfl
  | .notByte b, [], k, _ => by simp [Regex.run]
  | .notByte b, c :: s, k, h => by
    simp only [Regex.run]
    split
    · rfl
    · exact h _ (List.drop_suffix _ _)
  | .lit w, s, k, h => by
    simp only [Regex.run]
    split
    · next s1 hs => exact h s1 (dropLit_suffix w s s1 hs)
    · rfl
  | .seq a b, s, k, h => by
    simp only [Regex.run]
    exact Regex.run_eq_none a s _ (fun t ht =>
      Regex.run_eq_none b t k (fun u hu => h u (hu.trans ht)))
  | .alt a b, s, k, h => by
    simp only [Regex.run]
    rw [Regex.run_eq_none a s k h, Regex.run_eq_none b s k h]
  | .star a, s, k, h => by
    simp only [Regex.run]
    exact starLoop_eq_none a.run (fun s1 k1 h1 => Regex.run_eq_none a s1 k1 h1) _ s k h

/-- No match at a first byte that the expression cannot start with. -/
theorem Regex.run_eq_none_of_canStartWith : ∀ (r : Regex) (c : Byte) (s : GoString)
    (k : GoString → Option GoString), r.canStartWith c = false → r.run (c :: s) k = none
  | .empty, c, s, k, h => by simp [Regex.canStartWith] at h
  | .cls p, c, s, k, h => by
    simp only [Regex.canStartWith] at h
    simp [Regex.run, h]
  | .notByte b, c, s, k, h => by
    simp only [Regex.canStartWith, decide_eq_false_iff_not, not_not] at h
    simp [Regex.run, h]
  | .lit [], c, s, k, h => by simp [Regex.canStartWith] at h
  | .lit (x :: w), c, s, k, h => by
    simp only [Regex.canStartWith, decide_eq_false_iff_not] at h
    simp [Regex.run, dropLit, h]
  | .seq a b, c, s, k, h => by
    simp only [Regex.canStartWith] at h
    simp only [Regex.run]
    exact Regex.run_eq_none_of_canStartWith a c s _ h
  | .alt a b, c, s, k, h => by
    simp only [Regex.canStartWith, Bool.or_eq_false_iff] at h
    simp only [Regex.run]
    rw [Regex.run_eq_none_of_canStartWith a c s k h.1,
      Regex.run_eq_none_of_canStartWith b c s k h.2]
  | .star a, c, s, k, h => by simp [Regex.canStartWith] at h

theorem Match_eq_none_of_run (tp : tokenPat) (s : GoString) (h : tp.pat.run s some = none) :
    tp.Match s = none := by
  simp [tokenPat.Match, Regex.FindString, h]

theorem filterMap_Match_eq_nil (l : List tokenPat) (c : Byte) (s : GoString)
    (h : l.all (fun tp => !tp.pat.canStartWith c) = true) :
    l.filterMap (fun tp => tp.Match (c :: s)) = [] := by
  rw [List.filterMap_eq_nil_iff]
  intro tp htp
  rw [List.all_eq_true] at h
  have := h tp htp
  simp only [Bool.not_eq_true'] at this
  exact Match_eq_none_of_run tp _ (Regex.run_eq_none_of_canStartWith _ c s some this)


/-- A property checked on all 256 bytes holds for every byte. -/
theorem byte_forall (P : Byte → Bool)
    (h : (List.range 256).all (fun n => P (Fin.ofNat n)) = true) (c : Byte) : P c = true := by
  rw [List.all_eq_true] at h
  have := h c.val (List.mem_range.mpr c.isLt)
  have hc : (Fin.ofNat c.val : Byte) = c := by
    apply Fin.ext
    simp [Fin.ofNat, Nat.mod_eq_of_lt c.isLt]
  rwa [hc] at this

theorem starLoop_cls_some (p : Byte → Bool) (rest : GoString)
    (hrest : ∀ c r, rest = c :: r → p c = false) :
    ∀ (ds : GoString) (fuel : Nat), (∀ c ∈ ds, p c = true) → ds.length ≤ fuel →
      starLoop (Regex.cls p).run fuel (ds ++ rest) some = some rest
  | [], 0, _, _ => by simp [starLoop]
  | [], fuel + 1, _, _ => by
    cases rest with
    | nil => simp [starLoop, Regex.run]
    | cons c r => simp [starLoop, Regex.run, hrest c r rfl]
  | d :: ds, 0, _, hlen => by simp at hlen
  | d :: ds, fuel + 1, hds, hlen => by
    have hd : p d = true := hds d (List.mem_cons_self _ _)
    have ih := starLoop_cls_some p rest hrest ds fuel
      (fun c hc => hds c (List.mem_cons_of_mem _ hc)) (by simpa using hlen)
    simp [starLoop, Regex.run, hd, ih]

theorem take_length_sub (pre rest : GoString) :
    (pre ++ rest).take ((pre ++ rest).length - rest.length) = pre := by
  simp

/-- The integer pattern `[+-]?[0-9]+`. -/
theorem integer_run_digits (d : Byte) (ds rest : GoString) (hd : isDigit d = true)
    (hds : ∀ c ∈ ds, isDigit c = true) (hrest : ∀ c r, rest = c :: r → isDigit c = false) :
    (Regex.seq (Regex.opt (.cls isSign)) (Regex.plus (.cls isDigit))).run
      (d :: ds ++ rest) some = some rest := by
  have hsign : isSign d = false := by
    have := byte_forall (fun c => !isDigit c || !isSign c) (by decide!) d
    simpa [hd] using this
  have hloop := starLoop_cls_some isDigit rest hrest ds (ds.length + rest.length) hds (by simp)
  simp [Regex.run, Regex.opt, Regex.plus, hsign, hd, hloop]

theorem integer_run_minus_digits (d : Byte) (ds rest : GoString) (hd : isDigit d = true)
    (hds : ∀ c ∈ ds, isDigit c = true) (hrest : ∀ c r, rest = c :: r → isDigit c = false) :
    (Regex.seq (Regex.opt (.cls isSign)) (Regex.plus (.cls isDigit))).run
      (45 :: d :: ds ++ rest) some = some rest := by
  have hloop := starLoop_cls_some isDigit rest hrest ds (ds.length + rest.length) hds (by simp)
  have h45 : isSign 45 = true := by decide
  simp [Regex.run, Regex.opt, Regex.plus, h45, hd, hloop]

/-- The double pattern `[+-]?[0-9]+\.[0-9]+` needs a dot. -/
theorem double_run_no_dot (s : GoString) (h : (46 : Byte) ∉ s) :
    (Regex.seq (Regex.opt (.cls isSign)) (.seq (Regex.plus (.cls isDigit))
        (.seq (Regex.text ".") (Regex.plus (.cls isDigit))))).run s some = none := by
  have hk : ∀ t, t <:+ s →
      (fun s2 => (Regex.seq (Regex.text ".") (Regex.plus (.cls isDigit))).run s2 some) t
        = none := by
    intro t ht
    cases t with
    | nil => rfl
    | cons c r =>
      have hc : c ≠ 46 := fun hc => h (hc ▸ ht.subset (List.mem_cons_self _ _))
      apply Regex.run_eq_none_of_canStartWith
      simp only [Regex.canStartWith, Regex.text]
      simpa [str, encodeRune] using fun h46 : (46 : Byte) = c => hc h46.symm
  have := Regex.run_eq_none (Regex.seq (Regex.opt (.cls isSign)) (Regex.plus (.cls isDigit)))
    s _ hk
  simpa [Regex.run] using this

theorem Match_of_run (tp : tokenPat) (pre rest : GoString)
    (h : tp.pat.run (pre ++ rest) some = some rest) (hne : pre ≠ []) :
    tp.Match (pre ++ rest) = some ⟨tp.tokenType, pre⟩ := by
  simp [tokenPat.Match, Regex.FindString, h, hne]

theorem isDigit_digitByte (n : Nat) : isDigit (digitByte n) = true := by
  simp [isDigit, digitByte]
  omega

theorem natDigitsAux_digits : ∀ (fuel n : Nat) (acc : GoString),
    (∀ c ∈ acc, isDigit c = true) → ∀ c ∈ natDigitsAux fuel n acc, isDigit c = true
  | 0, _, acc, h => by simpa [natDigitsAux] using h
  | fuel + 1, n, acc, h => by
    have hacc : ∀ c ∈ digitByte n :: acc, isDigit c = true := by
      intro c hc
      rcases List.mem_cons.mp hc with rfl | hc
      · exact isDigit_digitByte n
      · exact h c hc
    simp only [natDigitsAux]
    split
    · exact hacc
    · exact natDigitsAux_digits fuel (n / 10) _ hacc

theorem natDigitsAux_ne_nil : ∀ (fuel n : Nat) (acc : GoString),
    (fuel = 0 → acc ≠ []) → natDigitsAux fuel n acc ≠ []
  | 0, _, acc, h => by simpa [natDigitsAux] using h rfl
  | fuel + 1, n, acc, _ => by
    simp only [natDigitsAux]
    split
    · simp
    · exact natDigitsAux_ne_nil fuel (n / 10) _ (fun _ => by simp)

theorem natToDecimal_digits (n : Nat) : ∀ c ∈ natToDecimal n, isDigit c = true :=
  natDigitsAux_digits (n + 1) n [] (by simp)

theorem natToDecimal_ne_nil (n : Nat) : natToDecimal n ≠ [] :=
  natDigitsAux_ne_nil (n + 1) n [] (by simp)

/-- The decimal digits of a number: a first digit and further digits. -/
theorem natToDecimal_cons (n : Nat) :
    ∃ d ds, natToDecimal n = d :: ds ∧ isDigit d = true ∧ ∀ c ∈ ds, isDigit c = true := by
  have hne := natToDecimal_ne_nil n
  have hd := natToDecimal_digits n
  cases h : natToDecimal n with
  | nil => exact absurd h hne
  | cons d ds =>
    rw [h] at hd
    exact ⟨d, ds, rfl, hd d (List.mem_cons_self _ _),
      fun c hc => hd c (List.mem_cons_of_mem _ hc)⟩

theorem isDigit_ne (c b : Byte) (hc : isDigit c = true) (hb : isDigit b = false) : c ≠ b := by
  intro h
  rw [h, hb] at hc
  cases hc

/-! ## The tokens matched at the start of a number or an operator -/

theorem tokenPats_split_numbers :
    tokenPats = tokenPats.take 29 ++
      [⟨.seq (Regex.opt (.cls isSign)) (.seq (Regex.plus (.cls isDigit))
          (.seq (Regex.text ".") (Regex.plus (.cls isDigit)))), .double⟩,
       ⟨.seq (Regex.opt (.cls isSign)) (Regex.plus (.cls isDigit)), .integer⟩]
      ++ tokenPats.drop 31 := rfl

/-- At the start of a run of digits that no dot follows, only the integer pattern matches. -/
theorem matched_digits (d : Byte) (ds rest : GoString) (hd : isDigit d = true)
    (hds : ∀ c ∈ ds, isDigit c = true) (hrest : ∀ c r, rest = c :: r → isDigit c = false)
    (hdot : (46 : Byte) ∉ rest) :
    tokenPats.filterMap (fun tp => tp.Match (d :: ds ++ rest)) = [⟨.integer, d :: ds⟩] := by
  have hno : (46 : Byte) ∉ d :: ds ++ rest := by
    intro h
    rcases List.mem_append.mp h with h | h
    · have : isDigit 46 = true := by
        rcases List.mem_cons.mp h with h | h
        · exact h ▸ hd
        · exact hds _ h
      exact absurd this (by decide)
    · exact hdot h
  have h1 : (tokenPats.take 29).filterMap (fun tp => tp.Match (d :: (ds ++ rest))) = [] := by
    apply filterMap_Match_eq_nil
    have := byte_forall
      (fun c => !isDigit c || (tokenPats.take 29).all (fun tp => !tp.pat.canStartWith c))
      (by decide!) d
    simpa [hd] using this
  have h2 : (tokenPats.drop 31).filterMap (fun tp => tp.Match (d :: (ds ++ rest))) = [] := by
    apply filterMap_Match_eq_nil
    have := byte_forall
      (fun c => !isDigit c || (tokenPats.drop 31).all (fun tp => !tp.pat.canStartWith c))
      (by decide!) d
    simpa [hd] using this
  have h3 := Match_eq_none_of_run
    ⟨.seq (Regex.opt (.cls isSign)) (.seq (Regex.plus (.cls isDigit))
      (.seq (Regex.text ".") (Regex.plus (.cls isDigit)))), .double⟩ _
    (double_run_no_dot (d :: ds ++ rest) hno)
  have h4 := Match_of_run ⟨.seq (Regex.opt (.cls isSign)) (Regex.plus (.cls isDigit)), .integer⟩
    (d :: ds) rest (integer_run_digits d ds rest hd hds hrest) (by simp)
  rw [tokenPats_split_numbers]
  simp only [List.filterMap_append, List.filterMap_cons, List.filterMap_nil, List.cons_append] at h1 h2 h3 h4 ⊢
  rw [h1, h2, h3, h4]
  rfl

theorem tokenPats_split_minus_numbers :
    tokenPats = tokenPats.take 5 ++ [⟨Regex.text "-", .arithmeticOperator⟩]
      ++ (tokenPats.drop 6).take 23 ++
      [⟨.seq (Regex.opt (.cls isSign)) (.seq (Regex.plus (.cls isDigit))
          (.seq (Regex.text ".") (Regex.plus (.cls isDigit)))), .double⟩,
       ⟨.seq (Regex.opt (.cls isSign)) (Regex.plus (.cls isDigit)), .integer⟩]
      ++ tokenPats.drop 31 := rfl

theorem Match_text_minus (s : GoString) :
    tokenPat.Match ⟨Regex.text "-", .arithmeticOperator⟩ (45 :: s)
      = some ⟨.arithmeticOperator, str "-"⟩ :=
  Match_of_run ⟨Regex.text "-", .arithmeticOperator⟩ [45] s rfl (by simp)

/-- At a minus sign in front of a run of digits that no dot follows, exactly the operator
pattern and the integer pattern match. -/
theorem matched_minus_digits (d : Byte) (ds rest : GoString) (hd : isDigit d = true)
    (hds : ∀ c ∈ ds, isDigit c = true) (hrest : ∀ c r, rest = c :: r → isDigit c = false)
    (hdot : (46 : Byte) ∉ rest) :
    tokenPats.filterMap (fun tp => tp.Match (45 :: d :: ds ++ rest))
      = [⟨.arithmeticOperator, str "-"⟩, ⟨.integer, 45 :: d :: ds⟩] := by
  have hno : (46 : Byte) ∉ 45 :: d :: ds ++ rest := by
    intro h
    rcases List.mem_append.mp h with h | h
    · have : isDigit 46 = true := by
        rcases List.mem_cons.mp h with h | h
        · exact absurd h (by decide)
        · rcases List.mem_cons.mp h with h | h
          · exact h ▸ hd
          · exact hds _ h
      exact absurd this (by decide)
    · exact hdot h
  have h1 : (tokenPats.take 5).filterMap (fun tp => tp.Match (45 :: (d :: (ds ++ rest)))) = [] :=
    filterMap_Match_eq_nil _ 45 _ (by decide!)
  have h2 : ((tokenPats.drop 6).take 23).filterMap
      (fun tp => tp.Match (45 :: (d :: (ds ++ rest)))) = [] :=
    filterMap_Match_eq_nil _ 45 _ (by decide!)
  have h3 : (tokenPats.drop 31).filterMap
      (fun tp => tp.Match (45 :: (d :: (ds ++ rest)))) = [] :=
    filterMap_Match_eq_nil _ 45 _ (by decide!)
  have h4 := Match_eq_none_of_run
    ⟨.seq (Regex.opt (.cls isSign)) (.seq (Regex.plus (.cls isDigit))
      (.seq (Regex.text ".") (Regex.plus (.cls isDigit)))), .double⟩ _
    (double_run_no_dot (45 :: d :: ds ++ rest) hno)
  have h5 := Match_of_run ⟨.seq (Regex.opt (.cls isSign)) (Regex.plus (.cls isDigit)), .integer⟩
    (45 :: d :: ds) rest (integer_run_minus_digits d ds rest hd hds hrest) (by simp)
  have h6 := Match_text_minus (d :: (ds ++ rest))
  rw [tokenPats_split_minus_numbers]
  simp only [List.filterMap_append, List.filterMap_cons, List.filterMap_nil, List.cons_append,
    List.append_assoc] at h1 h2 h3 h4 h5 h6 ⊢
  rw [h1, h2, h3, h4, h5, h6]
  rfl

/-- At a minus sign the first matched token is the operator. -/
theorem matched_minus (s : GoString) :
    ∃ tl, tokenPats.filterMap (fun tp => tp.Match (45 :: s))
      = ⟨.arithmeticOperator, str "-"⟩ :: tl := by
  have hsplit : tokenPats = tokenPats.take 5 ++ ⟨Regex.text "-", .arithmeticOperator⟩
      :: tokenPats.drop 6 := rfl
  have h1 : (tokenPats.take 5).filterMap (fun tp => tp.Match (45 :: s)) = [] :=
    filterMap_Match_eq_nil _ 45 _ (by decide!)
  refine ⟨(tokenPats.drop 6).filterMap (fun tp => tp.Match (45 :: s)), ?_⟩
  rw [hsplit, List.filterMap_append, h1, List.filterMap_cons, Match_text_minus]
  rfl

/-- At a plus sign the first matched token is the operator. -/
theorem matched_plus (s : GoString) :
    ∃ tl, tokenPats.filterMap (fun tp => tp.Match (43 :: s))
      = ⟨.arithmeticOperator, str "+"⟩ :: tl := by
  have hsplit : tokenPats = tokenPats.take 4 ++ ⟨Regex.text "+", .arithmeticOperator⟩
      :: tokenPats.drop 5 := rfl
  have h1 : (tokenPats.take 4).filterMap (fun tp => tp.Match (43 :: s)) = [] :=
    filterMap_Match_eq_nil _ 43 _ (by decide!)
  have h2 : tokenPat.Match ⟨Regex.text "+", .arithmeticOperator⟩ (43 :: s)
      = some ⟨.arithmeticOperator, str "+"⟩ :=
    Match_of_run ⟨Regex.text "+", .arithmeticOperator⟩ [43] s rfl (by simp)
  refine ⟨(tokenPats.drop 5).filterMap (fun tp => tp.Match (43 :: s)), ?_⟩
  rw [hsplit, List.filterMap_append, h1, List.filterMap_cons, h2]
  rfl

/-- At an asterisk the first matched token is the operator. -/
theorem matched_star (s : GoString) :
    ∃ tl, tokenPats.filterMap (fun tp => tp.Match (42 :: s))
      = ⟨.arithmeticOperator, str "*"⟩ :: tl := by
  have hsplit : tokenPats = tokenPats.take 6 ++ ⟨Regex.text "*", .arithmeticOperator⟩
      :: tokenPats.drop 7 := rfl
  have h1 : (tokenPats.take 6).filterMap (fun tp => tp.Match (42 :: s)) = [] :=
    filterMap_Match_eq_nil _ 42 _ (by decide!)
  have h2 : tokenPat.Match ⟨Regex.text "*", .arithmeticOperator⟩ (42 :: s)
      = some ⟨.arithmeticOperator, str "*"⟩ :=
    Match_of_run ⟨Regex.text "*", .arithmeticOperator⟩ [42] s rfl (by simp)
  refine ⟨(tokenPats.drop 7).filterMap (fun tp => tp.Match (42 :: s)), ?_⟩
  rw [hsplit, List.filterMap_append, h1, List.filterMap_cons, h2]
  rfl

/-! ## The choice among the matched tokens -/

theorem chooseToken_of_ne_minus (tokens matched : List Token) (first : Token)
    (h : first.text ≠ str "-") : chooseToken tokens matched first = first := by
  simp [chooseToken, h]

theorem chooseToken_unary (tokens : List Token) (text : GoString)
    (h : tokens.getLast? = none ∨ ∃ last, tokens.getLast? = some last
      ∧ precedesUnaryMinus last = true) :
    chooseToken tokens [⟨.arithmeticOperator, str "-"⟩, ⟨.integer, text⟩]
      ⟨.arithmeticOperator, str "-"⟩ = ⟨.integer, text⟩ := by
  rcases h with h | ⟨last, h, hl⟩
  · simp [chooseToken, h]
  · simp [chooseToken, h, hl]

theorem chooseToken_binary (tokens matched : List Token) (first last : Token)
    (h : tokens.getLast? = some last) (hl : precedesUnaryMinus last = false) :
    chooseToken tokens matched first = first := by
  unfold chooseToken
  split
  · split
    · split
      · simp [h, hl]
      · rfl
    · rfl
  · rfl

theorem tokenizeLoop_step (fuel : Nat) (tokens : List Token) (c : Byte) (cs : GoString)
    (first : Token) (tl : List Token)
    (hm : tokenPats.filterMap (fun tp => tp.Match (c :: cs)) = first :: tl) :
    tokenizeLoop (fuel + 1) tokens (c :: cs)
      = tokenizeLoop fuel (tokens ++ [chooseToken tokens (first :: tl) first])
          ((c :: cs).drop (chooseToken tokens (first :: tl) first).text.length) := by
  simp only [tokenizeLoop, hm]

/-! ## Decimal digits and `Atoi` -/

theorem natDigitsAux_eq (fuel : Nat) : ∀ (n : Nat) (acc : GoString), n < fuel →
    natDigitsAux fuel n acc = natToDecimal n ++ acc := by
  induction fuel using Nat.strong_induction_on with
  | _ fuel ih =>
    intro n acc hn
    cases fuel with
    | zero => omega
    | succ fuel =>
      unfold natToDecimal
      simp only [natDigitsAux]
      split
      · rfl
      · next h =>
        have h10 : n / 10 < n := Nat.div_lt_self (by omega) (by omega)
        rw [ih fuel (by omega) (n / 10) _ (by omega), ih n (by omega) (n / 10) _ h10]
        simp

theorem natToDecimal_small (n : Nat) (h : n / 10 = 0) : natToDecimal n = [digitByte n] := by
  simp [natToDecimal, natDigitsAux, h]

theorem natToDecimal_large (n : Nat) (h : n / 10 ≠ 0) :
    natToDecimal n = natToDecimal (n / 10) ++ [digitByte n] := by
  have h10 : n / 10 < n := Nat.div_lt_self (by omega) (by omega)
  conv_lhs => unfold natToDecimal
  simp only [natDigitsAux, h, if_false]
  exact natDigitsAux_eq n (n / 10) _ h10

theorem digitsValue_append : ∀ (xs ys : GoString) (m : Nat),
    Float64.digitsValue (xs ++ ys) m = Float64.digitsValue ys (Float64.digitsValue xs m)
  | [], _, _ => rfl
  | x :: xs, ys, m => by
    simp only [List.cons_append, Float64.digitsValue]
    exact digitsValue_append xs ys _

theorem digitsValue_natToDecimal (n : Nat) : Float64.digitsValue (natToDecimal n) 0 = n := by
  induction n using Nat.strong_induction_on with
  | _ n ih =>
    by_cases h : n / 10 = 0
    · rw [natToDecimal_small n h]
      simp [Float64.digitsValue, digitByte]
      omega
    · have h10 : n / 10 < n := Nat.div_lt_self (by omega) (by omega)
      rw [natToDecimal_large n h, digitsValue_append, ih _ h10]
      simp [Float64.digitsValue, digitByte]
      omega

theorem digitsValue_ge : ∀ (cs : GoString) (m : Nat), m ≤ Float64.digitsValue cs m
  | [], _ => Nat.le_refl _
  | c :: cs, m => by
    simp only [Float64.digitsValue]
    exact Nat.le_trans (by omega) (digitsValue_ge cs _)

theorem parseUintLoop_digits : ∀ (ds : GoString) (acc : Nat),
    (∀ c ∈ ds, isDigit c = true) → Float64.digitsValue ds acc < 2 ^ 64 →
    parseUintLoop ds acc = .ok (Float64.digitsValue ds acc)
  | [], _, _, _ => rfl
  | c :: cs, acc, hds, hlt => by
    have hc : isDigit c = true := hds c (List.mem_cons_self _ _)
    have hge := digitsValue_ge cs (acc * 10 + (c.val - 48))
    simp only [Float64.digitsValue] at hlt
    have h1 : ¬ acc ≥ (2 ^ 64 - 1) / 10 + 1 := by
      intro h
      have : (2 : Nat) ^ 64 = 18446744073709551616 := by norm_num
      omega
    have h2 : ¬ acc * 10 + (c.val - 48) > 2 ^ 64 - 1 := by omega
    simp only [parseUintLoop, hc, Bool.not_true, Bool.false_eq_true, if_false, h1, h2,
      Float64.digitsValue]
    exact parseUintLoop_digits cs _ (fun x hx => hds x (List.mem_cons_of_mem _ hx)) hlt

theorem isDigit_not_sign (d : Byte) (hd : isDigit d = true) : d ≠ 45 ∧ d ≠ 43 := by
  have h1 := byte_forall (fun c => !isDigit c || decide (c ≠ 45)) (by decide!) d
  have h2 := byte_forall (fun c => !isDigit c || decide (c ≠ 43)) (by decide!) d
  simp [hd] at h1 h2
  exact ⟨h1, h2⟩

/-- The decimal text of a 64-bit integer reads back as that integer. -/
theorem Atoi_Itoa (n : Int) (hlo : -(2 : Int) ^ 63 ≤ n) (hhi : n < (2 : Int) ^ 63) :
    Atoi (Itoa n) = .ok n := by
  obtain ⟨d, ds, hdec, hd, hds⟩ := natToDecimal_cons n.natAbs
  have hall := natToDecimal_digits n.natAbs
  have hval := digitsValue_natToDecimal n.natAbs
  have hp : parseUintLoop (natToDecimal n.natAbs) 0 = .ok n.natAbs := by
    have := parseUintLoop_digits (natToDecimal n.natAbs) 0 hall (by rw [hval]; omega)
    rwa [hval] at this
  obtain ⟨h45, h43⟩ := isDigit_not_sign d hd
  unfold Itoa
  split
  · next hneg =>
    have hnn : (natToDecimal n.natAbs = []) = False := by simp [hdec]
    simp only [Atoi, true_or, if_true, hnn, if_false, hp, decide_True, Bool.not_true,
      Bool.false_and, Bool.true_and, Bool.false_eq_true]
    have h3 : ¬ n.natAbs > 2 ^ 63 := by omega
    simp only [decide_eq_true_eq, h3, if_false]
    congr 1
    omega
  · next hneg =>
    rw [hdec] at hp ⊢
    have h3 : ¬ n.natAbs ≥ 2 ^ 63 := by omega
    simp only [Atoi, h45, h43, or_self, if_false, decide_False, Bool.not_false, Bool.true_and,
      Bool.false_and, hp, decide_eq_true_eq, h3, reduceCtorEq, Bool.false_eq_true]
    congr 1
    omega

/-! ## Tokens of a binary operation on two integer literals -/

theorem Itoa_no_dot (n : Int) : (46 : Byte) ∉ Itoa n := by
  have hall := natToDecimal_digits n.natAbs
  have h46 : ∀ l : GoString, (∀ c ∈ l, isDigit c = true) → (46 : Byte) ∉ l :=
    fun l hl h => absurd (hl 46 h) (by decide)
  unfold Itoa
  split
  · intro h
    rcases List.mem_cons.mp h with h | h
    · exact absurd h (by decide)
    · exact h46 _ hall h
  · exact h46 _ hall

/-- One step of the tokenizer at an integer literal. A negative literal needs a previous
token after which the minus sign is unary. -/
theorem tokenizeLoop_number (fuel : Nat) (tokens : List Token) (n : Int) (rest : GoString)
    (hrest : ∀ c r, rest = c :: r → isDigit c = false) (hdot : (46 : Byte) ∉ rest)
    (hprev : n < 0 → (tokens.getLast? = none ∨ ∃ last, tokens.getLast? = some last
      ∧ precedesUnaryMinus last = true)) :
    tokenizeLoop (fuel + 1) tokens (Itoa n ++ rest)
      = tokenizeLoop fuel (tokens ++ [⟨.integer, Itoa n⟩]) rest := by
  obtain ⟨d, ds, hdec, hd, hds⟩ := natToDecimal_cons n.natAbs
  unfold Itoa
  split
  · next hneg =>
    rw [hdec]
    have hm := matched_minus_digits d ds rest hd hds hrest hdot
    have hstep := tokenizeLoop_step fuel tokens 45 (d :: ds ++ rest) _ _ hm
    rw [chooseToken_unary tokens (45 :: d :: ds) (hprev hneg)] at hstep
    simpa using hstep
  · next hneg =>
    rw [hdec]
    have hm := matched_digits d ds rest hd hds hrest hdot
    have hstep := tokenizeLoop_step fuel tokens d (ds ++ rest) _ _ hm
    have hne : (⟨.integer, d :: ds⟩ : Token).text ≠ str "-" := by
      intro h
      have h1 : d = 45 := by
        have := congrArg List.head? h
        simpa [str, encodeRune] using this
      exact (isDigit_not_sign d hd).1 h1
    rw [chooseToken_of_ne_minus tokens _ _ hne] at hstep
    simpa using hstep

/-- One step of the tokenizer at one of the operators `+`, `-`, `*`. At a minus sign the
previous token must be one after which the sign is binary. -/
theorem tokenizeLoop_operator (fuel : Nat) (tokens : List Token) (op : Byte) (rest : GoString)
    (hop : op = 43 ∨ op = 45 ∨ op = 42)
    (hprev : op = 45 → ∃ last, tokens.getLast? = some last ∧ precedesUnaryMinus last = false) :
    tokenizeLoop (fuel + 1) tokens (op :: rest)
      = tokenizeLoop fuel (tokens ++ [⟨.arithmeticOperator, [op]⟩]) rest := by
  rcases hop with rfl | rfl | rfl
  · obtain ⟨tl, hm⟩ := matched_plus rest
    have hstep := tokenizeLoop_step fuel tokens 43 rest _ _ hm
    rw [chooseToken_of_ne_minus tokens _ _ (by decide)] at hstep
    simpa using hstep
  · obtain ⟨tl, hm⟩ := matched_minus rest
    obtain ⟨last, hlast, hl⟩ := hprev rfl
    have hstep := tokenizeLoop_step fuel tokens 45 rest _ _ hm
    rw [chooseToken_binary tokens _ _ last hlast hl] at hstep
    simpa using hstep
  · obtain ⟨tl, hm⟩ := matched_star rest
    have hstep := tokenizeLoop_step fuel tokens 42 rest _ _ hm
    rw [chooseToken_of_ne_minus tokens _ _ (by decide)] at hstep
    simpa using hstep

theorem tokenizeLoop_nil (fuel : Nat) (tokens : List Token) :
    tokenizeLoop fuel tokens [] = some (tokens, none) := by
  cases fuel <;> rfl

theorem Itoa_ne_nil (n : Int) : Itoa n ≠ [] := by
  unfold Itoa
  split
  · simp
  · exact natToDecimal_ne_nil _

/-- The tokens of `a op b` for integers `a` and `b` (negative ones written with a minus
sign) and `op` one of `+`, `-`, `*`: the literal, the operator, the literal. -/
theorem Tokenize_binary (a b : Int) (op : Byte) (hop : op = 43 ∨ op = 45 ∨ op = 42) :
    Tokenize (Itoa a ++ op :: Itoa b)
      = some ([⟨.integer, Itoa a⟩, ⟨.arithmeticOperator, [op]⟩, ⟨.integer, Itoa b⟩], none) := by
  have hopd : isDigit op = false := by rcases hop with rfl | rfl | rfl <;> decide
  have hop46 : op ≠ 46 := by rcases hop with rfl | rfl | rfl <;> decide
  have hlen : ∃ f, (Itoa a ++ op :: Itoa b).length = f + 3 := by
    have ha := List.length_pos.mpr (Itoa_ne_nil a)
    have hb := List.length_pos.mpr (Itoa_ne_nil b)
    refine ⟨(Itoa a).length + (Itoa b).length - 2, ?_⟩
    simp
    omega
  obtain ⟨f, hf⟩ := hlen
  have h1 := tokenizeLoop_number (f + 2) [] a (op :: Itoa b)
    (fun c r h => by cases h; exact hopd)
    (by
      intro h
      rcases List.mem_cons.mp h with h | h
      · exact hop46 h.symm
      · exact Itoa_no_dot b h)
    (fun _ => Or.inl rfl)
  have h2 := tokenizeLoop_operator (f + 1) [Token.mk .integer (Itoa a)] op (Itoa b) hop
    (fun _ => ⟨Token.mk .integer (Itoa a), rfl, rfl⟩)
  have h3 := tokenizeLoop_number f
    [Token.mk .integer (Itoa a), Token.mk .arithmeticOperator [op]]
    b [] (fun c r h => by cases h) (by simp)
    (fun _ => Or.inr ⟨Token.mk .arithmeticOperator [op], rfl, rfl⟩)
  rw [List.append_nil] at h3
  unfold Tokenize
  rw [hf]
  exact h1.trans (h2.trans (h3.trans (tokenizeLoop_nil _ _)))

/-! ## Evaluation of a binary operation on two integer literals -/

theorem convertToPostfix_binary (lib : GoLib) (sa sb : GoString) (a b : Int) (op : Token)
    (ha : Atoi sa = .ok a) (hb : Atoi sb = .ok b) (hop : op.tokenType = .arithmeticOperator) :
    convertToPostfix lib [⟨.integer, sa⟩, op, ⟨.integer, sb⟩]
      = .ok [.value (.int a), .value (.int b), .token op] := by
  obtain ⟨ty, text⟩ := op
  simp only at hop
  subst hop
  simp [convertToPostfix, convertLoop, convertStep, Token.isLiteral, literalValue, Token.Integer,
    ha, hb, Res.bind, Token.hasPrecedence, rewindStack]

theorem evaluatePostfix_binary (env : Env) (a b : Int) (text : GoString) :
    evaluatePostfix env 4 [.token ⟨.arithmeticOperator, text⟩, .value (.int b), .value (.int a)]
      = ArithmeticAndRelationalOperator env (evaluatePostfix env 3) ⟨.arithmeticOperator, text⟩
          [.value (.int b), .value (.int a)] := rfl

theorem Evaluate_add (env : Env) (sa sb : GoString) (a b : Int)
    (ha : Atoi sa = .ok a) (hb : Atoi sb = .ok b) :
    Evaluate env [⟨.integer, sa⟩, ⟨.arithmeticOperator, str "+"⟩, ⟨.integer, sb⟩]
      = .ok (.double (Float64.add (Float64.ofInt a) (Float64.ofInt b))) := by
  unfold Evaluate
  rw [convertToPostfix_binary env.lib sa sb a b _ ha hb rfl]
  rfl

theorem Evaluate_sub (env : Env) (sa sb : GoString) (a b : Int)
    (ha : Atoi sa = .ok a) (hb : Atoi sb = .ok b) :
    Evaluate env [⟨.integer, sa⟩, ⟨.arithmeticOperator, str "-"⟩, ⟨.integer, sb⟩]
      = .ok (.double (Float64.sub (Float64.ofInt a) (Float64.ofInt b))) := by
  unfold Evaluate
  rw [convertToPostfix_binary env.lib sa sb a b _ ha hb rfl]
  rfl

theorem Evaluate_mul (env : Env) (sa sb : GoString) (a b : Int)
    (ha : Atoi sa = .ok a) (hb : Atoi sb = .ok b) :
    Evaluate env [⟨.integer, sa⟩, ⟨.arithmeticOperator, str "*"⟩, ⟨.integer, sb⟩]
      = .ok (.double (Float64.mul (Float64.ofInt a) (Float64.ofInt b))) := by
  unfold Evaluate
  rw [convertToPostfix_binary env.lib sa sb a b _ ha hb rfl]
  rfl

theorem expressionEval_of_tokens (env : Env) (text : GoString) (tokens : List Token)
    (h : Tokenize text = some (tokens, none)) :
    expressionEval env text = some (Evaluate env (WithoutWhitespace tokens)) := by
  simp [expressionEval, h]

/-- C8. For all 64-bit integers `a` and `b`, written as decimal literals (negative ones
with a minus sign), the texts `a+b`, `a-b` and `a*b` evaluate, and the value is the
`Double` that native addition, subtraction or multiplication gives on the two operands
converted to float64. -/
theorem C8_integer_arithmetic_is_double_arithmetic (env : Env) (a b : Int)
    (ha : -(2 : Int) ^ 63 ≤ a ∧ a < (2 : Int) ^ 63)
    (hb : -(2 : Int) ^ 63 ≤ b ∧ b < (2 : Int) ^ 63) :
    expressionEval env (Itoa a ++ str "+" ++ Itoa b)
      = some (.ok (.double (Float64.add (Float64.ofInt a) (Float64.ofInt b))))
    ∧ expressionEval env (Itoa a ++ str "-" ++ Itoa b)
      = some (.ok (.double (Float64.sub (Float64.ofInt a) (Float64.ofInt b))))
    ∧ expressionEval env (Itoa a ++ str "*" ++ Itoa b)
      = some (.ok (.double (Float64.mul (Float64.ofInt a) (Float64.ofInt b)))) := by
  have hA := Atoi_Itoa a ha.1 ha.2
  have hB := Atoi_Itoa b hb.1 hb.2
  have hww : ∀ op : Byte, WithoutWhitespace
      [⟨.integer, Itoa a⟩, ⟨.arithmeticOperator, [op]⟩, ⟨.integer, Itoa b⟩]
        = [⟨.integer, Itoa a⟩, ⟨.arithmeticOperator, [op]⟩, ⟨.integer, Itoa b⟩] := fun _ => rfl
  have htext : ∀ (w : String) (op : Byte), str w = [op] →
      Itoa a ++ str w ++ Itoa b = Itoa a ++ op :: Itoa b := by
    intro w op h
    rw [h]
    simp
  refine ⟨?_, ?_, ?_⟩
  · rw [htext "+" 43 rfl,
      expressionEval_of_tokens env _ _ (Tokenize_binary a b 43 (Or.inl rfl)), hww]
    exact congrArg some (Evaluate_add env _ _ a b hA hB)
  · rw [htext "-" 45 rfl,
      expressionEval_of_tokens env _ _ (Tokenize_binary a b 45 (Or.inr (Or.inl rfl))), hww]
    exact congrArg some (Evaluate_sub env _ _ a b hA hB)
  · rw [htext "*" 42 rfl,
      expressionEval_of_tokens env _ _ (Tokenize_binary a b 42 (Or.inr (Or.inr rfl))), hww]
    exact congrArg some (Evaluate_mul env _ _ a b hA hB)

/-- Witness of C8 at `a = 3`, `b = -5`: the texts `3+-5`, `3--5` and `3*-5`. -/
theorem C8_integer_arithmetic_is_double_arithmetic_witness :
    (-(2 : Int) ^ 63 ≤ 3 ∧ (3 : Int) < (2 : Int) ^ 63)
    ∧ (-(2 : Int) ^ 63 ≤ -5 ∧ (-5 : Int) < (2 : Int) ^ 63)
    ∧ expressionEval symbolsOnlyEnv (Itoa 3 ++ str "+" ++ Itoa (-5))
      = some (.ok (.double (Float64.add (Float64.ofInt 3) (Float64.ofInt (-5)))))
    ∧ expressionEval symbolsOnlyEnv (Itoa 3 ++ str "-" ++ Itoa (-5))
      = some (.ok (.double (Float64.sub (Float64.ofInt 3) (Float64.ofInt (-5)))))
    ∧ expressionEval symbolsOnlyEnv (Itoa 3 ++ str "*" ++ Itoa (-5))
      = some (.ok (.double (Float64.mul (Float64.ofInt 3) (Float64.ofInt (-5))))) :=
  ⟨by decide, by decide,
    C8_integer_arithmetic_is_double_arithmetic symbolsOnlyEnv 3 (-5) (by decide) (by decide)⟩

/-! ## Symbol lookup -/

theorem lookup_of_mem {β : Type} : ∀ (l : List (GoString × β)) (k : GoString) (v : β),
    (l.map Prod.fst).Nodup → (k, v) ∈ l → l.lookup k = some v
  | [], _, _, _, h => by cases h
  | (k1, v1) :: l, k, v, hnd, h => by
    rw [List.map_cons, List.nodup_cons] at hnd
    rcases List.mem_cons.mp h with h1 | h2
    · cases h1
      simp [List.lookup]
    · have hne : k ≠ k1 := by
        intro hk
        exact hnd.1 (List.mem_map.mpr ⟨(k, v), h2, hk⟩)
      have hbeq : (k == k1) = false := by simpa using hne
      simp only [List.lookup, hbeq]
      exact lookup_of_mem l k v hnd.2 h2

theorem lookup_of_not_mem {β : Type} : ∀ (l : List (GoString × β)) (k : GoString),
    k ∉ l.map Prod.fst → l.lookup k = none
  | [], _, _ => rfl
  | (k1, v1) :: l, k, h => by
    rw [List.map_cons, List.mem_cons, not_or] at h
    have hbeq : (k == k1) = false := by simpa using h.1
    simp only [List.lookup, hbeq]
    exact lookup_of_not_mem l k h.2

/-- C10. When the popped element is a symbol token with text `n` and the symbol table (a map:
distinct keys) has an entry under exactly `n` that holds a value, that value is returned and
the stream is left as it is; if the entry is not a value, or if no key equals `n`, an error
is returned. Only the key `n` itself is consulted. -/
theorem C10_symbol_lookup_is_exact (env : Env) (fuel : Nat) (n : GoString)
    (pfe : List PostfixElem) (hkeys : (env.SymbolTable.map Prod.fst).Nodup) :
    (∀ v, (n, SymbolEntry.value v) ∈ env.SymbolTable →
      evaluatePostfix env (fuel + 1) (.token ⟨.symbol, n⟩ :: pfe) = .ok (v, pfe))
    ∧ ((n, SymbolEntry.other) ∈ env.SymbolTable →
      evaluatePostfix env (fuel + 1) (.token ⟨.symbol, n⟩ :: pfe)
        = errorf "Could not find symbol %s (value unexpected)" [.str n])
    ∧ (n ∉ env.SymbolTable.map Prod.fst →
      evaluatePostfix env (fuel + 1) (.token ⟨.symbol, n⟩ :: pfe)
        = errorf "Could not find symbol %s (name does not exist)" [.str n]) := by
  have h : evaluatePostfix env (fuel + 1) (.token ⟨.symbol, n⟩ :: pfe)
      = SymbolOperator env ⟨.symbol, n⟩ pfe := rfl
  refine ⟨?_, ?_, ?_⟩
  · intro v hv
    rw [h]
    simp [SymbolOperator, lookup_of_mem _ _ _ hkeys hv]
  · intro hv
    rw [h]
    simp [SymbolOperator, lookup_of_mem _ _ _ hkeys hv]
  · intro hn
    rw [h]
    simp [SymbolOperator, lookup_of_not_mem _ _ hn]

/-- Witness of C10 on the symbol table of `symbols.go`: the symbol `MyInt` evaluates to
`Int 100` and leaves the stream alone, the differently-cased `myint` and the partial name
`My` are errors. -/
theorem C10_symbol_lookup_is_exact_witness :
    (symbolsOnlyEnv.SymbolTable.map Prod.fst).Nodup
    ∧ (str "MyInt", SymbolEntry.value (.int 100)) ∈ symbolsOnlyEnv.SymbolTable
    ∧ str "myint" ∉ symbolsOnlyEnv.SymbolTable.map Prod.fst
    ∧ evaluatePostfix symbolsOnlyEnv 1 [.token ⟨.symbol, str "MyInt"⟩, .value (.int 7)]
        = .ok (.int 100, [.value (.int 7)])
    ∧ evaluatePostfix symbolsOnlyEnv 1 [.token ⟨.symbol, str "myint"⟩, .value (.int 7)]
        = errorf "Could not find symbol %s (name does not exist)" [.str (str "myint")] := by
  have hnd : (symbolsOnlyEnv.SymbolTable.map Prod.fst).Nodup := by decide!
  have hmem : (str "MyInt", SymbolEntry.value (.int 100)) ∈ symbolsOnlyEnv.SymbolTable := by
    simp [symbolsOnlyEnv, SymbolTable]
  have hnot : str "myint" ∉ symbolsOnlyEnv.SymbolTable.map Prod.fst := by decide!
  exact ⟨hnd, hmem, hnot,
    (C10_symbol_lookup_is_exact symbolsOnlyEnv 0 (str "MyInt") [.value (.int 7)] hnd).1
      (.int 100) hmem,
    (C10_symbol_lookup_is_exact symbolsOnlyEnv 0 (str "myint") [.value (.int 7)] hnd).2.2 hnot⟩

/-! ## The tokens cover the input -/

theorem Match_some (tp : tokenPat) (s : GoString) (t : Token) (h : tp.Match s = some t) :
    t.text ≠ [] ∧ ∃ k, t.text = s.take k := by
  unfold tokenPat.Match at h
  simp only at h
  split at h
  · next hne =>
    cases h
    refine ⟨hne, ?_⟩
    unfold Regex.FindString at hne ⊢
    split
    · exact ⟨_, rfl⟩
    · next hnone => simp [hnone] at hne
  · cases h

theorem chooseToken_mem (tokens : List Token) (first : Token) (tl : List Token) :
    chooseToken tokens (first :: tl) first ∈ first :: tl := by
  rcases tl with _ | ⟨second, _ | ⟨third, tl⟩⟩
  · simp [chooseToken]
  · unfold chooseToken
    simp only
    split_ifs <;> simp
  · simp [chooseToken]

theorem take_append_drop_take (s : GoString) (k : Nat) :
    s.take k ++ s.drop (s.take k).length = s := by
  rw [List.length_take]
  rcases Nat.le_total k s.length with h | h
  · rw [Nat.min_eq_left h]
    exact List.take_append_drop k s
  · rw [Nat.min_eq_right h, List.take_of_length_le h, List.drop_length]
    simp

theorem tokenizeLoop_spec : ∀ (fuel : Nat) (tokens : List Token) (rem : GoString),
    rem.length ≤ fuel →
    ∃ tokens1 err, tokenizeLoop fuel tokens rem = some (tokens1, err)
      ∧ (err = none → (tokens1.map Token.text).flatten = (tokens.map Token.text).flatten ++ rem)
      ∧ (∀ e, err = some e → ∃ rest, rest ≠ []
          ∧ (tokens1.map Token.text).flatten ++ rest = (tokens.map Token.text).flatten ++ rem
          ∧ (∀ tp ∈ tokenPats, tp.Match rest = none)
          ∧ e = ⟨str "Could not find a token starting at: %s", [.str rest]⟩)
  | fuel, tokens, [], _ => by
    refine ⟨tokens, none, ?_, ?_, ?_⟩
    · cases fuel <;> rfl
    · intro _
      simp
    · intro e he
      cases he
  | 0, _, _ :: _, h => by simp at h
  | fuel + 1, tokens, c :: cs, hlen => by
    cases hm : tokenPats.filterMap (fun tp => tp.Match (c :: cs)) with
    | nil =>
      refine ⟨tokens, some ⟨str "Could not find a token starting at: %s", [.str (c :: cs)]⟩,
        ?_, ?_, ?_⟩
      · simp only [tokenizeLoop, hm]
      · intro h
        cases h
      · intro e he
        cases he
        refine ⟨c :: cs, by simp, rfl, ?_, rfl⟩
        intro tp htp
        exact (List.filterMap_eq_nil_iff.mp hm) tp htp
    | cons first tl =>
      have hmem : chooseToken tokens (first :: tl) first
          ∈ tokenPats.filterMap (fun tp => tp.Match (c :: cs)) := by
        rw [hm]
        exact chooseToken_mem tokens first tl
      obtain ⟨tp, _, htp⟩ := List.mem_filterMap.mp hmem
      obtain ⟨hne, k, hk⟩ := Match_some tp _ _ htp
      have hsplit : (chooseToken tokens (first :: tl) first).text
          ++ (c :: cs).drop (chooseToken tokens (first :: tl) first).text.length = c :: cs := by
        rw [hk]
        exact take_append_drop_take _ _
      have hpos : 0 < (chooseToken tokens (first :: tl) first).text.length :=
        List.length_pos.mpr hne
      have hshort : ((c :: cs).drop (chooseToken tokens (first :: tl) first).text.length).length
          ≤ fuel := by
        rw [List.length_drop]
        simp only [List.length_cons] at hlen ⊢
        omega
      obtain ⟨tokens1, err, h1, h2, h3⟩ := tokenizeLoop_spec fuel
        (tokens ++ [chooseToken tokens (first :: tl) first]) _ hshort
      have hjoin : ((tokens ++ [chooseToken tokens (first :: tl) first]).map Token.text).flatten
          ++ (c :: cs).drop (chooseToken tokens (first :: tl) first).text.length
          = (tokens.map Token.text).flatten ++ (c :: cs) := by
        rw [List.map_append, List.flatten_append]
        simp only [List.map_cons, List.map_nil, List.flatten_cons, List.flatten_nil, List.append_nil,
          List.append_assoc]
        rw [hsplit]
      refine ⟨tokens1, err, ?_, ?_, ?_⟩
      · rw [tokenizeLoop_step fuel tokens c cs first tl hm]
        exact h1
      · intro he
        rw [h2 he, hjoin]
      · intro e he
        obtain ⟨rest, hr1, hr2, hr3, hr4⟩ := h3 e he
        exact ⟨rest, hr1, hr2.trans hjoin, hr3, hr4⟩

/-- C5. `Tokenize` returns for every input string `s`. If it succeeds, the texts of the
returned tokens (whitespace tokens included), concatenated in order, are `s`. If it fails,
the texts of the tokens it returns are a part of `s` that leaves a non-empty rest at whose
start no token pattern matches, and the error names that rest. -/
theorem C5_tokens_cover_the_input (s : GoString) :
    ∃ tokens err, Tokenize s = some (tokens, err)
      ∧ (err = none → (tokens.map Token.text).flatten = s)
      ∧ (∀ e, err = some e → ∃ rest, rest ≠ []
          ∧ (tokens.map Token.text).flatten ++ rest = s
          ∧ (∀ tp ∈ tokenPats, tp.Match rest = none)
          ∧ e = ⟨str "Could not find a token starting at: %s", [.str rest]⟩) := by
  obtain ⟨tokens, err, h1, h2, h3⟩ := tokenizeLoop_spec s.length [] s (Nat.le_refl _)
  refine ⟨tokens, err, h1, ?_, ?_⟩
  · intro he
    simpa using h2 he
  · intro e he
    obtain ⟨rest, hr1, hr2, hr3, hr4⟩ := h3 e he
    exact ⟨rest, hr1, by simpa using hr2, hr3, hr4⟩

namespace Float64

/-! ## Exact results of rounding -/

theorem bitLenAux_spec : ∀ (fuel m : Nat), m ≤ fuel →
    m < 2 ^ bitLenAux fuel m ∧ (m ≠ 0 → 2 ^ (bitLenAux fuel m - 1) ≤ m)
  | 0, m, h => by
    have : m = 0 := by omega
    subst this
    simp [bitLenAux]
  | fuel + 1, m, h => by
    unfold bitLenAux
    split
    · next h0 => subst h0; simp
    · next h0 =>
      obtain ⟨h1, h2⟩ := bitLenAux_spec fuel (m / 2) (by omega)
      refine ⟨?_, fun _ => ?_⟩
      · rw [pow_succ]
        omega
      · simp only [Nat.add_sub_cancel]
        by_cases hm : m / 2 = 0
        · have hb : bitLenAux fuel (m / 2) = 0 := by
            rw [hm]
            cases fuel <;> simp [bitLenAux]
          rw [hb]
          simp
          omega
        · have h3 := h2 hm
          have hpos : 0 < bitLenAux fuel (m / 2) := by
            by_contra hc
            have hz : bitLenAux fuel (m / 2) = 0 := by omega
            rw [hz] at h1
            simp at h1
            exact hm h1
          have : 2 ^ bitLenAux fuel (m / 2) = 2 ^ (bitLenAux fuel (m / 2) - 1) * 2 := by
            rw [← pow_succ]
            congr 1
            omega
          rw [this]
          omega

theorem lt_pow_bitLen (m : Nat) : m < 2 ^ bitLen m := (bitLenAux_spec m m (Nat.le_refl _)).1

theorem pow_bitLen_le (m : Nat) (h : m ≠ 0) : 2 ^ (bitLen m - 1) ≤ m :=
  (bitLenAux_spec m m (Nat.le_refl _)).2 h

theorem bitLen_pos (m : Nat) (h : m ≠ 0) : 0 < bitLen m := by
  by_contra hc
  have hz : bitLen m = 0 := by omega
  have := lt_pow_bitLen m
  rw [hz] at this
  simp at this
  exact h this

theorem bitLen_unique (m k : Nat) (hk : 0 < k) (hlo : 2 ^ (k - 1) ≤ m) (hhi : m < 2 ^ k) :
    bitLen m = k := by
  have hm : m ≠ 0 := by
    intro h
    subst h
    simp at hlo
  have h1 := lt_pow_bitLen m
  have h2 := pow_bitLen_le m hm
  have h3 := bitLen_pos m hm
  by_contra hne
  rcases Nat.lt_or_gt_of_ne hne with hlt | hgt
  · have : 2 ^ bitLen m ≤ 2 ^ (k - 1) := Nat.pow_le_pow_right (by norm_num) (by omega)
    omega
  · have : 2 ^ k ≤ 2 ^ (bitLen m - 1) := Nat.pow_le_pow_right (by norm_num) (by omega)
    omega

theorem bitLen_mul_pow (q t : Nat) (hq : 0 < q) : bitLen (q * 2 ^ t) = bitLen q + t := by
  have hq0 : q ≠ 0 := by omega
  have h1 := lt_pow_bitLen q
  have h2 := pow_bitLen_le q hq0
  have h3 := bitLen_pos q hq0
  apply bitLen_unique
  · omega
  · have : bitLen q + t - 1 = (bitLen q - 1) + t := by omega
    rw [this, pow_add]
    exact Nat.mul_le_mul_right _ h2
  · rw [pow_add]
    exact Nat.mul_lt_mul_of_pos_right h1 (by positivity)

theorem bitLen_le_of_lt (q k : Nat) (h : q < 2 ^ k) : bitLen q ≤ k := by
  by_cases hq : q = 0
  · subst hq
    simp [bitLen, bitLenAux]
  · have h2 := pow_bitLen_le q hq
    by_contra hc
    have : 2 ^ k ≤ 2 ^ (bitLen q - 1) := Nat.pow_le_pow_right (by norm_num) (by omega)
    omega


theorem round_zero (neg : Bool) (e : Int) : round neg 0 e = .finite neg 0 (-1074) := by
  simp [round]

/-- Rounding is exact on a value `q * 2^t * 2^e` whose significand `q` has at most 53 bits,
within the exponent range. -/
theorem round_exact (neg : Bool) (q t : Nat) (e : Int) (hq0 : 0 < q) (hq : q < 2 ^ 53)
    (he : -1074 ≤ e) (hhi : e + ((bitLen q + t : Nat) : Int) ≤ 1024) :
    ∃ m1 e1, round neg (q * 2 ^ t) e = .finite neg m1 e1
      ∧ (m1 : ℚ) * (2 : ℚ) ^ e1 = (q : ℚ) * (2 : ℚ) ^ t * (2 : ℚ) ^ e := by
  have hm0 : q * 2 ^ t ≠ 0 := by positivity
  have hbl : bitLen (q * 2 ^ t) = bitLen q + t := bitLen_mul_pow q t hq0
  have hblq : bitLen q ≤ 53 := bitLen_le_of_lt q 53 hq
  have hblpos : 0 < bitLen q := bitLen_pos q (by omega)
  unfold round
  simp only [hm0, if_false, hbl]
  by_cases hbr : max (e + ((bitLen q + t : Nat) : Int) - 53) (-1074) ≤ e
  · have het : ¬ max (e + ((bitLen q + t : Nat) : Int) - 53) (-1074) > 971 := by
      have : max (e + ((bitLen q + t : Nat) : Int) - 53) (-1074) ≤ 971 :=
        max_le (by omega) (by norm_num)
      omega
    simp only [hbr, if_true, het, if_false]
    refine ⟨_, _, rfl, ?_⟩
    set et := max (e + ((bitLen q + t : Nat) : Int) - 53) (-1074) with het_def
    have hk : ((e - et).toNat : Int) = e - et := Int.toNat_of_nonneg (by omega)
    have h2 : (2 : ℚ) ^ (e - et).toNat * (2 : ℚ) ^ et = (2 : ℚ) ^ e := by
      rw [← zpow_natCast, hk, ← zpow_add₀ (by norm_num : (2 : ℚ) ≠ 0)]
      congr 1
      omega
    push_cast
    rw [mul_assoc, mul_assoc, h2]
    ring
  · have hgt : e < max (e + ((bitLen q + t : Nat) : Int) - 53) (-1074) := by omega
    have het : max (e + ((bitLen q + t : Nat) : Int) - 53) (-1074)
        = e + ((bitLen q + t : Nat) : Int) - 53 := by
      apply max_eq_left
      by_contra hc
      rw [max_eq_right (by omega)] at hgt
      omega
    rw [het] at hgt
    have hbr1 : ¬ (e + ((bitLen q + t : Nat) : Int) - 53 ≤ e) := by omega
    simp only [het, hbr1, if_false]
    have hs : (e + ((bitLen q + t : Nat) : Int) - 53 - e).toNat = bitLen q + t - 53 := by
      omega
    have hst : bitLen q + t - 53 ≤ t := by omega
    have hspos : 0 < bitLen q + t - 53 := by omega
    rw [hs]
    set s := bitLen q + t - 53 with hs_def
    have hsplit : q * 2 ^ t = q * 2 ^ (t - s) * 2 ^ s := by
      rw [mul_assoc, ← pow_add]
      congr 2
      omega
    have hq1 : q * 2 ^ t / 2 ^ s = q * 2 ^ (t - s) := by
      rw [hsplit]
      exact Nat.mul_div_cancel _ (by positivity)
    have hr1 : q * 2 ^ t % 2 ^ s = 0 := by
      rw [hsplit]
      exact Nat.mul_mod_left _ _
    have hhalf : 0 < 2 ^ (s - 1) := by positivity
    have hblq1 : bitLen (q * 2 ^ (t - s)) = 53 := by
      rw [bitLen_mul_pow q (t - s) hq0]
      omega
    have hlt : q * 2 ^ (t - s) < 2 ^ 53 := by
      have := lt_pow_bitLen (q * 2 ^ (t - s))
      rwa [hblq1] at this
    have hc1 : ¬ (0 > 2 ^ (s - 1) ∨ (0 = 2 ^ (s - 1) ∧ q * 2 ^ (t - s) % 2 = 1)) := by
      omega
    have hc2 : ¬ (q * 2 ^ (t - s) = 2 ^ 53) := by omega
    have hc3 : ¬ (e + ((bitLen q + t : Nat) : Int) - 53 > 971) := by omega
    simp only [hq1, hr1, hc1, if_false, hc2, hc3]
    refine ⟨_, _, rfl, ?_⟩
    have hexp : e + ((bitLen q + t : Nat) : Int) - 53 = e + (s : Int) := by omega
    rw [hexp, zpow_add₀ (by norm_num : (2 : ℚ) ≠ 0), zpow_natCast]
    have : (q : ℚ) * (2 : ℚ) ^ t = (q : ℚ) * (2 : ℚ) ^ (t - s) * (2 : ℚ) ^ s := by
      rw [mul_assoc, ← pow_add]
      congr 2
      omega
    rw [this]
    push_cast
    ring


/-- The float64 of a natural number below `2^53`, with either sign. -/
theorem round_nat (neg : Bool) (a : Nat) (ha : a < 2 ^ 53) :
    round neg a 0 = if a = 0 then .finite neg 0 (-1074)
      else .finite neg (a * 2 ^ (53 - bitLen a)) ((bitLen a : Int) - 53) := by
  by_cases h0 : a = 0
  · subst h0
    simp [round]
  · have hbl := bitLen_le_of_lt a 53 ha
    have hpos := bitLen_pos a h0
    have het : max (0 + ((bitLen a : Nat) : Int) - 53) (-1074) = (bitLen a : Int) - 53 := by
      rw [max_eq_left (by omega)]
      omega
    have h1 : (bitLen a : Int) - 53 ≤ 0 := by omega
    have h2 : ¬ ((bitLen a : Int) - 53 > 971) := by omega
    have h3 : (0 - ((bitLen a : Int) - 53)).toNat = 53 - bitLen a := by omega
    unfold round
    simp only [h0, if_false, het, h1, if_true, h2, h3]

/-- The significand of the float64 of `a`, scaled to a lower exponent. -/
theorem scaled_round_nat (neg : Bool) (a : Nat) (ha : a < 2 ^ 53) (m : Nat) (em e : Int)
    (h : round neg a 0 = .finite neg m em) (he : e ≤ em) :
    scaled neg m em e = (if neg then -1 else 1) * (a : Int) * 2 ^ (-e).toNat := by
  rw [round_nat neg a ha] at h
  by_cases h0 : a = 0
  · subst h0
    simp only [if_true, finite.injEq] at h
    obtain ⟨_, hm, _⟩ := h
    subst hm
    simp [scaled]
  · simp only [h0, if_false, finite.injEq] at h
    obtain ⟨_, hm, hem⟩ := h
    have hbl := bitLen_le_of_lt a 53 ha
    have hpos := bitLen_pos a h0
    subst hm
    unfold scaled
    have hexp : 53 - bitLen a + (em - e).toNat = (-e).toNat := by omega
    push_cast
    rw [mul_assoc, mul_assoc, ← pow_add, hexp]
    ring

theorem round_nat_exponent (neg : Bool) (a : Nat) (ha : a < 2 ^ 53) :
    ∃ m em, round neg a 0 = .finite neg m em ∧ -1074 ≤ em ∧ em ≤ 0
      ∧ (a = 0 → m = 0) ∧ (a ≠ 0 → -52 ≤ em ∧ m = a * 2 ^ (53 - bitLen a)
        ∧ em = (bitLen a : Int) - 53) := by
  rw [round_nat neg a ha]
  by_cases h0 : a = 0
  · rw [if_pos h0]
    exact ⟨0, -1074, rfl, by omega, by omega, fun _ => rfl, fun h => absurd h0 h⟩
  · have hbl := bitLen_le_of_lt a 53 ha
    have hpos := bitLen_pos a h0
    rw [if_neg h0]
    exact ⟨_, _, rfl, by omega, by omega, fun h => absurd h h0, fun _ => ⟨by omega, rfl, rfl⟩⟩

theorem ofInt_natCast (a : Nat) : ofInt (a : Int) = round false a 0 := by
  have h : ¬ ((a : Int) < 0) := by omega
  simp [ofInt, h]

theorem ofInt_neg_natCast (b : Nat) : ofInt (-(b : Int)) = round (decide (0 < b)) b 0 := by
  simp [ofInt]


theorem two_zpow_cancel (T : Nat) (e : Int) (h : (T : Int) = -e) :
    (2 : ℚ) ^ T * (2 : ℚ) ^ e = 1 := by
  rw [← zpow_natCast, ← zpow_add₀ (by norm_num : (2 : ℚ) ≠ 0), h]
  simp

/-- Subtraction of the float64 values of two naturals below `2^53` is exact. -/
theorem sub_ofInt_exact (a b : Nat) (ha : a < 2 ^ 53) (hb : b < 2 ^ 53) :
    ∃ s m e, sub (ofInt (a : Int)) (ofInt (b : Int)) = .finite s m e
      ∧ (finite s m e).toRat = (a : ℚ) - (b : ℚ) := by
  obtain ⟨mA, eA, hA, hA1, hA2, _, _⟩ := round_nat_exponent false a ha
  obtain ⟨mB, eB, hB, hB1, hB2, _, _⟩ := round_nat_exponent false b hb
  have hsA := scaled_round_nat false a ha mA eA (min eA eB) hA (min_le_left _ _)
  have hsB := scaled_round_nat false b hb mB eB (min eA eB) hB (min_le_right _ _)
  simp only [Bool.false_eq_true, if_false] at hsA hsB
  have hsB' : scaled true mB eB (min eA eB) = -((b : Int) * 2 ^ (-(min eA eB)).toNat) := by
    have : scaled true mB eB (min eA eB) = -scaled false mB eB (min eA eB) := by
      simp [scaled]
    rw [this, hsB]
    simp
  have he1 : -1074 ≤ min eA eB := le_min hA1 hB1
  have he2 : min eA eB ≤ 0 := le_trans (min_le_left _ _) hA2
  set e := min eA eB with he_def
  set T := (-e).toNat with hT_def
  have hT : (T : Int) = -e := Int.toNat_of_nonneg (by omega)
  rw [ofInt_natCast, ofInt_natCast, hA, hB]
  simp only [sub, neg, add, Bool.not_false, ← he_def, hsA, hsB', if_false, Bool.false_and]
  have hv : (1 : Int) * (a : Int) * 2 ^ T + -((b : Int) * 2 ^ T) = ((a : Int) - b) * 2 ^ T := by
    ring
  rw [hv]
  have hpow : (2 : Int) ^ T ≠ 0 := by positivity
  by_cases hab : a = b
  · subst hab
    refine ⟨false, 0, -1074, by simp, by simp [toRat]⟩
  · have hne : ((a : Int) - b) * 2 ^ T ≠ 0 := by
      apply mul_ne_zero _ hpow
      omega
    simp only [hne, if_false]
    have habs : (((a : Int) - b) * 2 ^ T).natAbs = ((a : Int) - b).natAbs * 2 ^ T := by
      rw [Int.natAbs_mul, Int.natAbs_pow]
      rfl
    rw [habs]
    have hq0 : 0 < ((a : Int) - b).natAbs := by omega
    have hq : ((a : Int) - b).natAbs < 2 ^ 53 := by omega
    have hbl := bitLen_le_of_lt _ 53 hq
    obtain ⟨m1, e1, hr, hval⟩ := round_exact (decide (((a : Int) - b) * 2 ^ T < 0))
      ((a : Int) - b).natAbs T e hq0 hq he1 (by push_cast; omega)
    refine ⟨_, m1, e1, hr, ?_⟩
    have hcancel := two_zpow_cancel T e hT
    have hval' : (m1 : ℚ) * (2 : ℚ) ^ e1 = (((a : Int) - b).natAbs : ℚ) := by
      rw [hval, mul_assoc, hcancel, mul_one]
    simp only [toRat]
    rw [mul_assoc, hval']
    rcases Nat.lt_or_gt_of_ne hab with hlt | hgt
    · have hneg : ((a : Int) - b) * 2 ^ T < 0 :=
        mul_neg_of_neg_of_pos (by omega) (by positivity)
      have hnat : ((a : Int) - b).natAbs = b - a := by omega
      simp only [hneg, decide_True, if_true, hnat]
      rw [Nat.cast_sub (le_of_lt hlt)]
      ring
    · have hpos : ¬ ((a : Int) - b) * 2 ^ T < 0 := by
        have : 0 ≤ ((a : Int) - b) * 2 ^ T := mul_nonneg (by omega) (by positivity)
        omega
      have hnat : ((a : Int) - b).natAbs = a - b := by omega
      simp only [hpos, decide_False, Bool.false_eq_true, if_false, hnat]
      rw [Nat.cast_sub (le_of_lt hgt)]
      ring

/-- Multiplication of the float64 value of a natural by that of the negation of a natural
is exact when both and the product are below `2^53`. -/
theorem mul_ofInt_neg_exact (a b : Nat) (ha : a < 2 ^ 53) (hb : b < 2 ^ 53)
    (hab : a * b < 2 ^ 53) :
    ∃ s m e, mul (ofInt (a : Int)) (ofInt (-(b : Int))) = .finite s m e
      ∧ (finite s m e).toRat = -((a : ℚ) * (b : ℚ)) := by
  obtain ⟨mA, eA, hA, hA1, hA2, hA0, hAn⟩ := round_nat_exponent false a ha
  obtain ⟨mB, eB, hB, hB1, hB2, hB0, hBn⟩ := round_nat_exponent (decide (0 < b)) b hb
  rw [ofInt_natCast, ofInt_neg_natCast, hA, hB]
  simp only [mul, Bool.false_xor]
  by_cases h0 : a = 0 ∨ b = 0
  · have hm : mA * mB = 0 := by
      rcases h0 with h | h
      · rw [hA0 h, Nat.zero_mul]
      · rw [hB0 h, Nat.mul_zero]
    rw [hm, round_zero]
    refine ⟨_, _, _, rfl, ?_⟩
    rcases h0 with h | h <;> simp [toRat, h]
  · rw [not_or] at h0
    obtain ⟨hA3, hA4, hA5⟩ := hAn h0.1
    obtain ⟨hB3, hB4, hB5⟩ := hBn h0.2
    have hblA := bitLen_le_of_lt a 53 ha
    have hblB := bitLen_le_of_lt b 53 hb
    have hblAB := bitLen_le_of_lt (a * b) 53 hab
    have hposA := bitLen_pos a h0.1
    have hposB := bitLen_pos b h0.2
    have hprod : mA * mB = a * b * 2 ^ ((53 - bitLen a) + (53 - bitLen b)) := by
      rw [hA4, hB4, pow_add]
      ring
    have hbpos : decide (0 < b) = true := by simpa using Nat.pos_of_ne_zero h0.2
    rw [hprod, hbpos]
    obtain ⟨m1, e1, hr, hval⟩ := round_exact true (a * b)
      ((53 - bitLen a) + (53 - bitLen b)) (eA + eB) (Nat.mul_pos (by omega) (by omega)) hab
      (by omega) (by push_cast; omega)
    refine ⟨_, m1, e1, hr, ?_⟩
    have hcancel := two_zpow_cancel ((53 - bitLen a) + (53 - bitLen b)) (eA + eB)
      (by push_cast; omega)
    simp only [toRat, if_true]
    rw [mul_assoc, hval, mul_assoc, hcancel]
    push_cast
    ring

end Float64

/-! ## Unary and binary minus on small integers -/

theorem Itoa_natCast (a : Nat) : Itoa (a : Int) = natToDecimal a := by
  have h : ¬ ((a : Int) < 0) := by omega
  simp [Itoa, h]

theorem Atoi_natToDecimal (a : Nat) (h : a < 2 ^ 63) : Atoi (natToDecimal a) = .ok (a : Int) := by
  have := Atoi_Itoa (a : Int) (by omega) (by omega)
  rwa [Itoa_natCast] at this

theorem Atoi_minus_natToDecimal (b : Nat) (h : b < 2 ^ 63) :
    Atoi (45 :: natToDecimal b) = .ok (-(b : Int)) := by
  by_cases h0 : b = 0
  · subst h0
    rfl
  · have := Atoi_Itoa (-(b : Int)) (by omega) (by omega)
    have hneg : -(b : Int) < 0 := by omega
    simpa [Itoa, hneg] using this

/-- One step of the tokenizer at a minus sign and digits, after a token that makes the sign
unary: one integer literal with the sign. -/
theorem tokenizeLoop_minus_digits (fuel : Nat) (tokens : List Token) (b : Nat) (rest : GoString)
    (hrest : ∀ c r, rest = c :: r → isDigit c = false) (hdot : (46 : Byte) ∉ rest)
    (hprev : tokens.getLast? = none ∨ ∃ last, tokens.getLast? = some last
      ∧ precedesUnaryMinus last = true) :
    tokenizeLoop (fuel + 1) tokens (45 :: natToDecimal b ++ rest)
      = tokenizeLoop fuel (tokens ++ [⟨.integer, 45 :: natToDecimal b⟩]) rest := by
  obtain ⟨d, ds, hdec, hd, hds⟩ := natToDecimal_cons b
  rw [hdec]
  have hm := matched_minus_digits d ds rest hd hds hrest hdot
  have hstep := tokenizeLoop_step fuel tokens 45 (d :: ds ++ rest) _ _ hm
  rw [chooseToken_unary tokens (45 :: d :: ds) hprev] at hstep
  simpa using hstep

/-- The tokens of `a*-b` for naturals `a` and `b`: the literal `a`, the operator `*`, and
the literal `-b`. -/
theorem Tokenize_times_minus (a b : Nat) :
    Tokenize (natToDecimal a ++ 42 :: 45 :: natToDecimal b)
      = some ([⟨.integer, natToDecimal a⟩, ⟨.arithmeticOperator, [42]⟩,
          ⟨.integer, 45 :: natToDecimal b⟩], none) := by
  have hlen : ∃ f, (natToDecimal a ++ 42 :: 45 :: natToDecimal b).length = f + 3 := by
    have ha := List.length_pos.mpr (natToDecimal_ne_nil a)
    refine ⟨(natToDecimal a).length + (natToDecimal b).length - 1, ?_⟩
    simp
    omega
  obtain ⟨f, hf⟩ := hlen
  have hnodot : (46 : Byte) ∉ natToDecimal b := fun h =>
    absurd (natToDecimal_digits b 46 h) (by decide)
  have h1 := tokenizeLoop_number (f + 2) [] (a : Int) (42 :: 45 :: natToDecimal b)
    (fun c r h => by cases h; decide)
    (by
      intro h
      rcases List.mem_cons.mp h with h | h
      · exact absurd h (by decide)
      · rcases List.mem_cons.mp h with h | h
        · exact absurd h (by decide)
        · exact hnodot h)
    (fun _ => Or.inl rfl)
  rw [Itoa_natCast] at h1
  have h2 := tokenizeLoop_operator (f + 1) [Token.mk .integer (natToDecimal a)] 42
    (45 :: natToDecimal b) (Or.inr (Or.inr rfl)) (fun h => absurd h (by decide))
  have h3 := tokenizeLoop_minus_digits f
    [Token.mk .integer (natToDecimal a), Token.mk .arithmeticOperator [42]]
    b [] (fun c r h => by cases h) (by simp)
    (Or.inr ⟨Token.mk .arithmeticOperator [42], rfl, rfl⟩)
  rw [List.append_nil] at h3
  unfold Tokenize
  rw [hf]
  exact h1.trans (h2.trans (h3.trans (tokenizeLoop_nil _ _)))

/-- C7 (counterexample). The integers `2^53 + 1` and `2^53` are below the 64-bit limit, but
the text `9007199254740993-9007199254740992` evaluates to the `Double` 0, not to their
difference 1: the operands are converted to float64 before the subtraction. -/
theorem C7_large_difference_is_not_exact :
    expressionEval symbolsOnlyEnv (str "9007199254740993-9007199254740992")
      = some (.ok (.double (.finite false 0 (-1074))))
    ∧ (Float64.finite false 0 (-1074)).toRat
      ≠ (9007199254740993 : ℚ) - (9007199254740992 : ℚ) := by
  refine ⟨rfl, ?_⟩
  norm_num [Float64.toRat]

/-- C7 (amended). End to end, the text `-5` evaluates to `Int(-5)`; for all non-negative
integers `a` and `b` below `2^53`, written in decimal, the text `a-b` evaluates to a finite
`Double` whose value is exactly `a - b`, and, when the product `a * b` is below `2^53` as
well, the text `a*-b` evaluates to a finite `Double` whose value is exactly `-(a * b)`. -/
theorem C7_minus_on_small_integers (env : Env) :
    expressionEval env (str "-5") = some (.ok (.int (-5)))
    ∧ (∀ a b : Nat, a < 2 ^ 53 → b < 2 ^ 53 →
        ∃ s m e, expressionEval env (natToDecimal a ++ str "-" ++ natToDecimal b)
            = some (.ok (.double (.finite s m e)))
          ∧ (Float64.finite s m e).toRat = (a : ℚ) - (b : ℚ))
    ∧ (∀ a b : Nat, a < 2 ^ 53 → b < 2 ^ 53 → a * b < 2 ^ 53 →
        ∃ s m e, expressionEval env (natToDecimal a ++ str "*-" ++ natToDecimal b)
            = some (.ok (.double (.finite s m e)))
          ∧ (Float64.finite s m e).toRat = -((a : ℚ) * (b : ℚ))) := by
  refine ⟨rfl, ?_, ?_⟩
  · intro a b ha hb
    obtain ⟨s, m, e, hsub, hval⟩ := Float64.sub_ofInt_exact a b ha hb
    refine ⟨s, m, e, ?_, hval⟩
    have htext : natToDecimal a ++ str "-" ++ natToDecimal b
        = Itoa (a : Int) ++ 45 :: Itoa (b : Int) := by
      rw [Itoa_natCast, Itoa_natCast, show str "-" = [45] from rfl]
      simp
    rw [htext, expressionEval_of_tokens env _ _
      (Tokenize_binary (a : Int) (b : Int) 45 (Or.inr (Or.inl rfl)))]
    have hev := Evaluate_sub env (Itoa (a : Int)) (Itoa (b : Int)) a b
      (Atoi_Itoa _ (by omega) (by omega)) (Atoi_Itoa _ (by omega) (by omega))
    rw [hsub] at hev
    exact congrArg some hev
  · intro a b ha hb hab
    obtain ⟨s, m, e, hmul, hval⟩ := Float64.mul_ofInt_neg_exact a b ha hb hab
    refine ⟨s, m, e, ?_, hval⟩
    have htext : natToDecimal a ++ str "*-" ++ natToDecimal b
        = natToDecimal a ++ 42 :: 45 :: natToDecimal b := by
      rw [show str "*-" = [42, 45] from rfl]
      simp
    rw [htext, expressionEval_of_tokens env _ _ (Tokenize_times_minus a b)]
    have hev := Evaluate_mul env (natToDecimal a) (45 :: natToDecimal b) a (-(b : Int))
      (Atoi_natToDecimal a (by omega)) (Atoi_minus_natToDecimal b (by omega))
    rw [hmul] at hev
    exact congrArg some hev

/-- Witness of C7 at `a = 3`, `b = 5`: the texts `3-5` and `3*-5`. -/
theorem C7_minus_on_small_integers_witness :
    (3 < 2 ^ 53 ∧ 5 < 2 ^ 53 ∧ 3 * 5 < 2 ^ 53)
    ∧ (∃ s m e, expressionEval symbolsOnlyEnv (natToDecimal 3 ++ str "-" ++ natToDecimal 5)
          = some (.ok (.double (.finite s m e)))
        ∧ (Float64.finite s m e).toRat = ((3 : Nat) : ℚ) - ((5 : Nat) : ℚ))
    ∧ (∃ s m e, expressionEval symbolsOnlyEnv (natToDecimal 3 ++ str "*-" ++ natToDecimal 5)
          = some (.ok (.double (.finite s m e)))
        ∧ (Float64.finite s m e).toRat = -(((3 : Nat) : ℚ) * ((5 : Nat) : ℚ))) :=
  ⟨by norm_num,
    (C7_minus_on_small_integers symbolsOnlyEnv).2.1 3 5 (by norm_num) (by norm_num),
    (C7_minus_on_small_integers symbolsOnlyEnv).2.2 3 5 (by norm_num) (by norm_num)
      (by norm_num)⟩

/-! ## The index operator -/

theorem normalizeIndex_nonneg (i : Int) (n : Nat) (h0 : 0 ≤ i) (h1 : i < n) :
    normalizeIndex i n = .ok i.toNat := by
  have h2 : ¬ (i ≥ (n : Int)) := by omega
  have h3 : ¬ (i < 0) := by omega
  simp [normalizeIndex, h2, h3]

theorem normalizeIndex_neg (i : Int) (n : Nat) (h0 : -(n : Int) ≤ i) (h1 : i < 0) :
    normalizeIndex i n = .ok ((n : Int) + i).toNat := by
  have h2 : ¬ (i ≥ (n : Int)) := by omega
  have h3 : ¬ ((n : Int) + i < 0) := by omega
  simp [normalizeIndex, h2, h1, h3]

theorem normalizeIndex_out (i : Int) (n : Nat) (h : (n : Int) ≤ i ∨ i < -(n : Int)) :
    (normalizeIndex i n).isError = true := by
  unfold normalizeIndex
  by_cases h2 : i ≥ (n : Int)
  · simp [h2, errorf, Res.isError]
  · have h1 : i < 0 := by omega
    have h3 : (n : Int) + i < 0 := by omega
    simp [h2, h1, h3, errorf, Res.isError]

/-- The scalar rule as one case distinction on the index. -/
theorem normalizeIndex_cases (i : Int) (n : Nat) :
    (0 ≤ i ∧ i < n ∧ normalizeIndex i n = .ok i.toNat)
    ∨ (-(n : Int) ≤ i ∧ i < 0 ∧ normalizeIndex i n = .ok ((n : Int) + i).toNat)
    ∨ (((n : Int) ≤ i ∨ i < -(n : Int)) ∧ (normalizeIndex i n).isError = true) := by
  by_cases h0 : 0 ≤ i
  · by_cases h1 : i < n
    · exact Or.inl ⟨h0, h1, normalizeIndex_nonneg i n h0 h1⟩
    · exact Or.inr (Or.inr ⟨Or.inl (by omega), normalizeIndex_out i n (Or.inl (by omega))⟩)
  · by_cases h1 : -(n : Int) ≤ i
    · exact Or.inr (Or.inl ⟨h1, by omega, normalizeIndex_neg i n h1 (by omega)⟩)
    · exact Or.inr (Or.inr ⟨Or.inr (by omega), normalizeIndex_out i n (Or.inr (by omega))⟩)

theorem IndexifyOperator_list_int (eval : EvalFn) (pfe rest : List PostfixElem) (nl : Bool)
    (l : List Value) (i : Int) (k : Nat) (v : Value)
    (hops : GetBinaryOperands eval pfe = .ok ((.list nl l, .int i), rest))
    (hk : normalizeIndex i l.length = .ok k) (hv : l.get? k = some v) :
    IndexifyOperator eval pfe = .ok (v, rest) := by
  rw [List.get?_eq_getElem?] at hv
  simp [IndexifyOperator, hops, Res.bind, hk, hv]

theorem IndexifyOperator_string_int (eval : EvalFn) (pfe rest : List PostfixElem)
    (s : GoString) (i : Int) (k : Nat) (b : Byte)
    (hops : GetBinaryOperands eval pfe = .ok ((.string s, .int i), rest))
    (hk : normalizeIndex i s.length = .ok k) (hv : s.get? k = some b) :
    IndexifyOperator eval pfe = .ok (.char b.val, rest) := by
  rw [List.get?_eq_getElem?] at hv
  simp [IndexifyOperator, hops, Res.bind, hk, hv]

theorem Res.bind_isError {α β : Type} (r : Res α) (f : α → Res β) (h : r.isError = true) :
    (r.bind f).isError = true := by
  cases r <;> simp_all [Res.bind, Res.isError]

/-- C13. Scalar indexing. When the operands of `IndexifyOperator` are a List `l` of length
`n` and an Int `i`, the result is the element `l[i]` when `0 <= i < n`, the element
`l[n+i]` when `-n <= i < 0`, and a returned error otherwise. When they are a String `s` and
an Int `i`, the same rule applies to the length of `s` in bytes, and the result is the
`Char` of the byte at that position. -/
theorem C13_scalar_indexing (eval : EvalFn) (pfe rest : List PostfixElem) (i : Int) :
    (∀ (nl : Bool) (l : List Value),
      GetBinaryOperands eval pfe = .ok ((.list nl l, .int i), rest) →
        (0 ≤ i → i < l.length →
          ∃ v, l.get? i.toNat = some v ∧ IndexifyOperator eval pfe = .ok (v, rest))
        ∧ (-(l.length : Int) ≤ i → i < 0 →
          ∃ v, l.get? ((l.length : Int) + i).toNat = some v
            ∧ IndexifyOperator eval pfe = .ok (v, rest))
        ∧ ((l.length : Int) ≤ i ∨ i < -(l.length : Int) →
          (IndexifyOperator eval pfe).isError = true))
    ∧ (∀ (s : GoString),
      GetBinaryOperands eval pfe = .ok ((.string s, .int i), rest) →
        (0 ≤ i → i < s.length →
          ∃ b, s.get? i.toNat = some b
            ∧ IndexifyOperator eval pfe = .ok (.char b.val, rest))
        ∧ (-(s.length : Int) ≤ i → i < 0 →
          ∃ b, s.get? ((s.length : Int) + i).toNat = some b
            ∧ IndexifyOperator eval pfe = .ok (.char b.val, rest))
        ∧ ((s.length : Int) ≤ i ∨ i < -(s.length : Int) →
          (IndexifyOperator eval pfe).isError = true)) := by
  refine ⟨fun nl l hops => ⟨fun h0 h1 => ?_, fun h0 h1 => ?_, fun h => ?_⟩,
    fun s hops => ⟨fun h0 h1 => ?_, fun h0 h1 => ?_, fun h => ?_⟩⟩
  · have hlt : i.toNat < l.length := by omega
    exact ⟨l.get ⟨i.toNat, hlt⟩, List.get?_eq_get hlt,
      IndexifyOperator_list_int eval pfe rest nl l i _ _ hops
        (normalizeIndex_nonneg i _ h0 h1) (List.get?_eq_get hlt)⟩
  · have hlt : ((l.length : Int) + i).toNat < l.length := by omega
    exact ⟨l.get ⟨_, hlt⟩, List.get?_eq_get hlt,
      IndexifyOperator_list_int eval pfe rest nl l i _ _ hops
        (normalizeIndex_neg i _ h0 h1) (List.get?_eq_get hlt)⟩
  · have he := normalizeIndex_out i l.length h
    simp only [IndexifyOperator, hops, Res.bind]
    exact Res.bind_isError _ _ he
  · have hlt : i.toNat < s.length := by omega
    exact ⟨s.get ⟨i.toNat, hlt⟩, List.get?_eq_get hlt,
      IndexifyOperator_string_int eval pfe rest s i _ _ hops
        (normalizeIndex_nonneg i _ h0 h1) (List.get?_eq_get hlt)⟩
  · have hlt : ((s.length : Int) + i).toNat < s.length := by omega
    exact ⟨s.get ⟨_, hlt⟩, List.get?_eq_get hlt,
      IndexifyOperator_string_int eval pfe rest s i _ _ hops
        (normalizeIndex_neg i _ h0 h1) (List.get?_eq_get hlt)⟩
  · have he := normalizeIndex_out i s.length h
    simp only [IndexifyOperator, hops, Res.bind]
    exact Res.bind_isError _ _ he

/-- Witness of C13 on the list `[1,2,3]`: index `-1` gives the last element, the indices
`3` and `-4` give an error. -/
theorem C13_scalar_indexing_witness :
    (∃ v, [Value.int 1, Value.int 2, Value.int 3].get?
          (((List.length [Value.int 1, Value.int 2, Value.int 3] : Nat) : Int) + (-1)).toNat
            = some v
        ∧ IndexifyOperator (evaluatePostfix symbolsOnlyEnv 1)
            [.value (.int (-1)), .value (.list false [.int 1, .int 2, .int 3])] = .ok (v, []))
    ∧ (IndexifyOperator (evaluatePostfix symbolsOnlyEnv 1)
        [.value (.int 3), .value (.list false [.int 1, .int 2, .int 3])]).isError = true
    ∧ (IndexifyOperator (evaluatePostfix symbolsOnlyEnv 1)
        [.value (.int (-4)), .value (.list false [.int 1, .int 2, .int 3])]).isError = true :=
  ⟨((C13_scalar_indexing (evaluatePostfix symbolsOnlyEnv 1)
      [.value (.int (-1)), .value (.list false [.int 1, .int 2, .int 3])] [] (-1)).1
      false [.int 1, .int 2, .int 3] rfl).2.1 (by decide) (by decide),
   ((C13_scalar_indexing (evaluatePostfix symbolsOnlyEnv 1)
      [.value (.int 3), .value (.list false [.int 1, .int 2, .int 3])] [] 3).1
      false [.int 1, .int 2, .int 3] rfl).2.2 (Or.inl (by decide)),
   ((C13_scalar_indexing (evaluatePostfix symbolsOnlyEnv 1)
      [.value (.int (-4)), .value (.list false [.int 1, .int 2, .int 3])] [] (-4)).1
      false [.int 1, .int 2, .int 3] rfl).2.2 (Or.inr (by decide))⟩

theorem sliceRange_of_le {α : Type} (l : List α) (f t : Nat) (h : f ≤ t + 1) :
    sliceRange l f t = .ok ((l.take (t + 1)).drop f) := by
  have : ¬ (f > t + 1) := by omega
  simp [sliceRange, this]

theorem get?_drop_take {α : Type} (l : List α) (f t k : Nat) (hk : f + k ≤ t) :
    ((l.take (t + 1)).drop f).get? k = l.get? (f + k) := by
  simp only [List.get?_eq_getElem?, List.getElem?_drop, List.getElem?_take]
  have : f + k < t + 1 := by omega
  simp [this]

theorem IndexifyOperator_list_range (eval : EvalFn) (pfe rest : List PostfixElem) (nl : Bool)
    (l : List Value) (a b : Int) (f t : Nat)
    (hops : GetBinaryOperands eval pfe = .ok ((.list nl l, .intRange a b), rest))
    (hf : normalizeIndex a l.length = .ok f) (ht : normalizeIndex b l.length = .ok t) :
    IndexifyOperator eval pfe
      = (sliceRange l f t).bind (fun sub => .ok (.list false sub, rest)) := by
  simp [IndexifyOperator, hops, Res.bind, hf, ht]

theorem IndexifyOperator_string_range (eval : EvalFn) (pfe rest : List PostfixElem)
    (s : GoString) (a b : Int) (f t : Nat)
    (hops : GetBinaryOperands eval pfe = .ok ((.string s, .intRange a b), rest))
    (hf : normalizeIndex a s.length = .ok f) (ht : normalizeIndex b s.length = .ok t) :
    IndexifyOperator eval pfe
      = (sliceRange s f t).bind (fun sub => .ok (.string sub, rest)) := by
  simp [IndexifyOperator, hops, Res.bind, hf, ht]

/-- The position that the scalar rule gives for index `i` in a collection of length `n`
is `p`: `p = i` for `0 <= i < n`, and `p = n + i` for `-n <= i < 0`. -/
theorem normalizeIndex_of_position (i : Int) (n p : Nat)
    (h : (0 ≤ i ∧ i < n ∧ (p : Int) = i) ∨ (-(n : Int) ≤ i ∧ i < 0 ∧ (p : Int) = n + i)) :
    normalizeIndex i n = .ok p ∧ p < n := by
  rcases h with ⟨h0, h1, hp⟩ | ⟨h0, h1, hp⟩
  · rw [normalizeIndex_nonneg i n h0 h1]
    have : i.toNat = p := by omega
    exact ⟨by rw [this], by omega⟩
  · rw [normalizeIndex_neg i n h0 h1]
    have : ((n : Int) + i).toNat = p := by omega
    exact ⟨by rw [this], by omega⟩

theorem IndexifyOperator_range_error (eval : EvalFn) (pfe rest : List PostfixElem)
    (c : Value) (n : Nat) (hc : (∃ nl l, c = .list nl l ∧ l.length = n)
      ∨ (∃ s, c = .string s ∧ s.length = n)) (a b : Int)
    (hops : GetBinaryOperands eval pfe = .ok ((c, .intRange a b), rest))
    (h : (normalizeIndex a n).isError = true ∨ (normalizeIndex b n).isError = true) :
    (IndexifyOperator eval pfe).isError = true := by
  rcases hc with ⟨nl, l, rfl, rfl⟩ | ⟨s, rfl, rfl⟩
  · simp only [IndexifyOperator, hops, Res.bind]
    rcases h with h | h
    · exact Res.bind_isError _ _ h
    · cases hna : normalizeIndex a l.length with
      | ok f => simp only [Res.bind]; exact Res.bind_isError _ _ h
      | error e => rfl
      | panic m => simp [normalizeIndex, errorf] at hna; split_ifs at hna
      | outOfFuel => simp [normalizeIndex, errorf] at hna; split_ifs at hna
  · simp only [IndexifyOperator, hops, Res.bind]
    rcases h with h | h
    · exact Res.bind_isError _ _ h
    · cases hna : normalizeIndex a s.length with
      | ok f => simp only [Res.bind]; exact Res.bind_isError _ _ h
      | error e => rfl
      | panic m => simp [normalizeIndex, errorf] at hna; split_ifs at hna
      | outOfFuel => simp [normalizeIndex, errorf] at hna; split_ifs at hna

theorem sub_collection_spec {α : Type} (l : List α) (f t : Nat) (hft : f ≤ t)
    (ht : t < l.length) :
    ((l.take (t + 1)).drop f).length = t - f + 1
    ∧ ∀ k, k ≤ t - f → ∃ v, ((l.take (t + 1)).drop f).get? k = some v
        ∧ l.get? (f + k) = some v := by
  refine ⟨?_, fun k hk => ?_⟩
  · simp only [List.length_drop, List.length_take]
    omega
  · have hlt : f + k < l.length := by omega
    refine ⟨l.get ⟨f + k, hlt⟩, ?_, List.get?_eq_get hlt⟩
    rw [get?_drop_take l f t k (by omega)]
    exact List.get?_eq_get hlt

/-- C14. Range indexing. When the operands of `IndexifyOperator` are a List (a String) of
length `n` and an `IntRange` whose ends normalize by the scalar rule to the positions `f`
and `t` with `f <= t`, the result is the List (the String) of length `t - f + 1` whose
element at `k` is the element at position `f + k` of the operand; when an end is at least
`n` or below `-n`, the result is a returned error. -/
theorem C14_range_indexing (eval : EvalFn) (pfe rest : List PostfixElem) (a b : Int) :
    (∀ (nl : Bool) (l : List Value),
      GetBinaryOperands eval pfe = .ok ((.list nl l, .intRange a b), rest) →
        (∀ f t : Nat,
          ((0 ≤ a ∧ a < l.length ∧ (f : Int) = a)
            ∨ (-(l.length : Int) ≤ a ∧ a < 0 ∧ (f : Int) = l.length + a)) →
          ((0 ≤ b ∧ b < l.length ∧ (t : Int) = b)
            ∨ (-(l.length : Int) ≤ b ∧ b < 0 ∧ (t : Int) = l.length + b)) →
          f ≤ t →
          ∃ sub, IndexifyOperator eval pfe = .ok (.list false sub, rest)
            ∧ sub.length = t - f + 1
            ∧ ∀ k, k ≤ t - f → ∃ v, sub.get? k = some v ∧ l.get? (f + k) = some v)
        ∧ (((l.length : Int) ≤ a ∨ a < -(l.length : Int))
            ∨ ((l.length : Int) ≤ b ∨ b < -(l.length : Int)) →
          (IndexifyOperator eval pfe).isError = true))
    ∧ (∀ (s : GoString),
      GetBinaryOperands eval pfe = .ok ((.string s, .intRange a b), rest) →
        (∀ f t : Nat,
          ((0 ≤ a ∧ a < s.length ∧ (f : Int) = a)
            ∨ (-(s.length : Int) ≤ a ∧ a < 0 ∧ (f : Int) = s.length + a)) →
          ((0 ≤ b ∧ b < s.length ∧ (t : Int) = b)
            ∨ (-(s.length : Int) ≤ b ∧ b < 0 ∧ (t : Int) = s.length + b)) →
          f ≤ t →
          ∃ sub, IndexifyOperator eval pfe = .ok (.string sub, rest)
            ∧ sub.length = t - f + 1
            ∧ ∀ k, k ≤ t - f → ∃ c, sub.get? k = some c ∧ s.get? (f + k) = some c)
        ∧ (((s.length : Int) ≤ a ∨ a < -(s.length : Int))
            ∨ ((s.length : Int) ≤ b ∨ b < -(s.length : Int)) →
          (IndexifyOperator eval pfe).isError = true)) := by
  refine ⟨fun nl l hops => ⟨fun f t hf ht hft => ?_, fun h => ?_⟩,
    fun s hops => ⟨fun f t hf ht hft => ?_, fun h => ?_⟩⟩
  · obtain ⟨hnf, _⟩ := normalizeIndex_of_position a l.length f hf
    obtain ⟨hnt, htn⟩ := normalizeIndex_of_position b l.length t ht
    obtain ⟨hlen, hel⟩ := sub_collection_spec l f t hft htn
    refine ⟨(l.take (t + 1)).drop f, ?_, hlen, hel⟩
    rw [IndexifyOperator_list_range eval pfe rest nl l a b f t hops hnf hnt,
      sliceRange_of_le l f t (by omega)]
    rfl
  · exact IndexifyOperator_range_error eval pfe rest _ l.length (Or.inl ⟨nl, l, rfl, rfl⟩) a b
      hops (h.imp (normalizeIndex_out a _) (normalizeIndex_out b _))
  · obtain ⟨hnf, _⟩ := normalizeIndex_of_position a s.length f hf
    obtain ⟨hnt, htn⟩ := normalizeIndex_of_position b s.length t ht
    obtain ⟨hlen, hel⟩ := sub_collection_spec s f t hft htn
    refine ⟨(s.take (t + 1)).drop f, ?_, hlen, hel⟩
    rw [IndexifyOperator_string_range eval pfe rest s a b f t hops hnf hnt,
      sliceRange_of_le s f t (by omega)]
    rfl
  · exact IndexifyOperator_range_error eval pfe rest _ s.length (Or.inr ⟨s, rfl, rfl⟩) a b
      hops (h.imp (normalizeIndex_out a _) (normalizeIndex_out b _))

/-- Witness of C14 on the string `abcde` and the range `1:-2`, which gives `bcd`. -/
theorem C14_range_indexing_witness :
    ∃ sub, IndexifyOperator (evaluatePostfix symbolsOnlyEnv 1)
        [.value (.intRange 1 (-2)), .value (.string (str "abcde"))] = .ok (.string sub, [])
      ∧ sub.length = 3 - 1 + 1
      ∧ ∀ k, k ≤ 3 - 1 → ∃ c, sub.get? k = some c ∧ (str "abcde").get? (1 + k) = some c :=
  ((C14_range_indexing (evaluatePostfix symbolsOnlyEnv 1)
    [.value (.intRange 1 (-2)), .value (.string (str "abcde"))] [] 1 (-2)).2
    (str "abcde") rfl).1 1 3 (Or.inl (by decide)) (Or.inr (by decide)) (by decide)

/-- C15. A range whose normalized end lies before its normalized start is not treated
uniformly, and it can abort: the text `"abc"{2:0}` aborts with the run-time error of a
slice expression whose bounds are out of order, and so does `[1,2,3]{2:0}`, while
`"abc"{2:1}` gives the empty String. -/
theorem C15_reversed_range_aborts (env : Env) :
    expressionEval env (str "\"abc\"\x7b2:0\x7d")
      = some (.panic (str "runtime error: slice bounds out of range"))
    ∧ expressionEval env (str "[1,2,3]\x7b2:0\x7d")
      = some (.panic (str "runtime error: slice bounds out of range"))
    ∧ expressionEval env (str "\"abc\"\x7b2:1\x7d") = some (.ok (.string [])) := by
  refine ⟨?_, ?_, ?_⟩ <;> rfl

/-! ## The colon and the question operator -/

theorem GetBinaryOperands_of_eval (eval : EvalFn) (pfe r1 r2 : List PostfixElem) (x y : Value)
    (hy : eval pfe = .ok (y, r1)) (hx : eval r1 = .ok (x, r2)) :
    GetBinaryOperands eval pfe = .ok ((x, y), r2) := by
  simp [GetBinaryOperands, hy, hx, Res.bind]

/-- C19. The colon operator, on a left operand `x` and a right operand `y` of which `y`
is evaluated first: two Ints give the `IntRange` from `x` to `y`; a Bool `x` and a comma
list `y` whose flattening is `[t, f]` give the `ConditionalValues` of `x`, `t` and `f`;
every other pair of operands gives a returned error. -/
theorem C19_colon_operator (eval : EvalFn) (pfe r1 r2 : List PostfixElem) (x y : Value)
    (hy : eval pfe = .ok (y, r1)) (hx : eval r1 = .ok (x, r2)) :
    (∀ f t : Int, x = .int f → y = .int t →
      ColonOperator eval pfe = .ok (.intRange f t, r2))
    ∧ (∀ (cond : Bool) (cl : List Value) (t f : Value), x = .bool cond → y = .commaList cl →
      Flatten cl = [t, f] → ColonOperator eval pfe = .ok (.conditionalValues cond t f, r2))
    ∧ ((¬ ∃ f t : Int, x = .int f ∧ y = .int t) →
      (¬ ∃ (cond : Bool) (cl : List Value) (t f : Value),
        x = .bool cond ∧ y = .commaList cl ∧ Flatten cl = [t, f]) →
      (ColonOperator eval pfe).isError = true) := by
  have hops := GetBinaryOperands_of_eval eval pfe r1 r2 x y hy hx
  refine ⟨?_, ?_, ?_⟩
  · rintro f t rfl rfl
    simp [ColonOperator, hops, Res.bind]
  · rintro cond cl t f rfl rfl hfl
    simp [ColonOperator, hops, Res.bind, hfl]
  · intro h1 h2
    simp only [ColonOperator, hops, Res.bind]
    cases x <;> cases y <;> try rfl
    · rename_i cond cl
      rcases hfl : Flatten cl with _ | ⟨t, _ | ⟨f, _ | ⟨g, tl⟩⟩⟩
      · simp [hfl, errorf, Res.isError]
      · simp [hfl, errorf, Res.isError]
      · exact absurd ⟨cond, cl, t, f, rfl, rfl, hfl⟩ h2
      · simp [hfl, errorf, Res.isError]
    · exact absurd ⟨_, _, rfl, rfl⟩ h1

/-- Witness of C19 on the operands `true` and the comma list `(1, 2)`. -/
theorem C19_colon_operator_witness :
    ColonOperator (evaluatePostfix symbolsOnlyEnv 1)
        [.value (.commaList [.int 1, .int 2]), .value (.bool true)]
      = .ok (.conditionalValues true (.int 1) (.int 2), []) :=
  (C19_colon_operator (evaluatePostfix symbolsOnlyEnv 1)
    [.value (.commaList [.int 1, .int 2]), .value (.bool true)] [.value (.bool true)] []
    (.bool true) (.commaList [.int 1, .int 2]) rfl rfl).2.1 true [.int 1, .int 2] (.int 1) (.int 2)
    rfl rfl rfl

theorem QuestionOperator_spec (eval : EvalFn) (pfe rest : List PostfixElem) (v : Value)
    (hv : eval pfe = .ok (v, rest)) :
    (∀ (cond : Bool) (t f : Value), v = .conditionalValues cond t f →
      QuestionOperator eval pfe = .ok (if cond then t else f, rest))
    ∧ ((∀ (cond : Bool) (t f : Value), v ≠ .conditionalValues cond t f) →
      (QuestionOperator eval pfe).isError = true) := by
  refine ⟨?_, ?_⟩
  · rintro cond t f rfl
    cases cond <;> simp [QuestionOperator, GetUnaryOperand, hv, Res.bind]
  · intro h
    simp only [QuestionOperator, GetUnaryOperand, hv, Res.bind]
    rfl

/-! ## Lists under `+`, `-` and `^` -/

theorem DataType_list_getLast (nl : Bool) (l : List Value) :
    (Value.list nl l).DataType.getLast? = some 93 := by
  cases l with
  | nil => rfl
  | cons x xs =>
    simp only [Value.DataType]
    rw [show str "[]" = [91, 93] from rfl, List.getLast?_append]
    rfl

theorem DataType_ne_of_isList (v : Value) (h : v.isList = true) (s : GoString)
    (hs : s.getLast? ≠ some 93) : v.DataType ≠ s := by
  cases v <;> simp [Value.isList] at h
  rename_i nl l
  intro heq
  exact hs (heq ▸ DataType_list_getLast nl l)

theorem IsListAny_pair (op1 op2 : Value) :
    IsListAny [op1, op2] = (op1.isList || op2.isList) := by
  simp [IsListAny]

theorem IsNumber_pair_of_isList (op1 op2 : Value) (h : IsListAny [op1, op2] = true) :
    IsNumber [op1, op2] = false := by
  rw [IsListAny_pair, Bool.or_eq_true] at h
  rcases h with h | h
  · have h1 := DataType_ne_of_isList op1 h (str "Int32") (by decide)
    have h2 := DataType_ne_of_isList op1 h (str "Double") (by decide)
    simp [IsNumber, h1, h2]
  · have h1 := DataType_ne_of_isList op2 h (str "Int32") (by decide)
    have h2 := DataType_ne_of_isList op2 h (str "Double") (by decide)
    simp [IsNumber, h1, h2]

theorem IsString_pair_of_isList (op1 op2 : Value) (h : IsListAny [op1, op2] = true) :
    IsString [op1, op2] = false := by
  rw [IsListAny_pair, Bool.or_eq_true] at h
  rcases h with h | h
  · have h1 := DataType_ne_of_isList op1 h (str "String") (by decide)
    simp [IsString, h1]
  · have h1 := DataType_ne_of_isList op2 h (str "String") (by decide)
    simp [IsString, h1]

theorem IsDateTimeInt_of_isList (op1 op2 : Value) (h : IsListAny [op1, op2] = true) :
    (IsDateTime [op1] && IsInt [op2]) = false := by
  rw [IsListAny_pair, Bool.or_eq_true] at h
  rcases h with h | h
  · have h1 := DataType_ne_of_isList op1 h (str "DateTime") (by decide)
    simp [IsDateTime, h1]
  · have h1 := DataType_ne_of_isList op2 h (str "Int32") (by decide)
    simp [IsInt, h1]

theorem IsDateTime_pair_of_isList (op1 op2 : Value) (h : IsListAny [op1, op2] = true) :
    IsDateTime [op1, op2] = false := by
  rw [IsListAny_pair, Bool.or_eq_true] at h
  rcases h with h | h
  · have h1 := DataType_ne_of_isList op1 h (str "DateTime") (by decide)
    simp [IsDateTime, h1]
  · have h1 := DataType_ne_of_isList op2 h (str "DateTime") (by decide)
    simp [IsDateTime, h1]

theorem buildItems_of_hashable : ∀ (l : List Value), (∀ item ∈ l, hashable item = true) →
    buildItems l = .ok l
  | [], _ => rfl
  | item :: rest, h => by
    have h1 := h item (List.mem_cons_self _ _)
    have h2 := buildItems_of_hashable rest (fun x hx => h x (List.mem_cons_of_mem _ hx))
    simp [buildItems, h1, h2, Res.bind]

theorem filterItems_of_hashable (keys : List Value) (keep : Bool) :
    ∀ (l : List Value), (∀ item ∈ l, hashable item = true) →
    filterItems keys keep l = .ok (l.filter (fun item => keys.any (keyEqual item) == keep))
  | [], _ => rfl
  | item :: rest, h => by
    have h1 := h item (List.mem_cons_self _ _)
    have h2 := filterItems_of_hashable keys keep rest
      (fun x hx => h x (List.mem_cons_of_mem _ hx))
    simp only [filterItems, h1, h2, Res.bind, if_true, List.filter_cons]

theorem UpgradeBinaryOperandsToLists_of_isList (op1 op2 : Value)
    (h : IsListAny [op1, op2] = true) :
    UpgradeBinaryOperandsToLists op1 op2 = (toListOperand op1, toListOperand op2) := by
  simp [UpgradeBinaryOperandsToLists, h]

theorem IsListAny_single (op1 : Value) : IsListAny [op1] = op1.isList := by
  simp [IsListAny]

theorem IsListAll_pair (op1 op2 : Value) :
    IsListAll [op1, op2] = (op1.isList && op2.isList) := by
  simp [IsListAll]

/-- The key map that `ArithmeticAndRelationalOperator` builds before it looks at the
operator: no abort when the left operand is not a List or every item of the right list
can be hashed. -/
theorem lop2Items_ok (op1 op2 : Value)
    (hhash : op1.isList = true → ∀ item ∈ (toListOperand op2).2, hashable item = true) :
    (if IsListAny [op1] then buildItems (toListOperand op2).2 else .ok [])
      = .ok (if op1.isList then (toListOperand op2).2 else []) := by
  rw [IsListAny_single]
  cases h : op1.isList
  · simp
  · simp [buildItems_of_hashable _ (hhash h)]

theorem plus_on_lists (env : Env) (eval : EvalFn) (op : Token) (pfe rest : List PostfixElem)
    (op1 op2 : Value) (hops : GetBinaryOperands eval pfe = .ok ((op1, op2), rest))
    (hop : op.text = str "+") (hany : IsListAny [op1, op2] = true)
    (hhash : op1.isList = true → ∀ item ∈ (toListOperand op2).2, hashable item = true) :
    ArithmeticAndRelationalOperator env eval op pfe
      = if (toListOperand op1).DataType = (toListOperand op2).DataType then
          .ok (.list (isNilSlice (toListOperand op1).1 (toListOperand op1).2
              && (toListOperand op2).2.isEmpty)
            ((toListOperand op1).2 ++ (toListOperand op2).2), rest)
        else errorf "Cannot perform operation '%s' on %v and %v"
          [.str op.text, .str op1.DataType, .str op2.DataType] := by
  simp only [ArithmeticAndRelationalOperator, hops, hop,
    UpgradeBinaryOperandsToLists_of_isList op1 op2 hany, lop2Items_ok op1 op2 hhash, Res.bind,
    IsNumber_pair_of_isList op1 op2 hany, IsString_pair_of_isList op1 op2 hany, hany,
    IsDateTimeInt_of_isList op1 op2 hany]
  simp

theorem minus_on_lists (env : Env) (eval : EvalFn) (op : Token) (pfe rest : List PostfixElem)
    (nl : Bool) (l1 : List Value) (op2 : Value)
    (hops : GetBinaryOperands eval pfe = .ok ((.list nl l1, op2), rest))
    (hop : op.text = str "-")
    (htype : (Value.list nl l1).DataType = (toListOperand op2).DataType)
    (hhash : ∀ item ∈ l1 ++ (toListOperand op2).2, hashable item = true) :
    ArithmeticAndRelationalOperator env eval op pfe
      = .ok (.list (l1.filter (fun item => !(toListOperand op2).2.any (keyEqual item))).isEmpty
          (l1.filter (fun item => !(toListOperand op2).2.any (keyEqual item))), rest) := by
  have hany : IsListAny [Value.list nl l1, op2] = true := by simp [IsListAny, Value.isList]
  have h2 : ∀ item ∈ (toListOperand op2).2, hashable item = true :=
    fun x hx => hhash x (List.mem_append_right _ hx)
  have h1 : ∀ item ∈ l1, hashable item = true :=
    fun x hx => hhash x (List.mem_append_left _ hx)
  have htype1 : Slice.DataType (nl, l1) = Slice.DataType (toListOperand op2) := htype
  have hfilter : (fun item => (toListOperand op2).2.any (keyEqual item) == false)
      = (fun item => !(toListOperand op2).2.any (keyEqual item)) := by
    funext item
    cases (toListOperand op2).2.any (keyEqual item) <;> rfl
  have hl1 : toListOperand (Value.list nl l1) = (nl, l1) := rfl
  have hisl : (Value.list nl l1).isList = true := rfl
  have e1 : str "-" ≠ str "+" := by decide
  have hb := lop2Items_ok (Value.list nl l1) op2 (fun _ => h2)
  rw [hisl, if_pos rfl] at hb
  simp only [ArithmeticAndRelationalOperator, hops, hop,
    UpgradeBinaryOperandsToLists_of_isList _ op2 hany, hb, Res.bind,
    IsNumber_pair_of_isList _ op2 hany, hl1, htype1, e1,
    filterItems_of_hashable _ false l1 h1, hfilter]
  simp [IsListAny_single, hisl]

theorem intersect_on_values (env : Env) (eval : EvalFn) (op : Token)
    (pfe rest : List PostfixElem) (op1 op2 : Value)
    (hops : GetBinaryOperands eval pfe = .ok ((op1, op2), rest))
    (hop : op.text = str "^")
    (hhash2 : op1.isList = true → ∀ item ∈ (toListOperand op2).2, hashable item = true)
    (hhash1 : op1.isList = true → op2.isList = true →
      ∀ item ∈ (toListOperand op1).2, hashable item = true) :
    ArithmeticAndRelationalOperator env eval op pfe
      = if op1.isList = true ∧ op2.isList = true
            ∧ (toListOperand op1).DataType = (toListOperand op2).DataType then
          .ok (.list ((toListOperand op1).2.filter
                (fun item => (toListOperand op2).2.any (keyEqual item))).isEmpty
              ((toListOperand op1).2.filter
                (fun item => (toListOperand op2).2.any (keyEqual item))), rest)
        else errorf "Cannot perform operation '%s' on %v and %v"
          [.str op.text, .str op1.DataType, .str op2.DataType] := by
  have hfilter : (fun item => (toListOperand op2).2.any (keyEqual item) == true)
      = (fun item => (toListOperand op2).2.any (keyEqual item)) := by
    funext item
    cases (toListOperand op2).2.any (keyEqual item) <;> rfl
  have e1 : str "^" ≠ str "+" := by decide
  have e2 : str "^" ≠ str "-" := by decide
  have e3 : str "^" ≠ str "*" := by decide
  have e4 : str "^" ≠ str "/" := by decide
  have e5 : str "^" ≠ str "#" := by decide
  by_cases h1 : op1.isList = true
  · have hany : IsListAny [op1, op2] = true := by simp [IsListAny, h1]
    by_cases h2 : op2.isList = true
    · simp only [ArithmeticAndRelationalOperator, hops, hop,
        UpgradeBinaryOperandsToLists_of_isList _ op2 hany,
        lop2Items_ok _ op2 hhash2, Res.bind, IsListAll_pair, h1, h2,
        filterItems_of_hashable _ true _ (hhash1 h1 h2), hfilter, e1, e2, e3, e4, e5]
      simp
    · simp only [ArithmeticAndRelationalOperator, hops, hop,
        UpgradeBinaryOperandsToLists_of_isList _ op2 hany,
        lop2Items_ok _ op2 hhash2, Res.bind, IsListAll_pair, h1, h2, e1, e2, e3, e4, e5]
      simp
  · simp only [ArithmeticAndRelationalOperator, hops, hop, Res.bind, IsListAll_pair,
      IsListAny_single, h1, e1, e2, e3, e4, e5]
    simp

theorem Res.isError_ite_errorf {α : Type} (c : Prop) [Decidable c] (x : Res α) (format : String)
    (args : List FmtArg) (h : ¬ c) : (if c then x else errorf format args).isError = true := by
  rw [if_neg h]
  rfl

set_option maxRecDepth 4000 in
/-- C16. List `+`. Whenever at least one operand is a List and the other is wrapped as a
one-element List, lists of the same element type give the left list followed by the right
list and lists of different element types give a returned error, provided that, when the
left operand is a List, every item of the right list can be a key of a map; so
`[1,2,3]+[4,5]` is `[1,2,3,4,5]`. But the text `[1]+(2,3)`, whose right operand is a comma
list, aborts instead of returning an error: the operator puts the items of the right list
into a map before it looks at the element types. -/
theorem C16_list_plus_aborts_on_unhashable_item (env : Env) :
    (∀ (eval : EvalFn) (op : Token) (pfe rest : List PostfixElem) (op1 op2 : Value),
      GetBinaryOperands eval pfe = .ok ((op1, op2), rest) → op.text = str "+" →
      IsListAny [op1, op2] = true →
      (op1.isList = true → ∀ item ∈ (toListOperand op2).2, hashable item = true) →
        ((toListOperand op1).DataType = (toListOperand op2).DataType →
          ∃ nl, ArithmeticAndRelationalOperator env eval op pfe
            = .ok (.list nl ((toListOperand op1).2 ++ (toListOperand op2).2), rest))
        ∧ ((toListOperand op1).DataType ≠ (toListOperand op2).DataType →
          (ArithmeticAndRelationalOperator env eval op pfe).isError = true))
    ∧ expressionEval env (str "[1,2,3]+[4,5]")
      = some (.ok (.list false [.int 1, .int 2, .int 3, .int 4, .int 5]))
    ∧ expressionEval env (str "[1]+(2,3)")
      = some (.panic (str "runtime error: hash of unhashable type")) := by
  refine ⟨fun eval op pfe rest op1 op2 hops hop hany hhash => ?_, ?_, ?_⟩
  · rw [plus_on_lists env eval op pfe rest op1 op2 hops hop hany hhash]
    exact ⟨fun h => ⟨_, by rw [if_pos h]⟩, fun h => Res.isError_ite_errorf _ _ _ _ h⟩
  · rfl
  · rfl

/-- Witness of C16 on the operands `[1,2]` and `3`: the scalar is wrapped. -/
theorem C16_list_plus_aborts_on_unhashable_item_witness :
    ∃ nl, ArithmeticAndRelationalOperator symbolsOnlyEnv (evaluatePostfix symbolsOnlyEnv 1)
        ⟨.arithmeticOperator, str "+"⟩
        [.value (.int 3), .value (.list false [.int 1, .int 2])]
      = .ok (.list nl ((toListOperand (.list false [.int 1, .int 2])).2
          ++ (toListOperand (.int 3)).2), []) :=
  ((C16_list_plus_aborts_on_unhashable_item symbolsOnlyEnv).1
    (evaluatePostfix symbolsOnlyEnv 1) ⟨.arithmeticOperator, str "+"⟩
    [.value (.int 3), .value (.list false [.int 1, .int 2])] []
    (.list false [.int 1, .int 2]) (.int 3) rfl rfl rfl
    (fun _ item hitem => by
      rw [show item = .int 3 from List.mem_singleton.mp hitem]
      rfl)).1 rfl

set_option maxRecDepth 4000 in
/-- C17. List `-`. When the left operand is a List, the right operand (wrapped as a
one-element List if it is not one) has the same element type, and every item of both lists
can be a key of a map, the result is the list of the items of the left list, in their
order and multiplicity, that are not equal (`==`, so an Int never equals a Double) to any
item of the right list; so `[1,2,3]-[2]` is `[1,3]`. But on lists whose items are lists
the operator aborts: `[[1],[2]] - [[1]]` does not evaluate to `[[2]]`. -/
theorem C17_list_minus_aborts_on_nested_lists (env : Env) :
    (∀ (eval : EvalFn) (op : Token) (pfe rest : List PostfixElem) (nl : Bool)
        (l1 : List Value) (op2 : Value),
      GetBinaryOperands eval pfe = .ok ((.list nl l1, op2), rest) → op.text = str "-" →
      (Value.list nl l1).DataType = (toListOperand op2).DataType →
      (∀ item ∈ l1 ++ (toListOperand op2).2, hashable item = true) →
        ∃ nl1, ArithmeticAndRelationalOperator env eval op pfe
          = .ok (.list nl1
              (l1.filter (fun item => !(toListOperand op2).2.any (keyEqual item))), rest))
    ∧ keyEqual (.int 1) (.double (Float64.ofInt 1)) = false
    ∧ expressionEval env (str "[1,2,3]-[2]") = some (.ok (.list false [.int 1, .int 3]))
    ∧ evaluatePostfix env 2
        [.token ⟨.arithmeticOperator, str "-"⟩,
          .value (.list false [.list false [.int 1]]),
          .value (.list false [.list false [.int 1], .list false [.int 2]])]
      = .panic (str "runtime error: hash of unhashable type") := by
  refine ⟨fun eval op pfe rest nl l1 op2 hops hop htype hhash => ?_, ?_, ?_, ?_⟩
  · exact ⟨_, minus_on_lists env eval op pfe rest nl l1 op2 hops hop htype hhash⟩
  · rfl
  · rfl
  · rfl

/-- Witness of C17 on the operands `[1,2,3]` and `2`: the scalar is wrapped. -/
theorem C17_list_minus_aborts_on_nested_lists_witness :
    ∃ nl1, ArithmeticAndRelationalOperator symbolsOnlyEnv (evaluatePostfix symbolsOnlyEnv 1)
        ⟨.arithmeticOperator, str "-"⟩
        [.value (.int 2), .value (.list false [.int 1, .int 2, .int 3])]
      = .ok (.list nl1 ([Value.int 1, Value.int 2, Value.int 3].filter
          (fun item => !(toListOperand (.int 2)).2.any (keyEqual item))), []) :=
  (C17_list_minus_aborts_on_nested_lists symbolsOnlyEnv).1
    (evaluatePostfix symbolsOnlyEnv 1) ⟨.arithmeticOperator, str "-"⟩
    [.value (.int 2), .value (.list false [.int 1, .int 2, .int 3])] []
    false [.int 1, .int 2, .int 3] (.int 2) rfl rfl rfl
    (fun item hitem => by
      simp only [toListOperand, List.mem_append, List.mem_cons, List.mem_singleton,
        List.not_mem_nil, or_false] at hitem
      rcases hitem with (h | h | h) | h <;> rw [h] <;> rfl)

set_option maxRecDepth 4000 in
/-- C18. List `^`. When both operands are Lists of the same element type and every item
of both can be a key of a map, the result is the list of the items of the left list, in
their order, that are equal (`==`) to some item of the right list, so `[1,2]^[2,3]` is
`[2]`; when an operand is not a List or the element types differ, the result is a returned
error, provided that, when the left operand is a List, every item of the right operand can
be a key of a map. But the text `[1]^(2,3)`, whose right operand is a comma list and not a
List, aborts instead of returning an error. -/
theorem C18_list_intersect_aborts_on_unhashable_item (env : Env) :
    (∀ (eval : EvalFn) (op : Token) (pfe rest : List PostfixElem) (op1 op2 : Value),
      GetBinaryOperands eval pfe = .ok ((op1, op2), rest) → op.text = str "^" →
      (op1.isList = true → ∀ item ∈ (toListOperand op2).2, hashable item = true) →
      (op1.isList = true → op2.isList = true →
        ∀ item ∈ (toListOperand op1).2, hashable item = true) →
        (∀ (n1 n2 : Bool) (l1 l2 : List Value), op1 = .list n1 l1 → op2 = .list n2 l2 →
          op1.DataType = op2.DataType →
          ∃ nl, ArithmeticAndRelationalOperator env eval op pfe
            = .ok (.list nl (l1.filter (fun item => l2.any (keyEqual item))), rest))
        ∧ (op1.isList = false ∨ op2.isList = false
            ∨ (toListOperand op1).DataType ≠ (toListOperand op2).DataType →
          (ArithmeticAndRelationalOperator env eval op pfe).isError = true))
    ∧ expressionEval env (str "[1,2]^[2,3]") = some (.ok (.list false [.int 2]))
    ∧ expressionEval env (str "[1]^(2,3)")
      = some (.panic (str "runtime error: hash of unhashable type")) := by
  refine ⟨fun eval op pfe rest op1 op2 hops hop hh2 hh1 => ?_, ?_, ?_⟩
  · rw [intersect_on_values env eval op pfe rest op1 op2 hops hop hh2 hh1]
    refine ⟨?_, fun h => Res.isError_ite_errorf _ _ _ _ ?_⟩
    · rintro n1 n2 l1 l2 rfl rfl htype
      exact ⟨_, by rw [if_pos ⟨rfl, rfl, htype⟩]; rfl⟩
    · rintro ⟨h1, h2, h3⟩
      rcases h with h | h | h
      · rw [h1] at h; exact Bool.noConfusion h
      · rw [h2] at h; exact Bool.noConfusion h
      · exact h h3
  · rfl
  · rfl

/-- Witness of C18 on the operands `[1,2]` and `[2,3]`. -/
theorem C18_list_intersect_aborts_on_unhashable_item_witness :
    ∃ nl, ArithmeticAndRelationalOperator symbolsOnlyEnv (evaluatePostfix symbolsOnlyEnv 1)
        ⟨.arithmeticOperator, str "^"⟩
        [.value (.list false [.int 2, .int 3]), .value (.list false [.int 1, .int 2])]
      = .ok (.list nl ([Value.int 1, Value.int 2].filter
          (fun item => [Value.int 2, Value.int 3].any (keyEqual item))), []) :=
  ((C18_list_intersect_aborts_on_unhashable_item symbolsOnlyEnv).1
    (evaluatePostfix symbolsOnlyEnv 1) ⟨.arithmeticOperator, str "^"⟩
    [.value (.list false [.int 2, .int 3]), .value (.list false [.int 1, .int 2])] []
    (.list false [.int 1, .int 2]) (.list false [.int 2, .int 3]) rfl rfl
    (fun _ item hitem => by
      simp only [toListOperand, List.mem_cons, List.mem_singleton, List.not_mem_nil,
        or_false] at hitem
      rcases hitem with h | h <;> rw [h] <;> rfl)
    (fun _ _ item hitem => by
      simp only [toListOperand, List.mem_cons, List.mem_singleton, List.not_mem_nil,
        or_false] at hitem
      rcases hitem with h | h <;> rw [h] <;> rfl)).1 false false _ _ rfl rfl rfl

/-! ## Dispatch on signatures -/

theorem typeCodeMatches_supported (code : GoString) (h : code ∈ supportedCodes) (arg : Value) :
    ∃ b, typeCodeMatches code arg = some b := by
  simp only [supportedCodes, List.mem_cons, List.mem_singleton, List.not_mem_nil,
    or_false] at h
  rcases h with h | h | h | h | h | h | h | h | h | h | h | h | h <;> subst h <;>
    exact ⟨_, rfl⟩

theorem checkArgs_eq_argsMatch : ∀ (types : List GoString) (args : List Value),
    (∀ code ∈ types, code ∈ supportedCodes) → args.length ≤ types.length →
    checkArgs types args = .ok (argsMatch types args)
  | _, [], _, _ => by cases ‹List GoString› <;> rfl
  | [], _ :: _, _, hlen => by simp at hlen
  | t :: types, arg :: args, hcodes, hlen => by
    obtain ⟨b, hb⟩ := typeCodeMatches_supported t (hcodes t (List.mem_cons_self _ _)) arg
    have ih := checkArgs_eq_argsMatch types args
      (fun c hc => hcodes c (List.mem_cons_of_mem _ hc)) (by simpa using hlen)
    cases b
    · simp [checkArgs, argsMatch, hb]
    · simp [checkArgs, argsMatch, hb, ih]

theorem argsMatch_length : ∀ (types : List GoString) (args : List Value),
    argsMatch types args = true → args.length ≤ types.length
  | _, [], _ => by simp
  | [], _ :: _, h => by simp [argsMatch] at h
  | t :: types, arg :: args, h => by
    simp only [argsMatch, Bool.and_eq_true] at h
    have := argsMatch_length types args h.2
    simp only [List.length_cons]
    omega

theorem checkArgs_of_argsMatch : ∀ (types : List GoString) (args : List Value),
    argsMatch types args = true → checkArgs types args = .ok true
  | _, [], _ => by cases ‹List GoString› <;> rfl
  | [], _ :: _, h => by simp [argsMatch] at h
  | t :: types, arg :: args, h => by
    simp only [argsMatch, Bool.and_eq_true, beq_iff_eq] at h
    simp [checkArgs, h.1, checkArgs_of_argsMatch types args h.2]

theorem filterMap_length_of_all {α β : Type} (g : α → Option β) :
    ∀ (l : List α), l.all (fun x => (g x).isSome) = true → (l.filterMap g).length = l.length
  | [], _ => rfl
  | x :: xs, h => by
    simp only [List.all_cons, Bool.and_eq_true] at h
    obtain ⟨y, hy⟩ := Option.isSome_iff_exists.mp h.1
    simp [List.filterMap_cons, hy, filterMap_length_of_all g xs h.2]

/-- A signature that qualifies is invoked, with the supplied arguments followed by the
defaults. -/
theorem polyLoop_invoke (ts : GoString) (f : List Value → Res Value)
    (tf : List (GoString × (List Value → Res Value))) (args : List Value) (u : GoString)
    (hq : signatureQualifies (splitOnComma ts) args = true) :
    polyLoop ((ts, f) :: tf) args u = f (args ++ trailingDefaults (splitOnComma ts) args) := by
  simp only [signatureQualifies, Bool.and_eq_true] at hq
  have hlen := argsMatch_length _ _ hq.1
  have hd := filterMap_length_of_all defaultArg _ hq.2
  have hl : (args ++ (List.drop args.length (splitOnComma ts)).filterMap defaultArg).length
      = (splitOnComma ts).length := by
    rw [List.length_append, hd, List.length_drop]
    omega
  simp only [polyLoop, checkArgs_of_argsMatch _ _ hq.1, trailingDefaults]
  rw [if_neg (by simpa using hl)]

/-- A signature that is rejected on the type of a supplied argument, or that has more
parameters than there are supplied arguments of which none beyond carries a default,
leaves the arguments as they are. -/
theorem polyLoop_skip (ts : GoString) (f : List Value → Res Value)
    (tf : List (GoString × (List Value → Res Value))) (args : List Value) (u : GoString)
    (hcodes : ∀ code ∈ splitOnComma ts, code ∈ supportedCodes)
    (hlen : args.length ≤ (splitOnComma ts).length)
    (h : argsMatch (splitOnComma ts) args = false
      ∨ (args.length < (splitOnComma ts).length
        ∧ trailingDefaults (splitOnComma ts) args = [])) :
    polyLoop ((ts, f) :: tf) args u = polyLoop tf args (u ++ str " " ++ ts) := by
  have hc := checkArgs_eq_argsMatch _ _ hcodes hlen
  cases hm : argsMatch (splitOnComma ts) args
  · rw [hm] at hc
    simp only [polyLoop, hc]
  · rw [hm] at hc
    rcases h with h | ⟨hlt, hd⟩
    · rw [hm] at h
      exact Bool.noConfusion h
    · simp only [trailingDefaults] at hd
      simp only [polyLoop, hc, hd, List.append_nil]
      rw [if_pos (by omega)]

theorem polyLoop_skip_all (args : List Value) :
    ∀ (sigs : List (GoString × (List Value → Res Value))) (u : GoString),
    (∀ sig ∈ sigs, (∀ code ∈ splitOnComma sig.1, code ∈ supportedCodes)
      ∧ args.length ≤ (splitOnComma sig.1).length
      ∧ (argsMatch (splitOnComma sig.1) args = false
        ∨ (args.length < (splitOnComma sig.1).length
          ∧ trailingDefaults (splitOnComma sig.1) args = []))) →
    ∀ (tf : List (GoString × (List Value → Res Value))),
    polyLoop (sigs ++ tf) args u
      = polyLoop tf args (u ++ (sigs.map (fun sig => str " " ++ sig.1)).flatten)
  | [], u, _, tf => by simp
  | (ts, f) :: sigs, u, h, tf => by
    obtain ⟨hcodes, hlen, hrej⟩ := h (ts, f) (List.mem_cons_self _ _)
    rw [List.cons_append, polyLoop_skip ts f (sigs ++ tf) args u hcodes hlen hrej,
      polyLoop_skip_all args sigs _ (fun sig hs => h sig (List.mem_cons_of_mem _ hs)) tf]
    simp [List.append_assoc]

theorem ExecuteMethod_polyTypeCheckedMethod
    (sigs : List (GoString × (List Value → Res Value))) (eval : EvalFn)
    (pfe rest : List PostfixElem) (operand : Value) (args : List Value)
    (heval : eval pfe = .ok (operand, rest))
    (hargs : (∃ v, operand = .commaList v ∧ args = Flatten v)
      ∨ ((∀ v, operand ≠ .commaList v) ∧ args = [operand])) :
    (polyTypeCheckedMethod sigs).ExecuteMethod eval pfe
      = (polyLoop sigs args []).bind (fun d => .ok (d, rest)) := by
  simp only [polyTypeCheckedMethod, GetUnaryOperand, heval, Res.bind]
  rcases hargs with ⟨v, rfl, rfl⟩ | ⟨hne, rfl⟩
  · rfl
  · cases operand <;> first | rfl | exact absurd rfl (hne _)

/-- C11 (counterexample). On the overload list of `Interval`, whose only signature is the
empty type string, no signature qualifies for the argument `1`, and `Interval(1)` aborts
instead of returning the error that lists the signatures. -/
theorem C11_unknown_code_aborts :
    signatureQualifies (splitOnComma (str "")) [.int 1] = false
    ∧ expressionEval (programEnv stubLib ⟨0⟩) (str "Interval(1)")
      = some (.panic (str "Unknown type signature")) := by
  refine ⟨?_, ?_⟩ <;> rfl

/-- C11 (amended). Take an overload list given to `polyTypeCheckedMethod` and the supplied
arguments (the operand, or the items of the flattened comma list). Call a signature
cleanly rejected when its type codes are all supported, it has no fewer parameters than
there are supplied arguments, and either some supplied argument does not match its
positional type code or it has more parameters than supplied arguments and none of those
beyond carries a default; such a signature does not qualify. If a signature qualifies
(every supplied argument matches its positional type code and every parameter beyond the
supplied ones carries a default) and every signature before it is cleanly rejected, its
implementation is invoked with exactly the supplied arguments followed by those defaults
(0, 1, true, false). If every signature is cleanly rejected, the error that lists the
attempted signatures is returned. -/
theorem C11_dispatch_on_signatures (eval : EvalFn) (pfe rest : List PostfixElem)
    (operand : Value) (args : List Value) (heval : eval pfe = .ok (operand, rest))
    (hargs : (∃ v, operand = .commaList v ∧ args = Flatten v)
      ∨ ((∀ v, operand ≠ .commaList v) ∧ args = [operand])) :
    (∀ (pre post : List (GoString × (List Value → Res Value))) (ts : GoString)
        (f : List Value → Res Value),
      (∀ sig ∈ pre, (∀ code ∈ splitOnComma sig.1, code ∈ supportedCodes)
        ∧ args.length ≤ (splitOnComma sig.1).length
        ∧ (argsMatch (splitOnComma sig.1) args = false
          ∨ (args.length < (splitOnComma sig.1).length
            ∧ trailingDefaults (splitOnComma sig.1) args = []))) →
      signatureQualifies (splitOnComma ts) args = true →
        (∀ sig ∈ pre, signatureQualifies (splitOnComma sig.1) args = false)
        ∧ (polyTypeCheckedMethod (pre ++ (ts, f) :: post)).ExecuteMethod eval pfe
          = (f (args ++ trailingDefaults (splitOnComma ts) args)).bind
              (fun d => .ok (d, rest)))
    ∧ (∀ (sigs : List (GoString × (List Value → Res Value))),
      (∀ sig ∈ sigs, (∀ code ∈ splitOnComma sig.1, code ∈ supportedCodes)
        ∧ args.length ≤ (splitOnComma sig.1).length
        ∧ (argsMatch (splitOnComma sig.1) args = false
          ∨ (args.length < (splitOnComma sig.1).length
            ∧ trailingDefaults (splitOnComma sig.1) args = []))) →
        (polyTypeCheckedMethod sigs).ExecuteMethod eval pfe
          = .error ⟨str "Intrinsic method only accepts arguments of signatures: %s",
              [.str ((sigs.map (fun sig => str " " ++ sig.1)).flatten)]⟩) := by
  refine ⟨fun pre post ts f hpre hq => ⟨fun sig hs => ?_, ?_⟩, fun sigs hall => ?_⟩
  · obtain ⟨_, _, hrej⟩ := hpre sig hs
    rcases hrej with h | ⟨hlt, hd⟩
    · simp [signatureQualifies, h]
    · simp only [signatureQualifies, Bool.and_eq_false_iff]
      right
      simp only [trailingDefaults] at hd
      cases hdrop : List.drop args.length (splitOnComma sig.1) with
      | nil =>
        have := congrArg List.length hdrop
        simp only [List.length_drop, List.length_nil] at this
        omega
      | cons c cs =>
        rw [hdrop, List.filterMap_cons] at hd
        cases hc : defaultArg c with
        | none => simp [hc]
        | some v => simp [hc] at hd
  · rw [ExecuteMethod_polyTypeCheckedMethod _ eval pfe rest operand args heval hargs,
      polyLoop_skip_all args pre [] hpre, polyLoop_invoke ts f post args _ hq]
  · have h := polyLoop_skip_all args sigs [] hall []
    rw [List.append_nil] at h
    rw [ExecuteMethod_polyTypeCheckedMethod _ eval pfe rest operand args heval hargs, h]
    simp [polyLoop, Res.bind]

set_option maxRecDepth 4000 in
/-- Witness of C11: `StartsWith("Mr. John Smith Jr.", ["Miss.","Mrs.","Sir"])` skips the
signature `S,S,BF`, selects `S,L,BF` with the default `false`, and returns `false`. -/
theorem C11_dispatch_on_signatures_witness :
    (polyTypeCheckedMethod ([(str "S,S,BF", StartsWithSSB stubLib)]
        ++ (str "S,L,BF", StartsWithSLB stubLib) :: [])).ExecuteMethod
        (evaluatePostfix (programEnv stubLib ⟨0⟩) 1)
        [.value (.commaList [.string (str "Mr. John Smith Jr."),
          .list false [.string (str "Miss."), .string (str "Mrs."), .string (str "Sir")]])]
      = (StartsWithSLB stubLib
          ([.string (str "Mr. John Smith Jr."),
            .list false [.string (str "Miss."), .string (str "Mrs."), .string (str "Sir")]]
            ++ [.bool false])).bind (fun d => .ok (d, []))
    ∧ expressionEval (programEnv stubLib ⟨0⟩)
        (str "StartsWith(\"Mr. John Smith Jr.\", [\"Miss.\",\"Mrs.\",\"Sir\"])")
      = some (.ok (.bool false)) :=
  ⟨((C11_dispatch_on_signatures (evaluatePostfix (programEnv stubLib ⟨0⟩) 1)
      [.value (.commaList [.string (str "Mr. John Smith Jr."),
        .list false [.string (str "Miss."), .string (str "Mrs."), .string (str "Sir")]])]
      [] _ [.string (str "Mr. John Smith Jr."),
        .list false [.string (str "Miss."), .string (str "Mrs."), .string (str "Sir")]]
      rfl (Or.inl ⟨_, rfl, rfl⟩)).1
      [(str "S,S,BF", StartsWithSSB stubLib)] [] (str "S,L,BF") (StartsWithSLB stubLib)
      (fun sig hs => by
        rw [List.mem_singleton.mp hs]
        exact ⟨by decide, by decide, Or.inl rfl⟩)
      rfl).2,
    rfl⟩

/-- C12. A call with more arguments than a signature has parameters is not rejected for
arity: `Abs(1,2)` aborts with the run-time error of an index out of range, where a call
whose argument has the wrong type, `Abs("x")`, returns the error that names the attempted
signature. -/
theorem C12_too_many_arguments_abort (lib : GoLib) (today : Time) :
    expressionEval (programEnv lib today) (str "Abs(1,2)")
      = some (.panic (str "runtime error: index out of range"))
    ∧ expressionEval (programEnv lib today) (str "Abs(\"x\")")
      = some (.error ⟨str "Intrinsic method only accepts arguments of signatures: %s",
          [.str (str " N")]⟩) := by
  refine ⟨?_, ?_⟩ <;> rfl

/-! ## Tokens of the conditional expression -/

/-- At a question mark the first matched token is the question token. -/
theorem matched_question (s : GoString) :
    ∃ tl, tokenPats.filterMap (fun tp => tp.Match (63 :: s)) = ⟨.question, str "?"⟩ :: tl := by
  have hsplit : tokenPats = tokenPats.take 28 ++ ⟨Regex.text "?", .question⟩
      :: tokenPats.drop 29 := rfl
  have h1 : (tokenPats.take 28).filterMap (fun tp => tp.Match (63 :: s)) = [] :=
    filterMap_Match_eq_nil _ 63 _ (by decide!)
  have h2 : tokenPat.Match ⟨Regex.text "?", .question⟩ (63 :: s) = some ⟨.question, str "?"⟩ :=
    Match_of_run ⟨Regex.text "?", .question⟩ [63] s rfl (by simp)
  refine ⟨(tokenPats.drop 29).filterMap (fun tp => tp.Match (63 :: s)), ?_⟩
  rw [hsplit, List.filterMap_append, h1, List.filterMap_cons, h2]
  rfl

/-- At an opening round bracket the first matched token is the bracket. -/
theorem matched_open_round (s : GoString) :
    ∃ tl, tokenPats.filterMap (fun tp => tp.Match (40 :: s))
      = ⟨.openBracket, str "("⟩ :: tl := by
  have hsplit : tokenPats = tokenPats.take 16 ++ ⟨Regex.text "(", .openBracket⟩
      :: tokenPats.drop 17 := rfl
  have h1 : (tokenPats.take 16).filterMap (fun tp => tp.Match (40 :: s)) = [] :=
    filterMap_Match_eq_nil _ 40 _ (by decide!)
  have h2 : tokenPat.Match ⟨Regex.text "(", .openBracket⟩ (40 :: s)
      = some ⟨.openBracket, str "("⟩ :=
    Match_of_run ⟨Regex.text "(", .openBracket⟩ [40] s rfl (by simp)
  refine ⟨(tokenPats.drop 17).filterMap (fun tp => tp.Match (40 :: s)), ?_⟩
  rw [hsplit, List.filterMap_append, h1, List.filterMap_cons, h2]
  rfl

/-- At a greater-than sign that no equals sign follows, the first matched token is the
operator `>`. -/
theorem matched_greater (s : GoString) (hs : ∀ r, s ≠ 61 :: r) :
    ∃ tl, tokenPats.filterMap (fun tp => tp.Match (62 :: s))
      = ⟨.relationalOperator, str ">"⟩ :: tl := by
  have hsplit : tokenPats = tokenPats.take 12 ++ ⟨Regex.text ">=", .relationalOperator⟩
      :: ⟨Regex.text "<=", .relationalOperator⟩ :: ⟨Regex.text ">", .relationalOperator⟩
      :: tokenPats.drop 15 := rfl
  have h1 : (tokenPats.take 12).filterMap (fun tp => tp.Match (62 :: s)) = [] :=
    filterMap_Match_eq_nil _ 62 _ (by decide!)
  have h2 : tokenPat.Match ⟨Regex.text ">=", .relationalOperator⟩ (62 :: s) = none := by
    apply Match_eq_none_of_run
    cases s with
    | nil => rfl
    | cons c r =>
      have hc : ¬ ((61 : Byte) = c) := fun h => hs r (by rw [h])
      have hd : dropLit [62, 61] (62 :: c :: r) = none := by
        rw [dropLit, if_pos rfl, dropLit, if_neg hc]
      rw [show Regex.text ">=" = Regex.lit [62, 61] from rfl]
      simp only [Regex.run, hd]
  have h3 : tokenPat.Match ⟨Regex.text "<=", .relationalOperator⟩ (62 :: s) = none :=
    Match_eq_none_of_run _ _ (Regex.run_eq_none_of_canStartWith _ 62 s some rfl)
  have h4 : tokenPat.Match ⟨Regex.text ">", .relationalOperator⟩ (62 :: s)
      = some ⟨.relationalOperator, str ">"⟩ :=
    Match_of_run ⟨Regex.text ">", .relationalOperator⟩ [62] s rfl (by simp)
  refine ⟨(tokenPats.drop 15).filterMap (fun tp => tp.Match (62 :: s)), ?_⟩
  rw [hsplit, List.filterMap_append, h1, List.filterMap_cons, h2, List.filterMap_cons, h3,
    List.filterMap_cons, h4]
  rfl

theorem tokenizeLoop_question (fuel : Nat) (tokens : List Token) (rest : GoString) :
    tokenizeLoop (fuel + 1) tokens (63 :: rest)
      = tokenizeLoop fuel (tokens ++ [⟨.question, [63]⟩]) rest := by
  obtain ⟨tl, hm⟩ := matched_question rest
  have hstep := tokenizeLoop_step fuel tokens 63 rest _ _ hm
  rw [chooseToken_of_ne_minus tokens _ _ (by decide)] at hstep
  simpa using hstep

theorem tokenizeLoop_open_round (fuel : Nat) (tokens : List Token) (rest : GoString) :
    tokenizeLoop (fuel + 1) tokens (40 :: rest)
      = tokenizeLoop fuel (tokens ++ [⟨.openBracket, [40]⟩]) rest := by
  obtain ⟨tl, hm⟩ := matched_open_round rest
  have hstep := tokenizeLoop_step fuel tokens 40 rest _ _ hm
  rw [chooseToken_of_ne_minus tokens _ _ (by decide)] at hstep
  simpa using hstep

theorem tokenizeLoop_greater (fuel : Nat) (tokens : List Token) (rest : GoString)
    (hs : ∀ r, rest ≠ 61 :: r) :
    tokenizeLoop (fuel + 1) tokens (62 :: rest)
      = tokenizeLoop fuel (tokens ++ [⟨.relationalOperator, [62]⟩]) rest := by
  obtain ⟨tl, hm⟩ := matched_greater rest hs
  have hstep := tokenizeLoop_step fuel tokens 62 rest _ _ hm
  rw [chooseToken_of_ne_minus tokens _ _ (by decide)] at hstep
  simpa using hstep

set_option maxRecDepth 8000 in
/-- The tokens of the text `:("yes","no"))`. -/
theorem tokenizeLoop_yes_no (fuel : Nat) (tokens : List Token) :
    tokenizeLoop (fuel + 7) tokens (str ":(\"yes\",\"no\"))")
      = some (tokens ++ [⟨.colon, str ":"⟩, ⟨.openBracket, str "("⟩,
          ⟨.string, str "\"yes\""⟩, ⟨.comma, str ","⟩, ⟨.string, str "\"no\""⟩,
          ⟨.closeBracket, str ")"⟩, ⟨.closeBracket, str ")"⟩], none) := by
  have h : tokenizeLoop (fuel + 7) tokens (str ":(\"yes\",\"no\"))")
      = tokenizeLoop fuel (tokens ++ [⟨.colon, str ":"⟩] ++ [⟨.openBracket, str "("⟩]
          ++ [⟨.string, str "\"yes\""⟩] ++ [⟨.comma, str ","⟩] ++ [⟨.string, str "\"no\""⟩]
          ++ [⟨.closeBracket, str ")"⟩] ++ [⟨.closeBracket, str ")"⟩]) [] := rfl
  rw [h, tokenizeLoop_nil]
  simp

theorem Itoa_head (n : Int) : ∃ c r, Itoa n = c :: r ∧ (c = 45 ∨ isDigit c = true) := by
  obtain ⟨d, ds, hdec, hd, _⟩ := natToDecimal_cons n.natAbs
  unfold Itoa
  split
  · exact ⟨45, _, rfl, Or.inl rfl⟩
  · exact ⟨d, ds, hdec, Or.inr hd⟩

/-- The tokens of the text `?(a>b:("yes","no"))`. -/
theorem Tokenize_conditional (a b : Int) :
    Tokenize (conditionalText a b)
      = some ([⟨.question, str "?"⟩, ⟨.openBracket, str "("⟩, ⟨.integer, Itoa a⟩,
          ⟨.relationalOperator, str ">"⟩, ⟨.integer, Itoa b⟩, ⟨.colon, str ":"⟩,
          ⟨.openBracket, str "("⟩, ⟨.string, str "\"yes\""⟩, ⟨.comma, str ","⟩,
          ⟨.string, str "\"no\""⟩, ⟨.closeBracket, str ")"⟩, ⟨.closeBracket, str ")"⟩],
        none) := by
  have htext : conditionalText a b
      = 63 :: 40 :: (Itoa a ++ 62 :: (Itoa b ++ str ":(\"yes\",\"no\"))")) := by
    simp [conditionalText, show str "?(" = [63, 40] from rfl, show str ">" = [62] from rfl]
  have htail46 : (46 : Byte) ∉ str ":(\"yes\",\"no\"))" := by decide
  have hb46 : (46 : Byte) ∉ Itoa b ++ str ":(\"yes\",\"no\"))" := by
    intro h
    rcases List.mem_append.mp h with h | h
    · exact Itoa_no_dot b h
    · exact htail46 h
  have hlen : ∃ f, (conditionalText a b).length = f + 12 := by
    have ha := List.length_pos.mpr (Itoa_ne_nil a)
    have hb := List.length_pos.mpr (Itoa_ne_nil b)
    refine ⟨(Itoa a).length + (Itoa b).length + 5, ?_⟩
    rw [htext]
    simp only [List.length_cons, List.length_append,
      show (str ":(\"yes\",\"no\"))").length = 14 from rfl]
    omega
  obtain ⟨f, hf⟩ := hlen
  have h1 := tokenizeLoop_question (f + 11) [] (40 :: (Itoa a ++ 62 ::
    (Itoa b ++ str ":(\"yes\",\"no\"))")))
  have h2 := tokenizeLoop_open_round (f + 10) ([] ++ [Token.mk .question [63]])
    (Itoa a ++ 62 :: (Itoa b ++ str ":(\"yes\",\"no\"))"))
  have h3 := tokenizeLoop_number (f + 9)
    ([] ++ [Token.mk .question [63]] ++ [Token.mk .openBracket [40]]) a
    (62 :: (Itoa b ++ str ":(\"yes\",\"no\"))"))
    (fun c r h => by cases h; decide)
    (by
      intro h
      rcases List.mem_cons.mp h with h | h
      · exact absurd h (by decide)
      · exact hb46 h)
    (fun _ => Or.inr ⟨Token.mk .openBracket [40], by simp, rfl⟩)
  have h4 := tokenizeLoop_greater (f + 8)
    ([] ++ [Token.mk .question [63]] ++ [Token.mk .openBracket [40]]
      ++ [Token.mk .integer (Itoa a)])
    (Itoa b ++ str ":(\"yes\",\"no\"))")
    (by
      intro r h
      obtain ⟨c, r1, hc, hcd⟩ := Itoa_head b
      rw [hc] at h
      have h61 : c = 61 := (List.cons.inj h).1
      rcases hcd with hcd | hcd
      · rw [hcd] at h61; exact absurd h61 (by decide)
      · rw [h61] at hcd; exact absurd hcd (by decide))
  have h5 := tokenizeLoop_number (f + 7)
    ([] ++ [Token.mk .question [63]] ++ [Token.mk .openBracket [40]]
      ++ [Token.mk .integer (Itoa a)] ++ [Token.mk .relationalOperator [62]]) b
    (str ":(\"yes\",\"no\"))")
    (fun c r h => by
      have : c = 58 := by
        have := congrArg List.head? h
        simpa [show str ":(\"yes\",\"no\"))" = 58 :: str "(\"yes\",\"no\"))" from rfl]
          using this.symm
      rw [this]; decide)
    htail46
    (fun _ => Or.inr ⟨Token.mk .relationalOperator [62], by simp, rfl⟩)
  have h6 := tokenizeLoop_yes_no f
    ([] ++ [Token.mk .question [63]] ++ [Token.mk .openBracket [40]]
      ++ [Token.mk .integer (Itoa a)] ++ [Token.mk .relationalOperator [62]]
      ++ [Token.mk .integer (Itoa b)])
  unfold Tokenize
  rw [hf, htext]
  exact h1.trans (h2.trans (h3.trans (h4.trans (h5.trans h6))))

theorem convertLoop_step (lib : GoLib) (t : Token) (ts : List Token)
    (pf pf1 : PostfixExpression) (st st1 : List Token)
    (h : convertStep lib pf st t = .ok (pf1, st1)) :
    convertLoop lib (t :: ts) pf st = convertLoop lib ts pf1 st1 := by
  simp only [convertLoop, h]

theorem convertStep_integer (lib : GoLib) (s : GoString) (n : Int) (pf : PostfixExpression)
    (st : List Token) (h : Atoi s = .ok n) :
    convertStep lib pf st ⟨.integer, s⟩ = .ok (pf ++ [.value (.int n)], st) := by
  simp [convertStep, Token.isLiteral, literalValue, Token.Integer, h, Res.bind]

set_option maxRecDepth 8000 in
/-- The postfix form of the tokens of `?(a>b:("yes","no"))`. -/
theorem convertToPostfix_conditional (lib : GoLib) (sa sb : GoString) (a b : Int)
    (ha : Atoi sa = .ok a) (hb : Atoi sb = .ok b) :
    convertToPostfix lib [⟨.question, str "?"⟩, ⟨.openBracket, str "("⟩, ⟨.integer, sa⟩,
        ⟨.relationalOperator, str ">"⟩, ⟨.integer, sb⟩, ⟨.colon, str ":"⟩,
        ⟨.openBracket, str "("⟩, ⟨.string, str "\"yes\""⟩, ⟨.comma, str ","⟩,
        ⟨.string, str "\"no\""⟩, ⟨.closeBracket, str ")"⟩, ⟨.closeBracket, str ")"⟩]
      = .ok [.value (.int a), .value (.int b), .token ⟨.relationalOperator, str ">"⟩,
          .value (.string (str "yes")), .value (.string (str "no")),
          .token ⟨.comma, str ","⟩, .token ⟨.colon, str ":"⟩,
          .token ⟨.question, str "?"⟩] := by
  unfold convertToPostfix
  rw [convertLoop_step lib ⟨.question, str "?"⟩ _ [] [] [] [⟨.question, str "?"⟩] rfl,
    convertLoop_step lib ⟨.openBracket, str "("⟩ _ [] [] [⟨.question, str "?"⟩]
      [⟨.openBracket, str "("⟩, ⟨.question, str "?"⟩] rfl,
    convertLoop_step lib ⟨.integer, sa⟩ _ [] _ _ _ (convertStep_integer lib sa a _ _ ha),
    convertLoop_step lib ⟨.relationalOperator, str ">"⟩ _
      (([] : PostfixExpression) ++ [PostfixElem.value (Value.int a)])
      (([] : PostfixExpression) ++ [PostfixElem.value (Value.int a)]) [⟨.openBracket, str "("⟩, ⟨.question, str "?"⟩]
      [⟨.relationalOperator, str ">"⟩, ⟨.openBracket, str "("⟩, ⟨.question, str "?"⟩] rfl,
    convertLoop_step lib ⟨.integer, sb⟩ _ _ _ _ _ (convertStep_integer lib sb b _ _ hb)]
  rfl

set_option maxRecDepth 8000 in
theorem Evaluate_conditional (env : Env) (sa sb : GoString) (a b : Int)
    (ha : Atoi sa = .ok a) (hb : Atoi sb = .ok b) :
    Evaluate env [⟨.question, str "?"⟩, ⟨.openBracket, str "("⟩, ⟨.integer, sa⟩,
        ⟨.relationalOperator, str ">"⟩, ⟨.integer, sb⟩, ⟨.colon, str ":"⟩,
        ⟨.openBracket, str "("⟩, ⟨.string, str "\"yes\""⟩, ⟨.comma, str ","⟩,
        ⟨.string, str "\"no\""⟩, ⟨.closeBracket, str ")"⟩, ⟨.closeBracket, str ")"⟩]
      = .ok (.string (if Float64.gt (Float64.ofInt a) (Float64.ofInt b) then str "yes"
          else str "no")) := by
  unfold Evaluate
  rw [convertToPostfix_conditional env.lib sa sb a b ha hb]
  cases h : Float64.gt (Float64.ofInt a) (Float64.ofInt b)
  · have h1 : evaluatePostfix env 9 [.token ⟨.question, str "?"⟩, .token ⟨.colon, str ":"⟩,
        .token ⟨.comma, str ","⟩, .value (.string (str "no")), .value (.string (str "yes")),
        .token ⟨.relationalOperator, str ">"⟩, .value (.int b), .value (.int a)]
        = (if Float64.gt (Float64.ofInt a) (Float64.ofInt b) then
            .ok (.string (str "yes"), []) else .ok (.string (str "no"), [])) := rfl
    rw [h] at h1
    simp only [List.length_cons, List.length_nil, List.reverse_cons, List.reverse_nil,
      List.nil_append, List.cons_append, Nat.reduceAdd, h1, Res.bind]
    rfl
  · have h1 : evaluatePostfix env 9 [.token ⟨.question, str "?"⟩, .token ⟨.colon, str ":"⟩,
        .token ⟨.comma, str ","⟩, .value (.string (str "no")), .value (.string (str "yes")),
        .token ⟨.relationalOperator, str ">"⟩, .value (.int b), .value (.int a)]
        = (if Float64.gt (Float64.ofInt a) (Float64.ofInt b) then
            .ok (.string (str "yes"), []) else .ok (.string (str "no"), [])) := rfl
    rw [h] at h1
    simp only [List.length_cons, List.length_nil, List.reverse_cons, List.reverse_nil,
      List.nil_append, List.cons_append, Nat.reduceAdd, h1, Res.bind]
    rfl

namespace Float64

theorem sign_mul_natAbs (a : Int) :
    (if decide (a < 0) = true then -1 else 1) * (a.natAbs : Int) = a := by
  by_cases h : a < 0
  · simp only [h, decide_True, if_true]
    omega
  · simp only [h, decide_False, Bool.false_eq_true, if_false]
    omega

/-- Below `2^53` in magnitude, the comparison of the float64 conversions of two integers
is the comparison of the integers. -/
theorem lt_ofInt (a b : Int) (ha : a.natAbs < 2 ^ 53) (hb : b.natAbs < 2 ^ 53) :
    lt (ofInt a) (ofInt b) = decide (a < b) := by
  obtain ⟨m1, e1, h1, _, he1, _⟩ := round_nat_exponent (decide (a < 0)) a.natAbs ha
  obtain ⟨m2, e2, h2, _, he2, _⟩ := round_nat_exponent (decide (b < 0)) b.natAbs hb
  unfold ofInt
  rw [h1, h2]
  simp only [lt]
  rw [scaled_round_nat _ _ ha m1 e1 _ h1 (min_le_left _ _),
    scaled_round_nat _ _ hb m2 e2 _ h2 (min_le_right _ _), sign_mul_natAbs, sign_mul_natAbs]
  have hpos : (0 : Int) < 2 ^ (-(min e1 e2)).toNat := pow_pos (by norm_num) _
  by_cases hab : a < b
  · simp only [hab, decide_True, decide_eq_true_eq]
    exact mul_lt_mul_of_pos_right hab hpos
  · simp only [hab, decide_False, decide_eq_false_iff_not, not_lt]
    exact mul_le_mul_of_nonneg_right (not_lt.mp hab) hpos.le

theorem gt_ofInt (a b : Int) (ha : a.natAbs < 2 ^ 53) (hb : b.natAbs < 2 ^ 53) :
    gt (ofInt a) (ofInt b) = decide (a > b) := by
  unfold gt
  rw [lt_ofInt b a hb ha]

end Float64

theorem expressionEval_conditional (env : Env) (a b : Int)
    (ha1 : -(2 : Int) ^ 63 ≤ a) (ha2 : a < (2 : Int) ^ 63)
    (hb1 : -(2 : Int) ^ 63 ≤ b) (hb2 : b < (2 : Int) ^ 63) :
    expressionEval env (conditionalText a b)
      = some (.ok (.string (if Float64.gt (Float64.ofInt a) (Float64.ofInt b) then str "yes"
          else str "no"))) := by
  rw [expressionEval_of_tokens env _ _ (Tokenize_conditional a b)]
  exact congrArg some (Evaluate_conditional env (Itoa a) (Itoa b) a b
    (Atoi_Itoa a ha1 ha2) (Atoi_Itoa b hb1 hb2))

set_option maxRecDepth 8000 in
/-- C20 (counterexample). The integer `2^53 + 1` is greater than `2^53`, but float64 does
not tell them apart: the text `?(9007199254740993>9007199254740992:("yes","no"))`
evaluates to `"no"`. -/
theorem C20_large_integers_compare_equal :
    (9007199254740993 : Int) > 9007199254740992
    ∧ expressionEval symbolsOnlyEnv (conditionalText 9007199254740993 9007199254740992)
      = some (.ok (.string (str "no")))
    ∧ conditionalText 9007199254740993 9007199254740992
      = str "?(9007199254740993>9007199254740992:(\"yes\",\"no\"))" := by
  refine ⟨by decide, ?_, ?_⟩ <;> rfl

/-- C20 (amended). The question operator gives, for an operand that is the
`ConditionalValues` of `cond`, `t` and `f`, the value `t` when `cond` is true and `f` when
it is false, and a returned error for any other operand. End to end, for 64-bit integers
`a` and `b` written as decimal literals, the text `?(a>b:("yes","no"))` evaluates to the
String `"yes"` when `float64(a) > float64(b)` and to `"no"` otherwise; for `a` and `b` of
magnitude below `2^53` that is `"yes"` when `a > b` and `"no"` otherwise. -/
theorem C20_question_operator (env : Env) :
    (∀ (eval : EvalFn) (pfe rest : List PostfixElem) (v : Value),
      eval pfe = .ok (v, rest) →
        (∀ (cond : Bool) (t f : Value), v = .conditionalValues cond t f →
          QuestionOperator eval pfe = .ok (if cond then t else f, rest))
        ∧ ((∀ (cond : Bool) (t f : Value), v ≠ .conditionalValues cond t f) →
          (QuestionOperator eval pfe).isError = true))
    ∧ (∀ a b : Int, -(2 : Int) ^ 63 ≤ a → a < (2 : Int) ^ 63 →
        -(2 : Int) ^ 63 ≤ b → b < (2 : Int) ^ 63 →
        expressionEval env (conditionalText a b)
          = some (.ok (.string
              (if Float64.gt (Float64.ofInt a) (Float64.ofInt b) then str "yes"
                else str "no"))))
    ∧ (∀ a b : Int, a.natAbs < 2 ^ 53 → b.natAbs < 2 ^ 53 →
        expressionEval env (conditionalText a b)
          = some (.ok (.string (if a > b then str "yes" else str "no")))) := by
  refine ⟨fun eval pfe rest v hv => QuestionOperator_spec eval pfe rest v hv,
    fun a b ha1 ha2 hb1 hb2 => expressionEval_conditional env a b ha1 ha2 hb1 hb2,
    fun a b ha hb => ?_⟩
  rw [expressionEval_conditional env a b (by omega) (by omega) (by omega) (by omega),
    Float64.gt_ofInt a b ha hb]
  by_cases h : a > b <;> simp [h]

set_option maxRecDepth 8000 in
/-- Witness of C20: the operand `ConditionalValues{true, 1, 2}`, and the text
`?(1>0:("yes","no"))`. -/
theorem C20_question_operator_witness :
    QuestionOperator (evaluatePostfix symbolsOnlyEnv 1)
        [.value (.conditionalValues true (.int 1) (.int 2))]
      = .ok (if true then Value.int 1 else Value.int 2, [])
    ∧ conditionalText 1 0 = str "?(1>0:(\"yes\",\"no\"))"
    ∧ expressionEval symbolsOnlyEnv (conditionalText 1 0)
      = some (.ok (.string (if (1 : Int) > 0 then str "yes" else str "no"))) :=
  ⟨(((C20_question_operator symbolsOnlyEnv).1 (evaluatePostfix symbolsOnlyEnv 1)
      [.value (.conditionalValues true (.int 1) (.int 2))] []
      (.conditionalValues true (.int 1) (.int 2)) rfl).1 true (.int 1) (.int 2) rfl),
    rfl,
    (C20_question_operator symbolsOnlyEnv).2.2 1 0 (by decide) (by decide)⟩

/-! ## Logical operators -/

theorem LogicalOperator_not (eval : EvalFn) (op : Token) (pfe : List PostfixElem)
    (hop : op.text = str "!") :
    LogicalOperator eval op pfe
      = match eval pfe with
        | .error _ => errorf "Could not get operands for %v" [.token (some op)]
        | .panic m => .panic m
        | .outOfFuel => .outOfFuel
        | .ok (op1, rest) =>
          match op1 with
          | .bool bop1 => .ok (.bool (!bop1), rest)
          | _ => errorf "Cannot perform operation '%s' on %v" [.str op.text, .str op1.DataType] := by
  rw [show str "!" = [33] from rfl] at hop
  simp only [LogicalOperator, hop, GetUnaryOperand]
  rfl

theorem LogicalOperator_binary (eval : EvalFn) (op : Token) (pfe : List PostfixElem)
    (c : Byte) (cs : GoString) (hop : op.text = c :: cs) (hc : c ≠ 33) :
    LogicalOperator eval op pfe
      = match GetBinaryOperands eval pfe with
        | .error _ => errorf "Could not get operands for %v" [.token (some op)]
        | .panic m => .panic m
        | .outOfFuel => .outOfFuel
        | .ok ((op1, op2), rest) =>
          match op1, op2 with
          | .bool bop1, .bool bop2 =>
            if c = 38 then .ok (.bool (bop1 && bop2), rest)
            else if c = 124 then .ok (.bool (bop1 || bop2), rest)
            else errorf "Unsupported logical operator '%s'" [.str op.text]
          | _, _ =>
            errorf "Cannot perform operation '%s' on %v and %v"
              [.str op.text, .str op1.DataType, .str op2.DataType] := by
  simp only [LogicalOperator, hop, hc, if_false]

theorem GetBinaryOperands_error_right (eval : EvalFn) (pfe : List PostfixElem) (e : GoError)
    (h : eval pfe = .error e) : GetBinaryOperands eval pfe = .error e := by
  simp [GetBinaryOperands, h, Res.bind]

theorem GetBinaryOperands_error_left (eval : EvalFn) (pfe r1 : List PostfixElem) (y : Value)
    (e : GoError) (hy : eval pfe = .ok (y, r1)) (hx : eval r1 = .error e) :
    GetBinaryOperands eval pfe = .error e := by
  simp [GetBinaryOperands, hy, hx, Res.bind]

theorem GetBinaryOperands_ok (eval : EvalFn) (pfe r1 r2 : List PostfixElem) (x y : Value)
    (hy : eval pfe = .ok (y, r1)) (hx : eval r1 = .ok (x, r2)) :
    GetBinaryOperands eval pfe = .ok ((x, y), r2) := by
  simp [GetBinaryOperands, hy, hx, Res.bind]

/-- The binary logical operators on a token whose text starts with the byte `c`, which is
`&` or `|`. -/
theorem LogicalOperator_binary_spec (eval : EvalFn) (op : Token) (pfe : List PostfixElem)
    (c : Byte) (cs : GoString) (hop : op.text = c :: cs) (hc : c = 38 ∨ c = 124) :
    (∀ e, eval pfe = .error e → (LogicalOperator eval op pfe).isError = true)
    ∧ (∀ y r1 e, eval pfe = .ok (y, r1) → eval r1 = .error e →
        (LogicalOperator eval op pfe).isError = true)
    ∧ (∀ x y r1 r2, eval pfe = .ok (y, r1) → eval r1 = .ok (x, r2) →
        (∀ a b, x = .bool a → y = .bool b →
          LogicalOperator eval op pfe
            = .ok (.bool (if c = 38 then a && b else a || b), r2))
        ∧ ((∀ a, x ≠ .bool a) ∨ (∀ b, y ≠ .bool b) →
          (LogicalOperator eval op pfe).isError = true)) := by
  have hc33 : c ≠ 33 := by rcases hc with h | h <;> rw [h] <;> decide
  rw [LogicalOperator_binary eval op pfe c cs hop hc33]
  refine ⟨fun e he => ?_, fun y r1 e hy hx => ?_, fun x y r1 r2 hy hx => ⟨?_, ?_⟩⟩
  · rw [GetBinaryOperands_error_right eval pfe e he]
    rfl
  · rw [GetBinaryOperands_error_left eval pfe r1 y e hy hx]
    rfl
  · rintro a b rfl rfl
    rw [GetBinaryOperands_ok eval pfe r1 r2 _ _ hy hx]
    rcases hc with h | h
    · subst h
      simp
    · subst h
      simp
  · intro h
    rw [GetBinaryOperands_ok eval pfe r1 r2 _ _ hy hx]
    cases x <;> cases y <;> first
      | rfl
      | (rcases h with h | h <;> exact absurd rfl (h _))

/-- C24. The logical operators. The operator `!` gives `not b` for a Bool operand `b` and a
returned error for any other operand value and when the evaluation of the operand fails.
Each of `&&`, `&`, `||`, `|` fails when the evaluation of its right operand fails, and
when the evaluation of its left operand fails whatever the value of the right one is (no
short-circuit); on two operand values it fails unless both are Bool, and gives `a AND b`
for `&&` and `&` and `a OR b` for `||` and `|`. -/
theorem C24_logical_operators (eval : EvalFn) (op : Token) (pfe : List PostfixElem) :
    (op.text = str "!" →
      (∀ b rest, eval pfe = .ok (.bool b, rest) →
        LogicalOperator eval op pfe = .ok (.bool (!b), rest))
      ∧ (∀ v rest, eval pfe = .ok (v, rest) → (∀ b, v ≠ .bool b) →
        (LogicalOperator eval op pfe).isError = true)
      ∧ (∀ e, eval pfe = .error e → (LogicalOperator eval op pfe).isError = true))
    ∧ (op.text = str "&&" ∨ op.text = str "&" ∨ op.text = str "||" ∨ op.text = str "|" →
      (∀ e, eval pfe = .error e → (LogicalOperator eval op pfe).isError = true)
      ∧ (∀ y r1 e, eval pfe = .ok (y, r1) → eval r1 = .error e →
          (LogicalOperator eval op pfe).isError = true)
      ∧ (∀ x y r1 r2, eval pfe = .ok (y, r1) → eval r1 = .ok (x, r2) →
          (∀ a b, x = .bool a → y = .bool b →
            LogicalOperator eval op pfe
              = .ok (.bool (if op.text = str "&&" ∨ op.text = str "&" then a && b
                  else a || b), r2))
          ∧ ((∀ a, x ≠ .bool a) ∨ (∀ b, y ≠ .bool b) →
            (LogicalOperator eval op pfe).isError = true))) := by
  refine ⟨fun hop => ?_, fun hop => ?_⟩
  · rw [LogicalOperator_not eval op pfe hop]
    refine ⟨fun b rest h => by rw [h], fun v rest h hv => ?_, fun e h => by rw [h]; rfl⟩
    rw [h]
    cases v <;> first | rfl | exact absurd rfl (hv _)
  · rcases hop with h | h | h | h
    · have hs := LogicalOperator_binary_spec eval op pfe 38 [38] h (Or.inl rfl)
      have hi : op.text = str "&&" ∨ op.text = str "&" := Or.inl h
      refine ⟨hs.1, hs.2.1, fun x y r1 r2 hy hx =>
        ⟨fun a b hxa hyb => ?_, (hs.2.2 x y r1 r2 hy hx).2⟩⟩
      rw [(hs.2.2 x y r1 r2 hy hx).1 a b hxa hyb, if_pos rfl, if_pos hi]
    · have hs := LogicalOperator_binary_spec eval op pfe 38 [] h (Or.inl rfl)
      have hi : op.text = str "&&" ∨ op.text = str "&" := Or.inr h
      refine ⟨hs.1, hs.2.1, fun x y r1 r2 hy hx =>
        ⟨fun a b hxa hyb => ?_, (hs.2.2 x y r1 r2 hy hx).2⟩⟩
      rw [(hs.2.2 x y r1 r2 hy hx).1 a b hxa hyb, if_pos rfl, if_pos hi]
    · have hs := LogicalOperator_binary_spec eval op pfe 124 [124] h (Or.inr rfl)
      have hi : ¬ (op.text = str "&&" ∨ op.text = str "&") := by
        rw [h]
        decide
      refine ⟨hs.1, hs.2.1, fun x y r1 r2 hy hx =>
        ⟨fun a b hxa hyb => ?_, (hs.2.2 x y r1 r2 hy hx).2⟩⟩
      rw [(hs.2.2 x y r1 r2 hy hx).1 a b hxa hyb, if_neg (by decide), if_neg hi]
    · have hs := LogicalOperator_binary_spec eval op pfe 124 [] h (Or.inr rfl)
      have hi : ¬ (op.text = str "&&" ∨ op.text = str "&") := by
        rw [h]
        decide
      refine ⟨hs.1, hs.2.1, fun x y r1 r2 hy hx =>
        ⟨fun a b hxa hyb => ?_, (hs.2.2 x y r1 r2 hy hx).2⟩⟩
      rw [(hs.2.2 x y r1 r2 hy hx).1 a b hxa hyb, if_neg (by decide), if_neg hi]

set_option maxRecDepth 4000 in
/-- Witness of C24: `!true`, `true && false`, `true | false`, and `1 & true`, which fails. -/
theorem C24_logical_operators_witness :
    LogicalOperator (evaluatePostfix symbolsOnlyEnv 1) ⟨.logicalOperator, str "!"⟩
        [.value (.bool true)] = .ok (.bool (!true), [])
    ∧ LogicalOperator (evaluatePostfix symbolsOnlyEnv 1) ⟨.logicalOperator, str "&&"⟩
        [.value (.bool false), .value (.bool true)]
      = .ok (.bool (if (⟨.logicalOperator, str "&&"⟩ : Token).text = str "&&"
            ∨ (⟨.logicalOperator, str "&&"⟩ : Token).text = str "&" then true && false
          else true || false), [])
    ∧ expressionEval symbolsOnlyEnv (str "true|false") = some (.ok (.bool true))
    ∧ (LogicalOperator (evaluatePostfix symbolsOnlyEnv 1) ⟨.logicalOperator, str "&"⟩
        [.value (.bool true), .value (.int 1)]).isError = true :=
  ⟨((C24_logical_operators (evaluatePostfix symbolsOnlyEnv 1) ⟨.logicalOperator, str "!"⟩
      [.value (.bool true)]).1 rfl).1 true [] rfl,
    ((((C24_logical_operators (evaluatePostfix symbolsOnlyEnv 1) ⟨.logicalOperator, str "&&"⟩
      [.value (.bool false), .value (.bool true)]).2 (Or.inl rfl)).2.2
      (.bool true) (.bool false) [.value (.bool true)] [] rfl rfl).1 true false rfl rfl),
    rfl,
    ((((C24_logical_operators (evaluatePostfix symbolsOnlyEnv 1) ⟨.logicalOperator, str "&"⟩
      [.value (.bool true), .value (.int 1)]).2 (Or.inr (Or.inl rfl))).2.2
      (.int 1) (.bool true) [.value (.int 1)] [] rfl rfl).2 (Or.inl (fun _ h => nomatch h)))⟩

/-! ## Calls of intrinsic methods on operand values -/

/-- A call of a method that dispatches on signatures: the loop over the signatures on the
operand, or on the items of the flattened comma list. -/
theorem callIntrinsic_poly (env : Env) (name : GoString)
    (sigs : List (GoString × (List Value → Res Value))) (operand : Value) (args : List Value)
    (hm : GetIntrinsicMethod env name = .ok (polyTypeCheckedMethod sigs))
    (hargs : (∃ v, operand = .commaList v ∧ args = Flatten v)
      ∨ ((∀ v, operand ≠ .commaList v) ∧ args = [operand])) :
    callIntrinsic env name operand = polyLoop sigs args [] := by
  have he : evaluatePostfix env 1 [.value operand] = .ok (operand, []) := rfl
  have h := ExecuteMethod_polyTypeCheckedMethod sigs (evaluatePostfix env 1)
    [.value operand] [] operand args he hargs
  simp only [callIntrinsic, IntrinsicMethodOperator, hm, Res.bind, h]
  cases polyLoop sigs args [] <;> rfl

theorem callIntrinsic_ToString (lib : GoLib) (today : Time) (v : Value) :
    callIntrinsic (programEnv lib today) (str "ToString") v
      = match v with
        | .commaList _ => errorf "Could not convert %v to string" [.str v.DataType]
        | funcArg => (ToString lib funcArg).bind (fun x => .ok (.string x)) := by
  have hm : GetIntrinsicMethod (programEnv lib today) (str "ToString")
      = .ok (ToStringMethod lib) := rfl
  have he : evaluatePostfix (programEnv lib today) 1 [.value v] = .ok (v, []) := rfl
  simp only [callIntrinsic, IntrinsicMethodOperator, hm, Res.bind, ToStringMethod,
    GetUnaryOperand, he]
  cases v <;> first | rfl | (simp only []; cases ToString lib _ <;> rfl)

theorem bind_string_ok (r : Res GoString) (w : Value)
    (h : r.bind (fun x => Res.ok (Value.string x)) = .ok w) : ∃ s, w = .string s := by
  cases r <;> simp [Res.bind] at h
  exact ⟨_, h.symm⟩

/-- C29. The intrinsic `ToString` is idempotent: on a String `s` it returns `s` itself,
and for every value `v` on which it succeeds with the result `w`, it succeeds on `w` with
the result `w`. -/
theorem C29_ToString_is_idempotent (lib : GoLib) (today : Time) :
    (∀ s : GoString,
      callIntrinsic (programEnv lib today) (str "ToString") (.string s) = .ok (.string s))
    ∧ (∀ v w : Value, callIntrinsic (programEnv lib today) (str "ToString") v = .ok w →
        callIntrinsic (programEnv lib today) (str "ToString") w = .ok w) := by
  have hs : ∀ s : GoString,
      callIntrinsic (programEnv lib today) (str "ToString") (.string s) = .ok (.string s) := by
    intro s
    rw [callIntrinsic_ToString]
    simp [ToString, Res.bind]
  refine ⟨hs, fun v w h => ?_⟩
  rw [callIntrinsic_ToString] at h
  have hw : ∃ s, w = .string s := by
    cases v
    case commaList l => simp [errorf] at h
    all_goals exact bind_string_ok _ w h
  obtain ⟨s, rfl⟩ := hw
  exact hs s

/-- Witness of C29 on the value `Int(5)`, whose string is `"5"`. -/
theorem C29_ToString_is_idempotent_witness :
    callIntrinsic (programEnv stubLib ⟨0⟩) (str "ToString") (.string (str "5"))
      = .ok (.string (str "5")) :=
  (C29_ToString_is_idempotent stubLib ⟨0⟩).2 (.int 5) (.string (str "5")) rfl

set_option maxRecDepth 8000 in
/-- C30. The flag of the scalar form of `Contains` is not optional: for all Strings `h` and
`n` the call `Contains(h, n)` returns the error that lists the signatures, because the
first signature is `S,S,B`, whose third code carries no default. With the flag given,
`Contains(h, n, false)` returns whether `n` occurs in `h`, and the sibling methods
`StartsWith(h, n)` and `EndsWith(h, n)`, whose signatures are `S,S,BF`, succeed without
the flag. -/
theorem C30_contains_flag_is_not_optional (lib : GoLib) (today : Time) :
    (∀ h n : GoString,
      callIntrinsic (programEnv lib today) (str "Contains")
          (.commaList [.string h, .string n])
        = .error ⟨str "Intrinsic method only accepts arguments of signatures: %s",
            [.str (str " S,S,B S,LS,BF,BF L,L,BF,BF")]⟩)
    ∧ (∀ h n : GoString,
      callIntrinsic (programEnv lib today) (str "Contains")
          (.commaList [.string h, .string n, .bool false])
        = .ok (.bool (stringsContains h n)))
    ∧ (∀ h n : GoString,
      callIntrinsic (programEnv lib today) (str "StartsWith")
          (.commaList [.string h, .string n])
        = .ok (.bool (n.isPrefixOf h)))
    ∧ (∀ h n : GoString,
      callIntrinsic (programEnv lib today) (str "EndsWith")
          (.commaList [.string h, .string n])
        = .ok (.bool (n.isSuffixOf h)))
    ∧ expressionEval (programEnv lib today) (str "Contains(\"abc\",\"b\")")
      = some (.error ⟨str "Intrinsic method only accepts arguments of signatures: %s",
          [.str (str " S,S,B S,LS,BF,BF L,L,BF,BF")]⟩) := by
  refine ⟨fun h n => ?_, fun h n => ?_, fun h n => ?_, fun h n => ?_, ?_⟩
  · rw [callIntrinsic_poly (programEnv lib today) (str "Contains") _
      (.commaList [.string h, .string n]) [.string h, .string n] rfl
      (Or.inl ⟨[.string h, .string n], rfl, rfl⟩)]
    rfl
  · rw [callIntrinsic_poly (programEnv lib today) (str "Contains") _
      (.commaList [.string h, .string n, .bool false]) [.string h, .string n, .bool false] rfl
      (Or.inl ⟨[.string h, .string n, .bool false], rfl, rfl⟩)]
    rfl
  · rw [callIntrinsic_poly (programEnv lib today) (str "StartsWith") _
      (.commaList [.string h, .string n]) [.string h, .string n] rfl
      (Or.inl ⟨[.string h, .string n], rfl, rfl⟩)]
    rfl
  · rw [callIntrinsic_poly (programEnv lib today) (str "EndsWith") _
      (.commaList [.string h, .string n]) [.string h, .string n] rfl
      (Or.inl ⟨[.string h, .string n], rfl, rfl⟩)]
    rfl
  · rfl

/-! ## Casts and lists of converted items -/

theorem Res.bind_bind_ok {α β γ : Type} (r : Res α) (f : α → β) (g : β → γ) :
    (r.bind (fun c => Res.ok (f c))).bind (fun c => Res.ok (g c))
      = r.bind (fun c => Res.ok (g (f c))) := by
  cases r <;> rfl

theorem CastDataType_names (t : Token) (T : GoString) (h : t.CastDataType = .ok T) :
    T = str "Bool" ∨ T = str "String" ∨ T = str "Int32" ∨ T = str "Double" ∨ T = str "Char"
      ∨ T = str "DateTime" := by
  unfold Token.CastDataType at h
  split at h
  · exact absurd h (by simp [boundsPanic])
  · exact absurd h (by simp [boundsPanic])
  · simp only at h
    split_ifs at h <;> simp [← Res.ok.inj h]

theorem TypeCastOperator_scalar (env : Env) (eval : EvalFn) (t : Token) (T : GoString)
    (pfe rest : List PostfixElem) (v : Value) (hT : t.CastDataType = .ok T)
    (hv : eval pfe = .ok (v, rest)) (hl : v.isList = false) :
    TypeCastOperator env eval t pfe
      = (castValue env.lib T v).bind (fun c => .ok (c, rest)) := by
  have h1 : TypeCastOperator env eval t pfe
      = (if T = str "String" then
          (ToString env.lib v).bind (fun c => .ok (.string c, rest))
        else if T = str "Bool" then (ToBool v).bind (fun c => .ok (.bool c, rest))
        else if T = str "Double" then
          (ToDouble env.lib v).bind (fun c => .ok (.double c, rest))
        else if T = str "Char" then (ToChar v).bind (fun c => .ok (.char c, rest))
        else if T = str "Int32" then (ToInt v).bind (fun c => .ok (.int c, rest))
        else if T = str "DateTime" then
          (ToDateTime env.lib v).bind (fun c => .ok (.dateTime c, rest))
        else .panic (str "Can't convert to " ++ T)) := by
    simp only [TypeCastOperator, hv, hT, Res.bind]
    cases v <;> first | rfl | exact absurd hl (by simp [Value.isList])
  rw [h1]
  unfold castValue
  split_ifs <;> first | rfl | exact (Res.bind_bind_ok _ _ (fun c => (c, rest))).symm

theorem TypeCastOperator_list (env : Env) (eval : EvalFn) (t : Token) (T : GoString)
    (pfe rest : List PostfixElem) (nl : Bool) (l : List Value) (hT : t.CastDataType = .ok T)
    (hv : eval pfe = .ok (.list nl l, rest)) :
    TypeCastOperator env eval t pfe
      = (convertAll env.lib T l).bind (fun c => .ok (c, rest)) := by
  simp only [TypeCastOperator, hv, hT, Res.bind]

/-- The conversion of all items of a list to one of the five types that lists convert to
is the item-wise conversion of `castValue`. -/
theorem convertAll_eq (lib : GoLib) (T : GoString) (l : List Value)
    (hT : T = str "String" ∨ T = str "Bool" ∨ T = str "Double" ∨ T = str "Char"
      ∨ T = str "Int32") :
    convertAll lib T l
      = (convertDataType (castValue lib T) l).bind (fun nl => .ok (.list false nl)) := by
  rcases hT with h | h | h | h | h <;> subst h
  · rfl
  · rfl
  · rfl
  · rfl
  · rfl

theorem convertDataType_ok (conv : Value → Res Value) :
    ∀ (l ys : List Value), List.Forall₂ (fun x y => conv x = .ok y) l ys →
      convertDataType conv l = .ok ys
  | [], _, h => by cases h; rfl
  | x :: xs, _, h => by
    cases h with
    | cons hxy hrest =>
      simp only [convertDataType, hxy, convertDataType_ok conv xs _ hrest]

theorem convertDataType_error (conv : Value → Res Value) :
    ∀ (pre : List Value) (x : Value) (post : List Value),
      (∀ p ∈ pre, ∃ y, conv p = .ok y) → (conv x).isError = true →
      (convertDataType conv (pre ++ x :: post)).isError = true
  | [], x, post, _, hx => by
    simp only [List.nil_append, convertDataType]
    cases hc : conv x <;> rw [hc] at hx <;> simp_all [Res.isError]
  | p :: pre, x, post, hpre, hx => by
    obtain ⟨y, hy⟩ := hpre p (List.mem_cons_self _ _)
    have ih := convertDataType_error conv pre x post
      (fun q hq => hpre q (List.mem_cons_of_mem _ hq)) hx
    simp only [List.cons_append, convertDataType, hy]
    cases hc : convertDataType conv (pre ++ x :: post) <;> rw [hc] at ih <;>
      simp_all [Res.isError]

theorem castValue_DataType (lib : GoLib) (T : GoString) (x y : Value)
    (hT : T = str "String" ∨ T = str "Bool" ∨ T = str "Double" ∨ T = str "Char"
      ∨ T = str "Int32") (h : castValue lib T x = .ok y) : y.DataType = T := by
  rcases hT with hT | hT | hT | hT | hT <;> subst hT
  · have h1 : (ToString lib x).bind (fun c => .ok (.string c)) = .ok y := h
    cases hc : ToString lib x <;> rw [hc] at h1 <;> simp [Res.bind] at h1
    rw [← h1]; rfl
  · have h1 : (ToBool x).bind (fun c => .ok (.bool c)) = .ok y := h
    cases hc : ToBool x <;> rw [hc] at h1 <;> simp [Res.bind] at h1
    rw [← h1]; rfl
  · have h1 : (ToDouble lib x).bind (fun c => .ok (.double c)) = .ok y := h
    cases hc : ToDouble lib x <;> rw [hc] at h1 <;> simp [Res.bind] at h1
    rw [← h1]; rfl
  · have h1 : (ToChar x).bind (fun c => .ok (.char c)) = .ok y := h
    cases hc : ToChar x <;> rw [hc] at h1 <;> simp [Res.bind] at h1
    rw [← h1]; rfl
  · have h1 : (ToInt x).bind (fun c => .ok (.int c)) = .ok y := h
    cases hc : ToInt x <;> rw [hc] at h1 <;> simp [Res.bind] at h1
    rw [← h1]; rfl

set_option maxRecDepth 4000 in
/-- Claim C21, as the code has it: a type cast to `T` of an operand that is not a list is
the conversion `castValue` of the operand to `T`; a cast of a list to a target other than
`DateTime` is the list of the conversions of the items when every item converts, and an
error when an item's conversion returns an error after the items before it converted.
The text `<S>5` gives the String `5`, the text `<I>"42"` gives the Int 42, and the cast
`<I>` of the String form of a 64-bit Int `n` gives the Int `n`. -/
theorem C21_type_cast_evaluation (env : Env) :
    (∀ (eval : EvalFn) (t : Token) (T : GoString) (pfe rest : List PostfixElem) (v : Value),
      t.CastDataType = .ok T → eval pfe = .ok (v, rest) →
      (v.isList = false →
        TypeCastOperator env eval t pfe
          = (castValue env.lib T v).bind (fun c => .ok (c, rest)))
      ∧ (∀ nl l, v = .list nl l → T ≠ str "DateTime" →
          (∀ ys, List.Forall₂ (fun x y => castValue env.lib T x = .ok y) l ys →
            TypeCastOperator env eval t pfe = .ok (.list false ys, rest))
          ∧ (∀ pre x post, l = pre ++ x :: post →
              (∀ p ∈ pre, ∃ y, castValue env.lib T p = .ok y) →
              (castValue env.lib T x).isError = true →
              (TypeCastOperator env eval t pfe).isError = true)))
    ∧ expressionEval env (str "<S>5") = some (.ok (.string (str "5")))
    ∧ expressionEval env (str "<I>\"42\"") = some (.ok (.int 42))
    ∧ (∀ n : Int, -(2 : Int) ^ 63 ≤ n → n < (2 : Int) ^ 63 →
        evaluatePostfix env 2 [.token ⟨.typeCast, str "<I>"⟩, .value (.string (Itoa n))]
          = .ok (.int n, [])) := by
  refine ⟨?_, ?_, ?_, ?_⟩
  · intro eval t T pfe rest v hT hv
    refine ⟨fun hl => TypeCastOperator_scalar env eval t T pfe rest v hT hv hl, ?_⟩
    intro nl l hvl hD
    subst hvl
    have hT5 : T = str "String" ∨ T = str "Bool" ∨ T = str "Double" ∨ T = str "Char"
        ∨ T = str "Int32" := by
      rcases CastDataType_names t T hT with h | h | h | h | h | h
      · exact Or.inr (Or.inl h)
      · exact Or.inl h
      · exact Or.inr (Or.inr (Or.inr (Or.inr h)))
      · exact Or.inr (Or.inr (Or.inl h))
      · exact Or.inr (Or.inr (Or.inr (Or.inl h)))
      · exact absurd h hD
    rw [TypeCastOperator_list env eval t T pfe rest nl l hT hv, convertAll_eq env.lib T l hT5]
    constructor
    · intro ys hys
      rw [convertDataType_ok _ l ys hys]
      rfl
    · intro pre x post hl hpre hx
      subst hl
      have := convertDataType_error (castValue env.lib T) pre x post hpre hx
      cases hc : convertDataType (castValue env.lib T) (pre ++ x :: post) <;>
        rw [hc] at this <;> simp_all [Res.isError, Res.bind]
  · rfl
  · rfl
  · intro n hlo hhi
    have h : evaluatePostfix env 2
        [.token ⟨.typeCast, str "<I>"⟩, .value (.string (Itoa n))]
        = (ToInt (.string (Itoa n))).bind (fun c => .ok (.int c, [])) := rfl
    rw [h]
    have h2 : ToInt (.string (Itoa n)) = .ok n := by
      simp only [ToInt, Atoi_Itoa n hlo hhi]
    rw [h2]
    rfl

/-- Witness for claim C21: the cast `<I>` of the String `7` is the Int 7. -/
theorem C21_type_cast_evaluation_witness :
    TypeCastOperator symbolsOnlyEnv (evaluatePostfix symbolsOnlyEnv 1)
        ⟨.typeCast, str "<I>"⟩ [.value (.string (str "7"))]
      = (castValue symbolsOnlyEnv.lib (str "Int32") (.string (str "7"))).bind
          (fun c => .ok (c, [])) :=
  ((C21_type_cast_evaluation symbolsOnlyEnv).1 (evaluatePostfix symbolsOnlyEnv 1)
    ⟨.typeCast, str "<I>"⟩ (str "Int32") [.value (.string (str "7"))] []
    (.string (str "7")) rfl rfl).1 rfl

set_option maxRecDepth 4000 in
/-- Counterexample for claim C21: the cast of a list to `DateTime` stops the program with
"Can't convert to DateTime" instead of converting the items, also when the item is a
DateTime, whose conversion to `DateTime` succeeds. -/
theorem C21_cast_of_list_to_DateTime_panics :
    castValue stubLib (str "DateTime") (.dateTime ⟨0⟩) = .ok (.dateTime ⟨0⟩)
    ∧ evaluatePostfix symbolsOnlyEnv 2
        [.token ⟨.typeCast, str "<H>"⟩, .value (.list false [.dateTime ⟨0⟩])]
      = .panic (str "Can't convert to DateTime")
    ∧ expressionEval symbolsOnlyEnv (str "<H>[\"01/02/2006\"]")
      = some (.panic (str "Can't convert to DateTime")) := by
  refine ⟨?_, ?_, ?_⟩ <;> rfl

theorem ListifyOperator_items (env : Env) (eval : EvalFn) (pfe rest : List PostfixElem)
    (operand : Value) (l : List Value) (hv : eval pfe = .ok (operand, rest))
    (hl : (∃ c, operand = .commaList c ∧ l = Flatten c)
      ∨ ((∀ c, operand ≠ .commaList c) ∧ l = [operand])) :
    (l = [] → ListifyOperator env eval pfe = .ok (.list false [], rest))
    ∧ (∀ x tl, l = x :: tl → ListifyOperator env eval pfe
        = (convertAll env.lib x.DataType l).bind (fun cl => .ok (cl, rest))) := by
  rcases hl with ⟨c, hc, hl⟩ | ⟨hc, hl⟩
  · subst hc
    constructor
    · intro h0
      rw [hl] at h0
      simp only [ListifyOperator, GetUnaryOperand, hv, Res.bind, h0]
    · intro x tl h0
      rw [hl] at h0
      simp only [ListifyOperator, GetUnaryOperand, hv, Res.bind, h0, hl]
  · subst hl
    constructor
    · intro h0
      exact absurd h0 (by simp)
    · intro x tl h0
      have hx : operand = x := (List.cons.inj h0).1
      subst hx
      cases operand <;>
        first
        | exact absurd rfl (hc _)
        | simp only [ListifyOperator, GetUnaryOperand, hv, Res.bind]

/-- Claim C23, as the code has it: the operand of the list construction is flattened when
it is a comma list and wrapped as one item otherwise. Without items the result is the
empty list. When the first item is a String, Bool, Double, Char or Int, every item is
converted to the type of the first: if all convert, the result is the list of the
conversions, of the same length and with every item of the type of the first item; if an
item's conversion returns an error after the items before it converted, the construction
returns an error and no list. -/
theorem C23_listify (env : Env) (eval : EvalFn) (pfe rest : List PostfixElem)
    (operand : Value) (l : List Value) (hv : eval pfe = .ok (operand, rest))
    (hl : (∃ c, operand = .commaList c ∧ l = Flatten c)
      ∨ ((∀ c, operand ≠ .commaList c) ∧ l = [operand])) :
    (l = [] → ListifyOperator env eval pfe = .ok (.list false [], rest))
    ∧ (∀ first tl, l = first :: tl →
        first.DataType = str "String" ∨ first.DataType = str "Bool"
          ∨ first.DataType = str "Double" ∨ first.DataType = str "Char"
          ∨ first.DataType = str "Int32" →
        (∀ ys, List.Forall₂ (fun x y => castValue env.lib first.DataType x = .ok y) l ys →
          ListifyOperator env eval pfe = .ok (.list false ys, rest)
            ∧ ys.length = l.length ∧ ∀ y ∈ ys, y.DataType = first.DataType)
        ∧ (∀ pre x post, l = pre ++ x :: post →
            (∀ p ∈ pre, ∃ y, castValue env.lib first.DataType p = .ok y) →
            (castValue env.lib first.DataType x).isError = true →
            (ListifyOperator env eval pfe).isError = true
              ∧ ∀ r, ListifyOperator env eval pfe ≠ .ok r)) := by
  have h := ListifyOperator_items env eval pfe rest operand l hv hl
  refine ⟨h.1, ?_⟩
  · intro first tl hft hT
    rw [h.2 first tl hft]
    constructor
    · intro ys hys
      refine ⟨?_, hys.length_eq.symm, ?_⟩
      · rw [convertAll_eq env.lib _ _ hT, convertDataType_ok _ _ ys hys]
        rfl
      · intro y hy
        obtain ⟨i, hi, rfl⟩ := List.mem_iff_getElem.mp hy
        have hi2 : i < l.length := by rw [← hys.length_eq] at hi; exact hi
        exact castValue_DataType env.lib _ _ _ hT (List.Forall₂.get hys hi2 hi)
    · intro pre x post hpx hpre hx
      have := convertDataType_error (castValue env.lib first.DataType) pre x post hpre hx
      rw [← hpx] at this
      rw [convertAll_eq env.lib _ _ hT]
      cases hc : convertDataType (castValue env.lib first.DataType) l <;>
        rw [hc] at this <;> simp_all [Res.isError, Res.bind]

set_option maxRecDepth 4000 in
/-- Witness for claim C23: the items `"a"` and `1` give the list of the Strings `a` and
`1`. -/
theorem C23_listify_witness :
    ListifyOperator symbolsOnlyEnv (evaluatePostfix symbolsOnlyEnv 1)
        [.value (.commaList [.string (str "a"), .int 1])]
      = .ok (.list false [.string (str "a"), .string (str "1")], [])
    ∧ [Value.string (str "a"), Value.string (str "1")].length
        = [Value.string (str "a"), Value.int 1].length
    ∧ ∀ y ∈ [Value.string (str "a"), Value.string (str "1")],
        y.DataType = (Value.string (str "a")).DataType :=
  ((C23_listify symbolsOnlyEnv (evaluatePostfix symbolsOnlyEnv 1)
    [.value (.commaList [.string (str "a"), .int 1])] []
    (.commaList [.string (str "a"), .int 1]) [.string (str "a"), .int 1] rfl
    (Or.inl ⟨_, rfl, rfl⟩)).2 (.string (str "a")) [.int 1] rfl (Or.inl rfl)).1
    [.string (str "a"), .string (str "1")]
    (List.Forall₂.cons rfl (List.Forall₂.cons rfl List.Forall₂.nil))

set_option maxRecDepth 4000 in
/-- Counterexample for claim C23: a list whose first item is itself a list can not be
built, the program stops with "Can't convert to Int32[]"; no error is returned. -/
theorem C23_list_of_list_panics :
    expressionEval symbolsOnlyEnv (str "[[1]]")
      = some (.panic (str "Can't convert to Int32[]")) := rfl

set_option maxRecDepth 8000 in
/-- Claim C22 fails on the code: in `<S>Abs(-5)` the method token `Abs` (precedence 50)
pops the cast (precedence 100) to the output before the arguments of the call are read,
so the cast marker stands first in the postfix form, where the evaluator never reaches
it, and the expression yields the Double 5 and not a String. A symbol token after a cast
pops the cast in the same way: the cast `<S>` of the symbol `MyInt` yields the Int 100. -/
theorem C22_cast_before_method_call_is_dropped (lib : GoLib) (today : Time) :
    (∃ tokens, Tokenize (str "<S>Abs(-5)") = some (tokens, none)
      ∧ convertToPostfix lib (WithoutWhitespace tokens)
          = .ok [.token ⟨.typeCast, str "<S>"⟩, .value (.int (-5)),
              .token ⟨.intrinsicMethod, str "Abs"⟩])
    ∧ expressionEval (programEnv lib today) (str "<S>Abs(-5)")
        = some (.ok (.double (Float64.ofInt 5)))
    ∧ convertToPostfix lib [⟨.typeCast, str "<S>"⟩, ⟨.symbol, str "MyInt"⟩]
        = .ok [.token ⟨.typeCast, str "<S>"⟩, .token ⟨.symbol, str "MyInt"⟩]
    ∧ Evaluate (programEnv lib today) [⟨.typeCast, str "<S>"⟩, ⟨.symbol, str "MyInt"⟩]
        = .ok (.int 100) := by
  refine ⟨⟨_, rfl, rfl⟩, ?_, ?_, ?_⟩ <;> rfl

/-! ## Sort -/

/-- The comparison `strings.Compare a b ≤ 0` is the lexicographic order of the byte
lists. -/
theorem stringsCompare_le_iff : ∀ a b : GoString, stringsCompare a b ≤ 0 ↔ a ≤ b
  | [], [] => by simp [stringsCompare]
  | [], _ :: _ => by simp [stringsCompare]
  | x :: s, [] => by
    simp only [stringsCompare]
    constructor
    · intro h; omega
    · intro h
      exact absurd (List.nil_lt_cons x s) (not_lt.mpr h)
  | x :: s, y :: t => by
    have ih := stringsCompare_le_iff s t
    simp only [stringsCompare]
    by_cases h1 : x.val < y.val
    · have hxy : x < y := h1
      rw [if_pos h1]
      constructor
      · intro _
        exact le_of_lt (List.Lex.rel hxy)
      · intro _; omega
    · rw [if_neg h1]
      by_cases h2 : y.val < x.val
      · have hyx : y < x := h2
        rw [if_pos h2]
        constructor
        · intro h; omega
        · intro h
          exact absurd (List.Lex.rel hyx) (not_lt.mpr h)
      · rw [if_neg h2]
        have hxy : x = y := by
          apply Fin.ext; omega
        subst hxy
        rw [ih]
        constructor
        · intro h
          exact List.cons_le_cons x h
        · intro h
          by_contra hc
          have hlt : t < s := not_le.mp hc
          exact absurd (List.Lex.cons hlt) (not_lt.mpr h)

theorem sortStrings_sorted (l : List GoString) :
    List.Sorted (fun a b : GoString => a ≤ b) (sortStrings l) := by
  have h : List.Sorted (fun a b : GoString => stringsCompare a b ≤ 0) (sortStrings l) :=
    @List.sorted_insertionSort _ (fun a b : GoString => stringsCompare a b ≤ 0) _
      ⟨fun a b => by
        simp only [stringsCompare_le_iff]
        exact le_total a b⟩
      ⟨fun a b c hab hbc => by
        simp only [stringsCompare_le_iff] at *
        exact le_trans hab hbc⟩ l
  exact List.Pairwise.imp (fun {a b} hab => (stringsCompare_le_iff a b).mp hab) h

theorem sortStrings_perm (l : List GoString) : (sortStrings l).Perm l :=
  List.perm_insertionSort _ l

theorem sortInts_sorted (l : List Int) : List.Sorted (fun a b : Int => a ≤ b) (sortInts l) :=
  List.sorted_insertionSort (fun a b : Int => a ≤ b) l

theorem sortInts_perm (l : List Int) : (sortInts l).Perm l :=
  List.perm_insertionSort _ l

theorem sortInts_of_sorted (l : List Int) (h : List.Sorted (fun a b : Int => a ≤ b) l) :
    sortInts l = l :=
  List.Sorted.insertionSort_eq h

theorem sortStrings_of_sorted (l : List GoString)
    (h : List.Sorted (fun a b : GoString => a ≤ b) l) : sortStrings l = l :=
  List.Sorted.insertionSort_eq
    (List.Pairwise.imp (fun {a b} hab => (stringsCompare_le_iff a b).mpr hab) h)

theorem callIntrinsic_Sort (lib : GoLib) (today : Time) (nl : Bool) (l : List Value) :
    callIntrinsic (programEnv lib today) (str "Sort") (.list nl l)
      = SortL lib [.list nl l] := by
  rw [callIntrinsic_poly (programEnv lib today) (str "Sort") [(str "L", SortL lib)]
    (Value.list nl l) [Value.list nl l] rfl
    (Or.inr ⟨fun v h => (by cases h), rfl⟩)]
  rw [polyLoop_invoke (str "L") (SortL lib) [] [Value.list nl l] [] rfl]
  rfl

theorem toIntSlice_ints (ns : List Int) : toIntSlice (ns.map Value.int) = ns := by
  induction ns with
  | nil => rfl
  | cons n tl ih =>
    simp only [toIntSlice, List.map_cons, List.map_map] at ih ⊢
    rw [ih]
    rfl

theorem toStringSlice_strings (lib : GoLib) (ss : List GoString) :
    toStringSlice lib (ss.map Value.string) = ss := by
  induction ss with
  | nil => rfl
  | cons n tl ih =>
    simp only [toStringSlice, List.map_cons, List.map_map] at ih ⊢
    rw [ih]
    rfl

theorem SortL_ints (lib : GoLib) (nl : Bool) (ns : List Int) (h : ns ≠ []) :
    SortL lib [.list nl (ns.map Value.int)] = .ok (.list false ((sortInts ns).map Value.int)) := by
  cases ns with
  | nil => exact absurd rfl h
  | cons n tl =>
    have h1 : SortL lib [.list nl ((n :: tl).map Value.int)]
        = .ok (.list false ((sortInts (toIntSlice ((n :: tl).map Value.int))).map Value.int)) :=
      rfl
    rw [h1, toIntSlice_ints]

theorem SortL_strings (lib : GoLib) (nl : Bool) (ss : List GoString) (h : ss ≠ []) :
    SortL lib [.list nl (ss.map Value.string)]
      = .ok (.list false ((sortStrings ss).map Value.string)) := by
  cases ss with
  | nil => exact absurd rfl h
  | cons n tl =>
    have h1 : SortL lib [.list nl ((n :: tl).map Value.string)]
        = .ok (.list false
            ((sortStrings (toStringSlice lib ((n :: tl).map Value.string))).map
              Value.string)) := rfl
    rw [h1, toStringSlice_strings]

/-- Claim C25. On a non-empty list of Ints the intrinsic `Sort` returns a list of Ints
that is in ascending numeric order and is a permutation of the input; on a non-empty list
of Strings it returns a list of Strings that is in ascending lexicographic order of the
bytes and is a permutation of the input. -/
theorem C25_Sort_sorts_and_permutes (lib : GoLib) (today : Time) :
    (∀ (nl : Bool) (ns : List Int), ns ≠ [] →
      ∃ xs : List Int,
        callIntrinsic (programEnv lib today) (str "Sort") (.list nl (ns.map Value.int))
          = .ok (.list false (xs.map Value.int))
        ∧ List.Sorted (fun a b : Int => a ≤ b) xs ∧ xs.Perm ns)
    ∧ (∀ (nl : Bool) (ss : List GoString), ss ≠ [] →
      ∃ xs : List GoString,
        callIntrinsic (programEnv lib today) (str "Sort") (.list nl (ss.map Value.string))
          = .ok (.list false (xs.map Value.string))
        ∧ List.Sorted (fun a b : GoString => a ≤ b) xs ∧ xs.Perm ss) := by
  constructor
  · intro nl ns h
    refine ⟨sortInts ns, ?_, sortInts_sorted ns, sortInts_perm ns⟩
    rw [callIntrinsic_Sort, SortL_ints lib nl ns h]
  · intro nl ss h
    refine ⟨sortStrings ss, ?_, sortStrings_sorted ss, sortStrings_perm ss⟩
    rw [callIntrinsic_Sort, SortL_strings lib nl ss h]

/-! ## Deep equality is symmetric and transitive -/

theorem Float64.scaled_cast (neg : Bool) (m : Nat) (em e : Int) (h : e ≤ em) :
    ((Float64.scaled neg m em e : Int) : ℚ)
      = Float64.toRat (.finite neg m em) * (2 : ℚ) ^ (-e) := by
  unfold Float64.scaled Float64.toRat
  have h2 : ((2 : ℚ)) ^ ((em - e).toNat) = (2 : ℚ) ^ em * (2 : ℚ) ^ (-e) := by
    rw [← zpow_natCast, Int.toNat_of_nonneg (by omega), ← zpow_add₀ (by norm_num)]
    congr 1
  push_cast
  rw [h2]
  ring

theorem Float64.eq_finite_iff (n1 : Bool) (m1 : Nat) (e1 : Int) (n2 : Bool) (m2 : Nat)
    (e2 : Int) :
    Float64.eq (.finite n1 m1 e1) (.finite n2 m2 e2) = true
      ↔ Float64.toRat (.finite n1 m1 e1) = Float64.toRat (.finite n2 m2 e2) := by
  have hc : (2 : ℚ) ^ (-(min e1 e2)) ≠ 0 := zpow_ne_zero _ (by norm_num)
  have h1 := Float64.scaled_cast n1 m1 e1 (min e1 e2) (min_le_left _ _)
  have h2 := Float64.scaled_cast n2 m2 e2 (min e1 e2) (min_le_right _ _)
  simp only [Float64.eq, decide_eq_true_eq]
  constructor
  · intro h
    have : ((Float64.scaled n1 m1 e1 (min e1 e2) : Int) : ℚ)
        = ((Float64.scaled n2 m2 e2 (min e1 e2) : Int) : ℚ) := by rw [h]
    rw [h1, h2] at this
    exact mul_right_cancel₀ hc this
  · intro h
    have : ((Float64.scaled n1 m1 e1 (min e1 e2) : Int) : ℚ)
        = ((Float64.scaled n2 m2 e2 (min e1 e2) : Int) : ℚ) := by rw [h1, h2, h]
    exact_mod_cast this

theorem Float64.eq_symm (a b : Float64) (h : Float64.eq a b = true) :
    Float64.eq b a = true := by
  cases a <;> cases b <;> first
    | (simp [Float64.eq] at h; done)
    | (rw [Float64.eq_finite_iff] at h ⊢; exact h.symm)
    | (simp only [Float64.eq, beq_iff_eq] at h ⊢; exact h.symm)

theorem Float64.eq_trans (a b c : Float64) (h1 : Float64.eq a b = true)
    (h2 : Float64.eq b c = true) : Float64.eq a c = true := by
  cases a <;> cases b <;> first
    | (simp [Float64.eq] at h1; done)
    | (cases c <;> first
        | (simp [Float64.eq] at h2; done)
        | (rw [Float64.eq_finite_iff] at h1 h2 ⊢; exact h1.trans h2)
        | (simp only [Float64.eq, beq_iff_eq] at h1 h2 ⊢; exact h1.trans h2))

theorem deepEqual_symm_aux : ∀ n : Nat,
    (∀ a b : Value, sizeOf a < n → deepEqual a b = true → deepEqual b a = true)
    ∧ (∀ a b : List Value, sizeOf a < n → deepEqualList a b = true →
        deepEqualList b a = true) := by
  intro n
  induction n with
  | zero => exact ⟨fun _ _ h => absurd h (by omega), fun _ _ h => absurd h (by omega)⟩
  | succ n ih =>
    obtain ⟨ihv, ihl⟩ := ih
    constructor
    · intro a b hs h
      cases a <;> cases b <;> first
        | (simp [deepEqual] at h; done)
        | (simp only [deepEqual, beq_iff_eq, Bool.and_eq_true] at h ⊢
           first
             | exact h.symm
             | exact ⟨h.1.symm, h.2.symm⟩)
        | skip
      case double.double x y =>
        simp only [deepEqual] at h ⊢
        exact Float64.eq_symm x y h
      case list.list n1 l1 n2 l2 =>
        simp only [deepEqual, beq_iff_eq, Bool.and_eq_true] at h ⊢
        simp only [Value.list.sizeOf_spec] at hs
        exact ⟨h.1.symm, ihl l1 l2 (by omega) h.2⟩
      case commaList.commaList l1 l2 =>
        simp only [deepEqual] at h ⊢
        simp only [Value.commaList.sizeOf_spec] at hs
        exact ihl l1 l2 (by omega) h
      case conditionalValues.conditionalValues c1 t1 f1 c2 t2 f2 =>
        simp only [deepEqual, beq_iff_eq, Bool.and_eq_true] at h ⊢
        simp only [Value.conditionalValues.sizeOf_spec] at hs
        exact ⟨⟨h.1.1.symm, ihv t1 t2 (by omega) h.1.2⟩, ihv f1 f2 (by omega) h.2⟩
    · intro a b hs h
      cases a <;> cases b <;> first
        | (simp [deepEqualList] at h; done)
        | rfl
        | skip
      case cons.cons x xs y ys =>
        simp only [deepEqualList, Bool.and_eq_true] at h ⊢
        simp only [List.cons.sizeOf_spec] at hs
        exact ⟨ihv x y (by omega) h.1, ihl xs ys (by omega) h.2⟩

theorem deepEqual_symm (a b : Value) (h : deepEqual a b = true) : deepEqual b a = true :=
  (deepEqual_symm_aux (sizeOf a + 1)).1 a b (by omega) h

theorem deepEqual_trans_aux : ∀ n : Nat,
    (∀ a b c : Value, sizeOf a < n → deepEqual a b = true → deepEqual b c = true →
      deepEqual a c = true)
    ∧ (∀ a b c : List Value, sizeOf a < n → deepEqualList a b = true →
        deepEqualList b c = true → deepEqualList a c = true) := by
  intro n
  induction n with
  | zero => exact ⟨fun _ _ _ h => absurd h (by omega), fun _ _ _ h => absurd h (by omega)⟩
  | succ n ih =>
    obtain ⟨ihv, ihl⟩ := ih
    constructor
    · intro a b c hs h1 h2
      cases a <;> cases b <;> first
        | (simp [deepEqual] at h1; done)
        | (cases c <;> first
            | (simp [deepEqual] at h2; done)
            | (simp only [deepEqual, beq_iff_eq, Bool.and_eq_true] at h1 h2 ⊢
               first
                 | exact h1.trans h2
                 | exact ⟨h1.1.trans h2.1, h1.2.trans h2.2⟩)
            | skip)
      case double.double.double x y z =>
        simp only [deepEqual] at h1 h2 ⊢
        exact Float64.eq_trans x y z h1 h2
      case list.list.list n1 l1 n2 l2 n3 l3 =>
        simp only [deepEqual, beq_iff_eq, Bool.and_eq_true] at h1 h2 ⊢
        simp only [Value.list.sizeOf_spec] at hs
        exact ⟨h1.1.trans h2.1, ihl l1 l2 l3 (by omega) h1.2 h2.2⟩
      case commaList.commaList.commaList l1 l2 l3 =>
        simp only [deepEqual] at h1 h2 ⊢
        simp only [Value.commaList.sizeOf_spec] at hs
        exact ihl l1 l2 l3 (by omega) h1 h2
      case conditionalValues.conditionalValues.conditionalValues c1 t1 f1 c2 t2 f2 c3 t3 f3 =>
        simp only [deepEqual, beq_iff_eq, Bool.and_eq_true] at h1 h2 ⊢
        simp only [Value.conditionalValues.sizeOf_spec] at hs
        exact ⟨⟨h1.1.1.trans h2.1.1, ihv t1 t2 t3 (by omega) h1.1.2 h2.1.2⟩,
          ihv f1 f2 f3 (by omega) h1.2 h2.2⟩
    · intro a b c hs h1 h2
      cases a <;> cases b <;> first
        | (simp [deepEqualList] at h1; done)
        | (cases c <;> first
            | (simp [deepEqualList] at h2; done)
            | rfl
            | skip)
      case cons.cons.cons x xs y ys z zs =>
        simp only [deepEqualList, Bool.and_eq_true] at h1 h2 ⊢
        simp only [List.cons.sizeOf_spec] at hs
        exact ⟨ihv x y z (by omega) h1.1 h2.1, ihl xs ys zs (by omega) h1.2 h2.2⟩

theorem deepEqual_trans (a b c : Value) (h1 : deepEqual a b = true)
    (h2 : deepEqual b c = true) : deepEqual a c = true :=
  (deepEqual_trans_aux (sizeOf a + 1)).1 a b c (by omega) h1 h2

/-! ## Distinct -/

theorem callIntrinsic_Distinct (lib : GoLib) (today : Time) (nl : Bool) (l : List Value) :
    callIntrinsic (programEnv lib today) (str "Distinct") (.list nl l)
      = .ok (.list (distinctLoop [] l).isEmpty (distinctLoop [] l)) := by
  rw [callIntrinsic_poly (programEnv lib today) (str "Distinct") [(str "L", DistinctL)]
    (Value.list nl l) [Value.list nl l] rfl
    (Or.inr ⟨fun v h => (by cases h), rfl⟩)]
  rw [polyLoop_invoke (str "L") DistinctL [] [Value.list nl l] [] rfl]
  rfl

/-- The loop of `Distinct` keeps what it has seen and appends the first occurrences of
the remaining items, when every item passed so far is seen or deeply equal to a seen
one. -/
theorem distinctLoop_eq (rest : List Value) :
    ∀ (seen earlier : List Value), (∀ s ∈ seen, s ∈ earlier) →
      (∀ e ∈ earlier, e ∈ seen ∨ ∃ s ∈ seen, deepEqual e s = true) →
      distinctLoop seen rest = seen ++ firstOccurrencesFrom earlier rest := by
  induction rest with
  | nil => intro seen earlier _ _; simp [distinctLoop, firstOccurrencesFrom]
  | cons x rest ih =>
    intro seen earlier hsub hcov
    have hiff : (seen.any (fun s => deepEqual x s)) = (earlier.any (fun e => deepEqual x e)) := by
      rw [Bool.eq_iff_iff]
      simp only [List.any_eq_true]
      constructor
      · rintro ⟨s, hs, h⟩
        exact ⟨s, hsub s hs, h⟩
      · rintro ⟨e, he, h⟩
        rcases hcov e he with h1 | ⟨s, hs, h1⟩
        · exact ⟨e, h1, h⟩
        · exact ⟨s, hs, deepEqual_trans x e s h h1⟩
    simp only [distinctLoop, firstOccurrencesFrom, ← hiff]
    by_cases hx : seen.any (fun s => deepEqual x s) = true
    · rw [if_pos hx, if_pos hx]
      apply ih seen (earlier ++ [x])
      · intro s hs
        exact List.mem_append_left _ (hsub s hs)
      · intro e he
        rcases List.mem_append.mp he with h1 | h1
        · exact hcov e h1
        · rw [List.mem_singleton] at h1
          subst h1
          obtain ⟨s, hs, h⟩ := List.any_eq_true.mp hx
          exact Or.inr ⟨s, hs, h⟩
    · rw [if_neg hx, if_neg hx]
      rw [ih (seen ++ [x]) (earlier ++ [x])]
      · simp
      · intro s hs
        rcases List.mem_append.mp hs with h1 | h1
        · exact List.mem_append_left _ (hsub s h1)
        · exact List.mem_append_right _ h1
      · intro e he
        rcases List.mem_append.mp he with h1 | h1
        · rcases hcov e h1 with h2 | ⟨s, hs, h2⟩
          · exact Or.inl (List.mem_append_left _ h2)
          · exact Or.inr ⟨s, List.mem_append_left _ hs, h2⟩
        · exact Or.inl (List.mem_append_right _ h1)

theorem distinctLoop_firstOccurrences (l : List Value) :
    distinctLoop [] l = firstOccurrences l := by
  rw [distinctLoop_eq l [] [] (fun _ h => h) (fun _ h => absurd h (List.not_mem_nil _))]
  rfl

/-- The result of the loop is a sublist of what was seen followed by the items. -/
theorem distinctLoop_sublist (rest : List Value) :
    ∀ seen : List Value, (distinctLoop seen rest).Sublist (seen ++ rest) := by
  induction rest with
  | nil => intro seen; simp [distinctLoop]
  | cons x rest ih =>
    intro seen
    simp only [distinctLoop]
    split_ifs
    · exact (ih seen).trans
        (List.Sublist.append_left (List.sublist_cons_self x rest) seen)
    · have := ih (seen ++ [x])
      simpa using this

/-- No item of the result is deeply equal to an item before it. -/
theorem distinctLoop_pairwise (rest : List Value) :
    ∀ seen : List Value, seen.Pairwise (fun a b => deepEqual b a = false) →
      (distinctLoop seen rest).Pairwise (fun a b => deepEqual b a = false) := by
  induction rest with
  | nil => intro seen h; simpa [distinctLoop] using h
  | cons x rest ih =>
    intro seen h
    simp only [distinctLoop]
    split_ifs with hx
    · exact ih seen h
    · apply ih (seen ++ [x])
      rw [List.pairwise_append]
      refine ⟨h, List.pairwise_singleton _ _, ?_⟩
      intro a ha b hb
      rw [List.mem_singleton] at hb
      subst hb
      simp only [List.any_eq_true, not_exists, not_and, Bool.not_eq_true] at hx
      exact hx a ha

/-- What the loop has seen stays in the result. -/
theorem distinctLoop_seen (rest : List Value) :
    ∀ (seen : List Value) (s : Value), s ∈ seen → s ∈ distinctLoop seen rest := by
  induction rest with
  | nil => intro seen s h; simpa [distinctLoop] using h
  | cons x rest ih =>
    intro seen s h
    simp only [distinctLoop]
    split_ifs
    · exact ih seen s h
    · exact ih (seen ++ [x]) s (List.mem_append_left _ h)

/-- Every item occurs in the result, itself or as an item deeply equal to it. -/
theorem distinctLoop_covers (rest : List Value) :
    ∀ (seen : List Value) (x : Value), x ∈ rest →
      x ∈ distinctLoop seen rest ∨ ∃ y ∈ distinctLoop seen rest, deepEqual x y = true := by
  induction rest with
  | nil => intro seen x h; exact absurd h (List.not_mem_nil _)
  | cons y rest ih =>
    intro seen x h
    simp only [distinctLoop]
    rcases List.mem_cons.mp h with h1 | h1
    · subst h1
      split_ifs with hx
      · obtain ⟨s, hs, h2⟩ := List.any_eq_true.mp hx
        exact Or.inr ⟨s, distinctLoop_seen rest seen s hs, h2⟩
      · exact Or.inl (distinctLoop_seen rest _ x (List.mem_append_right _ (List.mem_singleton_self x)))
    · split_ifs
      · exact ih seen x h1
      · exact ih (seen ++ [y]) x h1

/-- On items none of which is deeply equal to an item before it or to a seen one, the
loop appends them all. -/
theorem distinctLoop_of_pairwise (rest : List Value) :
    ∀ seen : List Value, (seen ++ rest).Pairwise (fun a b => deepEqual b a = false) →
      distinctLoop seen rest = seen ++ rest := by
  induction rest with
  | nil => intro seen _; simp [distinctLoop]
  | cons x rest ih =>
    intro seen h
    have hx : ¬ (seen.any (fun s => deepEqual x s) = true) := by
      simp only [List.any_eq_true, not_exists, not_and, Bool.not_eq_true]
      intro a ha
      rw [List.pairwise_append] at h
      exact h.2.2 a ha x (List.mem_cons_self _ _)
    simp only [distinctLoop]
    rw [if_neg hx, ih (seen ++ [x]) (by simpa using h)]
    simp

/-- Claim C28. On every list `l` the intrinsic `Distinct` returns the first occurrences of
the values of `l` under deep equality: the items of `l` that are deeply equal to no item
before them, in their order. The result is a sublist of `l`, no two of its items are
deeply equal, every item of `l` occurs in it (itself or as an item deeply equal to it),
and `Distinct` of the result is the result. -/
theorem C28_Distinct (lib : GoLib) (today : Time) (nl : Bool) (l : List Value) :
    ∃ d : Value, ∃ ds : List Value,
      callIntrinsic (programEnv lib today) (str "Distinct") (.list nl l) = .ok d
      ∧ d = .list ds.isEmpty ds
      ∧ ds = firstOccurrences l
      ∧ ds.Sublist l
      ∧ ds.Pairwise (fun a b => deepEqual a b = false ∧ deepEqual b a = false)
      ∧ (∀ x ∈ l, x ∈ ds ∨ ∃ y ∈ ds, deepEqual x y = true)
      ∧ callIntrinsic (programEnv lib today) (str "Distinct") d = .ok d := by
  have hp := distinctLoop_pairwise l [] List.Pairwise.nil
  refine ⟨_, distinctLoop [] l, callIntrinsic_Distinct lib today nl l, rfl,
    distinctLoop_firstOccurrences l, ?_, ?_, ?_, ?_⟩
  · simpa using distinctLoop_sublist l []
  · refine List.Pairwise.imp ?_ hp
    intro a b hab
    refine ⟨?_, hab⟩
    cases hc : deepEqual a b
    · rfl
    · rw [deepEqual_symm a b hc] at hab
      exact absurd hab (by simp)
  · exact distinctLoop_covers l []
  · rw [callIntrinsic_Distinct,
      distinctLoop_of_pairwise (distinctLoop [] l) [] (by simpa using hp)]
    rfl

set_option maxRecDepth 8000 in
/-- Claim C25 witness: `Sort` on the Ints 3, 1, 2 returns a sorted permutation of them. -/
theorem C25_Sort_sorts_and_permutes_witness :
    ∃ xs : List Int,
      callIntrinsic (programEnv stubLib ⟨0⟩) (str "Sort")
          (.list false (([3, 1, 2] : List Int).map Value.int))
        = .ok (.list false (xs.map Value.int))
      ∧ List.Sorted (fun a b : Int => a ≤ b) xs ∧ xs.Perm [3, 1, 2] :=
  (C25_Sort_sorts_and_permutes stubLib ⟨0⟩).1 false [3, 1, 2] (List.cons_ne_nil _ _)

set_option maxRecDepth 8000 in
/-- Claim C26 fails on the code: for a list of Chars, `Sort` sorts the strings of the
Chars and returns the first BYTE of each string, not its rune. The list `["é"{1}]` holds
the Char 169, whose string has the bytes 194 and 169: `Sort` of the list is the list of
the Char 194, and `Sort` of that result is the list of the Char 195, a different list. -/
theorem C26_Sort_is_not_idempotent_on_chars (lib : GoLib) (today : Time) :
    expressionEval (programEnv lib today) (str "[\"é\"\x7b1\x7d]")
      = some (.ok (.list false [.char 169]))
    ∧ expressionEval (programEnv lib today) (str "Sort([\"é\"\x7b1\x7d])")
      = some (.ok (.list false [.char 194]))
    ∧ expressionEval (programEnv lib today) (str "Sort(Sort([\"é\"\x7b1\x7d]))")
      = some (.ok (.list false [.char 195]))
    ∧ callIntrinsic (programEnv lib today) (str "Sort") (.list false [.char 169])
      = .ok (.list false [.char 194])
    ∧ callIntrinsic (programEnv lib today) (str "Sort") (.list false [.char 194])
      = .ok (.list false [.char 195]) := by
  refine ⟨?_, ?_, ?_, ?_, ?_⟩ <;> rfl

theorem firstBytes_isError : ∀ l : List GoString, (firstBytes l).isError = false
  | [] => rfl
  | [] :: _ => rfl
  | (b :: s) :: rest => by
    have ih := firstBytes_isError rest
    simp only [firstBytes]
    cases h : firstBytes rest <;> rw [h] at ih <;> simp_all [Res.bind, Res.isError]

theorem SortL_cons (lib : GoLib) (nl : Bool) (first : Value) (tl : List Value) :
    SortL lib [.list nl (first :: tl)]
      = (if first.DataType = str "String" then
          .ok (.list false ((sortStrings (toStringSlice lib (first :: tl))).map Value.string))
        else if first.DataType = str "Char" then
          (firstBytes (sortStrings (toStringSlice lib (first :: tl)))).bind
            (fun res => .ok (.list false res))
        else if first.DataType = str "Int32" then
          .ok (.list false ((sortInts (toIntSlice (first :: tl))).map Value.int))
        else if first.DataType = str "Double" then
          .ok (.list false
            ((lib.sortFloat64s (toFloatSlice lib (first :: tl))).map Value.double))
        else errorf "Cannot sort  data type %s" [.str first.DataType]) := rfl

/-- Claim C27, as the code has it: `Sort` never compares the types of the items, it looks
at the type of the first item only. It returns an error exactly when the first item is not
a String, Char, Int or Double, whatever the other items are. When the first item is an
Int, every item is converted by `toInt`, which gives 0 where the conversion fails, and the
result is the list of those Ints in ascending order, a permutation of them; when it is a
String, every item is converted by `toString`, which gives the empty string where the
conversion fails, and the result is the list of those Strings in ascending order of their
bytes, a permutation of them. -/
theorem C27_Sort_looks_at_first_item_only (lib : GoLib) (today : Time) (nl : Bool)
    (first : Value) (tl : List Value) :
    ((callIntrinsic (programEnv lib today) (str "Sort") (.list nl (first :: tl))).isError
        = true
      ↔ (first.DataType ≠ str "String" ∧ first.DataType ≠ str "Char"
          ∧ first.DataType ≠ str "Int32" ∧ first.DataType ≠ str "Double"))
    ∧ (first.DataType = str "Int32" →
      ∃ xs : List Int,
        callIntrinsic (programEnv lib today) (str "Sort") (.list nl (first :: tl))
          = .ok (.list false (xs.map Value.int))
        ∧ List.Sorted (fun a b : Int => a ≤ b) xs
        ∧ xs.Perm ((first :: tl).map toInt))
    ∧ (first.DataType = str "String" →
      ∃ xs : List GoString,
        callIntrinsic (programEnv lib today) (str "Sort") (.list nl (first :: tl))
          = .ok (.list false (xs.map Value.string))
        ∧ List.Sorted (fun a b : GoString => a ≤ b) xs
        ∧ xs.Perm ((first :: tl).map (toString lib)))
    ∧ (∀ v : Value, (ToInt v).isOk = false → toInt v = 0)
    ∧ (∀ v : Value, (ToString lib v).isOk = false → toString lib v = []) := by
  rw [callIntrinsic_Sort, SortL_cons]
  refine ⟨?_, ?_, ?_, ?_, ?_⟩
  · split_ifs with h1 h2 h3 h4
    · simp [Res.isError, h1]
    · have := firstBytes_isError (sortStrings (toStringSlice lib (first :: tl)))
      cases hc : firstBytes (sortStrings (toStringSlice lib (first :: tl))) <;>
        rw [hc] at this <;> simp_all [Res.bind, Res.isError]
    · simp [Res.isError, h3]
    · simp [Res.isError, h4]
    · simp [Res.isError, errorf, h1, h2, h3, h4]
  · intro h
    rw [h]
    exact ⟨sortInts ((first :: tl).map toInt), rfl, sortInts_sorted _, sortInts_perm _⟩
  · intro h
    rw [h]
    exact ⟨sortStrings ((first :: tl).map (toString lib)), rfl, sortStrings_sorted _,
      sortStrings_perm _⟩
  · intro v h
    unfold toInt
    cases hv : ToInt v with
    | ok n => rw [hv] at h; cases h
    | error e => rfl
    | panic m => rfl
    | outOfFuel => rfl
  · intro v h
    unfold toString
    cases hv : ToString lib v with
    | ok n => rw [hv] at h; cases h
    | error e => rfl
    | panic m => rfl
    | outOfFuel => rfl

set_option maxRecDepth 8000 in
/-- Claim C27 witness: `Sort` on the list of the Int 2 and the Bool `true`, whose first
two items differ in type, returns a sorted permutation of the conversions 2 and 1. -/
theorem C27_Sort_looks_at_first_item_only_witness :
    ∃ xs : List Int,
      callIntrinsic (programEnv stubLib ⟨0⟩) (str "Sort") (.list false [.int 2, .bool true])
        = .ok (.list false (xs.map Value.int))
      ∧ List.Sorted (fun a b : Int => a ≤ b) xs
      ∧ xs.Perm ([Value.int 2, Value.bool true].map toInt) :=
  (C27_Sort_looks_at_first_item_only stubLib ⟨0⟩ false (.int 2) [.bool true]).2.1 rfl

set_option maxRecDepth 8000 in
/-- Counterexample for claim C27: on the list of the Int 1 and the String `a`, `Sort`
returns the Ints 0 and 1 and no error. -/
theorem C27_Sort_accepts_heterogeneous_list :
    callIntrinsic (programEnv stubLib ⟨0⟩) (str "Sort")
        (.list false [.int 1, .string (str "a")])
      = .ok (.list false [.int 0, .int 1]) := rfl

/-! ## Conversion round trips -/

/-- For a word without the letters `i` and `k`, the test `strings.ToLower(s) == w` is the
comparison of the ASCII lower-casing of `s` with `w`. -/
theorem lowerMatches_cons (b : Byte) (s : GoString) (c : Byte) (w : GoString)
    (hi : c ≠ 105) (hk : c ≠ 107) :
    lowerMatches (b :: s) (c :: w) = (if asciiLower b = c then lowerMatches s w else false) := by
  have e : ∃ X Y : Bool, lowerMatches (b :: s) (c :: w)
      = (if asciiLower b = c then lowerMatches s w
        else if c = 105 then X else if c = 107 then Y else false) := by
    refine ⟨?_, ?_, ?_⟩
    rotate_left 2
    · delta lowerMatches
      exact rfl
  obtain ⟨X, Y, e⟩ := e
  rw [e, if_neg hi, if_neg hk]

theorem lowerMatches_eq_map : ∀ (s w : GoString), (∀ c ∈ w, c ≠ 105 ∧ c ≠ 107) →
    (lowerMatches s w = true ↔ s.map asciiLower = w)
  | [], [], _ => ⟨fun _ => rfl, fun _ => rfl⟩
  | [], c :: w, _ => ⟨fun h => absurd (show false = true from h) (by simp),
      fun h => absurd h (by simp)⟩
  | b :: s, [], _ => ⟨fun h => absurd (show false = true from h) (by simp),
      fun h => absurd h (by simp)⟩
  | b :: s, c :: w, h => by
    have hc := h c (List.mem_cons_self _ _)
    have ih := lowerMatches_eq_map s w (fun x hx => h x (List.mem_cons_of_mem _ hx))
    rw [lowerMatches_cons b s c w hc.1 hc.2]
    simp only [List.map_cons, List.cons.injEq]
    by_cases hb : asciiLower b = c
    · rw [if_pos hb, ih]
      simp [hb]
    · rw [if_neg hb]
      simp [hb]

/-- Claim C31. For every Bool `b`: its conversion to Int is 1 for true and 0 for false,
and the conversion of that Int to Bool is `b`; its conversion to String is `True` or
`False`, and the conversion of that String to Bool is `b`. The conversion of a String to
Bool succeeds exactly when the ASCII lower-casing of the String is `true` or `false`.
For every Int `n` (a 64-bit integer), the conversion of `n` to String is its decimal
text, and the conversion of that String to Int is `n`. -/
theorem C31_conversion_round_trips (lib : GoLib) :
    (∀ b : Bool, ToInt (.bool b) = .ok (if b then 1 else 0)
      ∧ ToBool (.int (if b then 1 else 0)) = .ok b)
    ∧ (∀ b : Bool, ToString lib (.bool b) = .ok (if b then str "True" else str "False")
      ∧ ToBool (.string (if b then str "True" else str "False")) = .ok b)
    ∧ (∀ s : GoString, (ToBool (.string s)).isOk = true
        ↔ (s.map asciiLower = str "true" ∨ s.map asciiLower = str "false"))
    ∧ (∀ s : GoString, (s.map asciiLower = str "true" → ToBool (.string s) = .ok true)
        ∧ (s.map asciiLower = str "false" → ToBool (.string s) = .ok false))
    ∧ (∀ n : Int, -(2 : Int) ^ 63 ≤ n → n < (2 : Int) ^ 63 →
        ToString lib (.int n) = .ok (Itoa n) ∧ ToInt (.string (Itoa n)) = .ok n) := by
  have ht : ∀ s : GoString, lowerEq s "true" = true ↔ s.map asciiLower = str "true" :=
    fun s => lowerMatches_eq_map s (str "true") (by decide!)
  have hf : ∀ s : GoString, lowerEq s "false" = true ↔ s.map asciiLower = str "false" :=
    fun s => lowerMatches_eq_map s (str "false") (by decide!)
  refine ⟨?_, ?_, ?_, ?_, ?_⟩
  · intro b
    cases b <;> exact ⟨rfl, rfl⟩
  · intro b
    cases b <;> exact ⟨rfl, rfl⟩
  · intro s
    rw [← ht, ← hf]
    simp only [ToBool]
    by_cases h1 : lowerEq s "true" = true
    · simp [h1, Res.isOk]
    · by_cases h2 : lowerEq s "false" = true
      · simp [h1, h2, Res.isOk]
      · simp [h1, h2, Res.isOk, errorf]
  · intro s
    constructor
    · intro h
      simp only [ToBool, (ht s).mpr h, if_true]
    · intro h
      have h1 : ¬ (lowerEq s "true" = true) := by
        rw [ht, h]
        decide
      simp only [ToBool, (hf s).mpr h, if_true, if_neg h1]
  · intro n hlo hhi
    refine ⟨rfl, ?_⟩
    simp only [ToInt, Atoi_Itoa n hlo hhi]

/-- Witness for claim C31: the Int 42 and its decimal text. -/
theorem C31_conversion_round_trips_witness :
    ToString stubLib (.int 42) = .ok (Itoa 42) ∧ ToInt (.string (Itoa 42)) = .ok 42 :=
  (C31_conversion_round_trips stubLib).2.2.2.2 42 (by norm_num) (by norm_num)

/-! ## Flattening of comma lists -/

theorem Flatten_cons (x : Value) (rest : List Value) :
    Flatten (x :: rest) = flattenItem x ++ Flatten rest := by
  rw [Flatten]

theorem flattenItem_commaList (c : List Value) : flattenItem (.commaList c) = Flatten c := by
  rw [flattenItem]

theorem flattenItem_of_ne (x : Value) (h : ∀ c, x ≠ .commaList c) : flattenItem x = [x] := by
  cases x <;> first | exact absurd rfl (h _) | rw [flattenItem]

theorem Flatten_append (l1 l2 : List Value) :
    Flatten (l1 ++ l2) = Flatten l1 ++ Flatten l2 := by
  induction l1 with
  | nil => simp [Flatten]
  | cons x rest ih => simp [Flatten_cons, ih]

theorem Flatten_no_commaList_aux : ∀ n : Nat,
    (∀ x : Value, sizeOf x < n → ∀ y ∈ flattenItem x, ∀ c, y ≠ .commaList c)
    ∧ (∀ l : List Value, sizeOf l < n → ∀ y ∈ Flatten l, ∀ c, y ≠ .commaList c) := by
  intro n
  induction n with
  | zero => exact ⟨fun _ h => absurd h (by omega), fun _ h => absurd h (by omega)⟩
  | succ n ih =>
    obtain ⟨ihv, ihl⟩ := ih
    constructor
    · intro x hs y hy c
      cases x
      case commaList l =>
        rw [flattenItem_commaList] at hy
        simp only [Value.commaList.sizeOf_spec] at hs
        exact ihl l (by omega) y hy c
      all_goals
        rw [flattenItem_of_ne _ (fun c h => by cases h), List.mem_singleton] at hy
        rw [hy]
        intro h
        cases h
    · intro l hs y hy c
      cases l with
      | nil => simp [Flatten] at hy
      | cons x rest =>
        simp only [List.cons.sizeOf_spec] at hs
        rw [Flatten_cons, List.mem_append] at hy
        rcases hy with hy | hy
        · exact ihv x (by omega) y hy c
        · exact ihl rest (by omega) y hy c

theorem Flatten_no_commaList (l : List Value) : ∀ y ∈ Flatten l, ∀ c, y ≠ .commaList c :=
  (Flatten_no_commaList_aux (sizeOf l + 1)).2 l (by omega)

theorem Flatten_of_no_commaList (l : List Value) (h : ∀ x ∈ l, ∀ c, x ≠ .commaList c) :
    Flatten l = l := by
  induction l with
  | nil => simp [Flatten]
  | cons x rest ih =>
    rw [Flatten_cons, flattenItem_of_ne x (h x (List.mem_cons_self _ _)),
      ih (fun y hy => h y (List.mem_cons_of_mem _ hy))]
    rfl

/-- The value of the comma operator applied from left to right to the operand `a` and the
operands `rest`. -/
theorem commaChain_flatten (a : Value) (ha : ∀ c, a ≠ .commaList c) :
    ∀ rest : List Value, (∀ x ∈ rest, ∀ c, x ≠ .commaList c) →
      flattenItem (rest.foldl (fun acc x => .commaList [acc, x]) a) = a :: rest := by
  intro rest
  induction rest using List.reverseRecOn with
  | nil => intro _; exact flattenItem_of_ne a ha
  | append_singleton rest x ih =>
    intro h
    rw [List.foldl_append]
    simp only [List.foldl_cons, List.foldl_nil]
    rw [flattenItem_commaList, Flatten_cons, Flatten_cons,
      ih (fun y hy => h y (List.mem_append_left _ hy)),
      flattenItem_of_ne x (h x (List.mem_append_right _ (List.mem_singleton_self x)))]
    simp [Flatten]

/-- The postfix stream of `a , x1 , x2 ...`: the operands with a comma token after each
but the first, last element first. -/
theorem evaluatePostfix_commaChain (env : Env) (comma : Token) (hc : comma.tokenType = .comma)
    (a : Value) (tail : List PostfixElem) :
    ∀ (rest : List Value) (fuel : Nat), 2 * rest.length + 1 ≤ fuel →
      evaluatePostfix env fuel
        ((rest.reverse.flatMap (fun x => [.token comma, .value x])) ++ .value a :: tail)
      = .ok (rest.foldl (fun acc x => .commaList [acc, x]) a, tail) := by
  intro rest
  induction rest using List.reverseRecOn with
  | nil =>
    intro fuel hf
    obtain ⟨f, rfl⟩ : ∃ f, fuel = f + 1 := ⟨fuel - 1, by simp at hf; omega⟩
    rfl
  | append_singleton rest x ih =>
    intro fuel hf
    simp only [List.length_append, List.length_singleton] at hf
    obtain ⟨f, rfl⟩ : ∃ f, fuel = f + 2 := ⟨fuel - 2, by omega⟩
    have h1 := ih (f + 1) (by omega)
    simp only [List.reverse_append, List.reverse_singleton, List.singleton_append,
      List.flatMap_cons, List.cons_append, List.nil_append, List.foldl_append, List.foldl_cons,
      List.foldl_nil]
    have h2 : evaluatePostfix env (f + 2)
        (.token comma :: .value x ::
          ((rest.reverse.flatMap (fun x => [PostfixElem.token comma, PostfixElem.value x]))
            ++ .value a :: tail))
        = CommaOperator (evaluatePostfix env (f + 1)) (.value x ::
          ((rest.reverse.flatMap (fun x => [PostfixElem.token comma, PostfixElem.value x]))
            ++ .value a :: tail)) := by
      simp only [evaluatePostfix, hc]
    rw [h2]
    simp only [CommaOperator, GetBinaryOperands]
    have h3 : evaluatePostfix env (f + 1) (.value x ::
          ((rest.reverse.flatMap (fun x => [PostfixElem.token comma, PostfixElem.value x]))
            ++ .value a :: tail))
        = .ok (x, (rest.reverse.flatMap (fun x => [PostfixElem.token comma, PostfixElem.value x]))
            ++ .value a :: tail) := rfl
    rw [h3]
    simp only [Res.bind, h1]

/-- Claim C34. `Flatten` returns the leaves of the nesting of comma lists from left to
right: it is the concatenation of the flattenings of the items, a nested comma list is
replaced by its flattening, and any other item, a List included, is kept as it is. The
result holds no comma list, and it is the sequence of the items itself when no item is a
comma list. The comma operator applied from left to right to `n` operands that are no
comma lists gives a value that flattens to the `n` operands in their order. -/
theorem C34_Flatten (env : Env) :
    (∀ l1 l2 : List Value, Flatten (l1 ++ l2) = Flatten l1 ++ Flatten l2)
    ∧ (∀ (c rest : List Value), Flatten (.commaList c :: rest) = Flatten c ++ Flatten rest)
    ∧ (∀ (x : Value) (rest : List Value), (∀ c, x ≠ .commaList c) →
        Flatten (x :: rest) = x :: Flatten rest)
    ∧ (∀ (nl : Bool) (l rest : List Value),
        Flatten (.list nl l :: rest) = .list nl l :: Flatten rest)
    ∧ (∀ l : List Value, ∀ y ∈ Flatten l, ∀ c, y ≠ .commaList c)
    ∧ (∀ l : List Value, (∀ x ∈ l, ∀ c, x ≠ .commaList c) → Flatten l = l)
    ∧ (∀ (comma : Token) (a b : Value) (rest : List Value), comma.tokenType = .comma →
        (∀ x ∈ a :: b :: rest, ∀ c, x ≠ .commaList c) →
        ∃ cl : List Value,
          evaluatePostfix env (2 * (b :: rest).length + 1)
            (((b :: rest).reverse.flatMap (fun x => [.token comma, .value x])) ++ [.value a])
            = .ok (.commaList cl, [])
          ∧ Flatten cl = a :: b :: rest) := by
  refine ⟨Flatten_append, ?_, ?_, ?_, Flatten_no_commaList, Flatten_of_no_commaList, ?_⟩
  · intro c rest
    rw [Flatten_cons, flattenItem_commaList]
  · intro x rest h
    rw [Flatten_cons, flattenItem_of_ne x h]
    rfl
  · intro nl l rest
    rw [Flatten_cons, flattenItem_of_ne _ (fun c h => by cases h)]
    rfl
  · intro comma a b rest hc h
    have he := evaluatePostfix_commaChain env comma hc a [] (b :: rest)
      (2 * (b :: rest).length + 1) (le_refl _)
    have hf := commaChain_flatten a (h a (List.mem_cons_self _ _)) (b :: rest)
      (fun x hx => h x (List.mem_cons_of_mem _ hx))
    have hv : ∃ cl, (b :: rest).foldl (fun acc x => Value.commaList [acc, x]) a
        = .commaList cl := by
      induction rest using List.reverseRecOn with
      | nil => exact ⟨_, rfl⟩
      | append_singleton r x _ =>
        rw [← List.cons_append, List.foldl_append]
        exact ⟨_, rfl⟩
    obtain ⟨cl, hcl⟩ := hv
    refine ⟨cl, ?_, ?_⟩
    · rw [he, hcl]
    · rw [hcl, flattenItem_commaList] at hf
      exact hf

set_option maxRecDepth 4000 in
/-- Witness for claim C34: the stream of `1,2,3` evaluates to a comma list that flattens
to the three operands. -/
theorem C34_Flatten_witness :
    ∃ cl : List Value,
      evaluatePostfix symbolsOnlyEnv (2 * ([Value.int 2, Value.int 3]).length + 1)
        ((([Value.int 2, Value.int 3]).reverse.flatMap
          (fun x => [PostfixElem.token ⟨.comma, str ","⟩, PostfixElem.value x]))
          ++ [.value (.int 1)])
        = .ok (.commaList cl, [])
      ∧ Flatten cl = [.int 1, .int 2, .int 3] :=
  (C34_Flatten symbolsOnlyEnv).2.2.2.2.2.2 ⟨.comma, str ","⟩ (.int 1) (.int 2) [.int 3] rfl
    (fun x hx c h => by
      simp only [List.mem_cons, List.mem_singleton, List.not_mem_nil, or_false] at hx
      rcases hx with rfl | rfl | rfl <;> cases h)

/-! ## The list form of `Contains` -/

theorem lowerItem_false (lib : GoLib) (x : Value) : lowerItem lib false x = x := by
  cases x <;> rfl

theorem callIntrinsic_Contains_lists (lib : GoLib) (today : Time) (nl1 nl2 : Bool)
    (hs ns : List Value) (isAll : Bool) :
    callIntrinsic (programEnv lib today) (str "Contains")
        (.commaList [.list nl1 hs, .list nl2 ns, .bool false, .bool isAll])
      = .ok (.bool (if isAll then
            hs.countP (fun h => ns.any (fun n => deepEqual h n)) == ns.length
          else decide (hs.countP (fun h => ns.any (fun n => deepEqual h n)) > 0))) := by
  rw [callIntrinsic_poly (programEnv lib today) (str "Contains") _
    (.commaList [.list nl1 hs, .list nl2 ns, .bool false, .bool isAll])
    [.list nl1 hs, .list nl2 ns, .bool false, .bool isAll] rfl
    (Or.inl ⟨[.list nl1 hs, .list nl2 ns, .bool false, .bool isAll], rfl, rfl⟩)]
  have h : polyLoop [(str "S,S,B", ContainsSSB lib), (str "S,LS,BF,BF", ContainsSLBB lib),
      (str "L,L,BF,BF", ContainsLLBB lib)]
      [.list nl1 hs, .list nl2 ns, .bool false, .bool isAll] []
      = ContainsLLBB lib [.list nl1 hs, .list nl2 ns, .bool false, .bool isAll] := rfl
  have h2 : ContainsLLBB lib [.list nl1 hs, .list nl2 ns, .bool false, .bool isAll]
      = (if isAll then
          .ok (.bool (hs.countP (fun h => ns.any (fun n =>
            deepEqual (lowerItem lib false h) (lowerItem lib false n))) == ns.length))
        else .ok (.bool (decide (hs.countP (fun h => ns.any (fun n =>
            deepEqual (lowerItem lib false h) (lowerItem lib false n))) > 0)))) := rfl
  rw [show (polyLoop _ [Value.list nl1 hs, Value.list nl2 ns, Value.bool false,
      Value.bool isAll] [] : Res Value) = _ from h, h2]
  simp only [lowerItem_false]
  cases isAll <;> rfl

set_option maxRecDepth 8000 in
/-- Claim C32 fails on the code for the match-all flag: the list form of `Contains` counts
the items of the HAYSTACK that are deeply equal to some needle and compares that count
with the number of needles. So `Contains([1,1],[1],false,true)` is false although the one
needle occurs in the haystack, `Contains([1],[1,1],false,true)` is false as well, and
`Contains([1,1],[1,2],false,true)` is true although the needle 2 does not occur. Without
the flag the result is true exactly when some needle is deeply equal to some item of the
haystack. -/
theorem C32_match_all_counts_haystack_items (lib : GoLib) (today : Time) :
    expressionEval (programEnv lib today) (str "Contains([1,1],[1],false,true)")
      = some (.ok (.bool false))
    ∧ expressionEval (programEnv lib today) (str "Contains([1],[1,1],false,true)")
      = some (.ok (.bool false))
    ∧ expressionEval (programEnv lib today) (str "Contains([1,1],[1,2],false,true)")
      = some (.ok (.bool true))
    ∧ (∀ (nl1 nl2 : Bool) (hs ns : List Value),
        callIntrinsic (programEnv lib today) (str "Contains")
            (.commaList [.list nl1 hs, .list nl2 ns, .bool false, .bool true])
          = .ok (.bool (hs.countP (fun h => ns.any (fun n => deepEqual h n)) == ns.length)))
    ∧ (∀ (nl1 nl2 : Bool) (hs ns : List Value),
        callIntrinsic (programEnv lib today) (str "Contains")
            (.commaList [.list nl1 hs, .list nl2 ns, .bool false, .bool false])
          = .ok (.bool (ns.any (fun n => hs.any (fun h => deepEqual n h))))) := by
  refine ⟨rfl, rfl, rfl, ?_, ?_⟩
  · intro nl1 nl2 hs ns
    rw [callIntrinsic_Contains_lists]
    rfl
  · intro nl1 nl2 hs ns
    rw [callIntrinsic_Contains_lists]
    simp only [Bool.false_eq_true, if_false]
    congr 2
    rw [Bool.eq_iff_iff]
    simp only [gt_iff_lt, decide_eq_true_eq, List.countP_pos_iff, List.any_eq_true]
    constructor
    · rintro ⟨h, hh, n, hn, e⟩
      exact ⟨n, hn, h, hh, deepEqual_symm h n e⟩
    · rintro ⟨n, hn, h, hh, e⟩
      exact ⟨h, hh, n, hn, deepEqual_symm n h e⟩

set_option maxRecDepth 8000 in
/-- Claim C35 fails on the code: the operators `>=`, `<=`, `&`, `|` and `^` are no keys of
the precedence tables, so their precedence is 0, which is not above the precedence 1 of an
open bracket, and the single pop moves the open bracket from the stack into the output.
The postfix stream of `(1>=2)` is `1 ( 2 >=`, with the bracket token in it, and its
evaluation fails, as it does for `(true&false)` and `([1,2]^[2,3])`; without the brackets,
and with an operator of the tables (`(1>2)`), the expressions evaluate. -/
theorem C35_open_bracket_is_popped_to_output (lib : GoLib) (today : Time) :
    precedence ⟨.relationalOperator, str ">="⟩ = 0
    ∧ precedence ⟨.openBracket, str "("⟩ = 1
    ∧ convertToPostfix lib [⟨.openBracket, str "("⟩, ⟨.integer, str "1"⟩,
          ⟨.relationalOperator, str ">="⟩, ⟨.integer, str "2"⟩, ⟨.closeBracket, str ")"⟩]
        = .ok [.value (.int 1), .token ⟨.openBracket, str "("⟩, .value (.int 2),
            .token ⟨.relationalOperator, str ">="⟩]
    ∧ (∃ tokens, Tokenize (str "(1>=2)") = some (tokens, none)
        ∧ WithoutWhitespace tokens = [⟨.openBracket, str "("⟩, ⟨.integer, str "1"⟩,
          ⟨.relationalOperator, str ">="⟩, ⟨.integer, str "2"⟩, ⟨.closeBracket, str ")"⟩])
    ∧ expressionEval (programEnv lib today) (str "(1>=2)")
        = some (errorf "Could not get operands for %v"
            [.token (some ⟨.relationalOperator, str ">="⟩)])
    ∧ expressionEval (programEnv lib today) (str "(true&false)")
        = some (errorf "Could not get operands for %v"
            [.token (some ⟨.logicalOperator, str "&"⟩)])
    ∧ expressionEval (programEnv lib today) (str "([1,2]^[2,3])")
        = some (errorf "Could not get operands for %v"
            [.token (some ⟨.arithmeticOperator, str "^"⟩)])
    ∧ expressionEval (programEnv lib today) (str "1>=2") = some (.ok (.bool false))
    ∧ expressionEval (programEnv lib today) (str "(1>2)") = some (.ok (.bool false)) := by
  refine ⟨rfl, rfl, rfl, ⟨_, rfl, rfl⟩, ?_, ?_, ?_, ?_, ?_⟩ <;> rfl

/-! ## The sign after a whitespace token -/

theorem takeWhile_dropWhile_digits (rest : GoString) :
    (∀ c ∈ rest.takeWhile isDigit, isDigit c = true)
    ∧ (∀ c r, rest.dropWhile isDigit = c :: r → isDigit c = false) := by
  constructor
  · intro c hc
    exact List.mem_takeWhile_imp hc
  · intro c r h
    have := List.head_dropWhile_not isDigit rest (by rw [h]; simp)
    simpa [h] using this

/-- At a digit, the first matched token is a double or an integer whose text starts with
that digit. -/
theorem matched_at_digit (d : Byte) (rest : GoString) (hd : isDigit d = true) :
    ∃ first tl, tokenPats.filterMap (fun tp => tp.Match (d :: rest)) = first :: tl
      ∧ (first.tokenType = .integer ∨ first.tokenType = .double)
      ∧ first.text.head? = some d := by
  obtain ⟨hds, hrest⟩ := takeWhile_dropWhile_digits rest
  have hsplit : d :: rest = (d :: rest.takeWhile isDigit) ++ rest.dropWhile isDigit := by
    simp [List.takeWhile_append_dropWhile]
  have h1 : (tokenPats.take 29).filterMap (fun tp => tp.Match (d :: rest)) = [] := by
    apply filterMap_Match_eq_nil
    have := byte_forall (fun c => !isDigit c ||
      (tokenPats.take 29).all (fun tp => !tp.pat.canStartWith c)) (by decide!) d
    simpa [hd] using this
  have h2 : tokenPat.Match ⟨.seq (Regex.opt (.cls isSign)) (Regex.plus (.cls isDigit)),
      .integer⟩ (d :: rest) = some ⟨.integer, d :: rest.takeWhile isDigit⟩ := by
    rw [hsplit]
    exact Match_of_run _ (d :: rest.takeWhile isDigit) (rest.dropWhile isDigit)
      (integer_run_digits d _ _ hd hds hrest) (by simp)
  rw [tokenPats_split_numbers, List.filterMap_append, List.filterMap_append, h1,
    List.nil_append, List.filterMap_cons, List.filterMap_cons, h2]
  cases hm : tokenPat.Match ⟨.seq (Regex.opt (.cls isSign)) (.seq (Regex.plus (.cls isDigit))
      (.seq (Regex.text ".") (Regex.plus (.cls isDigit)))), .double⟩ (d :: rest) with
  | none => exact ⟨_, _, rfl, Or.inl rfl, rfl⟩
  | some t =>
    refine ⟨t, _, rfl, Or.inr ?_, ?_⟩
    · unfold tokenPat.Match at hm
      simp only at hm
      split at hm
      · cases hm; rfl
      · cases hm
    · obtain ⟨hne, k, hk⟩ := Match_some _ _ _ hm
      rw [hk] at hne ⊢
      cases k with
      | zero => simp at hne
      | succ k => rfl

/-- Claim C36. When the token emitted last is a whitespace token and the rest of the text
is a `-` followed by a digit, `Tokenize` emits the arithmetic operator `-` and then an
unsigned literal (an integer or a double whose text starts with the digit). So the
non-whitespace tokens of `3 * -5` are the four tokens `3`, `*`, `-`, `5`, and those of
`3*-5` are the three tokens `3`, `*`, `-5`. -/
theorem C36_sign_after_whitespace :
    (∀ (fuel : Nat) (tokens : List Token) (last : Token) (d : Byte) (rest : GoString),
      tokens.getLast? = some last → last.tokenType = .whitespace → isDigit d = true →
      ∃ lit : Token, (lit.tokenType = .integer ∨ lit.tokenType = .double)
        ∧ lit.text.head? = some d
        ∧ tokenizeLoop (fuel + 2) tokens (45 :: d :: rest)
          = tokenizeLoop fuel (tokens ++ [⟨.arithmeticOperator, str "-"⟩, lit])
              ((d :: rest).drop lit.text.length))
    ∧ (∃ ts, Tokenize (str "3 * -5") = some (ts, none)
        ∧ WithoutWhitespace ts = [⟨.integer, str "3"⟩, ⟨.arithmeticOperator, str "*"⟩,
            ⟨.arithmeticOperator, str "-"⟩, ⟨.integer, str "5"⟩])
    ∧ (∃ ts, Tokenize (str "3*-5") = some (ts, none)
        ∧ WithoutWhitespace ts = [⟨.integer, str "3"⟩, ⟨.arithmeticOperator, str "*"⟩,
            ⟨.integer, str "-5"⟩]) := by
  refine ⟨?_, ⟨_, rfl, rfl⟩, ⟨_, rfl, rfl⟩⟩
  intro fuel tokens last d rest hlast hw hd
  obtain ⟨first, tl, hm, hty, hhead⟩ := matched_at_digit d rest hd
  have hpre : precedesUnaryMinus last = false := by
    simp [precedesUnaryMinus, Token.isOperator, hw]
  have h1 := tokenizeLoop_operator (fuel + 1) tokens 45 (d :: rest) (Or.inr (Or.inl rfl))
    (fun _ => ⟨last, hlast, hpre⟩)
  have hne : first.text ≠ str "-" := by
    intro h
    rw [h] at hhead
    have : (45 : Byte) = d := by simpa [str, encodeRune] using hhead
    exact (isDigit_not_sign d hd).1 this.symm
  have h2 := tokenizeLoop_step fuel (tokens ++ [⟨.arithmeticOperator, [45]⟩]) d rest first tl hm
  rw [chooseToken_of_ne_minus _ _ _ hne] at h2
  refine ⟨first, hty, hhead, ?_⟩
  rw [h1, h2]
  simp
  rfl

/-- Witness for claim C36: after the tokens `3`, `*` and a blank, the text `-5`. -/
theorem C36_sign_after_whitespace_witness :
    ∃ lit : Token, (lit.tokenType = .integer ∨ lit.tokenType = .double)
      ∧ lit.text.head? = some 53
      ∧ tokenizeLoop (0 + 2)
          [⟨.integer, str "3"⟩, ⟨.arithmeticOperator, str "*"⟩, ⟨.whitespace, str " "⟩]
          (45 :: 53 :: [])
        = tokenizeLoop 0
            ([⟨.integer, str "3"⟩, ⟨.arithmeticOperator, str "*"⟩, ⟨.whitespace, str " "⟩]
              ++ [⟨.arithmeticOperator, str "-"⟩, lit])
            ((53 :: []).drop lit.text.length) :=
  C36_sign_after_whitespace.1 0
    [⟨.integer, str "3"⟩, ⟨.arithmeticOperator, str "*"⟩, ⟨.whitespace, str " "⟩]
    ⟨.whitespace, str " "⟩ 53 [] rfl rfl (by decide)

/-! ## The operators `=` and `<>` -/

theorem equals_on_values (env : Env) (eval : EvalFn) (op : Token)
    (pfe rest : List PostfixElem) (op1 op2 : Value)
    (hops : GetBinaryOperands eval pfe = .ok ((op1, op2), rest)) (hop : op.text = str "=") :
    ArithmeticAndRelationalOperator env eval op pfe
      = (if IsListAny [op1] then buildItems (UpgradeBinaryOperandsToLists op1 op2).2.2
          else .ok []).bind (fun _ =>
          if IsNumber [op1, op2] then
            .ok (.bool (Float64.eq (UpgradeBinaryOperandsToDoubles env.lib op1 op2).1
              (UpgradeBinaryOperandsToDoubles env.lib op1 op2).2), rest)
          else if IsString [op1, op2] then
            .ok (.bool ((UpgradeBinaryOperandsToStrings env.lib op1 op2).1
              == (UpgradeBinaryOperandsToStrings env.lib op1 op2).2), rest)
          else if IsListAll [op1, op2] && (UpgradeBinaryOperandsToLists op1 op2).1.DataType
              == (UpgradeBinaryOperandsToLists op1 op2).2.DataType then
            .ok (.bool (deepEqual
              (.list (UpgradeBinaryOperandsToLists op1 op2).1.1
                (UpgradeBinaryOperandsToLists op1 op2).1.2)
              (.list (UpgradeBinaryOperandsToLists op1 op2).2.1
                (UpgradeBinaryOperandsToLists op1 op2).2.2)), rest)
          else errorf "Cannot perform operation '%s' on %v and %v"
            [.str op.text, .str op1.DataType, .str op2.DataType]) := by
  have e1 : str "=" ≠ str "+" := by decide
  have e2 : str "=" ≠ str "-" := by decide
  have e3 : str "=" ≠ str "*" := by decide
  have e4 : str "=" ≠ str "/" := by decide
  have e5 : str "=" ≠ str "#" := by decide
  have e6 : str "=" ≠ str "^" := by decide
  simp only [ArithmeticAndRelationalOperator, hops, hop, e1, e2, e3, e4, e5, e6, if_false,
    if_true]

theorem differs_on_values (env : Env) (eval : EvalFn) (op : Token)
    (pfe rest : List PostfixElem) (op1 op2 : Value)
    (hops : GetBinaryOperands eval pfe = .ok ((op1, op2), rest)) (hop : op.text = str "<>") :
    ArithmeticAndRelationalOperator env eval op pfe
      = (if IsListAny [op1] then buildItems (UpgradeBinaryOperandsToLists op1 op2).2.2
          else .ok []).bind (fun _ =>
          if IsNumber [op1, op2] then
            .ok (.bool (Float64.ne (UpgradeBinaryOperandsToDoubles env.lib op1 op2).1
              (UpgradeBinaryOperandsToDoubles env.lib op1 op2).2), rest)
          else if IsString [op1, op2] then
            .ok (.bool ((UpgradeBinaryOperandsToStrings env.lib op1 op2).1
              != (UpgradeBinaryOperandsToStrings env.lib op1 op2).2), rest)
          else if IsListAll [op1, op2] && (UpgradeBinaryOperandsToLists op1 op2).1.DataType
              == (UpgradeBinaryOperandsToLists op1 op2).2.DataType then
            .ok (.bool (!deepEqual
              (.list (UpgradeBinaryOperandsToLists op1 op2).1.1
                (UpgradeBinaryOperandsToLists op1 op2).1.2)
              (.list (UpgradeBinaryOperandsToLists op1 op2).2.1
                (UpgradeBinaryOperandsToLists op1 op2).2.2)), rest)
          else errorf "Cannot perform operation '%s' on %v and %v"
            [.str op.text, .str op1.DataType, .str op2.DataType]) := by
  have e1 : str "<>" ≠ str "+" := by decide
  have e2 : str "<>" ≠ str "-" := by decide
  have e3 : str "<>" ≠ str "*" := by decide
  have e4 : str "<>" ≠ str "/" := by decide
  have e5 : str "<>" ≠ str "#" := by decide
  have e6 : str "<>" ≠ str "^" := by decide
  have e7 : str "<>" ≠ str "=" := by decide
  simp only [ArithmeticAndRelationalOperator, hops, hop, e1, e2, e3, e4, e5, e6, e7, if_false,
    if_true]

/-- The two operators on the same operands: both succeed, both return an error, or both
abort, and when they succeed the results are Bools that are the negation of each other. -/
theorem equals_and_differs (env : Env) (eval : EvalFn) (pfe rest : List PostfixElem)
    (op1 op2 : Value) (hops : GetBinaryOperands eval pfe = .ok ((op1, op2), rest)) :
    (∃ x : Bool,
        ArithmeticAndRelationalOperator env eval ⟨.relationalOperator, str "="⟩ pfe
          = .ok (.bool x, rest)
        ∧ ArithmeticAndRelationalOperator env eval ⟨.relationalOperator, str "<>"⟩ pfe
          = .ok (.bool (!x), rest))
    ∨ ((ArithmeticAndRelationalOperator env eval ⟨.relationalOperator, str "="⟩ pfe).isError
          = true
        ∧ (ArithmeticAndRelationalOperator env eval ⟨.relationalOperator, str "<>"⟩
            pfe).isError = true)
    ∨ (∃ m, ArithmeticAndRelationalOperator env eval ⟨.relationalOperator, str "="⟩ pfe
          = .panic m
        ∧ ArithmeticAndRelationalOperator env eval ⟨.relationalOperator, str "<>"⟩ pfe
          = .panic m) := by
  rw [equals_on_values env eval _ pfe rest op1 op2 hops rfl,
    differs_on_values env eval _ pfe rest op1 op2 hops rfl]
  cases hb : (if IsListAny [op1] then buildItems (UpgradeBinaryOperandsToLists op1 op2).2.2
      else .ok [])
  case ok items =>
    simp only [Res.bind]
    split_ifs
    · exact Or.inl ⟨_, rfl, by simp [Float64.ne]⟩
    · exact Or.inl ⟨_, rfl, by simp [bne]⟩
    · exact Or.inl ⟨_, rfl, rfl⟩
    · exact Or.inr (Or.inl ⟨rfl, rfl⟩)
  case error e => exact Or.inr (Or.inl ⟨rfl, rfl⟩)
  case panic m => exact Or.inr (Or.inr ⟨m, rfl, rfl⟩)
  case outOfFuel =>
    exfalso
    split_ifs at hb with h
    · have : ∀ l, buildItems l ≠ .outOfFuel := by
        intro l
        induction l with
        | nil => simp [buildItems]
        | cons x xs ih =>
          simp only [buildItems]
          split_ifs
          · cases h2 : buildItems xs <;> simp_all [Res.bind]
          · simp
      exact this _ hb

set_option maxRecDepth 8000 in
/-- Claim C38 fails on the code where the left operand is a List and an item of the right
operand can not be hashed: the operator fills a map with the items of the right operand
before it looks at the operator, and the program stops with "hash of unhashable type".
So `[1]=(2,3)` and `[1]<>(2,3)` do not return an error, and two Lists of the same element
type whose items are Lists are not compared. On operands that it can hash the claim holds
(`[1]=[1]` is true and `[1]<>[1]` false, two Bools and a String with an Int give errors),
and on all operands the two operators agree: both succeed with Bools that are the negation
of each other, or both return an error, or both stop the program. -/
theorem C38_equality_aborts_on_unhashable_item (lib : GoLib) (today : Time) :
    expressionEval (programEnv lib today) (str "[1]=(2,3)")
      = some (.panic (str "runtime error: hash of unhashable type"))
    ∧ expressionEval (programEnv lib today) (str "[1]<>(2,3)")
      = some (.panic (str "runtime error: hash of unhashable type"))
    ∧ evaluatePostfix (programEnv lib today) 2
        [.token ⟨.relationalOperator, str "="⟩, .value (.list false [.list false [.int 1]]),
          .value (.list false [.list false [.int 1]])]
      = .panic (str "runtime error: hash of unhashable type")
    ∧ expressionEval (programEnv lib today) (str "[1]=[1]") = some (.ok (.bool true))
    ∧ expressionEval (programEnv lib today) (str "[1]<>[1]") = some (.ok (.bool false))
    ∧ expressionEval (programEnv lib today) (str "true=true")
      = some (errorf "Cannot perform operation '%s' on %v and %v"
          [.str (str "="), .str (str "Bool"), .str (str "Bool")])
    ∧ expressionEval (programEnv lib today) (str "\"a\"<>1")
      = some (errorf "Cannot perform operation '%s' on %v and %v"
          [.str (str "<>"), .str (str "String"), .str (str "Int32")])
    ∧ (∀ (eval : EvalFn) (pfe rest : List PostfixElem) (op1 op2 : Value),
        GetBinaryOperands eval pfe = .ok ((op1, op2), rest) →
        (∃ x : Bool,
          ArithmeticAndRelationalOperator (programEnv lib today) eval
              ⟨.relationalOperator, str "="⟩ pfe = .ok (.bool x, rest)
          ∧ ArithmeticAndRelationalOperator (programEnv lib today) eval
              ⟨.relationalOperator, str "<>"⟩ pfe = .ok (.bool (!x), rest))
        ∨ ((ArithmeticAndRelationalOperator (programEnv lib today) eval
              ⟨.relationalOperator, str "="⟩ pfe).isError = true
          ∧ (ArithmeticAndRelationalOperator (programEnv lib today) eval
              ⟨.relationalOperator, str "<>"⟩ pfe).isError = true)
        ∨ (∃ m, ArithmeticAndRelationalOperator (programEnv lib today) eval
              ⟨.relationalOperator, str "="⟩ pfe = .panic m
          ∧ ArithmeticAndRelationalOperator (programEnv lib today) eval
              ⟨.relationalOperator, str "<>"⟩ pfe = .panic m)) := by
  refine ⟨?_, ?_, ?_, ?_, ?_, ?_, ?_, ?_⟩
  · rfl
  · rfl
  · rfl
  · rfl
  · rfl
  · rfl
  · rfl
  · intro eval pfe rest op1 op2 h
    exact equals_and_differs (programEnv lib today) eval pfe rest op1 op2 h

set_option maxRecDepth 8000 in
/-- Witness for claim C38: the operands 1 and 2, for which `=` is false and `<>` true. -/
theorem C38_equality_aborts_on_unhashable_item_witness :
    (∃ x : Bool,
      ArithmeticAndRelationalOperator (programEnv stubLib ⟨0⟩)
          (evaluatePostfix (programEnv stubLib ⟨0⟩) 1) ⟨.relationalOperator, str "="⟩
          [.value (.int 2), .value (.int 1)] = .ok (.bool x, [])
      ∧ ArithmeticAndRelationalOperator (programEnv stubLib ⟨0⟩)
          (evaluatePostfix (programEnv stubLib ⟨0⟩) 1) ⟨.relationalOperator, str "<>"⟩
          [.value (.int 2), .value (.int 1)] = .ok (.bool (!x), []))
    ∨ ((ArithmeticAndRelationalOperator (programEnv stubLib ⟨0⟩)
          (evaluatePostfix (programEnv stubLib ⟨0⟩) 1) ⟨.relationalOperator, str "="⟩
          [.value (.int 2), .value (.int 1)]).isError = true
      ∧ (ArithmeticAndRelationalOperator (programEnv stubLib ⟨0⟩)
          (evaluatePostfix (programEnv stubLib ⟨0⟩) 1) ⟨.relationalOperator, str "<>"⟩
          [.value (.int 2), .value (.int 1)]).isError = true)
    ∨ (∃ m, ArithmeticAndRelationalOperator (programEnv stubLib ⟨0⟩)
          (evaluatePostfix (programEnv stubLib ⟨0⟩) 1) ⟨.relationalOperator, str "="⟩
          [.value (.int 2), .value (.int 1)] = .panic m
      ∧ ArithmeticAndRelationalOperator (programEnv stubLib ⟨0⟩)
          (evaluatePostfix (programEnv stubLib ⟨0⟩) 1) ⟨.relationalOperator, str "<>"⟩
          [.value (.int 2), .value (.int 1)] = .panic m) :=
  (C38_equality_aborts_on_unhashable_item stubLib ⟨0⟩).2.2.2.2.2.2.2
    (evaluatePostfix (programEnv stubLib ⟨0⟩) 1) [.value (.int 2), .value (.int 1)] []
    (.int 1) (.int 2) rfl

/-! ## Dispatch on the signatures of the registry -/

theorem filterMap_length_lt_of_not_all {α β : Type} (g : α → Option β) :
    ∀ (l : List α), l.all (fun x => (g x).isSome) = false →
      (l.filterMap g).length < l.length
  | [], h => by simp at h
  | x :: xs, h => by
    cases hx : g x with
    | none =>
      have := List.length_filterMap_le g xs
      simp only [List.filterMap_cons, hx, List.length_cons]
      omega
    | some y =>
      have h2 : xs.all (fun x => (g x).isSome) = false := by
        simpa [List.all_cons, hx] using h
      have := filterMap_length_lt_of_not_all g xs h2
      simp only [List.filterMap_cons, hx, List.length_cons]
      omega

/-- One signature, tried by the loop of the source and by the dispatch of the
specification: both skip it, or both invoke it, or the loop goes on with the defaults
appended where the specification goes on with the arguments as supplied. -/
theorem polyLoop_cons_cases (ts : GoString) (f : List Value → Res Value)
    (tf : List (GoString × (List Value → Res Value))) (args : List Value) (u : GoString)
    (hcodes : ∀ code ∈ splitOnComma ts, code ∈ supportedCodes)
    (hlen : args.length ≤ (splitOnComma ts).length) :
    (polyLoop ((ts, f) :: tf) args u = f (args ++ trailingDefaults (splitOnComma ts) args)
      ∧ dispatchOriginal ((ts, f) :: tf) args u
        = f (args ++ trailingDefaults (splitOnComma ts) args))
    ∨ (polyLoop ((ts, f) :: tf) args u = polyLoop tf args (u ++ str " " ++ ts)
      ∧ dispatchOriginal ((ts, f) :: tf) args u
        = dispatchOriginal tf args (u ++ str " " ++ ts))
    ∨ (signatureQualifies (splitOnComma ts) args = false
      ∧ trailingDefaults (splitOnComma ts) args ≠ []
      ∧ polyLoop ((ts, f) :: tf) args u
        = polyLoop tf (args ++ trailingDefaults (splitOnComma ts) args) (u ++ str " " ++ ts)
      ∧ dispatchOriginal ((ts, f) :: tf) args u
        = dispatchOriginal tf args (u ++ str " " ++ ts)) := by
  cases hm : argsMatch (splitOnComma ts) args
  · right; left
    refine ⟨polyLoop_skip ts f tf args u hcodes hlen (Or.inl hm), ?_⟩
    simp [dispatchOriginal, signatureQualifies, hm]
  · cases hall : ((splitOnComma ts).drop args.length).all (fun code => (defaultArg code).isSome)
    · have hq : signatureQualifies (splitOnComma ts) args = false := by
        simp [signatureQualifies, hm, hall]
      have hd : dispatchOriginal ((ts, f) :: tf) args u
          = dispatchOriginal tf args (u ++ str " " ++ ts) := by
        simp [dispatchOriginal, hq]
      have hlt := filterMap_length_lt_of_not_all defaultArg _ hall
      by_cases hnil : trailingDefaults (splitOnComma ts) args = []
      · right; left
        refine ⟨polyLoop_skip ts f tf args u hcodes hlen (Or.inr ⟨?_, hnil⟩), hd⟩
        simp only [List.length_drop] at hlt
        omega
      · right; right
        refine ⟨hq, hnil, ?_, hd⟩
        have hc := checkArgs_of_argsMatch _ _ hm
        simp only [polyLoop, hc, trailingDefaults]
        rw [if_pos]
        simp only [List.length_append, List.length_drop] at hlt ⊢
        omega
    · left
      have hq : signatureQualifies (splitOnComma ts) args = true := by
        simp [signatureQualifies, hm, hall]
      refine ⟨polyLoop_invoke ts f tf args u hq, ?_⟩
      simp [dispatchOriginal, hq]

/-- A method with one signature: nothing is tried after it. -/
theorem polyLoop_single (ts : GoString) (f : List Value → Res Value) (args : List Value)
    (u : GoString) (hcodes : ∀ code ∈ splitOnComma ts, code ∈ supportedCodes)
    (hlen : args.length ≤ (splitOnComma ts).length) :
    polyLoop [(ts, f)] args u = dispatchOriginal [(ts, f)] args u := by
  rcases polyLoop_cons_cases ts f [] args u hcodes hlen with ⟨h1, h2⟩ | ⟨h1, h2⟩ | ⟨_, _, h1, h2⟩
  · rw [h1, h2]
  · rw [h1, h2]
    rfl
  · rw [h1, h2]
    rfl

/-- Where no signature has, beyond the supplied arguments, both a parameter with a default
and one without, the loop appends defaults only for the signature that it invokes. -/
theorem polyLoop_no_partial_defaults (args : List Value) :
    ∀ (sigs : List (GoString × (List Value → Res Value))) (u : GoString),
    (∀ sig ∈ sigs, (∀ code ∈ splitOnComma sig.1, code ∈ supportedCodes)
      ∧ args.length ≤ (splitOnComma sig.1).length
      ∧ ((((splitOnComma sig.1).drop args.length).filterMap defaultArg).isEmpty = true
        ∨ ((splitOnComma sig.1).drop args.length).all
            (fun code => (defaultArg code).isSome) = true)) →
    polyLoop sigs args u = dispatchOriginal sigs args u
  | [], u, _ => rfl
  | (ts, f) :: tf, u, h => by
    obtain ⟨hcodes, hlen, hd⟩ := h (ts, f) (List.mem_cons_self _ _)
    have ih := polyLoop_no_partial_defaults args tf (u ++ str " " ++ ts)
      (fun sig hs => h sig (List.mem_cons_of_mem _ hs))
    rcases polyLoop_cons_cases ts f tf args u hcodes hlen with
      ⟨h1, h2⟩ | ⟨h1, h2⟩ | ⟨hq, hne, h1, h2⟩
    · rw [h1, h2]
    · rw [h1, h2, ih]
    · rcases hd with hd | hd
      · exact absurd (List.isEmpty_iff.mp hd) hne
      · rw [h2]
        have hlt : (((splitOnComma ts).drop args.length).filterMap defaultArg).length
            = ((splitOnComma ts).drop args.length).length :=
          filterMap_length_of_all defaultArg _ hd
        cases hm : argsMatch (splitOnComma ts) args
        · rw [polyLoop_skip ts f tf args u hcodes hlen (Or.inl hm), ih]
        · simp [signatureQualifies, hm, hd] at hq

theorem zip_fst_mem {α β : Type} : ∀ (ts : List α) (fs : List β) (sig : α × β),
    sig ∈ ts.zip fs → sig.1 ∈ ts
  | [], _, _, h => by simp at h
  | _ :: _, [], _, h => by simp at h
  | t :: ts, f :: fs, sig, h => by
    simp only [List.zip_cons_cons, List.mem_cons] at h ⊢
    rcases h with h | h
    · exact Or.inl (by rw [h])
    · exact Or.inr (zip_fst_mem ts fs sig h)

/-- The check of `polyLoop_no_partial_defaults` on the type strings, for `n` supplied
arguments. -/
theorem polyLoop_zip_no_partial (ts : List GoString) (fs : List (List Value → Res Value))
    (args : List Value) (u : GoString) (n : Nat) (hn : args.length = n)
    (hcheck : ts.all (fun t =>
      decide (∀ code ∈ splitOnComma t, code ∈ supportedCodes)
        && decide (n ≤ (splitOnComma t).length)
        && ((((splitOnComma t).drop n).filterMap defaultArg).isEmpty
          || ((splitOnComma t).drop n).all (fun code => (defaultArg code).isSome))) = true) :
    polyLoop (ts.zip fs) args u = dispatchOriginal (ts.zip fs) args u := by
  apply polyLoop_no_partial_defaults
  intro sig hs
  have hmem := zip_fst_mem ts fs sig hs
  rw [List.all_eq_true] at hcheck
  have := hcheck sig.1 hmem
  simp only [Bool.and_eq_true, Bool.or_eq_true, decide_eq_true_eq] at this
  rw [hn]
  exact ⟨this.1.1, this.1.2, this.2⟩

theorem two_functions {α : Type} (fs : List α) (h : fs.length = 2) :
    ∃ f1 f2, fs = [f1, f2] := by
  match fs, h with
  | [f1, f2], _ => exact ⟨f1, f2, rfl⟩

theorem three_functions {α : Type} (fs : List α) (h : fs.length = 3) :
    ∃ f1 f2 f3, fs = [f1, f2, f3] := by
  match fs, h with
  | [f1, f2, f3], _ => exact ⟨f1, f2, f3, rfl⟩

set_option maxRecDepth 8000 in
theorem dispatch_Contains (fs : List (List Value → Res Value)) (hfs : fs.length = 3)
    (args : List Value) (hn : args.length ≤ 3) :
    polyLoop ([str "S,S,B", str "S,LS,BF,BF", str "L,L,BF,BF"].zip fs) args []
      = dispatchOriginal ([str "S,S,B", str "S,LS,BF,BF", str "L,L,BF,BF"].zip fs) args [] := by
  match args, hn with
  | [], _ =>
    obtain ⟨f1, f2, f3, rfl⟩ := three_functions fs hfs
    rfl
  | [a0], _ =>
    obtain ⟨f1, f2, f3, rfl⟩ := three_functions fs hfs
    cases a0 <;> rfl
  | [a0, a1], _ => exact polyLoop_zip_no_partial _ fs _ [] 2 rfl (by decide)
  | [a0, a1, a2], _ => exact polyLoop_zip_no_partial _ fs _ [] 3 rfl (by decide)

set_option maxRecDepth 8000 in
theorem dispatch_S_S_BF_or_S_L_BF (fs : List (List Value → Res Value)) (hfs : fs.length = 2)
    (args : List Value) (hn : args.length ≤ 3) :
    polyLoop ([str "S,S,BF", str "S,L,BF"].zip fs) args []
      = dispatchOriginal ([str "S,S,BF", str "S,L,BF"].zip fs) args [] := by
  match args, hn with
  | [], _ =>
    obtain ⟨f1, f2, rfl⟩ := two_functions fs hfs
    rfl
  | [a0], _ =>
    obtain ⟨f1, f2, rfl⟩ := two_functions fs hfs
    cases a0 <;> rfl
  | [a0, a1], _ => exact polyLoop_zip_no_partial _ fs _ [] 2 rfl (by decide)
  | [a0, a1, a2], _ => exact polyLoop_zip_no_partial _ fs _ [] 3 rfl (by decide)

set_option maxRecDepth 8000 in
theorem dispatch_In (fs : List (List Value → Res Value)) (hfs : fs.length = 2)
    (args : List Value) (hn : args.length ≤ 3) :
    polyLoop ([str "S,LS,BF", str "L,L,BF,BF"].zip fs) args []
      = dispatchOriginal ([str "S,LS,BF", str "L,L,BF,BF"].zip fs) args [] := by
  match args, hn with
  | [], _ =>
    obtain ⟨f1, f2, rfl⟩ := two_functions fs hfs
    rfl
  | [a0], _ =>
    obtain ⟨f1, f2, rfl⟩ := two_functions fs hfs
    cases a0 <;> rfl
  | [a0, a1], _ => exact polyLoop_zip_no_partial _ fs _ [] 2 rfl (by decide)
  | [a0, a1, a2], _ => exact polyLoop_zip_no_partial _ fs _ [] 3 rfl (by decide)

set_option maxRecDepth 8000 in
theorem dispatch_IndexOf (fs : List (List Value → Res Value)) (hfs : fs.length = 2)
    (args : List Value) (hn : args.length ≤ 4) :
    polyLoop ([str "S,S,I0,BF", str "S,LS,I0,BF"].zip fs) args []
      = dispatchOriginal ([str "S,S,I0,BF", str "S,LS,I0,BF"].zip fs) args [] := by
  match args, hn with
  | [], _ =>
    obtain ⟨f1, f2, rfl⟩ := two_functions fs hfs
    rfl
  | [a0], _ =>
    obtain ⟨f1, f2, rfl⟩ := two_functions fs hfs
    cases a0 <;> rfl
  | [a0, a1], _ => exact polyLoop_zip_no_partial _ fs _ [] 2 rfl (by decide)
  | [a0, a1, a2], _ => exact polyLoop_zip_no_partial _ fs _ [] 3 rfl (by decide)
  | [a0, a1, a2, a3], _ => exact polyLoop_zip_no_partial _ fs _ [] 4 rfl (by decide)

theorem dispatch_Length (fs : List (List Value → Res Value))
    (args : List Value) (hn : args.length ≤ 1) :
    polyLoop ([str "S", str "L"].zip fs) args []
      = dispatchOriginal ([str "S", str "L"].zip fs) args [] := by
  match args, hn with
  | [], _ => exact polyLoop_zip_no_partial _ fs _ [] 0 rfl (by decide)
  | [a0], _ => exact polyLoop_zip_no_partial _ fs _ [] 1 rfl (by decide)

/-- The signature lists of the registry: one signature of supported codes, or one of the
five lists of overloads, or the empty type string of `Interval`. -/
theorem registrySignatures_cases : ∀ e ∈ registrySignatures,
    (∃ t, e.2 = [t] ∧ ∀ code ∈ splitOnComma t, code ∈ supportedCodes)
    ∨ e.2 = [str "S,S,B", str "S,LS,BF,BF", str "L,L,BF,BF"]
    ∨ e.2 = [str "S,S,BF", str "S,L,BF"]
    ∨ e.2 = [str "S,LS,BF", str "L,L,BF,BF"]
    ∨ e.2 = [str "S,S,I0,BF", str "S,LS,I0,BF"]
    ∨ e.2 = [str "S", str "L"]
    ∨ (e.1 = str "Interval" ∧ e.2 = [str ""]) := by
  intro e he
  simp only [registrySignatures, List.mem_cons, List.mem_singleton, List.not_mem_nil,
    or_false] at he
  rcases he with h | h | h | h | h | h | h | h | h | h | h | h | h | h | h | h | h | h | h | h
    | h | h | h | h | h | h | h | h | h | h <;> subst h <;>
    first
    | exact Or.inl ⟨_, rfl, by decide⟩
    | exact Or.inr (Or.inl rfl)
    | exact Or.inr (Or.inr (Or.inl rfl))
    | exact Or.inr (Or.inr (Or.inr (Or.inl rfl)))
    | exact Or.inr (Or.inr (Or.inr (Or.inr (Or.inl rfl))))
    | exact Or.inr (Or.inr (Or.inr (Or.inr (Or.inr (Or.inl rfl)))))
    | exact Or.inr (Or.inr (Or.inr (Or.inr (Or.inr (Or.inr ⟨rfl, rfl⟩)))))

set_option maxRecDepth 8000 in
/-- Claim C39. For every method of the registry that is built by `polyTypeCheckedMethod`,
with any implementations, and for every list of supplied arguments that is not longer
than a signature of the method, the loop of the source gives what the dispatch on the
arguments AS SUPPLIED gives: the first signature for which every supplied argument matches
its positional code and whose remaining parameters all carry defaults is invoked, on the
supplied arguments followed by those defaults, and if there is none the error is
returned. The defaults that the loop appended for a signature that it then rejected never
make a later signature match. (`Interval`, whose type string is empty, stops the program
on one argument and invokes nothing.) -/
theorem C39_appended_defaults_never_select (name : GoString) (sigs : List GoString)
    (h : (name, sigs) ∈ registrySignatures) (fs : List (List Value → Res Value))
    (hfs : fs.length = sigs.length) (args : List Value)
    (hn : ∀ s ∈ sigs, args.length ≤ (splitOnComma s).length) :
    polyLoop (sigs.zip fs) args [] = dispatchOriginal (sigs.zip fs) args []
    ∨ (name = str "Interval" ∧ args.length = 1
      ∧ polyLoop (sigs.zip fs) args [] = .panic (str "Unknown type signature")) := by
  rcases registrySignatures_cases (name, sigs) h with
    ⟨t, ht, hcodes⟩ | ht | ht | ht | ht | ht | ⟨hname, ht⟩
  · simp only at ht
    subst ht
    left
    match fs, hfs with
    | [f], _ => exact polyLoop_single t f args [] hcodes (hn t (List.mem_singleton_self t))
  · simp only at ht
    subst ht
    left
    exact dispatch_Contains fs hfs args (hn (str "S,S,B") (by simp))
  · simp only at ht
    subst ht
    left
    exact dispatch_S_S_BF_or_S_L_BF fs hfs args (hn (str "S,S,BF") (by simp))
  · simp only at ht
    subst ht
    left
    exact dispatch_In fs hfs args (hn (str "S,LS,BF") (by simp))
  · simp only at ht
    subst ht
    left
    exact dispatch_IndexOf fs hfs args (hn (str "S,S,I0,BF") (by simp))
  · simp only at ht
    subst ht
    left
    exact dispatch_Length fs args (hn (str "S") (by simp))
  · simp only at ht hname
    subst ht
    have hlen := hn (str "") (List.mem_singleton_self _)
    match fs, hfs, args, hlen with
    | [f], _, [], _ => exact Or.inl rfl
    | [f], _, [a0], _ => exact Or.inr ⟨hname, rfl, rfl⟩

set_option maxRecDepth 8000 in
/-- Witness for claim C39: `Contains` on the one argument `"abc"`. The second signature
appends two defaults and is rejected; the third does not match. -/
theorem C39_appended_defaults_never_select_witness :
    polyLoop ([str "S,S,B", str "S,LS,BF,BF", str "L,L,BF,BF"].zip
        [ContainsSSB stubLib, ContainsSLBB stubLib, ContainsLLBB stubLib])
        [.string (str "abc")] []
      = dispatchOriginal ([str "S,S,B", str "S,LS,BF,BF", str "L,L,BF,BF"].zip
        [ContainsSSB stubLib, ContainsSLBB stubLib, ContainsLLBB stubLib])
        [.string (str "abc")] []
    ∨ (str "Contains" = str "Interval" ∧ [Value.string (str "abc")].length = 1
      ∧ polyLoop ([str "S,S,B", str "S,LS,BF,BF", str "L,L,BF,BF"].zip
          [ContainsSSB stubLib, ContainsSLBB stubLib, ContainsLLBB stubLib])
          [.string (str "abc")] [] = .panic (str "Unknown type signature")) :=
  C39_appended_defaults_never_select (str "Contains")
    [str "S,S,B", str "S,LS,BF,BF", str "L,L,BF,BF"] (by decide)
    [ContainsSSB stubLib, ContainsSLBB stubLib, ContainsLLBB stubLib] rfl
    [.string (str "abc")] (by decide)

/-! ## The shape of the operators: operands are read from the stream, the value is
computed from the operands alone -/

theorem finishOperator_ok {α : Type} (x : Res (α × List PostfixElem)) (F : α → Res Value)
    (W : GoError → GoError) (v : Value) (r : List PostfixElem)
    (h : finishOperator x F W = .ok (v, r)) : ∃ a, x = .ok (a, r) ∧ F a = .ok v := by
  cases x with
  | ok p =>
    obtain ⟨a, rest⟩ := p
    simp only [finishOperator] at h
    cases hF : F a <;> rw [hF] at h <;> simp [Res.bind] at h
    exact ⟨a, by rw [h.2], by rw [hF, h.1]⟩
  | error e => simp [finishOperator] at h
  | panic m => simp [finishOperator] at h
  | outOfFuel => simp [finishOperator] at h

theorem finishOperator_of_ok {α : Type} (a : α) (rest : List PostfixElem) (F : α → Res Value)
    (W : GoError → GoError) :
    finishOperator (.ok (a, rest)) F W = (F a).bind (fun d => .ok (d, rest)) := rfl

theorem finishOperator_outOfFuel {α : Type} (x : Res (α × List PostfixElem))
    (F : α → Res Value) (W : GoError → GoError) (hF : ∀ a, F a ≠ .outOfFuel)
    (h : finishOperator x F W = .outOfFuel) : x = .outOfFuel := by
  cases x with
  | ok p =>
    obtain ⟨a, rest⟩ := p
    simp only [finishOperator] at h
    cases hFa : F a <;> rw [hFa] at h <;> simp [Res.bind] at h
    exact absurd hFa (hF a)
  | error e => simp [finishOperator] at h
  | panic m => simp [finishOperator] at h
  | outOfFuel => rfl

theorem buildItems_ne_outOfFuel : ∀ l, buildItems l ≠ .outOfFuel
  | [] => by simp [buildItems]
  | x :: xs => by
    have ih := buildItems_ne_outOfFuel xs
    simp only [buildItems]
    split_ifs
    · cases h2 : buildItems xs <;> simp_all [Res.bind]
    · simp

theorem filterItems_ne_outOfFuel (keys : List Value) (keep : Bool) :
    ∀ l, filterItems keys keep l ≠ .outOfFuel
  | [] => by simp [filterItems]
  | x :: xs => by
    have ih := filterItems_ne_outOfFuel keys keep xs
    unfold filterItems
    split_ifs
    · cases h2 : filterItems keys keep xs <;> simp_all [Res.bind]
    · cases h2 : filterItems keys keep xs <;> simp_all [Res.bind]
    · simp

set_option linter.unusedTactic false in
set_option linter.unreachableTactic false in
set_option maxHeartbeats 1600000 in
/-- The arithmetic and relational operators use the rest of the stream only to return
it. -/
theorem ArithmeticAndRelationalOperator_rebase (env : Env) (op : Token) (eval eval1 : EvalFn)
    (pfe pfe1 rest rest1 : List PostfixElem) (a b : Value)
    (h : GetBinaryOperands eval pfe = .ok ((a, b), rest))
    (h1 : GetBinaryOperands eval1 pfe1 = .ok ((a, b), rest1)) :
    ArithmeticAndRelationalOperator env eval op pfe
      = (ArithmeticAndRelationalOperator env eval1 op pfe1).bind
          (fun r => .ok (r.1, rest)) := by
  unfold ArithmeticAndRelationalOperator
  rw [h, h1]
  dsimp only
  cases (if IsListAny [a] then buildItems (UpgradeBinaryOperandsToLists a b).2.2
        else .ok [])
  case ok items =>
    dsimp only [Res.bind]
    by_cases hb0 : op.text = str "+"
    · rw [if_pos hb0, if_pos hb0]
      split_ifs <;> first
        | rfl
        | (cases filterItems _ _ _ <;> rfl)
        | (cases a <;> cases b <;> rfl)
    rw [if_neg hb0, if_neg hb0]
    by_cases hb1 : op.text = str "-"
    · rw [if_pos hb1, if_pos hb1]
      split_ifs <;> first
        | rfl
        | (cases filterItems _ _ _ <;> rfl)
        | (cases a <;> cases b <;> rfl)
    rw [if_neg hb1, if_neg hb1]
    by_cases hb2 : op.text = str "*"
    · rw [if_pos hb2, if_pos hb2]
      split_ifs <;> first
        | rfl
        | (cases filterItems _ _ _ <;> rfl)
        | (cases a <;> cases b <;> rfl)
    rw [if_neg hb2, if_neg hb2]
    by_cases hb3 : op.text = str "/"
    · rw [if_pos hb3, if_pos hb3]
      split_ifs <;> first
        | rfl
        | (cases filterItems _ _ _ <;> rfl)
        | (cases a <;> cases b <;> rfl)
    rw [if_neg hb3, if_neg hb3]
    by_cases hb4 : op.text = str "#"
    · rw [if_pos hb4, if_pos hb4]
      split_ifs <;> first
        | rfl
        | (cases filterItems _ _ _ <;> rfl)
        | (cases a <;> cases b <;> rfl)
    rw [if_neg hb4, if_neg hb4]
    by_cases hb5 : op.text = str "^"
    · rw [if_pos hb5, if_pos hb5]
      split_ifs <;> first
        | rfl
        | (cases filterItems _ _ _ <;> rfl)
        | (cases a <;> cases b <;> rfl)
    rw [if_neg hb5, if_neg hb5]
    by_cases hb6 : op.text = str "="
    · rw [if_pos hb6, if_pos hb6]
      split_ifs <;> first
        | rfl
        | (cases filterItems _ _ _ <;> rfl)
        | (cases a <;> cases b <;> rfl)
    rw [if_neg hb6, if_neg hb6]
    by_cases hb7 : op.text = str "<>"
    · rw [if_pos hb7, if_pos hb7]
      split_ifs <;> first
        | rfl
        | (cases filterItems _ _ _ <;> rfl)
        | (cases a <;> cases b <;> rfl)
    rw [if_neg hb7, if_neg hb7]
    by_cases hb8 : op.text = str ">"
    · rw [if_pos hb8, if_pos hb8]
      split_ifs <;> first
        | rfl
        | (cases filterItems _ _ _ <;> rfl)
        | (cases a <;> cases b <;> rfl)
    rw [if_neg hb8, if_neg hb8]
    by_cases hb9 : op.text = str "<"
    · rw [if_pos hb9, if_pos hb9]
      split_ifs <;> first
        | rfl
        | (cases filterItems _ _ _ <;> rfl)
        | (cases a <;> cases b <;> rfl)
    rw [if_neg hb9, if_neg hb9]
    by_cases hb10 : op.text = str ">="
    · rw [if_pos hb10, if_pos hb10]
      split_ifs <;> first
        | rfl
        | (cases filterItems _ _ _ <;> rfl)
        | (cases a <;> cases b <;> rfl)
    rw [if_neg hb10, if_neg hb10]
    by_cases hb11 : op.text = str "<="
    · rw [if_pos hb11, if_pos hb11]
      split_ifs <;> first
        | rfl
        | (cases filterItems _ _ _ <;> rfl)
        | (cases a <;> cases b <;> rfl)
    rw [if_neg hb11, if_neg hb11]
    rfl
  all_goals rfl

set_option linter.unusedTactic false in
set_option linter.unreachableTactic false in
set_option maxHeartbeats 1600000 in
theorem ArithmeticAndRelationalOperator_ne_outOfFuel (env : Env) (op : Token) (eval : EvalFn)
    (pfe rest : List PostfixElem) (a b : Value)
    (h : GetBinaryOperands eval pfe = .ok ((a, b), rest)) :
    ArithmeticAndRelationalOperator env eval op pfe ≠ .outOfFuel := by
  unfold ArithmeticAndRelationalOperator
  rw [h]
  dsimp only
  cases hP : (if IsListAny [a] then buildItems (UpgradeBinaryOperandsToLists a b).2.2
        else .ok [])
  case outOfFuel =>
    split_ifs at hP
    exact absurd hP (buildItems_ne_outOfFuel _)
  case error e => intro hc; cases hc
  case panic m => intro hc; cases hc
  case ok items =>
    dsimp only [Res.bind]
    by_cases hb0 : op.text = str "+"
    · rw [if_pos hb0]
      split_ifs <;> first
        | (intro hc; cases hc; done)
        | (cases hf : filterItems _ _ _ <;> first
            | (intro hc; cases hc; done)
            | exact absurd hf (filterItems_ne_outOfFuel _ _ _))
        | (cases a <;> cases b <;> intro hc <;> cases hc)
    rw [if_neg hb0]
    by_cases hb1 : op.text = str "-"
    · rw [if_pos hb1]
      split_ifs <;> first
        | (intro hc; cases hc; done)
        | (cases hf : filterItems _ _ _ <;> first
            | (intro hc; cases hc; done)
            | exact absurd hf (filterItems_ne_outOfFuel _ _ _))
        | (cases a <;> cases b <;> intro hc <;> cases hc)
    rw [if_neg hb1]
    by_cases hb2 : op.text = str "*"
    · rw [if_pos hb2]
      split_ifs <;> first
        | (intro hc; cases hc; done)
        | (cases hf : filterItems _ _ _ <;> first
            | (intro hc; cases hc; done)
            | exact absurd hf (filterItems_ne_outOfFuel _ _ _))
        | (cases a <;> cases b <;> intro hc <;> cases hc)
    rw [if_neg hb2]
    by_cases hb3 : op.text = str "/"
    · rw [if_pos hb3]
      split_ifs <;> first
        | (intro hc; cases hc; done)
        | (cases hf : filterItems _ _ _ <;> first
            | (intro hc; cases hc; done)
            | exact absurd hf (filterItems_ne_outOfFuel _ _ _))
        | (cases a <;> cases b <;> intro hc <;> cases hc)
    rw [if_neg hb3]
    by_cases hb4 : op.text = str "#"
    · rw [if_pos hb4]
      split_ifs <;> first
        | (intro hc; cases hc; done)
        | (cases hf : filterItems _ _ _ <;> first
            | (intro hc; cases hc; done)
            | exact absurd hf (filterItems_ne_outOfFuel _ _ _))
        | (cases a <;> cases b <;> intro hc <;> cases hc)
    rw [if_neg hb4]
    by_cases hb5 : op.text = str "^"
    · rw [if_pos hb5]
      split_ifs <;> first
        | (intro hc; cases hc; done)
        | (cases hf : filterItems _ _ _ <;> first
            | (intro hc; cases hc; done)
            | exact absurd hf (filterItems_ne_outOfFuel _ _ _))
        | (cases a <;> cases b <;> intro hc <;> cases hc)
    rw [if_neg hb5]
    by_cases hb6 : op.text = str "="
    · rw [if_pos hb6]
      split_ifs <;> first
        | (intro hc; cases hc; done)
        | (cases hf : filterItems _ _ _ <;> first
            | (intro hc; cases hc; done)
            | exact absurd hf (filterItems_ne_outOfFuel _ _ _))
        | (cases a <;> cases b <;> intro hc <;> cases hc)
    rw [if_neg hb6]
    by_cases hb7 : op.text = str "<>"
    · rw [if_pos hb7]
      split_ifs <;> first
        | (intro hc; cases hc; done)
        | (cases hf : filterItems _ _ _ <;> first
            | (intro hc; cases hc; done)
            | exact absurd hf (filterItems_ne_outOfFuel _ _ _))
        | (cases a <;> cases b <;> intro hc <;> cases hc)
    rw [if_neg hb7]
    by_cases hb8 : op.text = str ">"
    · rw [if_pos hb8]
      split_ifs <;> first
        | (intro hc; cases hc; done)
        | (cases hf : filterItems _ _ _ <;> first
            | (intro hc; cases hc; done)
            | exact absurd hf (filterItems_ne_outOfFuel _ _ _))
        | (cases a <;> cases b <;> intro hc <;> cases hc)
    rw [if_neg hb8]
    by_cases hb9 : op.text = str "<"
    · rw [if_pos hb9]
      split_ifs <;> first
        | (intro hc; cases hc; done)
        | (cases hf : filterItems _ _ _ <;> first
            | (intro hc; cases hc; done)
            | exact absurd hf (filterItems_ne_outOfFuel _ _ _))
        | (cases a <;> cases b <;> intro hc <;> cases hc)
    rw [if_neg hb9]
    by_cases hb10 : op.text = str ">="
    · rw [if_pos hb10]
      split_ifs <;> first
        | (intro hc; cases hc; done)
        | (cases hf : filterItems _ _ _ <;> first
            | (intro hc; cases hc; done)
            | exact absurd hf (filterItems_ne_outOfFuel _ _ _))
        | (cases a <;> cases b <;> intro hc <;> cases hc)
    rw [if_neg hb10]
    by_cases hb11 : op.text = str "<="
    · rw [if_pos hb11]
      split_ifs <;> first
        | (intro hc; cases hc; done)
        | (cases hf : filterItems _ _ _ <;> first
            | (intro hc; cases hc; done)
            | exact absurd hf (filterItems_ne_outOfFuel _ _ _))
        | (cases a <;> cases b <;> intro hc <;> cases hc)
    rw [if_neg hb11]
    intro hc
    cases hc

/-! ## No conversion and no operator body runs out of fuel -/

theorem Res.bind_ne_outOfFuel {α β : Type} (x : Res α) (g : α → Res β)
    (hx : x ≠ .outOfFuel) (hg : ∀ a, g a ≠ .outOfFuel) : x.bind g ≠ .outOfFuel := by
  cases x with
  | ok a => exact hg a
  | error e => intro h; cases h
  | panic m => intro h; cases h
  | outOfFuel => exact absurd rfl hx

theorem Res.ok_ne_outOfFuel {α : Type} (a : α) : (Res.ok a : Res α) ≠ .outOfFuel := by
  intro h; cases h

theorem errorf_ne_outOfFuel {α : Type} (fmt : String) (args : List FmtArg) :
    (errorf fmt args : Res α) ≠ .outOfFuel := by
  intro h; cases h

theorem boundsPanic_ne_outOfFuel {α : Type} : (boundsPanic : Res α) ≠ .outOfFuel := by
  intro h; cases h

theorem ToBool_ne_outOfFuel (v : Value) : ToBool v ≠ .outOfFuel := by
  cases v <;> simp only [ToBool] <;> first
    | (intro h; cases h)
    | (split_ifs <;> intro h <;> cases h)

theorem ToInt_ne_outOfFuel (v : Value) : ToInt v ≠ .outOfFuel := by
  cases v <;> simp only [ToInt] <;> first
    | (intro h; cases h)
    | (split <;> intro h <;> cases h)

theorem ToDouble_ne_outOfFuel (lib : GoLib) (v : Value) : ToDouble lib v ≠ .outOfFuel := by
  cases v <;> simp only [ToDouble] <;> first
    | (intro h; cases h)
    | (split <;> intro h <;> cases h)

theorem ToChar_ne_outOfFuel (v : Value) : ToChar v ≠ .outOfFuel := by
  cases v <;> simp only [ToChar] <;> first
    | (intro h; cases h)
    | (split <;> intro h <;> cases h)

theorem ToDateTime_ne_outOfFuel (lib : GoLib) (v : Value) : ToDateTime lib v ≠ .outOfFuel := by
  cases v <;> simp only [ToDateTime] <;> first
    | (intro h; cases h)
    | (split <;> intro h <;> cases h)

theorem ToString_ne_outOfFuel (lib : GoLib) : ∀ v : Value, ToString lib v ≠ .outOfFuel
  | .bool _ => by simp [ToString]
  | .dateTime _ => by simp [ToString]
  | .int _ => by simp [ToString]
  | .double _ => by simp [ToString]
  | .char _ => by simp [ToString]
  | .string _ => by simp [ToString]
  | .intRange _ _ => by simp [ToString]
  | .list _ _ => by simp [ToString]
  | .commaList _ => by simp [ToString, errorf]
  | .conditionalValues _ t f => by
    have h1 := ToString_ne_outOfFuel lib t
    have h2 := ToString_ne_outOfFuel lib f
    simp only [ToString]
    cases ht : ToString lib t <;> cases hf : ToString lib f <;> simp_all

theorem convertDataType_ne_outOfFuel (conv : Value → Res Value)
    (hc : ∀ v, conv v ≠ .outOfFuel) : ∀ l, convertDataType conv l ≠ .outOfFuel
  | [] => by simp [convertDataType]
  | x :: xs => by
    have ih := convertDataType_ne_outOfFuel conv hc xs
    have hx := hc x
    simp only [convertDataType]
    cases h1 : conv x <;> cases h2 : convertDataType conv xs <;> simp_all

theorem convertAll_ne_outOfFuel (lib : GoLib) (d : GoString) (l : List Value) :
    convertAll lib d l ≠ .outOfFuel := by
  unfold convertAll
  split_ifs
  · exact Res.bind_ne_outOfFuel _ _ (convertDataType_ne_outOfFuel _
      (fun v => Res.bind_ne_outOfFuel _ _ (ToString_ne_outOfFuel lib v)
        (fun _ => Res.ok_ne_outOfFuel _)) l) (fun _ => Res.ok_ne_outOfFuel _)
  · exact Res.bind_ne_outOfFuel _ _ (convertDataType_ne_outOfFuel _
      (fun v => Res.bind_ne_outOfFuel _ _ (ToBool_ne_outOfFuel v)
        (fun _ => Res.ok_ne_outOfFuel _)) l) (fun _ => Res.ok_ne_outOfFuel _)
  · exact Res.bind_ne_outOfFuel _ _ (convertDataType_ne_outOfFuel _
      (fun v => Res.bind_ne_outOfFuel _ _ (ToDouble_ne_outOfFuel lib v)
        (fun _ => Res.ok_ne_outOfFuel _)) l) (fun _ => Res.ok_ne_outOfFuel _)
  · exact Res.bind_ne_outOfFuel _ _ (convertDataType_ne_outOfFuel _
      (fun v => Res.bind_ne_outOfFuel _ _ (ToChar_ne_outOfFuel v)
        (fun _ => Res.ok_ne_outOfFuel _)) l) (fun _ => Res.ok_ne_outOfFuel _)
  · exact Res.bind_ne_outOfFuel _ _ (convertDataType_ne_outOfFuel _
      (fun v => Res.bind_ne_outOfFuel _ _ (ToInt_ne_outOfFuel v)
        (fun _ => Res.ok_ne_outOfFuel _)) l) (fun _ => Res.ok_ne_outOfFuel _)
  · intro h; cases h

theorem normalizeIndex_ne_outOfFuel (idx : Int) (n : Nat) :
    normalizeIndex idx n ≠ .outOfFuel := by
  unfold normalizeIndex
  split_ifs <;> first | (intro h; cases h) | (simp only []; split_ifs <;> intro h <;> cases h)

theorem sliceRange_ne_outOfFuel {α : Type} (l : List α) (f t : Nat) :
    sliceRange l f t ≠ .outOfFuel := by
  unfold sliceRange
  split_ifs <;> intro h <;> cases h

theorem CastDataType_ne_outOfFuel (t : Token) : t.CastDataType ≠ .outOfFuel := by
  unfold Token.CastDataType
  split
  · intro h; cases h
  · intro h; cases h
  · simp only []
    split_ifs <;> intro h <;> cases h

theorem checkArgs_ne_outOfFuel : ∀ (types : List GoString) (args : List Value),
    checkArgs types args ≠ .outOfFuel
  | _, [] => by cases ‹List GoString› <;> simp [checkArgs]
  | [], _ :: _ => by simp [checkArgs, boundsPanic]
  | t :: types, arg :: args => by
    have ih := checkArgs_ne_outOfFuel types args
    simp only [checkArgs]
    split
    · intro h; cases h
    · intro h; cases h
    · exact ih

theorem polyLoop_ne_outOfFuel : ∀ (sigs : List (GoString × (List Value → Res Value)))
    (args : List Value) (u : GoString),
    (∀ sf ∈ sigs, ∀ a, sf.2 a ≠ .outOfFuel) → polyLoop sigs args u ≠ .outOfFuel
  | [], _, _, _ => by simp [polyLoop]
  | (ts, f) :: tf, args, u, h => by
    have hf := h (ts, f) (List.mem_cons_self _ _)
    have ih := fun a u1 => polyLoop_ne_outOfFuel tf a u1
      (fun sf hs => h sf (List.mem_cons_of_mem _ hs))
    have hc := checkArgs_ne_outOfFuel (splitOnComma ts) args
    simp only [polyLoop]
    split
    · split_ifs
      · exact ih _ _
      · exact hf _
    · exact ih _ _
    · intro h; cases h
    · intro h; cases h
    · next hx => exact absurd hx hc

/-! ## Every operator reads its operands and computes from them alone -/

theorem GetBinaryOperands_values (env : Env) (a b : Value) :
    GetBinaryOperands (evaluatePostfix env 1) [.value b, .value a] = .ok ((a, b), []) := rfl

/-- An operator with two operands that uses the rest of the stream only to return it. -/
theorem form_of_rebase_binary (env : Env) (Op : EvalFn → EvalFn) (W : GoError → GoError)
    (hreb : ∀ eval eval1 pfe pfe1 rest rest1 a b,
      GetBinaryOperands eval pfe = .ok ((a, b), rest) →
      GetBinaryOperands eval1 pfe1 = .ok ((a, b), rest1) →
      Op eval pfe = (Op eval1 pfe1).bind (fun r => .ok (r.1, rest)))
    (hne : ∀ eval pfe rest a b, GetBinaryOperands eval pfe = .ok ((a, b), rest) →
      Op eval pfe ≠ .outOfFuel)
    (herr : ∀ eval pfe e, GetBinaryOperands eval pfe = .error e → Op eval pfe = .error (W e))
    (hpan : ∀ eval pfe m, GetBinaryOperands eval pfe = .panic m → Op eval pfe = .panic m)
    (hfuel : ∀ eval pfe, GetBinaryOperands eval pfe = .outOfFuel → Op eval pfe = .outOfFuel) :
    ∃ F : Value × Value → Res Value, (∀ ab, F ab ≠ .outOfFuel)
      ∧ (∀ a b, F (a, b)
          = (Op (evaluatePostfix env 1) [.value b, .value a]).bind (fun r => .ok r.1))
      ∧ ∀ eval pfe, Op eval pfe = finishOperator (GetBinaryOperands eval pfe) F W := by
  refine ⟨fun ab => (Op (evaluatePostfix env 1) [.value ab.2, .value ab.1]).bind
    (fun r => .ok r.1), ?_, fun _ _ => rfl, ?_⟩
  · rintro ⟨a, b⟩
    exact Res.bind_ne_outOfFuel _ _ (hne _ _ [] a b (GetBinaryOperands_values env a b))
      (fun _ => Res.ok_ne_outOfFuel _)
  · intro eval pfe
    cases h : GetBinaryOperands eval pfe with
    | error e => exact herr eval pfe e h
    | panic m => exact hpan eval pfe m h
    | outOfFuel => exact hfuel eval pfe h
    | ok p =>
      obtain ⟨⟨a, b⟩, rest⟩ := p
      rw [hreb eval (evaluatePostfix env 1) pfe [.value b, .value a] rest [] a b h
        (GetBinaryOperands_values env a b)]
      simp only [finishOperator]
      cases Op (evaluatePostfix env 1) [.value b, .value a] <;> rfl

/-- An operator with one operand that uses the rest of the stream only to return it. -/
theorem form_of_rebase_unary (env : Env) (Op : EvalFn → EvalFn) (W : GoError → GoError)
    (hreb : ∀ (eval eval1 : EvalFn) pfe pfe1 rest rest1 a,
      eval pfe = .ok (a, rest) → eval1 pfe1 = .ok (a, rest1) →
      Op eval pfe = (Op eval1 pfe1).bind (fun r => .ok (r.1, rest)))
    (hne : ∀ (eval : EvalFn) pfe rest a, eval pfe = .ok (a, rest) → Op eval pfe ≠ .outOfFuel)
    (herr : ∀ (eval : EvalFn) pfe e, eval pfe = .error e → Op eval pfe = .error (W e))
    (hpan : ∀ (eval : EvalFn) pfe m, eval pfe = .panic m → Op eval pfe = .panic m)
    (hfuel : ∀ (eval : EvalFn) pfe, eval pfe = .outOfFuel → Op eval pfe = .outOfFuel) :
    ∃ F : Value → Res Value, (∀ a, F a ≠ .outOfFuel)
      ∧ ∀ (eval : EvalFn) pfe, Op eval pfe = finishOperator (eval pfe) F W := by
  refine ⟨fun a => (Op (evaluatePostfix env 1) [.value a]).bind (fun r => .ok r.1), ?_, ?_⟩
  · intro a
    exact Res.bind_ne_outOfFuel _ _ (hne (evaluatePostfix env 1) [.value a] [] a rfl)
      (fun _ => Res.ok_ne_outOfFuel _)
  · intro eval pfe
    cases h : eval pfe with
    | error e => rw [← h]; rw [herr eval pfe e h, h]; rfl
    | panic m => rw [← h]; rw [hpan eval pfe m h, h]; rfl
    | outOfFuel => rw [← h]; rw [hfuel eval pfe h, h]; rfl
    | ok p =>
      obtain ⟨a, rest⟩ := p
      rw [hreb eval (evaluatePostfix env 1) pfe [.value a] rest [] a h rfl]
      simp only [finishOperator]
      cases Op (evaluatePostfix env 1) [.value a] <;> rfl

theorem CommaOperator_form (env : Env) :
    ∃ F : Value × Value → Res Value, (∀ ab, F ab ≠ .outOfFuel)
      ∧ (∀ a b, F (a, b)
          = (CommaOperator (evaluatePostfix env 1) [.value b, .value a]).bind
              (fun r => .ok r.1))
      ∧ ∀ eval pfe, CommaOperator eval pfe = finishOperator (GetBinaryOperands eval pfe) F id := by
  apply form_of_rebase_binary env CommaOperator id
  · intro eval eval1 pfe pfe1 rest rest1 a b h h1
    simp only [CommaOperator, h, h1, Res.bind]
  · intro eval pfe rest a b h
    simp only [CommaOperator, h, Res.bind]
    intro hc; cases hc
  · intro eval pfe e h
    simp only [CommaOperator, h, Res.bind, id]
  · intro eval pfe m h
    simp only [CommaOperator, h, Res.bind]
  · intro eval pfe h
    simp only [CommaOperator, h, Res.bind]

theorem ColonOperator_form (env : Env) :
    ∃ F : Value × Value → Res Value, (∀ ab, F ab ≠ .outOfFuel)
      ∧ (∀ a b, F (a, b)
          = (ColonOperator (evaluatePostfix env 1) [.value b, .value a]).bind
              (fun r => .ok r.1))
      ∧ ∀ eval pfe, ColonOperator eval pfe = finishOperator (GetBinaryOperands eval pfe) F id := by
  apply form_of_rebase_binary env ColonOperator id
  · intro eval eval1 pfe pfe1 rest rest1 a b h h1
    simp only [ColonOperator, h, h1, Res.bind]
    cases a <;> cases b <;> first
      | rfl
      | (simp only []; split <;> rfl)
  · intro eval pfe rest a b h
    simp only [ColonOperator, h, Res.bind]
    cases a <;> cases b <;> first
      | (intro hc; cases hc)
      | (simp only []; split <;> intro hc <;> cases hc)
  · intro eval pfe e h
    simp only [ColonOperator, h, Res.bind, id]
  · intro eval pfe m h
    simp only [ColonOperator, h, Res.bind]
  · intro eval pfe h
    simp only [ColonOperator, h, Res.bind]

theorem IndexifyOperator_form (env : Env) :
    ∃ F : Value × Value → Res Value, (∀ ab, F ab ≠ .outOfFuel)
      ∧ (∀ a b, F (a, b)
          = (IndexifyOperator (evaluatePostfix env 1) [.value b, .value a]).bind
              (fun r => .ok r.1))
      ∧ ∀ eval pfe,
        IndexifyOperator eval pfe = finishOperator (GetBinaryOperands eval pfe) F id := by
  apply form_of_rebase_binary env IndexifyOperator id
  · intro eval eval1 pfe pfe1 rest rest1 a b h h1
    simp only [IndexifyOperator, h, h1, Res.bind]
    cases a <;> cases b <;> first
      | rfl
      | (simp only []
         cases normalizeIndex _ _ <;> first
           | rfl
           | (simp only []; split <;> rfl)
           | (simp only []
              cases normalizeIndex _ _ <;> first
                | rfl
                | (simp only []; cases sliceRange _ _ _ <;> rfl)))
  · intro eval pfe rest a b h
    simp only [IndexifyOperator, h, Res.bind]
    cases a <;> cases b <;> first
      | (intro hc; cases hc)
      | (simp only []
         cases h1 : normalizeIndex _ _ <;> first
           | exact absurd h1 (normalizeIndex_ne_outOfFuel _ _)
           | (intro hc; cases hc)
           | (simp only []; split <;> intro hc <;> cases hc)
           | (simp only []
              cases h2 : normalizeIndex _ _ <;> first
                | exact absurd h2 (normalizeIndex_ne_outOfFuel _ _)
                | (intro hc; cases hc)
                | (simp only []
                   cases h3 : sliceRange _ _ _ <;> first
                     | exact absurd h3 (sliceRange_ne_outOfFuel _ _ _)
                     | (intro hc; cases hc))))
  · intro eval pfe e h
    simp only [IndexifyOperator, h, Res.bind, id]
  · intro eval pfe m h
    simp only [IndexifyOperator, h, Res.bind]
  · intro eval pfe h
    simp only [IndexifyOperator, h, Res.bind]

theorem ArithmeticAndRelationalOperator_form (env : Env) (op : Token) :
    ∃ F : Value × Value → Res Value, (∀ ab, F ab ≠ .outOfFuel)
      ∧ (∀ a b, F (a, b)
          = (ArithmeticAndRelationalOperator env (evaluatePostfix env 1) op
              [.value b, .value a]).bind (fun r => .ok r.1))
      ∧ ∀ eval pfe, ArithmeticAndRelationalOperator env eval op pfe
        = finishOperator (GetBinaryOperands eval pfe) F
            (fun _ => ⟨str "Could not get operands for %v", [.token (some op)]⟩) := by
  apply form_of_rebase_binary env (fun eval => ArithmeticAndRelationalOperator env eval op)
  · intro eval eval1 pfe pfe1 rest rest1 a b h h1
    exact ArithmeticAndRelationalOperator_rebase env op eval eval1 pfe pfe1 rest rest1 a b h h1
  · intro eval pfe rest a b h
    exact ArithmeticAndRelationalOperator_ne_outOfFuel env op eval pfe rest a b h
  · intro eval pfe e h
    simp only [ArithmeticAndRelationalOperator, h]
    rfl
  · intro eval pfe m h
    simp only [ArithmeticAndRelationalOperator, h]
  · intro eval pfe h
    simp only [ArithmeticAndRelationalOperator, h]

theorem LogicalOperator_binary_form (env : Env) (op : Token) (c : Byte) (cs : GoString)
    (hop : op.text = c :: cs) (hc : c ≠ 33) :
    ∃ F : Value × Value → Res Value, (∀ ab, F ab ≠ .outOfFuel)
      ∧ (∀ a b, F (a, b)
          = (LogicalOperator (evaluatePostfix env 1) op [.value b, .value a]).bind
              (fun r => .ok r.1))
      ∧ ∀ eval pfe, LogicalOperator eval op pfe
        = finishOperator (GetBinaryOperands eval pfe) F
            (fun _ => ⟨str "Could not get operands for %v", [.token (some op)]⟩) := by
  apply form_of_rebase_binary env (fun eval => LogicalOperator eval op)
  · intro eval eval1 pfe pfe1 rest rest1 a b h h1
    simp only [LogicalOperator, hop, hc, if_false, h, h1]
    cases a <;> cases b <;> first
      | rfl
      | (simp only []; split_ifs <;> rfl)
  · intro eval pfe rest a b h
    simp only [LogicalOperator, hop, hc, if_false, h]
    cases a <;> cases b <;> first
      | (intro hx; cases hx)
      | (simp only []; split_ifs <;> intro hx <;> cases hx)
  · intro eval pfe e h
    simp only [LogicalOperator, hop, hc, if_false, h]
    rfl
  · intro eval pfe m h
    simp only [LogicalOperator, hop, hc, if_false, h]
  · intro eval pfe h
    simp only [LogicalOperator, hop, hc, if_false, h]

theorem LogicalOperator_unary_form (env : Env) (op : Token) (cs : GoString)
    (hop : op.text = 33 :: cs) :
    ∃ F : Value → Res Value, (∀ a, F a ≠ .outOfFuel)
      ∧ ∀ (eval : EvalFn) pfe, LogicalOperator eval op pfe
        = finishOperator (eval pfe) F
            (fun _ => ⟨str "Could not get operands for %v", [.token (some op)]⟩) := by
  apply form_of_rebase_unary env (fun eval => LogicalOperator eval op)
  · intro eval eval1 pfe pfe1 rest rest1 a h h1
    simp only [LogicalOperator, hop, if_true, GetUnaryOperand, h, h1]
    cases a <;> rfl
  · intro eval pfe rest a h
    simp only [LogicalOperator, hop, if_true, GetUnaryOperand, h]
    cases a <;> intro hx <;> cases hx
  · intro eval pfe e h
    simp only [LogicalOperator, hop, if_true, GetUnaryOperand, h]
    rfl
  · intro eval pfe m h
    simp only [LogicalOperator, hop, if_true, GetUnaryOperand, h]
  · intro eval pfe h
    simp only [LogicalOperator, hop, if_true, GetUnaryOperand, h]

theorem QuestionOperator_form (env : Env) :
    ∃ F : Value → Res Value, (∀ a, F a ≠ .outOfFuel)
      ∧ ∀ (eval : EvalFn) pfe, QuestionOperator eval pfe = finishOperator (eval pfe) F id := by
  apply form_of_rebase_unary env QuestionOperator id
  · intro eval eval1 pfe pfe1 rest rest1 a h h1
    simp only [QuestionOperator, GetUnaryOperand, h, h1, Res.bind]
    cases a <;> first | rfl | (simp only []; split_ifs <;> rfl)
  · intro eval pfe rest a h
    simp only [QuestionOperator, GetUnaryOperand, h, Res.bind]
    cases a <;> first
      | (intro hx; cases hx)
      | (simp only []; split_ifs <;> intro hx <;> cases hx)
  · intro eval pfe e h
    simp only [QuestionOperator, GetUnaryOperand, h, Res.bind, id]
  · intro eval pfe m h
    simp only [QuestionOperator, GetUnaryOperand, h, Res.bind]
  · intro eval pfe h
    simp only [QuestionOperator, GetUnaryOperand, h, Res.bind]

theorem ListifyOperator_form (env : Env) :
    ∃ F : Value → Res Value, (∀ a, F a ≠ .outOfFuel)
      ∧ ∀ (eval : EvalFn) pfe,
        ListifyOperator env eval pfe = finishOperator (eval pfe) F id := by
  apply form_of_rebase_unary env (ListifyOperator env) id
  · intro eval eval1 pfe pfe1 rest rest1 a h h1
    simp only [ListifyOperator, GetUnaryOperand, h, h1, Res.bind]
    split
    · rfl
    · cases convertAll _ _ _ <;> rfl
  · intro eval pfe rest a h
    simp only [ListifyOperator, GetUnaryOperand, h, Res.bind]
    split
    · intro hx; cases hx
    · cases hx : convertAll _ _ _ <;> first
        | exact absurd hx (convertAll_ne_outOfFuel _ _ _)
        | (intro hy; cases hy)
  · intro eval pfe e h
    simp only [ListifyOperator, GetUnaryOperand, h, Res.bind, id]
  · intro eval pfe m h
    simp only [ListifyOperator, GetUnaryOperand, h, Res.bind]
  · intro eval pfe h
    simp only [ListifyOperator, GetUnaryOperand, h, Res.bind]

theorem polyTypeCheckedMethod_form (sigs : List (GoString × (List Value → Res Value))) :
    ∃ F : Value → Res Value,
      ((∀ sf ∈ sigs, ∀ a, sf.2 a ≠ .outOfFuel) → ∀ a, F a ≠ .outOfFuel)
      ∧ ∀ (eval : EvalFn) pfe, (polyTypeCheckedMethod sigs).ExecuteMethod eval pfe
        = finishOperator (eval pfe) F id := by
  refine ⟨fun v => polyLoop sigs (match v with | .commaList c => Flatten c | v => [v]) [],
    fun h a => polyLoop_ne_outOfFuel sigs _ _ h, ?_⟩
  intro eval pfe
  simp only [polyTypeCheckedMethod, GetUnaryOperand]
  cases eval pfe <;> rfl

theorem ToStringMethod_form (lib : GoLib) :
    ∃ F : Value → Res Value, (∀ a, F a ≠ .outOfFuel)
      ∧ ∀ (eval : EvalFn) pfe, (ToStringMethod lib).ExecuteMethod eval pfe
        = finishOperator (eval pfe) F id := by
  refine ⟨fun v => match v with
      | .commaList _ => errorf "Could not convert %v to string" [.str v.DataType]
      | funcArg => (ToString lib funcArg).bind (fun x => .ok (.string x)), ?_, ?_⟩
  · intro a
    cases a <;> first
      | (intro hx; cases hx)
      | exact Res.bind_ne_outOfFuel _ _ (ToString_ne_outOfFuel _ _)
          (fun _ => Res.ok_ne_outOfFuel _)
  · intro eval pfe
    simp only [ToStringMethod, GetUnaryOperand]
    cases eval pfe with
    | ok p =>
      obtain ⟨v, rest⟩ := p
      simp only [Res.bind, finishOperator]
      cases v <;> first | rfl | (simp only []; cases ToString lib _ <;> rfl)
    | error e => rfl
    | panic m => rfl
    | outOfFuel => rfl

theorem Res.bind_bind {α β γ : Type} (x : Res α) (f : α → Res β) (g : β → Res γ) :
    (x.bind f).bind g = x.bind (fun a => (f a).bind g) := by
  cases x <;> rfl

set_option maxHeartbeats 1600000 in
theorem TypeCastOperator_form (env : Env) (t : Token) :
    ∃ F : Value → Res Value, (∀ a, F a ≠ .outOfFuel)
      ∧ ∀ (eval : EvalFn) pfe, TypeCastOperator env eval t pfe
        = finishOperator (eval pfe) F
            (fun e => ⟨str "Failed to type cast: %v", [e.toArg]⟩) := by
  refine ⟨fun valToCast => t.CastDataType.bind (fun dt =>
      match valToCast with
      | .list _ l => convertAll env.lib dt l
      | _ =>
        if dt = str "String" then
          (ToString env.lib valToCast).bind (fun c => .ok (.string c))
        else if dt = str "Bool" then (ToBool valToCast).bind (fun c => .ok (.bool c))
        else if dt = str "Double" then
          (ToDouble env.lib valToCast).bind (fun c => .ok (.double c))
        else if dt = str "Char" then (ToChar valToCast).bind (fun c => .ok (.char c))
        else if dt = str "Int32" then (ToInt valToCast).bind (fun c => .ok (.int c))
        else if dt = str "DateTime" then
          (ToDateTime env.lib valToCast).bind (fun c => .ok (.dateTime c))
        else .panic (str "Can't convert to " ++ dt)), ?_, ?_⟩
  · intro a
    apply Res.bind_ne_outOfFuel _ _ (CastDataType_ne_outOfFuel t)
    intro dt
    cases a with
    | list n l => exact convertAll_ne_outOfFuel _ _ _
    | _ =>
      simp only []
      split_ifs
      · exact Res.bind_ne_outOfFuel _ _ (ToString_ne_outOfFuel _ _)
          (fun _ => Res.ok_ne_outOfFuel _)
      · exact Res.bind_ne_outOfFuel _ _ (ToBool_ne_outOfFuel _)
          (fun _ => Res.ok_ne_outOfFuel _)
      · exact Res.bind_ne_outOfFuel _ _ (ToDouble_ne_outOfFuel _ _)
          (fun _ => Res.ok_ne_outOfFuel _)
      · exact Res.bind_ne_outOfFuel _ _ (ToChar_ne_outOfFuel _)
          (fun _ => Res.ok_ne_outOfFuel _)
      · exact Res.bind_ne_outOfFuel _ _ (ToInt_ne_outOfFuel _)
          (fun _ => Res.ok_ne_outOfFuel _)
      · exact Res.bind_ne_outOfFuel _ _ (ToDateTime_ne_outOfFuel _ _)
          (fun _ => Res.ok_ne_outOfFuel _)
      · intro hx; cases hx
  · intro eval pfe
    unfold TypeCastOperator
    cases eval pfe with
    | error e => rfl
    | panic m => rfl
    | outOfFuel => rfl
    | ok p =>
      obtain ⟨v, rest⟩ := p
      simp only [finishOperator]
      rw [Res.bind_bind]
      congr 1
      funext dt
      cases v with
      | list n l => rfl
      | _ =>
        simp only []
        split_ifs <;> first | rfl | (rw [Res.bind_bind]; rfl)

/-! ## The three shapes of one step of `evaluatePostfix` -/

theorem evaluatePostfix_token (env : Env) (f : Nat) (t : Token) (pfe : List PostfixElem) :
    evaluatePostfix env (f + 1) (.token t :: pfe)
      = match t.tokenType with
        | .symbol => SymbolOperator env t pfe
        | .comma => CommaOperator (evaluatePostfix env f) pfe
        | .colon => ColonOperator (evaluatePostfix env f) pfe
        | .question => QuestionOperator (evaluatePostfix env f) pfe
        | .arithmeticOperator => ArithmeticAndRelationalOperator env (evaluatePostfix env f) t pfe
        | .relationalOperator => ArithmeticAndRelationalOperator env (evaluatePostfix env f) t pfe
        | .logicalOperator => LogicalOperator (evaluatePostfix env f) t pfe
        | .intrinsicMethod => IntrinsicMethodOperator env (evaluatePostfix env f) t pfe
        | .typeCast => TypeCastOperator env (evaluatePostfix env f) t pfe
        | _ => errorf "Failed to evaluate postfix expression" [] := rfl

/-- One step of the evaluator on a non-empty stream: the element read either needs no
operand, or one operand, or two; the operands are read by the evaluator with one unit of
fuel less, and the rest of the stream is only handed back. -/
theorem evaluatePostfix_step_cases (env : Env)
    (P : List (GoString × (List Value → Res Value)) → Prop)
    (hm : ∀ name im, env.intrinsicMethods.lookup name = some im →
      (∃ sigs, im = polyTypeCheckedMethod sigs ∧ P sigs) ∨ im = ToStringMethod env.lib)
    (el : PostfixElem) :
    (∃ c : Res Value, c ≠ .outOfFuel ∧ ∀ f pfe,
        evaluatePostfix env (f + 1) (el :: pfe) = c.bind (fun v => .ok (v, pfe)))
    ∨ (∃ (F : Value → Res Value) (W : GoError → GoError),
        ((∀ sigs, P sigs → ∀ sf ∈ sigs, ∀ a, sf.2 a ≠ .outOfFuel) → ∀ a, F a ≠ .outOfFuel)
        ∧ ∀ f pfe, evaluatePostfix env (f + 1) (el :: pfe)
            = finishOperator (evaluatePostfix env f pfe) F W)
    ∨ (∃ (F : Value × Value → Res Value) (W : GoError → GoError),
        (∀ ab, F ab ≠ .outOfFuel)
        ∧ ∀ f pfe, evaluatePostfix env (f + 1) (el :: pfe)
            = finishOperator (GetBinaryOperands (evaluatePostfix env f) pfe) F W) := by
  have hfail : ∀ t : Token,
      (∀ f pfe, evaluatePostfix env (f + 1) (.token t :: pfe)
        = errorf "Failed to evaluate postfix expression" []) →
      ∃ c : Res Value, c ≠ .outOfFuel ∧ ∀ f pfe,
        evaluatePostfix env (f + 1) (.token t :: pfe) = c.bind (fun v => .ok (v, pfe)) :=
    fun t h => ⟨errorf "Failed to evaluate postfix expression" [], errorf_ne_outOfFuel _ _,
      fun f pfe => by rw [h]; rfl⟩
  cases el with
  | value v => exact Or.inl ⟨.ok v, Res.ok_ne_outOfFuel _, fun _ _ => rfl⟩
  | Indexify =>
    obtain ⟨F, hF, _, h⟩ := IndexifyOperator_form env
    exact Or.inr (Or.inr ⟨F, id, hF, fun f pfe => h _ pfe⟩)
  | Listify =>
    obtain ⟨F, hF, h⟩ := ListifyOperator_form env
    exact Or.inr (Or.inl ⟨F, id, fun _ => hF, fun f pfe => h _ pfe⟩)
  | token t =>
    cases ht : t.tokenType with
    | symbol =>
      refine Or.inl ⟨match env.SymbolTable.lookup t.text with
        | none => errorf "Could not find symbol %s (name does not exist)" [.str t.text]
        | some .other => errorf "Could not find symbol %s (value unexpected)" [.str t.text]
        | some (.value v) => .ok v, ?_, ?_⟩
      · split <;> intro hx <;> cases hx
      · intro f pfe
        rw [evaluatePostfix_token, ht]
        simp only [SymbolOperator]
        cases env.SymbolTable.lookup t.text with
        | none => rfl
        | some s => cases s <;> rfl
    | comma =>
      obtain ⟨F, hF, _, h⟩ := CommaOperator_form env
      exact Or.inr (Or.inr ⟨F, id, hF, fun f pfe => by rw [evaluatePostfix_token, ht]; exact h _ pfe⟩)
    | colon =>
      obtain ⟨F, hF, _, h⟩ := ColonOperator_form env
      exact Or.inr (Or.inr ⟨F, id, hF, fun f pfe => by rw [evaluatePostfix_token, ht]; exact h _ pfe⟩)
    | question =>
      obtain ⟨F, hF, h⟩ := QuestionOperator_form env
      exact Or.inr (Or.inl ⟨F, id, fun _ => hF,
        fun f pfe => by rw [evaluatePostfix_token, ht]; exact h _ pfe⟩)
    | arithmeticOperator =>
      obtain ⟨F, hF, _, h⟩ := ArithmeticAndRelationalOperator_form env t
      exact Or.inr (Or.inr ⟨F, _, hF, fun f pfe => by rw [evaluatePostfix_token, ht]; exact h _ pfe⟩)
    | relationalOperator =>
      obtain ⟨F, hF, _, h⟩ := ArithmeticAndRelationalOperator_form env t
      exact Or.inr (Or.inr ⟨F, _, hF, fun f pfe => by rw [evaluatePostfix_token, ht]; exact h _ pfe⟩)
    | logicalOperator =>
      cases htext : t.text with
      | nil =>
        refine Or.inl ⟨boundsPanic, boundsPanic_ne_outOfFuel, fun f pfe => ?_⟩
        rw [evaluatePostfix_token, ht]
        simp only [LogicalOperator, htext]
        rfl
      | cons c cs =>
        by_cases hc : c = 33
        · subst hc
          obtain ⟨F, hF, h⟩ := LogicalOperator_unary_form env t cs htext
          exact Or.inr (Or.inl ⟨F, _, fun _ => hF,
            fun f pfe => by rw [evaluatePostfix_token, ht]; exact h _ pfe⟩)
        · obtain ⟨F, hF, _, h⟩ := LogicalOperator_binary_form env t c cs htext hc
          exact Or.inr (Or.inr ⟨F, _, hF,
            fun f pfe => by rw [evaluatePostfix_token, ht]; exact h _ pfe⟩)
    | intrinsicMethod =>
      cases hl : env.intrinsicMethods.lookup t.text with
      | none =>
        refine Or.inl ⟨errorf "Method %s does not exist" [.str t.text],
          errorf_ne_outOfFuel _ _, fun f pfe => ?_⟩
        rw [evaluatePostfix_token, ht]
        simp only [IntrinsicMethodOperator, GetIntrinsicMethod, hl]
        rfl
      | some im =>
        have hstep : ∀ f pfe, evaluatePostfix env (f + 1) (.token t :: pfe)
            = im.ExecuteMethod (evaluatePostfix env f) pfe := by
          intro f pfe
          rw [evaluatePostfix_token, ht]
          simp only [IntrinsicMethodOperator, GetIntrinsicMethod, hl]
          rfl
        rcases hm _ _ hl with ⟨sigs, rfl, hP⟩ | rfl
        · obtain ⟨F, hF, h⟩ := polyTypeCheckedMethod_form sigs
          exact Or.inr (Or.inl ⟨F, id, fun hall => hF (hall sigs hP),
            fun f pfe => by rw [hstep]; exact h _ pfe⟩)
        · obtain ⟨F, hF, h⟩ := ToStringMethod_form env.lib
          exact Or.inr (Or.inl ⟨F, id, fun _ => hF, fun f pfe => by rw [hstep]; exact h _ pfe⟩)
    | typeCast =>
      obtain ⟨F, hF, h⟩ := TypeCastOperator_form env t
      exact Or.inr (Or.inl ⟨F, _, fun _ => hF,
        fun f pfe => by rw [evaluatePostfix_token, ht]; exact h _ pfe⟩)
    | _ => exact Or.inl (hfail t (fun f pfe => by rw [evaluatePostfix_token, ht]))

/-! ## The stream is read from its end only -/

theorem GetBinaryOperands_ok_inv (eval : EvalFn) (pfe : List PostfixElem) (a b : Value)
    (rest : List PostfixElem) (h : GetBinaryOperands eval pfe = .ok ((a, b), rest)) :
    ∃ r1, eval pfe = .ok (b, r1) ∧ eval r1 = .ok (a, rest) := by
  unfold GetBinaryOperands at h
  cases h2 : eval pfe with
  | ok p2 =>
    obtain ⟨b2, r1⟩ := p2
    rw [h2] at h
    simp only [Res.bind] at h
    cases h1 : eval r1 with
    | ok p1 =>
      obtain ⟨a1, r0⟩ := p1
      rw [h1] at h
      simp only [Res.ok.injEq, Prod.mk.injEq] at h
      obtain ⟨⟨rfl, rfl⟩, rfl⟩ := h
      exact ⟨r1, rfl, h1⟩
    | error e => rw [h1] at h; cases h
    | panic m => rw [h1] at h; cases h
    | outOfFuel => rw [h1] at h; cases h
  | error e => rw [h2] at h; cases h
  | panic m => rw [h2] at h; cases h
  | outOfFuel => rw [h2] at h; cases h

theorem GetBinaryOperands_of_ok (eval : EvalFn) (pfe r1 rest : List PostfixElem) (a b : Value)
    (h2 : eval pfe = .ok (b, r1)) (h1 : eval r1 = .ok (a, rest)) :
    GetBinaryOperands eval pfe = .ok ((a, b), rest) := by
  unfold GetBinaryOperands
  rw [h2]
  simp only [Res.bind]
  rw [h1]

theorem bind_pair_ok {c : Res Value} {pfe r : List PostfixElem} {v : Value}
    (h : c.bind (fun v => Res.ok (v, pfe)) = .ok (v, r)) : c = .ok v ∧ r = pfe := by
  cases c with
  | ok w =>
    simp only [Res.bind, Res.ok.injEq, Prod.mk.injEq] at h
    exact ⟨by rw [h.1], h.2.symm⟩
  | error e => cases h
  | panic m => cases h
  | outOfFuel => cases h

/-- A successful evaluation leaves a proper part of the stream: at least one element has
been read. -/
theorem evaluatePostfix_remainder (env : Env)
    (P : List (GoString × (List Value → Res Value)) → Prop)
    (hm : ∀ name im, env.intrinsicMethods.lookup name = some im →
      (∃ sigs, im = polyTypeCheckedMethod sigs ∧ P sigs) ∨ im = ToStringMethod env.lib) :
    ∀ (fuel : Nat) (s : List PostfixElem) (v : Value) (r : List PostfixElem),
      evaluatePostfix env fuel s = .ok (v, r) → ∃ c, c ≠ [] ∧ s = c ++ r := by
  intro fuel
  induction fuel with
  | zero => intro s v r h; cases h
  | succ f ih =>
    intro s v r h
    cases s with
    | nil => cases h
    | cons el pfe =>
      rcases evaluatePostfix_step_cases env P hm el with ⟨c, _, hc⟩ | ⟨F, W, _, hF⟩ | ⟨F, W, _, hF⟩
      · rw [hc] at h
        obtain ⟨_, rfl⟩ := bind_pair_ok h
        exact ⟨[el], by simp, rfl⟩
      · rw [hF] at h
        obtain ⟨a, h1, _⟩ := finishOperator_ok _ _ _ _ _ h
        obtain ⟨c, _, hc⟩ := ih pfe a r h1
        exact ⟨el :: c, by simp, by rw [hc]; rfl⟩
      · rw [hF] at h
        obtain ⟨⟨a, b⟩, h1, _⟩ := finishOperator_ok _ _ _ _ _ h
        obtain ⟨r1, h2, h3⟩ := GetBinaryOperands_ok_inv _ _ _ _ _ h1
        obtain ⟨c1, _, hc1⟩ := ih pfe b r1 h2
        obtain ⟨c2, _, hc2⟩ := ih r1 a r h3
        exact ⟨el :: (c1 ++ c2), by simp, by rw [hc1, hc2]; simp⟩

/-- The frame property: what stands behind the part that is read is handed back
untouched. -/
theorem evaluatePostfix_frame (env : Env)
    (P : List (GoString × (List Value → Res Value)) → Prop)
    (hm : ∀ name im, env.intrinsicMethods.lookup name = some im →
      (∃ sigs, im = polyTypeCheckedMethod sigs ∧ P sigs) ∨ im = ToStringMethod env.lib) :
    ∀ (fuel : Nat) (s : List PostfixElem) (v : Value) (r p : List PostfixElem),
      evaluatePostfix env fuel s = .ok (v, r) →
      evaluatePostfix env fuel (s ++ p) = .ok (v, r ++ p) := by
  intro fuel
  induction fuel with
  | zero => intro s v r p h; cases h
  | succ f ih =>
    intro s v r p h
    cases s with
    | nil => cases h
    | cons el pfe =>
      rw [List.cons_append]
      rcases evaluatePostfix_step_cases env P hm el with ⟨c, _, hc⟩ | ⟨F, W, _, hF⟩ | ⟨F, W, _, hF⟩
      · rw [hc] at h
        obtain ⟨rfl, rfl⟩ := bind_pair_ok h
        rw [hc]
        rfl
      · rw [hF] at h
        obtain ⟨a, h1, h2⟩ := finishOperator_ok _ _ _ _ _ h
        rw [hF, ih pfe a r p h1]
        simp only [finishOperator, h2, Res.bind]
      · rw [hF] at h
        obtain ⟨⟨a, b⟩, h1, h2⟩ := finishOperator_ok _ _ _ _ _ h
        obtain ⟨r1, h3, h4⟩ := GetBinaryOperands_ok_inv _ _ _ _ _ h1
        rw [hF, GetBinaryOperands_of_ok _ _ _ _ _ _ (ih pfe b r1 p h3) (ih r1 a r p h4)]
        simp only [finishOperator, h2, Res.bind]

theorem GetBinaryOperands_congr (e1 e2 : EvalFn) (pfe : List PostfixElem)
    (h2 : e1 pfe = e2 pfe)
    (h1 : ∀ b r1, e1 pfe = .ok (b, r1) → e1 r1 = e2 r1) :
    GetBinaryOperands e1 pfe = GetBinaryOperands e2 pfe := by
  unfold GetBinaryOperands
  rw [← h2]
  cases h : e1 pfe with
  | ok p =>
    obtain ⟨b, r1⟩ := p
    simp only [Res.bind]
    rw [h1 b r1 h]
  | error e => rfl
  | panic m => rfl
  | outOfFuel => rfl

/-- One step of the evaluator uses the evaluator of the next level on streams that are
shorter than the stream of the step only. -/
theorem evaluatePostfix_step_congr (env : Env)
    (P : List (GoString × (List Value → Res Value)) → Prop)
    (hm : ∀ name im, env.intrinsicMethods.lookup name = some im →
      (∃ sigs, im = polyTypeCheckedMethod sigs ∧ P sigs) ∨ im = ToStringMethod env.lib)
    (f g : Nat) (el : PostfixElem) (pfe : List PostfixElem)
    (h : ∀ t : List PostfixElem, t.length < (el :: pfe).length →
      evaluatePostfix env f t = evaluatePostfix env g t) :
    evaluatePostfix env (f + 1) (el :: pfe) = evaluatePostfix env (g + 1) (el :: pfe) := by
  rcases evaluatePostfix_step_cases env P hm el with ⟨c, _, hc⟩ | ⟨F, W, _, hF⟩ | ⟨F, W, _, hF⟩
  · rw [hc, hc]
  · rw [hF, hF, h pfe (by simp)]
  · rw [hF, hF]
    congr 1
    apply GetBinaryOperands_congr
    · exact h pfe (by simp)
    · intro b r1 hb
      obtain ⟨c, hc, hs⟩ := evaluatePostfix_remainder env P hm f pfe b r1 hb
      apply h
      rw [hs]
      have : 0 < c.length := List.length_pos.mpr hc
      simp only [List.length_cons, List.length_append]
      omega

/-- More fuel than the stream has elements changes nothing. -/
theorem evaluatePostfix_fuel (env : Env)
    (P : List (GoString × (List Value → Res Value)) → Prop)
    (hm : ∀ name im, env.intrinsicMethods.lookup name = some im →
      (∃ sigs, im = polyTypeCheckedMethod sigs ∧ P sigs) ∨ im = ToStringMethod env.lib) :
    ∀ (n : Nat) (s : List PostfixElem), s.length ≤ n → ∀ fuel, s.length < fuel →
      evaluatePostfix env fuel s = evaluatePostfix env (s.length + 1) s := by
  intro n
  induction n with
  | zero =>
    intro s hs fuel hf
    have : s = [] := List.length_eq_zero.mp (by omega)
    subst this
    cases fuel with
    | zero => simp at hf
    | succ f => rfl
  | succ n ih =>
    intro s hs fuel hf
    cases s with
    | nil =>
      cases fuel with
      | zero => simp at hf
      | succ f => rfl
    | cons el pfe =>
      cases fuel with
      | zero => simp at hf
      | succ f =>
        simp only [List.length_cons] at hs hf ⊢
        apply evaluatePostfix_step_congr env P hm
        intro t ht
        simp only [List.length_cons] at ht
        rw [ih t (by omega) f (by omega), ih t (by omega) (pfe.length + 1) (by omega)]

/-- With as much fuel as the stream has elements, and one unit more, the evaluator never
runs out of fuel. -/
theorem evaluatePostfix_ne_outOfFuel (env : Env)
    (P : List (GoString × (List Value → Res Value)) → Prop)
    (hm : ∀ name im, env.intrinsicMethods.lookup name = some im →
      (∃ sigs, im = polyTypeCheckedMethod sigs ∧ P sigs) ∨ im = ToStringMethod env.lib)
    (hP : ∀ sigs, P sigs → ∀ sf ∈ sigs, ∀ a, sf.2 a ≠ .outOfFuel) :
    ∀ (n : Nat) (s : List PostfixElem), s.length ≤ n →
      evaluatePostfix env (s.length + 1) s ≠ .outOfFuel := by
  intro n
  induction n with
  | zero =>
    intro s hs
    have : s = [] := List.length_eq_zero.mp (by omega)
    subst this
    exact errorf_ne_outOfFuel _ _
  | succ n ih =>
    intro s hs
    cases s with
    | nil => exact errorf_ne_outOfFuel _ _
    | cons el pfe =>
      simp only [List.length_cons] at hs ⊢
      rcases evaluatePostfix_step_cases env P hm el with ⟨c, hne, hc⟩ | ⟨F, W, hne, hF⟩ | ⟨F, W, hne, hF⟩
      · rw [hc]
        exact Res.bind_ne_outOfFuel _ _ hne (fun _ => Res.ok_ne_outOfFuel _)
      · rw [hF]
        intro hx
        exact ih pfe (by omega) (finishOperator_outOfFuel _ _ _ (hne hP) hx)
      · rw [hF]
        intro hx
        have hg := finishOperator_outOfFuel _ _ _ hne hx
        unfold GetBinaryOperands at hg
        cases h2 : evaluatePostfix env (pfe.length + 1) pfe with
        | ok p =>
          obtain ⟨b, r1⟩ := p
          rw [h2] at hg
          simp only [Res.bind] at hg
          obtain ⟨c, hc, hs1⟩ := evaluatePostfix_remainder env P hm _ pfe b r1 h2
          have hl : r1.length < pfe.length := by
            have : 0 < c.length := List.length_pos.mpr hc
            rw [hs1, List.length_append]
            omega
          rw [evaluatePostfix_fuel env P hm n r1 (by omega) (pfe.length + 1) (by omega)] at hg
          cases h1 : evaluatePostfix env (r1.length + 1) r1 with
          | ok q => rw [h1] at hg; cases hg
          | error e => rw [h1] at hg; cases hg
          | panic m => rw [h1] at hg; cases hg
          | outOfFuel => exact ih r1 (by omega) h1
        | error e => rw [h2] at hg; cases hg
        | panic m => rw [h2] at hg; cases hg
        | outOfFuel => exact ih pfe (by omega) h2

/-! ## The methods of the table never run out of fuel -/

theorem argAt_ne_outOfFuel (args : List Value) (i : Nat) : argAt args i ≠ .outOfFuel := by
  unfold argAt
  cases args.get? i <;> intro h <;> cases h

theorem lookup_mem_snd {α β : Type} [BEq α] (a : α) (b : β) :
    ∀ l : List (α × β), l.lookup a = some b → b ∈ l.map Prod.snd
  | [], h => by cases h
  | (k, v) :: l, h => by
    rw [List.lookup_cons] at h
    cases hk : (a == k)
    · rw [hk] at h
      exact List.mem_cons_of_mem _ (lookup_mem_snd a b l h)
    · rw [hk] at h
      cases h
      exact List.mem_cons_self _ _

theorem firstBytes_ne_outOfFuel : ∀ l : List GoString, firstBytes l ≠ .outOfFuel
  | [] => by intro h; cases h
  | [] :: _ => by intro h; cases h
  | (b :: _) :: rest => by
    unfold firstBytes
    exact Res.bind_ne_outOfFuel _ _ (firstBytes_ne_outOfFuel rest) (fun _ => Res.ok_ne_outOfFuel _)

theorem AbsN_ne_outOfFuel (lib : GoLib) (a : List Value) : AbsN lib a ≠ .outOfFuel :=
  Res.bind_ne_outOfFuel _ _ (argAt_ne_outOfFuel _ _) (fun _ => Res.ok_ne_outOfFuel _)

theorem DistinctL_ne_outOfFuel (a : List Value) : DistinctL a ≠ .outOfFuel :=
  Res.bind_ne_outOfFuel _ _ (argAt_ne_outOfFuel _ _) (fun _ => Res.ok_ne_outOfFuel _)

theorem three_args_ne_outOfFuel (a : List Value) (g : Value → Value → Value → Res Value)
    (hg : ∀ x y z, g x y z ≠ .outOfFuel) :
    (argAt a 0).bind (fun a0 => (argAt a 1).bind (fun a1 => (argAt a 2).bind (fun a2 =>
      g a0 a1 a2))) ≠ .outOfFuel :=
  Res.bind_ne_outOfFuel _ _ (argAt_ne_outOfFuel _ _) (fun _ =>
    Res.bind_ne_outOfFuel _ _ (argAt_ne_outOfFuel _ _) (fun _ =>
      Res.bind_ne_outOfFuel _ _ (argAt_ne_outOfFuel _ _) (fun _ => hg _ _ _)))

theorem ContainsSSB_ne_outOfFuel (lib : GoLib) (a : List Value) :
    ContainsSSB lib a ≠ .outOfFuel :=
  three_args_ne_outOfFuel a _ (fun _ _ _ => Res.ok_ne_outOfFuel _)

theorem StartsWithSSB_ne_outOfFuel (lib : GoLib) (a : List Value) :
    StartsWithSSB lib a ≠ .outOfFuel :=
  three_args_ne_outOfFuel a _ (fun _ _ _ => Res.ok_ne_outOfFuel _)

theorem StartsWithSLB_ne_outOfFuel (lib : GoLib) (a : List Value) :
    StartsWithSLB lib a ≠ .outOfFuel :=
  three_args_ne_outOfFuel a _ (fun _ _ _ => Res.ok_ne_outOfFuel _)

theorem EndsWithSSB_ne_outOfFuel (lib : GoLib) (a : List Value) :
    EndsWithSSB lib a ≠ .outOfFuel :=
  three_args_ne_outOfFuel a _ (fun _ _ _ => Res.ok_ne_outOfFuel _)

theorem EndsWithSLB_ne_outOfFuel (lib : GoLib) (a : List Value) :
    EndsWithSLB lib a ≠ .outOfFuel :=
  three_args_ne_outOfFuel a _ (fun _ _ _ => Res.ok_ne_outOfFuel _)

theorem ContainsSLBB_ne_outOfFuel (lib : GoLib) (a : List Value) :
    ContainsSLBB lib a ≠ .outOfFuel :=
  three_args_ne_outOfFuel a _ (fun _ _ _ =>
    Res.bind_ne_outOfFuel _ _ (argAt_ne_outOfFuel _ _) (fun _ => by
      dsimp only
      split <;> exact Res.ok_ne_outOfFuel _))

theorem ContainsLLBB_ne_outOfFuel (lib : GoLib) (a : List Value) :
    ContainsLLBB lib a ≠ .outOfFuel :=
  three_args_ne_outOfFuel a _ (fun _ _ _ =>
    Res.bind_ne_outOfFuel _ _ (argAt_ne_outOfFuel _ _) (fun _ => by
      dsimp only
      split <;> exact Res.ok_ne_outOfFuel _))

theorem IntervalNone_ne_outOfFuel (a : List Value) : IntervalNone a ≠ .outOfFuel :=
  errorf_ne_outOfFuel _ _

theorem SortL_ne_outOfFuel (lib : GoLib) (a : List Value) : SortL lib a ≠ .outOfFuel := by
  refine Res.bind_ne_outOfFuel _ _ (argAt_ne_outOfFuel _ _) (fun a0 => ?_)
  dsimp only
  cases toSlice a0 with
  | nil => exact boundsPanic_ne_outOfFuel
  | cons first l =>
    dsimp only
    split_ifs
    · exact Res.ok_ne_outOfFuel _
    · exact Res.bind_ne_outOfFuel _ _ (firstBytes_ne_outOfFuel _) (fun _ => Res.ok_ne_outOfFuel _)
    · exact Res.ok_ne_outOfFuel _
    · exact Res.ok_ne_outOfFuel _
    · exact errorf_ne_outOfFuel _ _

/-- Every entry of the table of the program dispatches on signatures, with implementations
that return, or is the method `ToString`. -/
theorem programEnv_methods (lib : GoLib) (today : Time) (name : GoString)
    (im : intrinsicMethod)
    (h : (programEnv lib today).intrinsicMethods.lookup name = some im) :
    (∃ sigs, im = polyTypeCheckedMethod sigs ∧ ∀ sf ∈ sigs, ∀ a, sf.2 a ≠ .outOfFuel)
      ∨ im = ToStringMethod (programEnv lib today).lib := by
  have hmem := lookup_mem_snd name im _ h
  simp only [programEnv, intrinsicMethods, List.map_cons, List.map_nil, List.mem_cons,
    List.mem_nil_iff, or_false] at hmem
  rcases hmem with rfl | rfl | rfl | rfl | rfl | rfl | rfl | rfl
  · refine Or.inl ⟨_, rfl, ?_⟩
    simp only [List.mem_cons, List.mem_nil_iff, or_false, forall_eq]
    exact AbsN_ne_outOfFuel lib
  · refine Or.inl ⟨_, rfl, ?_⟩
    simp only [List.mem_cons, List.mem_nil_iff, or_false, forall_eq_or_imp, forall_eq]
    exact ⟨ContainsSSB_ne_outOfFuel lib, ContainsSLBB_ne_outOfFuel lib,
      ContainsLLBB_ne_outOfFuel lib⟩
  · refine Or.inl ⟨_, rfl, ?_⟩
    simp only [List.mem_cons, List.mem_nil_iff, or_false, forall_eq]
    exact DistinctL_ne_outOfFuel
  · refine Or.inl ⟨_, rfl, ?_⟩
    simp only [List.mem_cons, List.mem_nil_iff, or_false, forall_eq_or_imp, forall_eq]
    exact ⟨EndsWithSSB_ne_outOfFuel lib, EndsWithSLB_ne_outOfFuel lib⟩
  · refine Or.inl ⟨_, rfl, ?_⟩
    simp only [List.mem_cons, List.mem_nil_iff, or_false, forall_eq]
    exact IntervalNone_ne_outOfFuel
  · refine Or.inl ⟨_, rfl, ?_⟩
    simp only [List.mem_cons, List.mem_nil_iff, or_false, forall_eq]
    exact SortL_ne_outOfFuel lib
  · refine Or.inl ⟨_, rfl, ?_⟩
    simp only [List.mem_cons, List.mem_nil_iff, or_false, forall_eq_or_imp, forall_eq]
    exact ⟨StartsWithSSB_ne_outOfFuel lib, StartsWithSLB_ne_outOfFuel lib⟩
  · exact Or.inr rfl

theorem programEnv_methods_weak (lib : GoLib) (today : Time) (name : GoString)
    (im : intrinsicMethod)
    (h : (programEnv lib today).intrinsicMethods.lookup name = some im) :
    (∃ sigs, im = polyTypeCheckedMethod sigs) ∨ im = ToStringMethod (programEnv lib today).lib := by
  rcases programEnv_methods lib today name im h with ⟨sigs, hs, _⟩ | h
  · exact Or.inl ⟨sigs, hs⟩
  · exact Or.inr h

/-! ## C37 and C40 -/

/-- C37. The evaluator reads the stream from its tail only (the head of the list here, which
holds the stream with its last element first). In an environment whose methods are built
as those of the source are (dispatch on signatures, or `ToString`): if the evaluation of
a stream `q` succeeds with the value `v` and leaves `r`, then with the elements `p` behind
it the evaluation succeeds with `v` and leaves `r` followed by `p`, for every amount of
fuel; in the order of the source and with the fuel that `Evaluate` gives, `p` followed by
`q` gives `v` and leaves `p` followed by `r`. So `Evaluate` does not ask for the stream to
be used up: the tokens `1 2` evaluate to `2`, and so does the text `1 2`. -/
theorem C37_evaluatePostfix_reads_the_tail_only (env : Env)
    (hm : ∀ name im, env.intrinsicMethods.lookup name = some im →
      (∃ sigs, im = polyTypeCheckedMethod sigs) ∨ im = ToStringMethod env.lib) :
    (∀ (fuel : Nat) (q : List PostfixElem) (v : Value) (r p : List PostfixElem),
      evaluatePostfix env fuel q = .ok (v, r) →
      evaluatePostfix env fuel (q ++ p) = .ok (v, r ++ p))
    ∧ (∀ (p q r : PostfixExpression) (v : Value),
      evaluatePostfix env (q.length + 1) q.reverse = .ok (v, r.reverse) →
      evaluatePostfix env ((p ++ q).length + 1) (p ++ q).reverse = .ok (v, (p ++ r).reverse))
    ∧ Evaluate env [⟨.integer, str "1"⟩, ⟨.integer, str "2"⟩] = .ok (.int 2)
    ∧ expressionEval env (str "1 2") = some (.ok (.int 2)) := by
  have hm1 : ∀ name im, env.intrinsicMethods.lookup name = some im →
      (∃ sigs, im = polyTypeCheckedMethod sigs ∧ True) ∨ im = ToStringMethod env.lib := by
    intro name im h
    rcases hm name im h with ⟨sigs, hs⟩ | h
    · exact Or.inl ⟨sigs, hs, trivial⟩
    · exact Or.inr h
  refine ⟨evaluatePostfix_frame env (fun _ => True) hm1, ?_, rfl, rfl⟩
  intro p q r v h
  rw [List.reverse_append, List.reverse_append]
  apply evaluatePostfix_frame env (fun _ => True) hm1
  rw [evaluatePostfix_fuel env (fun _ => True) hm1 q.reverse.length q.reverse (le_refl _)
    ((p ++ q).length + 1) (by simp; omega)]
  rw [List.length_reverse]
  exact h

/-- Witness of C37 in the environment of the program: `ToString(5)` with the value 7 behind
it. -/
theorem C37_evaluatePostfix_reads_the_tail_only_witness :
    evaluatePostfix (programEnv stubLib ⟨0⟩) 2
        ([.token ⟨.intrinsicMethod, str "ToString"⟩, .value (.int 5)] ++ [.value (.int 7)])
      = .ok (.string (str "5"), [] ++ [.value (.int 7)]) :=
  (C37_evaluatePostfix_reads_the_tail_only (programEnv stubLib ⟨0⟩)
    (programEnv_methods_weak stubLib ⟨0⟩)).1 2
    [.token ⟨.intrinsicMethod, str "ToString"⟩, .value (.int 5)] (.string (str "5")) []
    [.value (.int 7)] rfl

/-- C40. The evaluator is total by recursion on the length of the stream. In an
environment whose methods are built as those of the source are, with implementations that
return: on the empty stream it returns the error `Invalid expression`, whatever the fuel;
a call on a non-empty stream uses the evaluator of the next level on strictly shorter
streams only (two evaluators that agree on the shorter streams give the same result of the
call); a successful call leaves a proper part of the stream at entry, at least one element
having been read; and with more fuel than the stream has elements the result is the one
for `length + 1` units, which is never an exhaustion of the fuel. -/
theorem C40_evaluatePostfix_is_total (env : Env)
    (hm : ∀ name im, env.intrinsicMethods.lookup name = some im →
      (∃ sigs, im = polyTypeCheckedMethod sigs ∧ ∀ sf ∈ sigs, ∀ a, sf.2 a ≠ .outOfFuel)
        ∨ im = ToStringMethod env.lib) :
    (∀ fuel : Nat, evaluatePostfix env (fuel + 1) [] = errorf "Invalid expression" [])
    ∧ (∀ (f g : Nat) (el : PostfixElem) (pfe : List PostfixElem),
      (∀ t : List PostfixElem, t.length < (el :: pfe).length →
        evaluatePostfix env f t = evaluatePostfix env g t) →
      evaluatePostfix env (f + 1) (el :: pfe) = evaluatePostfix env (g + 1) (el :: pfe))
    ∧ (∀ (fuel : Nat) (s : List PostfixElem) (v : Value) (r : List PostfixElem),
      evaluatePostfix env fuel s = .ok (v, r) →
      ∃ c, c ≠ [] ∧ s = c ++ r ∧ r.length < s.length)
    ∧ (∀ (s : List PostfixElem) (fuel : Nat), s.length < fuel →
      evaluatePostfix env fuel s = evaluatePostfix env (s.length + 1) s)
    ∧ (∀ s : List PostfixElem, evaluatePostfix env (s.length + 1) s ≠ .outOfFuel) := by
  refine ⟨fun _ => rfl, evaluatePostfix_step_congr env _ hm, ?_,
    fun s fuel h => evaluatePostfix_fuel env _ hm s.length s (le_refl _) fuel h,
    fun s => evaluatePostfix_ne_outOfFuel env _ hm (fun _ h => h) s.length s (le_refl _)⟩
  intro fuel s v r h
  obtain ⟨c, hc, hs⟩ := evaluatePostfix_remainder env _ hm fuel s v r h
  refine ⟨c, hc, hs, ?_⟩
  have : 0 < c.length := List.length_pos.mpr hc
  rw [hs, List.length_append]
  omega

/-- Witness of C40 in the environment of the program, on the stream of `Abs(5)+1`. -/
theorem C40_evaluatePostfix_is_total_witness :
    evaluatePostfix (programEnv stubLib ⟨0⟩)
        ([PostfixElem.token ⟨.arithmeticOperator, str "+"⟩, .value (.int 1),
          .token ⟨.intrinsicMethod, str "Abs"⟩, .value (.int 5)].length + 1)
        [.token ⟨.arithmeticOperator, str "+"⟩, .value (.int 1),
          .token ⟨.intrinsicMethod, str "Abs"⟩, .value (.int 5)] ≠ .outOfFuel
    ∧ evaluatePostfix (programEnv stubLib ⟨0⟩) 7
        [.token ⟨.arithmeticOperator, str "+"⟩, .value (.int 1),
          .token ⟨.intrinsicMethod, str "Abs"⟩, .value (.int 5)]
      = evaluatePostfix (programEnv stubLib ⟨0⟩)
        ([PostfixElem.token ⟨.arithmeticOperator, str "+"⟩, .value (.int 1),
          .token ⟨.intrinsicMethod, str "Abs"⟩, .value (.int 5)].length + 1)
        [.token ⟨.arithmeticOperator, str "+"⟩, .value (.int 1),
          .token ⟨.intrinsicMethod, str "Abs"⟩, .value (.int 5)] :=
  ⟨(C40_evaluatePostfix_is_total (programEnv stubLib ⟨0⟩)
      (programEnv_methods stubLib ⟨0⟩)).2.2.2.2 _,
    (C40_evaluatePostfix_is_total (programEnv stubLib ⟨0⟩)
      (programEnv_methods stubLib ⟨0⟩)).2.2.2.1 _ 7 (by decide)⟩

/-! ## Chains of operators of one precedence -/

theorem binary_token_facts (op : Token)
    (h : op.tokenType = .comma ∨ op.tokenType = .colon ∨ op.tokenType = .arithmeticOperator
      ∨ op.tokenType = .relationalOperator ∨ op.tokenType = .logicalOperator) :
    op.isLiteral = false ∧ op.tokenType ≠ .openBracket ∧ op.tokenType ≠ .closeBracket
      ∧ op.hasPrecedence = true := by
  unfold Token.isLiteral Token.hasPrecedence
  rcases h with h | h | h | h | h <;> rw [h] <;> simp

theorem convertStep_literal (lib : GoLib) (pf : PostfixExpression) (st : List Token)
    (l : Token) (w : Value) (hl : l.isLiteral = true) (hw : literalValue lib l = .ok w) :
    convertStep lib pf st l = .ok (pf ++ [.value w], st) := by
  unfold convertStep
  rw [if_pos hl, hw]
  rfl

theorem textbookStep_literal (lib : GoLib) (pf : PostfixExpression) (st : List Token)
    (l : Token) (w : Value) (hl : l.isLiteral = true) (hw : literalValue lib l = .ok w) :
    textbookStep lib pf st l = .ok (pf ++ [.value w], st) := by
  unfold textbookStep
  rw [if_pos (Or.inl hl)]
  exact convertStep_literal lib pf st l w hl hw

theorem convertStep_operator_nil (lib : GoLib) (pf : PostfixExpression) (op : Token)
    (h : op.isLiteral = false ∧ op.tokenType ≠ .openBracket ∧ op.tokenType ≠ .closeBracket
      ∧ op.hasPrecedence = true) :
    convertStep lib pf [] op = .ok (pf, [op]) := by
  unfold convertStep
  rw [if_neg (by simp [h.1]), if_neg h.2.1, if_neg h.2.2.1, if_pos h.2.2.2]

theorem convertStep_operator_one (lib : GoLib) (pf : PostfixExpression) (op top : Token)
    (h : op.isLiteral = false ∧ op.tokenType ≠ .openBracket ∧ op.tokenType ≠ .closeBracket
      ∧ op.hasPrecedence = true) (hp : precedence op = precedence top) :
    convertStep lib pf [top] op = .ok (pf ++ [.token top], [op]) := by
  unfold convertStep
  rw [if_neg (by simp [h.1]), if_neg h.2.1, if_neg h.2.2.1, if_pos h.2.2.2]
  simp only []
  rw [if_pos (le_of_eq hp)]

theorem textbookStep_operator_nil (lib : GoLib) (pf : PostfixExpression) (op : Token)
    (h : op.isLiteral = false ∧ op.tokenType ≠ .openBracket ∧ op.tokenType ≠ .closeBracket
      ∧ op.hasPrecedence = true) :
    textbookStep lib pf [] op = .ok (pf, [op]) := by
  unfold textbookStep
  rw [if_neg (by simp [h.1, h.2.1, h.2.2.1, h.2.2.2])]
  rfl

theorem textbookStep_operator_one (lib : GoLib) (pf : PostfixExpression) (op top : Token)
    (h : op.isLiteral = false ∧ op.tokenType ≠ .openBracket ∧ op.tokenType ≠ .closeBracket
      ∧ op.hasPrecedence = true) (hp : precedence op = precedence top) :
    textbookStep lib pf [top] op = .ok (pf ++ [.token top], [op]) := by
  unfold textbookStep
  rw [if_neg (by simp [h.1, h.2.1, h.2.2.1, h.2.2.2])]
  simp only [textbookPop]
  rw [if_pos (ge_of_eq hp.symm)]

theorem rewindStack_none_nil (pf : PostfixExpression) :
    rewindStack none [] pf = .ok (pf, [], none) := by
  unfold rewindStack
  rfl

theorem rewindStack_none_one (pf : PostfixExpression) (top : Token)
    (h : top.tokenType ≠ .openBracket) :
    rewindStack none [top] pf = .ok (pf ++ [.token top], [], none) := by
  unfold rewindStack
  rw [if_neg h, rewindStack_none_nil]

/-- The conversion of `op1 l1 op2 l2 ...` with at most one operator of the same precedence
on the stack: both loops give the output, the operator of the stack, and each literal
followed by the operator before it. -/
theorem convertLoop_chain (lib : GoLib) (k : Int) :
    ∀ (rest : List (Token × Token × Value)),
      (∀ x ∈ rest, x.2.1.isLiteral = true ∧ literalValue lib x.2.1 = .ok x.2.2
        ∧ (x.1.tokenType = .comma ∨ x.1.tokenType = .colon
          ∨ x.1.tokenType = .arithmeticOperator ∨ x.1.tokenType = .relationalOperator
          ∨ x.1.tokenType = .logicalOperator)
        ∧ precedence x.1 = k) →
      ∀ (pf : PostfixExpression) (st : List Token),
        (st = [] ∨ ∃ top, st = [top] ∧ top.tokenType ≠ .openBracket ∧ precedence top = k) →
        convertLoop lib (rest.flatMap (fun x => [x.1, x.2.1])) pf st
            = .ok (pf ++ st.map PostfixElem.token
                ++ rest.flatMap (fun x => [.value x.2.2, .token x.1]))
          ∧ textbookLoop lib (rest.flatMap (fun x => [x.1, x.2.1])) pf st
            = .ok (pf ++ st.map PostfixElem.token
                ++ rest.flatMap (fun x => [.value x.2.2, .token x.1]))
  | [], _, pf, st, hst => by
    rcases hst with rfl | ⟨top, rfl, htop, _⟩
    · simp [convertLoop, textbookLoop, rewindStack_none_nil, Res.bind]
    · simp [convertLoop, textbookLoop, rewindStack_none_one pf top htop, Res.bind]
  | (op, l, w) :: rest, h, pf, st, hst => by
    obtain ⟨hl, hw, hb, hk⟩ := h (op, l, w) (List.mem_cons_self _ _)
    have hrest := fun x hx => h x (List.mem_cons_of_mem _ hx)
    have hf := binary_token_facts op hb
    simp only at hl hw hb hk
    simp only [List.flatMap_cons, List.cons_append, List.nil_append]
    rcases hst with rfl | ⟨top, rfl, htop, hktop⟩
    · have ih := convertLoop_chain lib k rest hrest (pf ++ [.value w]) [op]
        (Or.inr ⟨op, rfl, hf.2.1, hk⟩)
      refine ⟨?_, ?_⟩
      · rw [convertLoop, convertStep_operator_nil lib pf op hf]
        simp only []
        rw [convertLoop, convertStep_literal lib pf [op] l w hl hw]
        simp only []
        rw [ih.1]
        simp
      · rw [textbookLoop, textbookStep_operator_nil lib pf op hf]
        simp only []
        rw [textbookLoop, textbookStep_literal lib pf [op] l w hl hw]
        simp only []
        rw [ih.2]
        simp
    · have ih := convertLoop_chain lib k rest hrest (pf ++ [.token top] ++ [.value w]) [op]
        (Or.inr ⟨op, rfl, hf.2.1, hk⟩)
      have hp : precedence op = precedence top := by rw [hk, hktop]
      refine ⟨?_, ?_⟩
      · rw [convertLoop, convertStep_operator_one lib pf op top hf hp]
        simp only []
        rw [convertLoop, convertStep_literal lib _ [op] l w hl hw]
        simp only []
        rw [ih.1]
        simp
      · rw [textbookLoop, textbookStep_operator_one lib pf op top hf hp]
        simp only []
        rw [textbookLoop, textbookStep_literal lib _ [op] l w hl hw]
        simp only []
        rw [ih.2]
        simp

theorem leftAssoc_append (env : Env) :
    ∀ (l : List (Token × Value)) (v : Value) (op : Token) (w : Value),
      leftAssoc env v (l ++ [(op, w)])
        = (leftAssoc env v l).bind (fun a => applyBinary env op a w)
  | [], v, op, w => by
    simp only [List.nil_append, leftAssoc, Res.bind]
    cases applyBinary env op v w <;> rfl
  | (op1, w1) :: l, v, op, w => by
    simp only [List.cons_append, leftAssoc]
    cases applyBinary env op1 v w1 with
    | ok r => exact leftAssoc_append env l r op w
    | error e => rfl
    | panic m => rfl
    | outOfFuel => rfl

/-- A binary operator token reads two operands and applies `applyBinary` to them. -/
theorem binary_token_step (env : Env) (op : Token)
    (hb : op.tokenType = .comma ∨ op.tokenType = .colon ∨ op.tokenType = .arithmeticOperator
      ∨ op.tokenType = .relationalOperator
      ∨ (op.tokenType = .logicalOperator ∧ ∃ c cs, op.text = c :: cs ∧ c ≠ 33)) :
    (∀ a b, applyBinary env op a b ≠ .outOfFuel)
    ∧ ∃ W : GoError → GoError, ∀ f pfe, evaluatePostfix env (f + 1) (.token op :: pfe)
        = finishOperator (GetBinaryOperands (evaluatePostfix env f) pfe)
            (fun ab => applyBinary env op ab.1 ab.2) W := by
  have key : ∀ (Op : EvalFn → EvalFn) (W : GoError → GoError),
      (∀ f pfe, evaluatePostfix env (f + 1) (.token op :: pfe) = Op (evaluatePostfix env f) pfe) →
      (∃ F : Value × Value → Res Value, (∀ ab, F ab ≠ .outOfFuel)
        ∧ (∀ a b, F (a, b) = (Op (evaluatePostfix env 1) [.value b, .value a]).bind
            (fun r => .ok r.1))
        ∧ ∀ eval pfe, Op eval pfe = finishOperator (GetBinaryOperands eval pfe) F W) →
      (∀ a b, applyBinary env op a b ≠ .outOfFuel)
      ∧ ∃ W : GoError → GoError, ∀ f pfe, evaluatePostfix env (f + 1) (.token op :: pfe)
          = finishOperator (GetBinaryOperands (evaluatePostfix env f) pfe)
              (fun ab => applyBinary env op ab.1 ab.2) W := by
    rintro Op W hstep ⟨F, hF, hFa, hform⟩
    have happ : ∀ a b, applyBinary env op a b = F (a, b) := by
      intro a b
      rw [hFa, applyBinary, hstep]
    have hfun : (fun ab : Value × Value => applyBinary env op ab.1 ab.2) = F := by
      funext ab
      exact happ ab.1 ab.2
    refine ⟨fun a b => by rw [happ]; exact hF _, W, fun f pfe => ?_⟩
    rw [hfun, hstep, hform]
  rcases hb with h | h | h | h | ⟨h, c, cs, htext, hc⟩
  · exact key CommaOperator id (fun f pfe => by rw [evaluatePostfix_token, h])
      (CommaOperator_form env)
  · exact key ColonOperator id (fun f pfe => by rw [evaluatePostfix_token, h])
      (ColonOperator_form env)
  · exact key (fun eval => ArithmeticAndRelationalOperator env eval op) _
      (fun f pfe => by rw [evaluatePostfix_token, h])
      (ArithmeticAndRelationalOperator_form env op)
  · exact key (fun eval => ArithmeticAndRelationalOperator env eval op) _
      (fun f pfe => by rw [evaluatePostfix_token, h])
      (ArithmeticAndRelationalOperator_form env op)
  · exact key (fun eval => LogicalOperator eval op) _
      (fun f pfe => by rw [evaluatePostfix_token, h])
      (LogicalOperator_binary_form env op c cs htext hc)

/-- The evaluation of the stream of a chain, read from its end, against the operators
applied from left to right. -/
theorem evaluatePostfix_chain (env : Env) (v0 : Value) :
    ∀ (rest : List (Token × Value)),
      (∀ x ∈ rest, x.1.tokenType = .comma ∨ x.1.tokenType = .colon
        ∨ x.1.tokenType = .arithmeticOperator ∨ x.1.tokenType = .relationalOperator
        ∨ (x.1.tokenType = .logicalOperator ∧ ∃ c cs, x.1.text = c :: cs ∧ c ≠ 33)) →
      ∀ fuel, 2 * rest.length + 1 < fuel →
        match leftAssoc env v0 rest with
        | .ok r =>
          evaluatePostfix env fuel
              (PostfixElem.value v0 :: rest.flatMap (fun x => [.value x.2, .token x.1])).reverse
            = .ok (r, [])
        | .panic m =>
          evaluatePostfix env fuel
              (PostfixElem.value v0 :: rest.flatMap (fun x => [.value x.2, .token x.1])).reverse
            = .panic m
        | .error _ =>
          ∃ e, evaluatePostfix env fuel
              (PostfixElem.value v0 :: rest.flatMap (fun x => [.value x.2, .token x.1])).reverse
            = .error e
        | .outOfFuel => False := by
  intro rest
  induction rest using List.reverseRecOn with
  | nil =>
    intro _ fuel hf
    cases fuel with
    | zero => simp at hf
    | succ f => simp [leftAssoc, evaluatePostfix]
  | append_singleton l x ih =>
    intro h fuel hf
    obtain ⟨op, w⟩ := x
    have hl := fun y hy => h y (List.mem_append_left _ hy)
    have hb := h (op, w) (List.mem_append_right _ (List.mem_singleton_self _))
    obtain ⟨hne, W, hstep⟩ := binary_token_step env op hb
    simp only [List.length_append, List.length_singleton] at hf
    obtain ⟨f, rfl⟩ : ∃ f, fuel = f + 1 + 1 := ⟨fuel - 2, by omega⟩
    have hrev : (PostfixElem.value v0
          :: (l ++ [(op, w)]).flatMap (fun x => [PostfixElem.value x.2, .token x.1])).reverse
        = .token op :: .value w
          :: (PostfixElem.value v0
            :: l.flatMap (fun x => [PostfixElem.value x.2, .token x.1])).reverse := by
      simp [List.flatMap_append]
    rw [hrev, leftAssoc_append, hstep]
    have hw : ∀ s, evaluatePostfix env (f + 1) (.value w :: s) = .ok (w, s) := fun _ => rfl
    have ih1 := ih hl (f + 1) (by omega)
    unfold GetBinaryOperands
    rw [hw]
    simp only [Res.bind]
    cases hla : leftAssoc env v0 l with
    | ok a =>
      rw [hla] at ih1
      simp only at ih1
      rw [ih1]
      simp only [finishOperator]
      cases hab : applyBinary env op a w with
      | ok r => simp [Res.bind]
      | panic m => simp [Res.bind]
      | error e => exact ⟨e, by simp [Res.bind]⟩
      | outOfFuel => exact hne a w hab
    | panic m =>
      rw [hla] at ih1
      simp only at ih1
      rw [ih1]
      rfl
    | error e =>
      rw [hla] at ih1
      obtain ⟨e1, he1⟩ := ih1
      rw [he1]
      exact ⟨W e1, rfl⟩
    | outOfFuel =>
      rw [hla] at ih1
      exact ih1

theorem chain_flatMap_map (rest : List (Token × Token × Value)) :
    (rest.map (fun x => (x.1, x.2.2))).flatMap
        (fun y : Token × Value => [PostfixElem.value y.2, .token y.1])
      = rest.flatMap (fun x => [.value x.2.2, .token x.1]) := by
  induction rest with
  | nil => rfl
  | cons x xs ih => simp only [List.map_cons, List.flatMap_cons, ih]

theorem chain_flatMap_length (rest : List (Token × Token × Value)) :
    (rest.flatMap (fun x => [PostfixElem.value x.2.2, .token x.1])).length
      = 2 * rest.length := by
  induction rest with
  | nil => rfl
  | cons x xs ih =>
    simp only [List.flatMap_cons, List.length_append, List.length_cons, List.length_nil, ih]
    omega

theorem textbookStep_of_literal (lib : GoLib) (pf : PostfixExpression) (st : List Token)
    (l : Token) (hl : l.isLiteral = true) :
    textbookStep lib pf st l = convertStep lib pf st l := by
  unfold textbookStep
  rw [if_pos (Or.inl hl)]

theorem convertStep_of_literal (lib : GoLib) (pf : PostfixExpression) (st : List Token)
    (l : Token) (hl : l.isLiteral = true) :
    convertStep lib pf st l = (literalValue lib l).bind (fun d => .ok (pf ++ [.value d], st)) := by
  unfold convertStep
  rw [if_pos hl]

/-- The two conversions agree on `op1 l1 op2 l2 ...` with at most one operator of the same
precedence on the stack, also when a literal has no value. -/
theorem convertLoop_chain_agree (lib : GoLib) (k : Int) :
    ∀ (rest : List (Token × Token × Value)),
      (∀ x ∈ rest, x.2.1.isLiteral = true
        ∧ (x.1.tokenType = .comma ∨ x.1.tokenType = .colon
          ∨ x.1.tokenType = .arithmeticOperator ∨ x.1.tokenType = .relationalOperator
          ∨ x.1.tokenType = .logicalOperator)
        ∧ precedence x.1 = k) →
      ∀ (pf : PostfixExpression) (st : List Token),
        (st = [] ∨ ∃ top, st = [top] ∧ top.tokenType ≠ .openBracket ∧ precedence top = k) →
        convertLoop lib (rest.flatMap (fun x => [x.1, x.2.1])) pf st
          = textbookLoop lib (rest.flatMap (fun x => [x.1, x.2.1])) pf st
  | [], _, pf, st, _ => by
    simp only [List.flatMap_nil, convertLoop, textbookLoop]
  | (op, l, w) :: rest, h, pf, st, hst => by
    obtain ⟨hl, hb, hk⟩ := h (op, l, w) (List.mem_cons_self _ _)
    have hrest := fun x hx => h x (List.mem_cons_of_mem _ hx)
    have hf := binary_token_facts op hb
    simp only at hl hb hk
    simp only [List.flatMap_cons, List.cons_append, List.nil_append]
    have hlit : ∀ pf1 : PostfixExpression,
        convertLoop lib (l :: rest.flatMap (fun x => [x.1, x.2.1])) pf1 [op]
          = textbookLoop lib (l :: rest.flatMap (fun x => [x.1, x.2.1])) pf1 [op] := by
      intro pf1
      rw [convertLoop, textbookLoop, textbookStep_of_literal lib pf1 [op] l hl,
        convertStep_of_literal lib pf1 [op] l hl]
      cases literalValue lib l with
      | ok d =>
        simp only [Res.bind]
        exact convertLoop_chain_agree lib k rest hrest (pf1 ++ [.value d]) [op]
          (Or.inr ⟨op, rfl, hf.2.1, hk⟩)
      | error e => rfl
      | panic m => rfl
      | outOfFuel => rfl
    rcases hst with rfl | ⟨top, rfl, htop, hktop⟩
    · rw [convertLoop, convertStep_operator_nil lib pf op hf]
      simp only []
      rw [textbookLoop, textbookStep_operator_nil lib pf op hf]
      simp only []
      exact hlit pf
    · have hp : precedence op = precedence top := by rw [hk, hktop]
      rw [convertLoop, convertStep_operator_one lib pf op top hf hp]
      simp only []
      rw [textbookLoop, textbookStep_operator_one lib pf op top hf hp]
      simp only []
      exact hlit _

/-- C33. A bracket-free token sequence `l0 op1 l1 op2 l2 ...` that alternates literals with
binary operators (comma, colon, arithmetic, relational, or logical other than `!`) which
all have the same precedence: the single-pop conversion of `convertToPostfix` gives exactly
the result of the textbook conversion. When the literals have the values `v0 v1 v2 ...`,
that result is the stream `v0 v1 op1 v2 op2 ...`, and `Evaluate` applies the operators
left-associatively in the order of the source: it succeeds with the value `r` when
`leftAssoc` does, aborts when `leftAssoc` aborts, and returns an error when `leftAssoc`
returns an error. -/
theorem C33_single_pop_agrees_on_one_precedence (env : Env) (k : Int) (l0 : Token)
    (v0 : Value) (rest : List (Token × Token × Value))
    (hl0 : l0.isLiteral = true)
    (hrest : ∀ x ∈ rest, x.2.1.isLiteral = true
      ∧ (x.1.tokenType = .comma ∨ x.1.tokenType = .colon
        ∨ x.1.tokenType = .arithmeticOperator ∨ x.1.tokenType = .relationalOperator
        ∨ (x.1.tokenType = .logicalOperator ∧ ∃ c cs, x.1.text = c :: cs ∧ c ≠ 33))
      ∧ precedence x.1 = k) :
    convertToPostfix env.lib (l0 :: rest.flatMap (fun x => [x.1, x.2.1]))
      = textbookToPostfix env.lib (l0 :: rest.flatMap (fun x => [x.1, x.2.1]))
    ∧ (literalValue env.lib l0 = .ok v0 →
      (∀ x ∈ rest, literalValue env.lib x.2.1 = .ok x.2.2) →
      convertToPostfix env.lib (l0 :: rest.flatMap (fun x => [x.1, x.2.1]))
        = .ok (.value v0 :: rest.flatMap (fun x => [.value x.2.2, .token x.1]))
      ∧ (∀ r, leftAssoc env v0 (rest.map (fun x => (x.1, x.2.2))) = .ok r →
          Evaluate env (l0 :: rest.flatMap (fun x => [x.1, x.2.1])) = .ok r)
      ∧ (∀ m, leftAssoc env v0 (rest.map (fun x => (x.1, x.2.2))) = .panic m →
          Evaluate env (l0 :: rest.flatMap (fun x => [x.1, x.2.1])) = .panic m)
      ∧ (∀ e, leftAssoc env v0 (rest.map (fun x => (x.1, x.2.2))) = .error e →
          (Evaluate env (l0 :: rest.flatMap (fun x => [x.1, x.2.1]))).isError = true)
      ∧ leftAssoc env v0 (rest.map (fun x => (x.1, x.2.2))) ≠ .outOfFuel) := by
  have hbin : ∀ x ∈ rest, x.1.tokenType = .comma ∨ x.1.tokenType = .colon
        ∨ x.1.tokenType = .arithmeticOperator ∨ x.1.tokenType = .relationalOperator
        ∨ x.1.tokenType = .logicalOperator := by
    intro x hx
    rcases (hrest x hx).2.1 with h | h | h | h | ⟨h, _⟩
    · exact Or.inl h
    · exact Or.inr (Or.inl h)
    · exact Or.inr (Or.inr (Or.inl h))
    · exact Or.inr (Or.inr (Or.inr (Or.inl h)))
    · exact Or.inr (Or.inr (Or.inr (Or.inr h)))
  refine ⟨?_, fun hv0 hvals => ?_⟩
  · rw [convertToPostfix, textbookToPostfix, convertLoop, textbookLoop,
      textbookStep_of_literal env.lib [] [] l0 hl0, convertStep_of_literal env.lib [] [] l0 hl0]
    cases literalValue env.lib l0 with
    | ok d =>
      simp only [Res.bind]
      exact convertLoop_chain_agree env.lib k rest
        (fun x hx => ⟨(hrest x hx).1, hbin x hx, (hrest x hx).2.2⟩) _ [] (Or.inl rfl)
    | error e => rfl
    | panic m => rfl
    | outOfFuel => rfl
  have hweak : ∀ x ∈ rest, x.2.1.isLiteral = true ∧ literalValue env.lib x.2.1 = .ok x.2.2
      ∧ (x.1.tokenType = .comma ∨ x.1.tokenType = .colon
        ∨ x.1.tokenType = .arithmeticOperator ∨ x.1.tokenType = .relationalOperator
        ∨ x.1.tokenType = .logicalOperator)
      ∧ precedence x.1 = k :=
    fun x hx => ⟨(hrest x hx).1, hvals x hx, hbin x hx, (hrest x hx).2.2⟩
  have hchain := convertLoop_chain env.lib k rest hweak [.value v0] [] (Or.inl rfl)
  have hconv : convertToPostfix env.lib (l0 :: rest.flatMap (fun x => [x.1, x.2.1]))
      = .ok (.value v0 :: rest.flatMap (fun x => [.value x.2.2, .token x.1])) := by
    rw [convertToPostfix, convertLoop, convertStep_literal env.lib [] [] l0 v0 hl0 hv0]
    simp only []
    rw [List.nil_append, hchain.1]
    simp
  have hops : ∀ y ∈ rest.map (fun x => (x.1, x.2.2)),
      y.1.tokenType = .comma ∨ y.1.tokenType = .colon
        ∨ y.1.tokenType = .arithmeticOperator ∨ y.1.tokenType = .relationalOperator
        ∨ (y.1.tokenType = .logicalOperator ∧ ∃ c cs, y.1.text = c :: cs ∧ c ≠ 33) := by
    intro y hy
    obtain ⟨x, hx, rfl⟩ := List.mem_map.mp hy
    exact (hrest x hx).2.1
  have hflat := chain_flatMap_map rest
  have hlen : (PostfixElem.value v0
        :: rest.flatMap (fun x => [PostfixElem.value x.2.2, .token x.1])).length
      = 2 * rest.length + 1 := by
    rw [List.length_cons, chain_flatMap_length]
  have hev := evaluatePostfix_chain env v0 (rest.map (fun x => (x.1, x.2.2))) hops
    (2 * rest.length + 1 + 1) (by simp)
  rw [hflat] at hev
  have hE : Evaluate env (l0 :: rest.flatMap (fun x => [x.1, x.2.1]))
      = (evaluatePostfix env (2 * rest.length + 1 + 1)
          (PostfixElem.value v0
            :: rest.flatMap (fun x => [PostfixElem.value x.2.2, .token x.1])).reverse).bind
          (fun r => .ok r.1) := by
    rw [Evaluate, hconv]
    simp only [Res.bind]
    rw [hlen]
  refine ⟨hconv, ?_, ?_, ?_, ?_⟩
  · intro r hr
    rw [hr] at hev
    rw [hE, hev]
    rfl
  · intro m hr
    rw [hr] at hev
    rw [hE, hev]
    rfl
  · intro e hr
    rw [hr] at hev
    obtain ⟨e1, he1⟩ := hev
    rw [hE, he1]
    rfl
  · intro hr
    rw [hr] at hev
    exact hev

set_option maxRecDepth 8000 in
/-- Witness of C33 on the tokens of `7 - 2 + 1`, in the environment of the program: the
two conversions agree, the stream is `7 2 - 1 +`, and the value is `(7 - 2) + 1`, the
Double 6. -/
theorem C33_single_pop_agrees_on_one_precedence_witness :
    convertToPostfix (programEnv stubLib ⟨0⟩).lib
        [⟨.integer, str "7"⟩, ⟨.arithmeticOperator, str "-"⟩, ⟨.integer, str "2"⟩,
          ⟨.arithmeticOperator, str "+"⟩, ⟨.integer, str "1"⟩]
      = textbookToPostfix (programEnv stubLib ⟨0⟩).lib
        [⟨.integer, str "7"⟩, ⟨.arithmeticOperator, str "-"⟩, ⟨.integer, str "2"⟩,
          ⟨.arithmeticOperator, str "+"⟩, ⟨.integer, str "1"⟩]
    ∧ convertToPostfix (programEnv stubLib ⟨0⟩).lib
        [⟨.integer, str "7"⟩, ⟨.arithmeticOperator, str "-"⟩, ⟨.integer, str "2"⟩,
          ⟨.arithmeticOperator, str "+"⟩, ⟨.integer, str "1"⟩]
      = .ok [.value (.int 7), .value (.int 2), .token ⟨.arithmeticOperator, str "-"⟩,
          .value (.int 1), .token ⟨.arithmeticOperator, str "+"⟩]
    ∧ Evaluate (programEnv stubLib ⟨0⟩)
        [⟨.integer, str "7"⟩, ⟨.arithmeticOperator, str "-"⟩, ⟨.integer, str "2"⟩,
          ⟨.arithmeticOperator, str "+"⟩, ⟨.integer, str "1"⟩]
      = .ok (.double (Float64.ofInt 6)) :=
  have h := C33_single_pop_agrees_on_one_precedence (programEnv stubLib ⟨0⟩) 7
    ⟨.integer, str "7"⟩ (.int 7)
    [(⟨.arithmeticOperator, str "-"⟩, ⟨.integer, str "2"⟩, .int 2),
      (⟨.arithmeticOperator, str "+"⟩, ⟨.integer, str "1"⟩, .int 1)]
    rfl
    (by
      intro x hx
      simp only [List.mem_cons, List.mem_nil_iff, or_false] at hx
      rcases hx with rfl | rfl
      · exact ⟨rfl, Or.inr (Or.inr (Or.inl rfl)), by decide⟩
      · exact ⟨rfl, Or.inr (Or.inr (Or.inl rfl)), by decide⟩)
  have hv := h.2 rfl
    (by
      intro x hx
      simp only [List.mem_cons, List.mem_nil_iff, or_false] at hx
      rcases hx with rfl | rfl
      · rfl
      · rfl)
  ⟨h.1, hv.1, hv.2.1 (.double (Float64.ofInt 6)) rfl⟩

end ExpressionEval
